import Mathlib

/-! dyntree: a dynamic bounding-volume hierarchy.

A shallow embedding of `tree.go` and a verification of its specification.

Modelling conventions.

* `float64` coordinates are rationals (`ℚ`) and `math.MaxFloat64` is the
  rational of that value; overflow is not modelled. Three effects of `float64`
  arithmetic are modelled, each where it bears on a property: the rounding of
  the sums and differences of `BoxFromEntity` (`World.round64`, any monotone
  function; the identity is exact arithmetic), the quotient
  `(sa - best.SA) / sa` of `TryRotate` for `sa = 0` (`TryRotate.diffLE`), and
  the comparisons of `Expand` on boxes with NaN coordinates (`Box64.Expand`).
  Surface areas and their sums are computed exactly.
* An `Entity` is an interface value used as a map key: it is modelled by its
  identity (a natural number). What the tree observes of it, `Position()` and
  `Radius()`, is read from a `World`, so that an entity can move between calls.
* A `*Node` is modelled by the position of the record in the arena `t.nodes`
  (`none` is `nil`). Every record is allocated by `CreateNode`, which appends it
  to `t.nodes`, and nothing ever removes an element from `t.nodes`; so positions
  identify records.
* A slice is a list. The buckets of the tree never share a backing array over
  their lengths, so value semantics are faithful; the one in-place effect that
  is visible (sorting `split.Items`, which aliases the bucket of the node being
  split) is written back explicitly.
* Code that can panic or loop returns a `Res`: `ok` with the result, `panic`
  for a run-time panic (nil dereference, index out of range, explicit `panic`),
  `timeout` when the fuel of a loop or recursion is exhausted. Loops and
  recursions take a `fuel` argument bounding their iterations (depth); a
  function that calls such loops from inside its own loop takes a second
  argument `gas` that it hands to them.
-/

namespace Dyntree

/-! ## Results of running code -/

/-- The outcome of a call: a value, a panic, or fuel exhaustion. -/
inductive Res (α : Type) where
  | ok (a : α) : Res α
  | panic : Res α
  | timeout : Res α
deriving DecidableEq, Repr

/-- Sequencing of calls: the first failure is the outcome. -/
def Res.bind {α β : Type} (r : Res α) (f : α → Res β) : Res β :=
  match r with
  | .ok a => f a
  | .panic => .panic
  | .timeout => .timeout

instance : Monad Res where
  pure := Res.ok
  bind := Res.bind

/-- Dereferencing a pointer: `nil` panics. -/
def deref (p : Option Nat) : Res Nat :=
  match p with
  | some q => .ok q
  | none => .panic

/-- Indexing a slice with a Go `int`: out of range panics. -/
def index {α : Type} (l : List α) (i : Int) : Res α :=
  if 0 ≤ i then
    match l[i.toNat]? with
    | some a => .ok a
    | none => .panic
  else .panic

/-! ## Constants -/

/-- The type `Axis`, an `int`. -/
abbrev Axis := Int
/-- The type `Rot`, an `int`. -/
abbrev Rot := Int
/-- The type `NodeState`, an `int`. -/
abbrev NodeState := Int
/-- The type `NodeSide`, an `int`. -/
abbrev NodeSide := Int

/-- The constant `X` (`iota` is 0 on the first line of the block). -/
def X : Axis := 0
/-- The constant `Y`. -/
def Y : Axis := 1
/-- The constant `Z`. -/
def Z : Axis := 2
/-- The constant `ROTNONE` (`iota` is the line number within the block). -/
def ROTNONE : Rot := 3
/-- The constant `LEFTRIGHTLEFT`. -/
def LEFTRIGHTLEFT : Rot := 4
/-- The constant `LEFTRIGHTRIGHT`. -/
def LEFTRIGHTRIGHT : Rot := 5
/-- The constant `RIGHTLEFTLEFT`. -/
def RIGHTLEFTLEFT : Rot := 6
/-- The constant `RIGHTLEFTRIGHT`. -/
def RIGHTLEFTRIGHT : Rot := 7
/-- The constant `LEFTLEFTRIGHTRIGHT`. -/
def LEFTLEFTRIGHTRIGHT : Rot := 8
/-- The constant `LEFTLEFTRIGHTLEFT`. -/
def LEFTLEFTRIGHTLEFT : Rot := 9
/-- The constant `OPTIMIZATIONQUEUED`. -/
def OPTIMIZATIONQUEUED : NodeState := 10
/-- The constant `LEFT`. -/
def LEFT : NodeSide := 11
/-- The constant `RIGHT`. -/
def RIGHT : NodeSide := 12

/-- The constant `math.MaxFloat64`. -/
def MaxFloat64 : ℚ := 2 ^ 1024 - 2 ^ 971

/-! ## Geometry -/

/-- The struct `Vec3`. -/
structure Vec3 where
  X : ℚ
  Y : ℚ
  Z : ℚ
deriving DecidableEq

/-- The struct `BoundingBox`. -/
structure BoundingBox where
  Min : Vec3
  Max : Vec3
deriving DecidableEq

/-- The zero value `BoundingBox{}`. -/
def BoundingBox.zero : BoundingBox := ⟨⟨0, 0, 0⟩, ⟨0, 0, 0⟩⟩

/-- The method `BoundingBox.Intersects`. -/
def BoundingBox.Intersects (b b2 : BoundingBox) : Bool :=
  decide (b.Max.X > b2.Min.X) && decide (b.Min.X < b2.Max.X) &&
  decide (b.Max.Y > b2.Min.Y) && decide (b.Min.Y < b2.Max.Y) &&
  decide (b.Max.Z > b2.Min.Z) && decide (b.Min.Z < b2.Max.Z)

/-- The method `BoundingBox.Equals`. -/
def BoundingBox.Equals (b b2 : BoundingBox) : Bool :=
  decide (b.Min.X = b2.Min.X) &&
  decide (b.Min.Y = b2.Min.Y) &&
  decide (b.Min.Z = b2.Min.Z) &&
  decide (b.Max.X = b2.Max.X) &&
  decide (b.Max.Y = b2.Max.Y) &&
  decide (b.Max.Z = b2.Max.Z)

/-- The method `BoundingBox.SurfaceArea`. -/
def BoundingBox.SurfaceArea (b : BoundingBox) : ℚ :=
  let xSize := b.Max.X - b.Min.X
  let ySize := b.Max.Y - b.Min.Y
  let zSize := b.Max.Z - b.Min.Z
  2 * (xSize * ySize + xSize * zSize + ySize * zSize)

/-- The method `BoundingBox.Expand`. -/
def BoundingBox.Expand (b b2 : BoundingBox) : BoundingBox :=
  { Min :=
      { X := if b2.Min.X < b.Min.X then b2.Min.X else b.Min.X
        Y := if b2.Min.Y < b.Min.Y then b2.Min.Y else b.Min.Y
        Z := if b2.Min.Z < b.Min.Z then b2.Min.Z else b.Min.Z }
    Max :=
      { X := if b2.Max.X > b.Max.X then b2.Max.X else b.Max.X
        Y := if b2.Max.Y > b.Max.Y then b2.Max.Y else b.Max.Y
        Z := if b2.Max.Z > b.Max.Z then b2.Max.Z else b.Max.Z } }

/-- An entity: the identity of an interface value. -/
abbrev Entity := Nat

/-- What the entities answer to `Position()` and `Radius()` at some moment,
and the rounding of `float64` arithmetic: `round64 x` is the `float64` that an
addition or subtraction with the exact result `x` returns. Rounding to the
nearest `float64` is monotone; the identity, which a world has unless it says
otherwise, is exact arithmetic. -/
structure World where
  Position : Entity → Vec3
  Radius : Entity → ℚ
  round64 : ℚ → ℚ := id
  round64_mono : Monotone round64 := by exact monotone_id

/-- The function `BoxFromEntity`; each `float64` difference `pos.X - radius`
and sum `pos.X + radius` is rounded. -/
def BoxFromEntity (w : World) (e : Entity) : BoundingBox :=
  let pos := w.Position e
  let radius := w.Radius e
  { Min := { X := w.round64 (pos.X - radius), Y := w.round64 (pos.Y - radius),
             Z := w.round64 (pos.Z - radius) }
    Max := { X := w.round64 (pos.X + radius), Y := w.round64 (pos.Y + radius),
             Z := w.round64 (pos.Z + radius) } }

/-- The loop of `EntitiesSurfaceArea`: `for i := start + 1; i < ct; i++`,
run for `k` more iterations from `i`. -/
def EntitiesSurfaceArea.loop (w : World) (ea : List Entity) :
    Nat → Int → BoundingBox → Res BoundingBox
  | 0, _, box => .ok box
  | k + 1, i, box => do
    let e ← index ea i
    EntitiesSurfaceArea.loop w ea k (i + 1) (box.Expand (BoxFromEntity w e))

/-- The function `EntitiesSurfaceArea`. -/
def EntitiesSurfaceArea (w : World) (ea : List Entity) (start ct : Int) : Res ℚ := do
  let e0 ← index ea 0
  let box ← EntitiesSurfaceArea.loop w ea (ct - (start + 1)).toNat (start + 1) (BoxFromEntity w e0)
  pure box.SurfaceArea

/-- The call `sort.SliceStable(items, less)` with `less` comparing one
coordinate `key` by `<`: the stable sort by that key. -/
def SliceStable (key : Entity → ℚ) (items : List Entity) : List Entity :=
  items.insertionSort (fun a b => key a ≤ key b)

/-- The struct `SplitAxisOpt`. -/
structure SplitAxisOpt where
  Axis : Axis
  Items : List Entity
  SplitIndex : Int
  SA : ℚ
  HasValue : Bool

/-- The method `SplitAxisOpt.LeftStartIndex`. -/
def SplitAxisOpt.LeftStartIndex (_s : SplitAxisOpt) : Int := 0
/-- The method `SplitAxisOpt.LeftEndIndex`. -/
def SplitAxisOpt.LeftEndIndex (s : SplitAxisOpt) : Int := s.SplitIndex - 1
/-- The method `SplitAxisOpt.LeftItemCount`. -/
def SplitAxisOpt.LeftItemCount (s : SplitAxisOpt) : Int := s.LeftEndIndex
/-- The method `SplitAxisOpt.RightStartIndex`. -/
def SplitAxisOpt.RightStartIndex (s : SplitAxisOpt) : Int := s.SplitIndex
/-- The method `SplitAxisOpt.RightEndIndex`. -/
def SplitAxisOpt.RightEndIndex (s : SplitAxisOpt) : Int := (s.Items.length : Int) - 1
/-- The method `SplitAxisOpt.RightItemCount`. -/
def SplitAxisOpt.RightItemCount (s : SplitAxisOpt) : Int := s.RightEndIndex - s.RightStartIndex

/-- The method `SplitAxisOpt.TryImproveAxis`. -/
def SplitAxisOpt.TryImproveAxis (w : World) (s : SplitAxisOpt) (a : Dyntree.Axis) :
    Res SplitAxisOpt := do
  let items :=
    if a = X then SliceStable (fun e => (w.Position e).X) s.Items
    else if a = Y then SliceStable (fun e => (w.Position e).Y) s.Items
    else if a = Z then SliceStable (fun e => (w.Position e).Z) s.Items
    else s.Items
  let s := { s with Items := items }
  let left ← EntitiesSurfaceArea w s.Items s.LeftStartIndex s.LeftItemCount
  let right ← EntitiesSurfaceArea w s.Items s.RightStartIndex s.RightItemCount
  let new := left * (s.LeftItemCount : ℚ) + right * (s.RightItemCount : ℚ)
  if !s.HasValue || decide (new < s.SA) then
    pure { s with SA := new, Axis := a, HasValue := true }
  else
    pure s

/-! ## Nodes -/

/-- The struct `Node`; the pointers `Parent`, `Left`, `Right` are positions in
the arena. -/
structure Node where
  Box : BoundingBox
  Parent : Option Nat
  Left : Option Nat
  Right : Option Nat
  Depth : Int
  NodeIndex : Int
  BucketIndex : Int
  State : NodeState
deriving DecidableEq

/-- The zero value `Node{}`. -/
def Node.zero : Node :=
  { Box := BoundingBox.zero, Parent := none, Left := none, Right := none,
    Depth := 0, NodeIndex := 0, BucketIndex := 0, State := 0 }

/-- The method `Node.IsLeaf`. -/
def Node.IsLeaf (n : Node) : Bool := n.BucketIndex != -1

/-- The method `Node.HasParent`. -/
def Node.HasParent (n : Node) : Bool := n.Parent.isSome

/-- The method `Node.IsValidBranchNode`. -/
def Node.IsValidBranchNode (n : Node) : Bool := !n.IsLeaf && n.Left.isSome && n.Right.isSome

/-- The method `Node.IsValidLeafNode`. -/
def Node.IsValidLeafNode (n : Node) : Bool := n.IsLeaf && n.Left.isNone && n.Right.isNone

/-- The method `Node.IsValid`. -/
def Node.IsValid (n : Node) : Bool := n.IsValidLeafNode || n.IsValidBranchNode

/-- The method `Node.Equals`. -/
def Node.Equals (n n2 : Node) : Bool := n.NodeIndex == n2.NodeIndex

/-- The method `Node.CompareDepth`. -/
def Node.CompareDepth (n n2 : Node) : Int :=
  if n.Depth < n2.Depth then -1
  else if n.Depth > n2.Depth then 1
  else 0

/-- The method `Node.AssignVolume`; `round64` is the rounding of the `float64`
sums and differences (`World.round64`). -/
def Node.AssignVolume (n : Node) (round64 : ℚ → ℚ) (pos : Vec3) (radius : ℚ) : Node :=
  { n with Box :=
      { Min := { X := round64 (pos.X - radius), Y := round64 (pos.Y - radius),
                 Z := round64 (pos.Z - radius) }
        Max := { X := round64 (pos.X + radius), Y := round64 (pos.Y + radius),
                 Z := round64 (pos.Z + radius) } } }

/-- The six comparisons shared by `ExpandVolume` and `ExpandParentVolume`: the
box grown to cover `c`, and whether any bound moved. -/
def expandBy (box c : BoundingBox) : BoundingBox × Bool :=
  let e1 := decide (c.Min.X < box.Min.X)
  let minX := if c.Min.X < box.Min.X then c.Min.X else box.Min.X
  let e2 := decide (c.Max.X > box.Max.X)
  let maxX := if c.Max.X > box.Max.X then c.Max.X else box.Max.X
  let e3 := decide (c.Min.Y < box.Min.Y)
  let minY := if c.Min.Y < box.Min.Y then c.Min.Y else box.Min.Y
  let e4 := decide (c.Max.Y > box.Max.Y)
  let maxY := if c.Max.Y > box.Max.Y then c.Max.Y else box.Max.Y
  let e5 := decide (c.Min.Z < box.Min.Z)
  let minZ := if c.Min.Z < box.Min.Z then c.Min.Z else box.Min.Z
  let e6 := decide (c.Max.Z > box.Max.Z)
  let maxZ := if c.Max.Z > box.Max.Z then c.Max.Z else box.Max.Z
  ({ Min := { X := minX, Y := minY, Z := minZ }, Max := { X := maxX, Y := maxY, Z := maxZ } },
    e1 || e2 || e3 || e4 || e5 || e6)

/-! ## The tree -/

/-- The type `HitTest`. -/
abbrev HitTest := BoundingBox → Bool

/-- The struct `Tree`. `nodes` is the arena of node records (the target of the
pointer `p` is `nodes[p]`), `leafs` the map from entities to leaves, and
`refitQueue` holds (non-nil) node pointers. -/
structure Tree where
  rootNode : Option Nat
  maxDepth : Int
  maxLeaves : Int
  IsCreated : Bool
  leafs : Entity → Option Nat
  nodes : List Node
  refitQueue : List Nat
  unusedBucketIndicies : List Int
  unusedNodeIndicies : List Int
  Buckets : List (List Entity)

/-- Reading the record a pointer points to. -/
def Tree.node (t : Tree) (p : Nat) : Res Node :=
  match t.nodes[p]? with
  | some n => .ok n
  | none => .panic

/-- Writing the record a pointer points to. -/
def Tree.setNode (t : Tree) (p : Nat) (n : Node) : Tree :=
  { t with nodes := t.nodes.set p n }

/-- Reading `t.Buckets[i]`. -/
def Tree.bucket (t : Tree) (i : Int) : Res (List Entity) := index t.Buckets i

/-- Writing `t.Buckets[i] = b`. -/
def Tree.setBucket (t : Tree) (i : Int) (b : List Entity) : Res Tree :=
  if 0 ≤ i ∧ i.toNat < t.Buckets.length then
    .ok { t with Buckets := t.Buckets.set i.toNat b }
  else .panic

/-- The method `Node.IsValidBranch`. -/
def IsValidBranch : Nat → Tree → Nat → Res Bool
  | 0, _, _ => .timeout
  | fuel + 1, t, p => do
    let n ← t.node p
    if !n.IsValid then pure false
    else if n.IsLeaf then pure true
    else do
      let r ← deref n.Right
      let rv ← IsValidBranch fuel t r
      if !rv then pure false
      else do
        let l ← deref n.Left
        IsValidBranch fuel t l

/-- The method `Node.ExpandParentVolume`, called on the node `p` with the
child `child`. -/
def ExpandParentVolume : Nat → Tree → Nat → Nat → Res Tree
  | 0, _, _, _ => .timeout
  | fuel + 1, t, p, child => do
    let c ← t.node child
    let n ← t.node p
    let r := expandBy n.Box c.Box
    let t := t.setNode p { n with Box := r.1 }
    if r.2 && n.Parent.isSome then do
      let q ← deref n.Parent
      ExpandParentVolume fuel t q p
    else pure t

/-- The method `Node.ExpandVolume`; `round64` is the rounding of the `float64`
sums and differences (`World.round64`). -/
def ExpandVolume (fuel : Nat) (t : Tree) (p : Nat) (round64 : ℚ → ℚ) (pos : Vec3)
    (radius : ℚ) : Res Tree := do
  let n ← t.node p
  let r := expandBy n.Box
    { Min := { X := round64 (pos.X - radius), Y := round64 (pos.Y - radius),
               Z := round64 (pos.Z - radius) }
      Max := { X := round64 (pos.X + radius), Y := round64 (pos.Y + radius),
               Z := round64 (pos.Z + radius) } }
  let t := t.setNode p { n with Box := r.1 }
  if r.2 && n.Parent.isSome then do
    let q ← deref n.Parent
    ExpandParentVolume fuel t q p
  else pure t

/-- The method `Node.GetSibling`. -/
def GetSibling (t : Tree) (p : Nat) : Res (Option Nat) := do
  let n ← t.node p
  let q ← deref n.Parent
  let par ← t.node q
  let l ← deref par.Left
  let ln ← t.node l
  if ln.Equals n then pure par.Right else pure par.Left

/-- The method `Tree.GetOrCreateFreeBucket`. -/
def GetOrCreateFreeBucket (t : Tree) : Tree × Int :=
  match t.unusedBucketIndicies.getLast? with
  | some i => ({ t with unusedBucketIndicies := t.unusedBucketIndicies.dropLast }, i)
  | none =>
    let t := { t with Buckets := t.Buckets ++ [[]] }
    (t, (t.Buckets.length : Int))

/-- The method `Tree.CreateNode`; returns the tree and the pointer to the node. -/
def CreateNode (t : Tree) (bucketIndex : Int) : Res (Tree × Nat) := do
  let (t, p, idx) ←
    (match t.unusedNodeIndicies.getLast? with
    | some i => do
      let t1 := { t with unusedNodeIndicies := t.unusedNodeIndicies.dropLast }
      let _ ← index t1.nodes i
      pure (t1, i.toNat, i)
    | none =>
      let t1 := { t with nodes := t.nodes ++ [Node.zero] }
      pure (t1, t.nodes.length, (t1.nodes.length : Int)) : Res (Tree × Nat × Int))
  let n ← t.node p
  let n := { n with NodeIndex := idx, BucketIndex := bucketIndex }
  if n.BucketIndex = -1 then
    let (t, b) := GetOrCreateFreeBucket t
    pure (t.setNode p { n with BucketIndex := b }, p)
  else
    pure (t.setNode p n, p)

/-- The function `NewTree`. -/
def NewTree : Res Tree := do
  let t : Tree :=
    { rootNode := none, maxDepth := 0, maxLeaves := 1, IsCreated := true,
      leafs := fun _ => none, nodes := [], refitQueue := [],
      unusedBucketIndicies := [], unusedNodeIndicies := [], Buckets := [] }
  let (t, p) ← CreateNode t (-1)
  pure { t with rootNode := some p }

/-- The method `Tree.FreeNode`. -/
def FreeNode (t : Tree) (p : Nat) : Res Tree := do
  let n ← t.node p
  let t := t.setNode p { n with Parent := none, Left := none, Right := none,
                                BucketIndex := -1, Depth := 0 }
  pure { t with unusedNodeIndicies := t.unusedNodeIndicies ++ [n.NodeIndex] }

/-- The method `Tree.FreeBucket`. -/
def FreeBucket (t : Tree) (p : Nat) : Res Tree := do
  let n ← t.node p
  let t := { t with unusedBucketIndicies := t.unusedBucketIndicies ++ [n.BucketIndex] }
  pure (t.setNode p { n with BucketIndex := -1 })

/-- The method `Tree.UnmapLeaf`. -/
def UnmapLeaf (t : Tree) (e : Entity) : Tree :=
  { t with leafs := fun x => if x = e then none else t.leafs x }

/-- The method `Tree.MapLeaf`. -/
def MapLeaf (t : Tree) (e : Entity) (p : Nat) : Tree :=
  { t with leafs := fun x => if x = e then some p else t.leafs x }

/-- The method `Tree.GetLeaf`. -/
def GetLeaf (t : Tree) (e : Entity) : Option Nat × Bool :=
  match t.leafs e with
  | some p => (some p, true)
  | none => (none, false)

/-- The method `Tree.TraverseNode`. -/
def TraverseNode : Nat → Tree → Option Nat → HitTest → Res (List Entity)
  | 0, _, _, _ => .timeout
  | fuel + 1, t, cur, test => do
    let p ← deref cur
    let n ← t.node p
    if !n.IsValid then pure []
    else if test n.Box then do
      let hits1 ← if n.BucketIndex ≠ -1 then t.bucket (n.BucketIndex - 1) else pure []
      let hits2 ← if n.Left.isSome then TraverseNode fuel t n.Left test else pure []
      let hits3 ← if n.Right.isSome then TraverseNode fuel t n.Right test else pure []
      pure (hits1 ++ hits2 ++ hits3)
    else pure []

/-- The method `Tree.Traverse`. -/
def Traverse (fuel : Nat) (t : Tree) (test : HitTest) : Res (List Entity) :=
  TraverseNode fuel t t.rootNode test

/-- The method `Tree.ChildRefit`. -/
def ChildRefit : Nat → Tree → Nat → Bool → Res Tree
  | 0, _, _, _ => .timeout
  | fuel + 1, t, cur, propogate => do
    let n ← t.node cur
    let l ← deref n.Left
    let ln ← t.node l
    let r ← deref n.Right
    let rn ← t.node r
    let t := t.setNode cur { n with Box := ln.Box.Expand rn.Box }
    match n.Parent with
    | none => pure t
    | some q => if !propogate then pure t else ChildRefit fuel t q propogate

/-- The loop of `ComputeVolume`: `for _, e := range b`. -/
def ComputeVolume.loop (fuel : Nat) (w : World) (p : Nat) : List Entity → Tree → Res Tree
  | [], t => .ok t
  | e :: es, t => do
    let t ← ExpandVolume fuel t p w.round64 (w.Position e) (w.Radius e)
    ComputeVolume.loop fuel w p es t

/-- The method `Tree.ComputeVolume`. -/
def ComputeVolume (fuel : Nat) (w : World) (t : Tree) (p : Nat) : Res Tree := do
  let n ← t.node p
  let b ← t.bucket (n.BucketIndex - 1)
  match b with
  | [] => pure t
  | e0 :: _ =>
    let t := t.setNode p (n.AssignVolume w.round64 (w.Position e0) (w.Radius e0))
    ComputeVolume.loop fuel w p b t

/-- The method `Tree.RefitVolume`. -/
def RefitVolume (fuel : Nat) (w : World) (t : Tree) (p : Nat) : Res (Tree × Bool) := do
  let n ← t.node p
  let old := n.Box
  let t ← ComputeVolume fuel w t p
  let n ← t.node p
  if !n.Box.Equals old then
    match n.Parent with
    | some q => do
      let t ← ChildRefit fuel t q true
      pure (t, true)
    | none => pure (t, true)
  else pure (t, false)

/-- The method `Tree.SetDepth`. -/
def SetDepth : Nat → Tree → Nat → Int → Res Tree
  | 0, _, _, _ => .timeout
  | fuel + 1, t, p, depth => do
    let n ← t.node p
    let t := t.setNode p { n with Depth := depth }
    let t := if depth > t.maxDepth then { t with maxDepth := depth } else t
    let n ← t.node p
    if !n.IsLeaf then do
      let v ← IsValidBranch (fuel + 1) t p
      if !v then .panic
      else do
        let l ← deref n.Left
        let t ← SetDepth fuel t l (depth + 1)
        let n ← t.node p
        let r ← deref n.Right
        SetDepth fuel t r (depth + 1)
    else pure t

/-- The method `Tree.ItemCount`. -/
def ItemCount (t : Tree) (p : Nat) : Res Int := do
  let n ← t.node p
  if n.BucketIndex ≥ 0 then do
    let b ← t.bucket (n.BucketIndex - 1)
    pure (b.length : Int)
  else pure 0

/-- The method `Tree.IsEmpty`. -/
def IsEmpty (t : Tree) (p : Nat) : Res Bool := do
  let n ← t.node p
  if !n.IsLeaf then pure true
  else do
    let b ← t.bucket (n.BucketIndex - 1)
    pure (b.length == 0)

/-- An assignment through a pointer, `p.field = v`: the record is read,
changed by `f` and written back. -/
def Tree.update (t : Tree) (p : Nat) (f : Node → Node) : Res Tree := do
  let n ← t.node p
  pure (t.setNode p (f n))

/-- The slice expression `l[lo : hi]`. (Go allows `hi` up to the capacity;
every use in the tree has `hi` at most the length.) -/
def slice {α : Type} (l : List α) (lo hi : Int) : Res (List α) :=
  if 0 ≤ lo ∧ lo ≤ hi ∧ hi ≤ (l.length : Int) then .ok ((l.take hi.toNat).drop lo.toNat)
  else .panic

/-- The loop `for i := start; i <= end; i++ { t.MapLeaf(split.Items[i], new) }`,
run for `k` more iterations from `i`. -/
def MapLeaf.range (items : List Entity) (p : Nat) : Nat → Int → Tree → Res Tree
  | 0, _, t => .ok t
  | k + 1, i, t => do
    let e ← index items i
    MapLeaf.range items p k (i + 1) (MapLeaf t e p)

mutual

/-- The method `Tree.SplitIfNecessary`. -/
def SplitIfNecessary : Nat → World → Tree → Nat → Res Tree
  | 0, _, _, _ => .timeout
  | fuel + 1, w, t, p => do
    let ct ← ItemCount t p
    if ct > t.maxLeaves then SplitNode fuel w t p else pure t

/-- The method `Tree.SplitNode`. -/
def SplitNode : Nat → World → Tree → Nat → Res Tree
  | 0, _, _, _ => .timeout
  | fuel + 1, w, t, p => do
    let n ← t.node p
    let b ← t.bucket (n.BucketIndex - 1)
    let t := b.foldl UnmapLeaf t
    let split : SplitAxisOpt :=
      { Axis := 0, Items := b, SplitIndex := (b.length : Int) / 2, SA := 0, HasValue := false }
    let split ← split.TryImproveAxis w X
    let split ← split.TryImproveAxis w Y
    let split ← split.TryImproveAxis w Z
    -- the sorts permuted the bucket of `n` in place
    let t ← t.setBucket (n.BucketIndex - 1) split.Items
    let n ← t.node p
    let (t, l) ← CreateNodeFromSplit fuel w t p split LEFT (n.Depth + 1) n.BucketIndex
    let t ← t.update p (fun x => { x with Left := some l })
    let n ← t.node p
    let (t, r) ← CreateNodeFromSplit fuel w t p split RIGHT (n.Depth + 1) (-1)
    let t ← t.update p (fun x => { x with Right := some r })
    let t ← t.update p (fun x => { x with BucketIndex := -1 })
    let n ← t.node p
    let ln ← t.node l
    let rn ← t.node r
    if !(!n.IsLeaf && ln.IsLeaf && ln.Left.isNone && ln.Right.isNone &&
          rn.IsLeaf && rn.Right.isNone && rn.Left.isNone) then .panic
    else pure t

/-- The method `Tree.CreateNodeFromSplit`; returns the tree and the pointer to
the node created. -/
def CreateNodeFromSplit : Nat → World → Tree → Nat → SplitAxisOpt → NodeSide → Int → Int →
    Res (Tree × Nat)
  | 0, _, _, _, _, _, _, _ => .timeout
  | fuel + 1, w, t, parent, split, side, depth, bucketIndex => do
    let (t, new) ← CreateNode t bucketIndex
    let t ← t.update new (fun x => { x with Parent := some parent })
    let t ← t.update new (fun x => { x with Depth := depth })
    let t := if t.maxDepth < depth then { t with maxDepth := depth } else t
    if split.Items.length < 1 then .panic
    else do
      let start := if side = RIGHT then split.RightStartIndex else split.LeftStartIndex
      let endIdx := if side = RIGHT then split.RightEndIndex else split.LeftEndIndex
      let count := endIdx - start + 1
      let nn ← t.node new
      let old ← if side = LEFT then t.bucket (nn.BucketIndex - 1) else pure []
      let t ←
        if side = LEFT ∧ count ≤ (old.length : Int) then do
          let part ← slice split.Items start (endIdx + 1)
          t.setBucket (nn.BucketIndex - 1) part
        else do
          let cur ← t.bucket (nn.BucketIndex - 1)
          let part ← slice split.Items start (endIdx + 1)
          t.setBucket (nn.BucketIndex - 1) (cur ++ part)
      let t ← MapLeaf.range split.Items new (endIdx + 1 - start).toNat start t
      if count ≤ t.maxLeaves then do
        let t ← t.update new (fun x => { x with Left := none })
        let t ← t.update new (fun x => { x with Right := none })
        let t ← ComputeVolume fuel w t new
        let t ← SplitIfNecessary fuel w t new
        pure (t, new)
      else do
        let t ← ComputeVolume fuel w t new
        let t ← SplitIfNecessary fuel w t new
        let t ← ChildRefit fuel t new false
        pure (t, new)

end

/-- The method `Tree.AddItemToLeaf`. -/
def AddItemToLeaf (fuel : Nat) (w : World) (t : Tree) (p : Nat) (e : Entity) : Res Tree := do
  let n ← t.node p
  let b ← t.bucket (n.BucketIndex - 1)
  let t ← t.setBucket (n.BucketIndex - 1) (b ++ [e])
  let t := MapLeaf t e p
  let (t, _) ← RefitVolume fuel w t p
  SplitIfNecessary fuel w t p

/-- The method `Tree.AddItemToBranch`. -/
def AddItemToBranch (fuel : Nat) (w : World) (t : Tree) (p : Nat) (e : Entity) : Res Tree := do
  let n ← t.node p
  let left := n.Left
  let right := n.Right
  let (t, merged) ← CreateNode t (-1)
  let n ← t.node p
  let t ← t.update merged (fun x => { x with Left := n.Left })
  let n ← t.node p
  let t ← t.update merged (fun x => { x with Right := n.Right })
  let t ← t.update merged (fun x => { x with Parent := some p })
  let t ← FreeBucket t merged
  let l ← deref left
  let t ← t.update l (fun x => { x with Parent := some merged })
  let r ← deref right
  let t ← t.update r (fun x => { x with Parent := some merged })
  let t ← ChildRefit fuel t merged false
  let (t, new) ← CreateNode t (-1)
  let t ← t.update new (fun x => { x with Parent := some p })
  let nn ← t.node new
  let b ← t.bucket (nn.BucketIndex - 1)
  let t ← t.setBucket (nn.BucketIndex - 1) (b ++ [e])
  let t := MapLeaf t e new
  let t ← ComputeVolume fuel w t new
  let t ← t.update p (fun x => { x with Left := some merged })
  let t ← t.update p (fun x => { x with Right := some new })
  let n ← t.node p
  let t ← SetDepth fuel t p n.Depth
  ChildRefit fuel t p true

/-- The method `Tree.AddItemToNode`. -/
def AddItemToNode (fuel : Nat) (w : World) (t : Tree) (p : Nat) (e : Entity) : Res Tree := do
  let n ← t.node p
  if n.IsLeaf then AddItemToLeaf fuel w t p e else AddItemToBranch fuel w t p e

/-- The method `Tree.AddObjectToNode`: `fuel` bounds the iterations of the
descent, `gas` is handed to the calls. -/
def AddObjectToNode (gas : Nat) (w : World) (e : Entity) (b : BoundingBox) (sa : ℚ) :
    Nat → Tree → Option Nat → Res Tree
  | 0, _, _ => .timeout
  | fuel + 1, t, cur => do
    let p ← deref cur
    let n ← t.node p
    if n.BucketIndex = -1 then do
      let left := n.Left
      let right := n.Right
      let l ← deref left
      let ln ← t.node l
      let leftSa := ln.Box.SurfaceArea
      let r ← deref right
      let rn ← t.node r
      let rightSa := rn.Box.SurfaceArea
      let newLeftSA := rightSa + (ln.Box.Expand b).SurfaceArea
      let newRightSA := leftSa + (rn.Box.Expand b).SurfaceArea
      let merged := (ln.Box.Expand rn.Box).SurfaceArea + sa
      if merged < min newLeftSA newRightSA * (3 / 10) then
        AddItemToBranch gas w t p e
      else if newLeftSA < newRightSA then
        AddObjectToNode gas w e b sa fuel t left
      else
        AddObjectToNode gas w e b sa fuel t right
    else do
      let bk ← t.bucket (n.BucketIndex - 1)
      let t ← t.setBucket (n.BucketIndex - 1) (bk ++ [e])
      let t := MapLeaf t e p
      let (t, _) ← RefitVolume gas w t p
      SplitIfNecessary gas w t p

/-- The method `Tree.Add`. -/
def Add (fuel : Nat) (w : World) (t : Tree) (e : Entity) : Res Tree :=
  let box := BoxFromEntity w e
  AddObjectToNode fuel w e box box.SurfaceArea fuel t t.rootNode

/-- The descent loop of `Tree.TryFindBetterNode`, `for bn.BucketIndex == -1`;
returns the node `bn` the loop ends at. -/
def TryFindBetterNode.loop (t : Tree) (box : BoundingBox) (sa : ℚ) :
    Nat → Option Nat → Res (Option Nat)
  | 0, _ => .timeout
  | fuel + 1, bn => do
    let p ← deref bn
    let n ← t.node p
    if n.BucketIndex = -1 then do
      let lbad ← (match n.Left with
        | some l => do
          let ln ← t.node l
          pure (!ln.IsValid)
        | none => pure false : Res Bool)
      let rbad ← (match n.Right with
        | some r => do
          let rn ← t.node r
          pure (!rn.IsValid)
        | none => pure false : Res Bool)
      if !n.IsValid || lbad || rbad then .panic
      else do
        let left := n.Left
        let right := n.Right
        let r ← deref right
        let rn ← t.node r
        let l ← deref left
        let ln ← t.node l
        let leftSa := rn.Box.SurfaceArea + (ln.Box.Expand box).SurfaceArea
        let rightSa := ln.Box.SurfaceArea + (rn.Box.Expand box).SurfaceArea
        let mergedSa := (ln.Box.Expand rn.Box).SurfaceArea + sa
        if mergedSa < min leftSa rightSa * (3 / 10) then pure bn
        else if leftSa < rightSa then TryFindBetterNode.loop t box sa fuel left
        else if leftSa > rightSa then TryFindBetterNode.loop t box sa fuel right
        else TryFindBetterNode.loop t box sa fuel bn
    else pure bn

/-- The method `Tree.TryFindBetterNode`. -/
def TryFindBetterNode (fuel : Nat) (w : World) (t : Tree) (cur : Nat) (e : Entity) :
    Res (Option Nat × Bool) := do
  let box := BoxFromEntity w e
  let sa := box.SurfaceArea
  let bn ← TryFindBetterNode.loop t box sa fuel t.rootNode
  let b ← deref bn
  let bnn ← t.node b
  let rt ← deref t.rootNode
  let rn ← t.node rt
  let cn ← t.node cur
  if bnn.Equals rn || bnn.Equals cn then pure (none, false)
  else do
    let cp ← deref cn.Parent
    let cpn ← t.node cp
    if bnn.Equals cpn && cn.IsLeaf then pure (none, false)
    else pure (bn, true)

/-- The method `Tree.RemoveNode`; returns the tree and `keep.Parent`. -/
def RemoveNode (fuel : Nat) (t : Tree) (p0 : Nat) : Res (Tree × Option Nat) := do
  let n ← t.node p0
  let p ← deref n.Parent
  let pn ← t.node p
  let gp := pn.Parent
  let keep ← GetSibling t p0
  let t ← (match gp with
    | none => do
      let k ← deref keep
      let kn ← t.node k
      if !kn.IsLeaf then pure { t with rootNode := keep } else pure t
    | some g => do
      let k ← deref keep
      let t ← t.update k (fun x => { x with Parent := gp })
      let gn ← t.node g
      if gn.Left = some p then t.update g (fun x => { x with Left := keep })
      else t.update g (fun x => { x with Right := keep }) : Res Tree)
  let t ← FreeBucket t p0
  let t ← FreeNode t p0
  let t ← FreeNode t p
  let k ← deref keep
  let kn ← t.node k
  let t ← if kn.BucketIndex ≠ -1 then SetDepth fuel t k (kn.Depth + 1) else pure t
  let kn ← t.node k
  match kn.Parent with
  | some q => do
    let t ← ChildRefit fuel t q true
    let kn ← t.node k
    pure (t, kn.Parent)
  | none => pure (t, kn.Parent)

/-- The method `Tree.RemoveItemFromNode`. The bucket is rebuilt as
`append(b[:n.NodeIndex], b[n.NodeIndex+1:]...)`; the second slice expression
panics unless `n.NodeIndex + 1` is at most the length. -/
def RemoveItemFromNode (fuel : Nat) (w : World) (t : Tree) (p : Nat) (e : Entity) : Res Tree := do
  let n ← t.node p
  if !n.IsLeaf then .panic
  else if !n.HasParent then .panic
  else do
    let t := UnmapLeaf t e
    let b ← t.bucket (n.BucketIndex - 1)
    let front ← slice b 0 n.NodeIndex
    let back ← slice b (n.NodeIndex + 1) (b.length : Int)
    let t ← t.setBucket (n.BucketIndex - 1) (front ++ back)
    let empty ← IsEmpty t p
    if !empty then do
      let (t, _) ← RefitVolume fuel w t p
      pure t
    else pure t

/-- The method `Tree.MoveItemBetweenNodes`. -/
def MoveItemBetweenNodes (fuel : Nat) (w : World) (t : Tree) (src dst : Nat) (e : Entity) :
    Res Tree := do
  let t ← RemoveItemFromNode fuel w t src e
  AddItemToNode fuel w t dst e

/-- The method `Tree.QueueForOptimize`; returns the tree and the result. -/
def QueueForOptimize (fuel : Nat) (w : World) (t : Tree) (e : Entity) : Res (Tree × Bool) :=
  match GetLeaf t e with
  | (some p, true) => do
    let _ ← t.node p
    let (bn, ok) ← TryFindBetterNode fuel w t p e
    if ok then do
      let b ← deref bn
      let t ← MoveItemBetweenNodes fuel w t p b e
      pure (t, true)
    else do
      let (t, changed) ← RefitVolume fuel w t p
      let n ← t.node p
      if changed && n.Parent.isSome then
        pure ({ t with refitQueue := t.refitQueue ++ [p] }, true)
      else pure (t, true)
  | _ => .ok (t, false)

/-- The struct `RotOpt`. -/
structure RotOpt where
  Rot : Rot
  SA : ℚ
deriving DecidableEq

/-- The function `GetRotationSurfaceArea`. -/
def GetRotationSurfaceArea (t : Tree) (p : Nat) (rot : Dyntree.Rot) (sa : ℚ) : Res RotOpt := do
  let n ← t.node p
  if rot = ROTNONE then pure ⟨ROTNONE, sa⟩
  else if rot = LEFTRIGHTLEFT then do
    let rn ← t.node (← deref n.Right)
    if rn.IsLeaf then pure ⟨ROTNONE, MaxFloat64⟩
    else do
      let rl ← t.node (← deref rn.Left)
      let ln ← t.node (← deref n.Left)
      let rr ← t.node (← deref rn.Right)
      pure ⟨rot, rl.Box.SurfaceArea + (ln.Box.Expand rr.Box).SurfaceArea⟩
  else if rot = LEFTRIGHTRIGHT then do
    let rn ← t.node (← deref n.Right)
    if rn.IsLeaf then pure ⟨ROTNONE, MaxFloat64⟩
    else do
      let rr ← t.node (← deref rn.Right)
      let ln ← t.node (← deref n.Left)
      let rl ← t.node (← deref rn.Left)
      pure ⟨rot, rr.Box.SurfaceArea + (ln.Box.Expand rl.Box).SurfaceArea⟩
  else if rot = RIGHTLEFTLEFT then do
    let ln ← t.node (← deref n.Left)
    if ln.IsLeaf then pure ⟨ROTNONE, MaxFloat64⟩
    else do
      let ll ← t.node (← deref ln.Left)
      let rn ← t.node (← deref n.Right)
      let lr ← t.node (← deref ln.Right)
      pure ⟨rot, ll.Box.SurfaceArea + (rn.Box.Expand lr.Box).SurfaceArea⟩
  else if rot = RIGHTLEFTRIGHT then do
    let ln ← t.node (← deref n.Left)
    if ln.IsLeaf then pure ⟨ROTNONE, MaxFloat64⟩
    else do
      let lr ← t.node (← deref ln.Right)
      let rn ← t.node (← deref n.Right)
      let ll ← t.node (← deref ln.Left)
      pure ⟨rot, lr.Box.SurfaceArea + (rn.Box.Expand ll.Box).SurfaceArea⟩
  else if rot = LEFTLEFTRIGHTRIGHT then do
    let ln ← t.node (← deref n.Left)
    if ln.IsLeaf then pure ⟨ROTNONE, MaxFloat64⟩
    else do
      let rn ← t.node (← deref n.Right)
      if rn.IsLeaf then pure ⟨ROTNONE, MaxFloat64⟩
      else do
        let rr ← t.node (← deref rn.Right)
        let lr ← t.node (← deref ln.Right)
        let rl ← t.node (← deref rn.Left)
        let ll ← t.node (← deref ln.Left)
        pure ⟨rot, (rr.Box.Expand lr.Box).SurfaceArea + (rl.Box.Expand ll.Box).SurfaceArea⟩
  else if rot = LEFTLEFTRIGHTLEFT then do
    let ln ← t.node (← deref n.Left)
    if ln.IsLeaf then pure ⟨ROTNONE, MaxFloat64⟩
    else do
      let rn ← t.node (← deref n.Right)
      if rn.IsLeaf then pure ⟨ROTNONE, MaxFloat64⟩
      else do
        let rl ← t.node (← deref rn.Left)
        let lr ← t.node (← deref ln.Right)
        let rr ← t.node (← deref rn.Right)
        let ll ← t.node (← deref ln.Left)
        pure ⟨rot, (rl.Box.Expand lr.Box).SurfaceArea + (rr.Box.Expand ll.Box).SurfaceArea⟩
  else .panic

/-- The method `RotOpt.FindBestRotation`. -/
def RotOpt.FindBestRotation (best : RotOpt) (t : Tree) (p : Nat) (r : Dyntree.Rot) (sa : ℚ) :
    Res RotOpt := do
  let new ← GetRotationSurfaceArea t p r sa
  if new.SA < best.SA then pure { best with Rot := new.Rot, SA := new.SA }
  else pure best

/-- The pointer `n.Left` of the node at `p`, dereferenced. -/
def Tree.left (t : Tree) (p : Nat) : Res Nat := do
  let n ← t.node p
  deref n.Left

/-- The pointer `n.Right` of the node at `p`, dereferenced. -/
def Tree.right (t : Tree) (p : Nat) : Res Nat := do
  let n ← t.node p
  deref n.Right

/-- The first `switch best.Rot` of `Tree.TryRotate`: the pointer surgery of the
rotation `rot` at the node `p`. -/
def TryRotate.apply (fuel : Nat) (t : Tree) (p : Nat) (rot : Dyntree.Rot) : Res Tree := do
  if rot = ROTNONE then pure t
  else if rot = LEFTRIGHTLEFT then do
    let swap ← t.left p
    let r ← t.right p
    let rl ← t.left r
    let t ← t.update p (fun x => { x with Left := some rl })
    let l ← t.left p
    let t ← t.update l (fun x => { x with Parent := some p })
    let r ← t.right p
    let t ← t.update r (fun x => { x with Left := some swap })
    let r ← t.right p
    let t ← t.update swap (fun x => { x with Parent := some r })
    let r ← t.right p
    ChildRefit fuel t r false
  else if rot = LEFTRIGHTRIGHT then do
    let swap ← t.left p
    let r ← t.right p
    let rr ← t.right r
    let t ← t.update p (fun x => { x with Left := some rr })
    let l ← t.left p
    let t ← t.update l (fun x => { x with Parent := some p })
    let r ← t.right p
    let t ← t.update r (fun x => { x with Right := some swap })
    let r ← t.right p
    let t ← t.update swap (fun x => { x with Parent := some r })
    let r ← t.right p
    ChildRefit fuel t r false
  else if rot = RIGHTLEFTLEFT then do
    let swap ← t.right p
    let l ← t.left p
    let ll ← t.left l
    let t ← t.update p (fun x => { x with Right := some ll })
    let r ← t.right p
    let t ← t.update r (fun x => { x with Parent := some p })
    let l ← t.left p
    let t ← t.update l (fun x => { x with Left := some swap })
    let l ← t.left p
    let t ← t.update swap (fun x => { x with Parent := some l })
    let l ← t.left p
    ChildRefit fuel t l false
  else if rot = RIGHTLEFTRIGHT then do
    let swap ← t.right p
    let l ← t.left p
    let lr ← t.right l
    let t ← t.update p (fun x => { x with Right := some lr })
    let r ← t.right p
    let t ← t.update r (fun x => { x with Parent := some p })
    let l ← t.left p
    let t ← t.update l (fun x => { x with Right := some swap })
    let l ← t.left p
    let t ← t.update swap (fun x => { x with Parent := some l })
    let l ← t.left p
    ChildRefit fuel t l false
  else if rot = LEFTLEFTRIGHTRIGHT then do
    let l ← t.left p
    let swap ← t.left l
    let r ← t.right p
    let rr ← t.right r
    let t ← t.update l (fun x => { x with Left := some rr })
    let r ← t.right p
    let t ← t.update r (fun x => { x with Right := some swap })
    let l ← t.left p
    let ll ← t.left l
    let t ← t.update ll (fun x => { x with Parent := some l })
    let r ← t.right p
    let t ← t.update swap (fun x => { x with Parent := some r })
    let l ← t.left p
    let t ← ChildRefit fuel t l false
    let r ← t.right p
    ChildRefit fuel t r false
  else if rot = LEFTLEFTRIGHTLEFT then do
    let l ← t.left p
    let swap ← t.left l
    let r ← t.right p
    let rl ← t.left r
    let t ← t.update l (fun x => { x with Left := some rl })
    let r ← t.right p
    let t ← t.update r (fun x => { x with Left := some swap })
    let l ← t.left p
    let ll ← t.left l
    let t ← t.update ll (fun x => { x with Parent := some l })
    let r ← t.right p
    let t ← t.update swap (fun x => { x with Parent := some r })
    let l ← t.left p
    let t ← ChildRefit fuel t l false
    let r ← t.right p
    ChildRefit fuel t r false
  else .panic

/-- The test `diff <= 0` of `Tree.TryRotate`, where
`diff := (sa - best.SA) / sa`, as `float64` evaluates it. For `sa = 0` the
quotient is not finite: it is NaN when `best.SA = 0` and `+Inf` when
`best.SA < 0`, and for both the test is false; it is `-Inf` when
`best.SA > 0`, and the test is true. -/
def TryRotate.diffLE (sa bestSA : ℚ) : Bool :=
  if sa = 0 then decide (0 < bestSA) else decide ((sa - bestSA) / sa ≤ 0)

/-- The method `Tree.TryRotate`. -/
def TryRotate (fuel : Nat) (t : Tree) (p : Nat) : Res Tree := do
  let n ← t.node p
  if n.IsLeaf && n.Parent.isSome then pure t
  else do
    let ln ← t.node (← deref n.Left)
    let rn ← t.node (← deref n.Right)
    let sa := ln.Box.SurfaceArea + rn.Box.SurfaceArea
    let best : RotOpt := ⟨ROTNONE, MaxFloat64⟩
    let best ← best.FindBestRotation t p LEFTRIGHTLEFT sa
    let best ← best.FindBestRotation t p LEFTRIGHTRIGHT sa
    let best ← best.FindBestRotation t p RIGHTLEFTLEFT sa
    let best ← best.FindBestRotation t p RIGHTLEFTRIGHT sa
    let best ← best.FindBestRotation t p LEFTLEFTRIGHTLEFT sa
    let best ← best.FindBestRotation t p LEFTLEFTRIGHTRIGHT sa
    if best.Rot ≠ ROTNONE then do
      if TryRotate.diffLE sa best.SA then pure t
      else do
        let t ← TryRotate.apply fuel t p best.Rot
        if best.Rot = RIGHTLEFTRIGHT ∨ best.Rot = RIGHTLEFTLEFT ∨
            best.Rot = LEFTRIGHTRIGHT ∨ best.Rot = LEFTRIGHTLEFT then do
          let n ← t.node p
          SetDepth fuel t p n.Depth
        else pure t
    else pure t

/-- The depth of the node a queue entry points to, the key of the sort in
`Optimize`. -/
def Tree.depthOf (t : Tree) (p : Nat) : Int :=
  match t.nodes[p]? with
  | some n => n.Depth
  | none => 0

/-- The inner loop of `Tree.Optimize`, `for ; i < len(t.refitQueue); i++`;
returns the tree, `i` and `curDepth` when the loop is left. -/
def Optimize.inner (gas : Nat) : Nat → Tree → Nat → Int → Res (Tree × Nat × Int)
  | 0, _, _, _ => .timeout
  | fuel + 1, t, i, curDepth =>
    match t.refitQueue[i]? with
    | none => .ok (t, i, curDepth)
    | some p => do
      let n ← t.node p
      let curDepth := if i = 0 then n.Depth else curDepth
      if n.Depth ≠ curDepth then pure (t, i, curDepth)
      else if !n.IsValid then Optimize.inner gas fuel t (i + 1) curDepth
      else do
        let t ← t.update p (fun x => { x with State := Int.land x.State OPTIMIZATIONQUEUED })
        let t ← TryRotate gas t p
        let n ← t.node p
        if !n.HasParent then Optimize.inner gas fuel t (i + 1) curDepth
        else do
          let q ← deref n.Parent
          let qn ← t.node q
          if Int.land qn.State OPTIMIZATIONQUEUED ≠ 0 then
            Optimize.inner gas fuel t (i + 1) curDepth
          else do
            let t ← t.update q (fun x => { x with State := Int.lor x.State OPTIMIZATIONQUEUED })
            let t := { t with refitQueue := t.refitQueue ++ [q] }
            Optimize.inner gas fuel t (i + 1) curDepth

/-- The outer loop of `Tree.Optimize`, `for curDepth > 0`. -/
def Optimize.outer (gas : Nat) : Nat → Tree → Nat → Int → Res Tree
  | 0, _, _, _ => .timeout
  | fuel + 1, t, i, curDepth =>
    if curDepth > 0 then do
      let (t, i, curDepth) ← Optimize.inner gas gas t i curDepth
      Optimize.outer gas fuel t i (curDepth - 1)
    else pure t

/-- The method `Tree.Optimize`. -/
def Optimize (fuel : Nat) (t : Tree) : Res Tree :=
  if t.maxLeaves ≠ 1 then .ok t
  else if t.refitQueue.length = 0 then .ok t
  else do
    let sorted := t.refitQueue.insertionSort (fun a b => t.depthOf a ≤ t.depthOf b)
    let t := { t with refitQueue := sorted }
    let first ← index t.refitQueue 0
    let fn ← t.node first
    let t ← Optimize.outer fuel fuel t 0 fn.Depth
    pure { t with refitQueue := [] }

/-! ## Definitions used to state and prove the properties -/

/-- The calls `t.Add(e)` for the entities of a list, in order. -/
def AddAll (fuel : Nat) (w : World) : List Entity → Tree → Res Tree
  | [], t => .ok t
  | e :: es, t => do
    let t ← Add fuel w t e
    AddAll fuel w es t

/-- The tree built by `NewTree()` followed by `Add` of each entity of the list. -/
def Build (fuel : Nat) (w : World) (es : List Entity) : Res Tree := do
  let t ← NewTree
  AddAll fuel w es t

/-- Box containment: `a` contains `b` when it reaches at least as far on every
side, componentwise. -/
def BoundingBox.Contains (a b : BoundingBox) : Prop :=
  a.Min.X ≤ b.Min.X ∧ a.Min.Y ≤ b.Min.Y ∧ a.Min.Z ≤ b.Min.Z ∧
  b.Max.X ≤ a.Max.X ∧ b.Max.Y ≤ a.Max.Y ∧ b.Max.Z ≤ a.Max.Z

/-- The componentwise min/max envelope of the boxes of the entities `e :: es`:
each lower bound is the minimum, each upper bound the maximum. -/
def envelope (w : World) (e : Entity) (es : List Entity) : BoundingBox :=
  { Min :=
      { X := es.foldl (fun m x => min m (BoxFromEntity w x).Min.X) (BoxFromEntity w e).Min.X
        Y := es.foldl (fun m x => min m (BoxFromEntity w x).Min.Y) (BoxFromEntity w e).Min.Y
        Z := es.foldl (fun m x => min m (BoxFromEntity w x).Min.Z) (BoxFromEntity w e).Min.Z }
    Max :=
      { X := es.foldl (fun m x => max m (BoxFromEntity w x).Max.X) (BoxFromEntity w e).Max.X
        Y := es.foldl (fun m x => max m (BoxFromEntity w x).Max.Y) (BoxFromEntity w e).Max.Y
        Z := es.foldl (fun m x => max m (BoxFromEntity w x).Max.Z) (BoxFromEntity w e).Max.Z } }

/-- The nodes reachable from the root through `Left` and `Right`. -/
inductive Reachable (t : Tree) : Nat → Prop where
  | root {p : Nat} : t.rootNode = some p → Reachable t p
  | left {p c : Nat} {n : Node} :
      Reachable t p → t.nodes[p]? = some n → n.Left = some c → Reachable t c
  | right {p c : Nat} {n : Node} :
      Reachable t p → t.nodes[p]? = some n → n.Right = some c → Reachable t c

/-- The structural facts about the record `n` at `p`: depth, links, and for a
leaf its bucket and the leaf index. -/
structure NodeOK (t : Tree) (p : Nat) (n : Node) : Prop where
  depth_nonneg : 0 ≤ n.Depth
  depth_le : n.Depth ≤ t.maxDepth
  nodeIndex : n.NodeIndex = (p : Int) + 1
  root : n.Parent = none → p = 0
  root_depth : p = 0 → n.Parent = none ∧ n.Depth = 0
  parent : ∀ q, n.Parent = some q → ∃ pn, t.nodes[q]? = some pn ∧ pn.BucketIndex = -1 ∧
    n.Depth = pn.Depth + 1 ∧ (pn.Left = some p ∨ pn.Right = some p)
  leaf : n.BucketIndex ≠ -1 → n.Left = none ∧ n.Right = none ∧
    ∃ e, t.bucket (n.BucketIndex - 1) = Res.ok [e] ∧ t.leafs e = some p
  branch : n.BucketIndex = -1 → ∃ l r ln rn, n.Left = some l ∧ n.Right = some r ∧ l ≠ r ∧
    t.nodes[l]? = some ln ∧ t.nodes[r]? = some rn ∧ ln.Parent = some p ∧ rn.Parent = some p

/-- The structure of a tree holding exactly the entities `es` (at least one),
each in a leaf of its own. -/
structure Struct (es : List Entity) (t : Tree) : Prop where
  root : t.rootNode = some 0
  maxLeaves : t.maxLeaves = 1
  freeB : t.unusedBucketIndicies = []
  freeN : t.unusedNodeIndicies = []
  nodes : ∀ p n, t.nodes[p]? = some n → NodeOK t p n
  size : t.nodes.length + 1 = 2 * es.length
  buckets : t.Buckets.length = es.length
  maxDepth : t.maxDepth + 1 ≤ (es.length : Int)
  leafs : ∀ e p, t.leafs e = some p → e ∈ es ∧ ∃ n, t.nodes[p]? = some n ∧
    n.BucketIndex ≠ -1 ∧ t.bucket (n.BucketIndex - 1) = Res.ok [e]
  keys : ∀ e, e ∈ es → t.leafs e ≠ none

/-- Every leaf's box is the box of the entity in its bucket. -/
def LeafBoxOK (w : World) (t : Tree) : Prop :=
  ∀ (p : Nat) (n : Node) (e : Entity), t.nodes[p]? = some n → n.BucketIndex ≠ -1 →
    t.bucket (n.BucketIndex - 1) = Res.ok [e] → n.Box = BoxFromEntity w e

/-- Every branch other than `ex` has the box `Left.Box.Expand(Right.Box)`. -/
def BranchBoxOK (t : Tree) (ex : Option Nat) : Prop :=
  ∀ (p : Nat) (n : Node) (l r : Nat) (ln rn : Node), some p ≠ ex →
    t.nodes[p]? = some n → n.BucketIndex = -1 →
    n.Left = some l → n.Right = some r → t.nodes[l]? = some ln → t.nodes[r]? = some rn →
    n.Box = ln.Box.Expand rn.Box

/-- The invariant of a tree built by adding the entities `es` (at least one). -/
structure Inv (w : World) (es : List Entity) (t : Tree) : Prop where
  struct : Struct es t
  leafBox : LeafBoxOK w t
  branchBox : BranchBoxOK t none

/-- The tree `t'` is `t` with the boxes of some branches changed. -/
structure BoxOnly (t t' : Tree) : Prop where
  eq : t' = { t with nodes := t'.nodes }
  len : t'.nodes.length = t.nodes.length
  pt : ∀ (p : Nat) (n : Node), t.nodes[p]? = some n →
    ∃ b, t'.nodes[p]? = some { n with Box := b }
  leaf : ∀ (p : Nat) (n : Node), t.nodes[p]? = some n → n.BucketIndex ≠ -1 →
    t'.nodes[p]? = some n

/-- The link facts about the record `n` at `p` that the upward walks rely on. -/
structure LinkOK (t : Tree) (p : Nat) (n : Node) : Prop where
  depth_nonneg : 0 ≤ n.Depth
  parent : ∀ q, n.Parent = some q → ∃ pn, t.nodes[q]? = some pn ∧ pn.BucketIndex = -1 ∧
    n.Depth = pn.Depth + 1 ∧ (pn.Left = some p ∨ pn.Right = some p)
  branch : n.BucketIndex = -1 → ∃ l r ln rn, n.Left = some l ∧ n.Right = some r ∧ l ≠ r ∧
    t.nodes[l]? = some ln ∧ t.nodes[r]? = some rn ∧ ln.Parent = some p ∧ rn.Parent = some p

/-- All records of the arena are well linked. -/
def Links (t : Tree) : Prop := ∀ (p : Nat) (n : Node), t.nodes[p]? = some n → LinkOK t p n

/-- The order in which the three sorts of `SplitNode` leave a bucket of two. -/
def sorted3 (w : World) (l : List Entity) : List Entity :=
  SliceStable (fun e => (w.Position e).Z)
    (SliceStable (fun e => (w.Position e).Y) (SliceStable (fun e => (w.Position e).X) l))

/-- The tree after the leaf `p` (record `n`), whose bucket held `a` and `e`,
`x` and `y` in sorted order, was split. -/
def splitResult (w : World) (t : Tree) (p : Nat) (n : Node) (a e x y : Entity) : Tree :=
  { t with
    nodes := t.nodes.set p
        { n with Left := some t.nodes.length, Right := some (t.nodes.length + 1),
                 BucketIndex := -1 } ++
      [{ Box := BoxFromEntity w x, Parent := some p, Left := none, Right := none,
         Depth := n.Depth + 1, NodeIndex := (t.nodes.length : Int) + 1,
         BucketIndex := n.BucketIndex, State := 0 },
       { Box := BoxFromEntity w y, Parent := some p, Left := none, Right := none,
         Depth := n.Depth + 1, NodeIndex := (t.nodes.length : Int) + 1 + 1,
         BucketIndex := (t.Buckets.length : Int) + 1, State := 0 }]
    Buckets := t.Buckets.set (n.BucketIndex - 1).toNat [x] ++ [[y]]
    leafs := fun z => if z = y then some (t.nodes.length + 1)
      else if z = x then some t.nodes.length
      else if z = e then none else if z = a then none else t.leafs z
    maxDepth := if t.maxDepth < n.Depth + 1 then n.Depth + 1 else t.maxDepth }

/-- The shape of a subtree: which pointer is where. -/
inductive Shape where
  | leaf (p : Nat) : Shape
  | node (p : Nat) (l r : Shape) : Shape

/-- The pointer of the root of a shape. -/
def Shape.ptr : Shape → Nat
  | .leaf p => p
  | .node p _ _ => p

/-- The pointers of a shape, in pre-order. -/
def Shape.ptrs : Shape → List Nat
  | .leaf p => [p]
  | .node p l r => p :: (l.ptrs ++ r.ptrs)

/-- The number of levels of a shape. -/
def Shape.height : Shape → Nat
  | .leaf _ => 1
  | .node _ l r => max l.height r.height + 1

/-- The records of the arena are linked as the shape says. -/
def Shaped (t : Tree) : Shape → Prop
  | .leaf p => ∃ n : Node, t.nodes[p]? = some n ∧ n.BucketIndex ≠ -1 ∧ n.Left = none ∧
      n.Right = none
  | .node p l r => ∃ n : Node, t.nodes[p]? = some n ∧ n.BucketIndex = -1 ∧
      n.Left = some l.ptr ∧ n.Right = some r.ptr ∧ Shaped t l ∧ Shaped t r

/-- The records of a shape carry the depths `d`, `d + 1`, ... level by level. -/
def Depths (t : Tree) : Shape → Int → Prop
  | .leaf p, d => ∃ n : Node, t.nodes[p]? = some n ∧ n.Depth = d
  | .node p l r, d => (∃ n : Node, t.nodes[p]? = some n ∧ n.Depth = d) ∧
      Depths t l (d + 1) ∧ Depths t r (d + 1)

/-- The tree `t'` is `t` with some `Depth` fields and `maxDepth` changed. -/
structure DepthOnly (t t' : Tree) : Prop where
  eq : t' = { t with nodes := t'.nodes, maxDepth := t'.maxDepth }
  len : t'.nodes.length = t.nodes.length
  pt : ∀ (q : Nat) (m : Node), t.nodes[q]? = some m →
    ∃ dd, t'.nodes[q]? = some { m with Depth := dd }

/-- The `k`-th ancestor of the node `z`, following `Parent`. -/
def ancAt (t : Tree) : Nat → Nat → Option Nat
  | 0, z => some z
  | k + 1, z =>
    match t.nodes[z]? with
    | some m =>
      match m.Parent with
      | some g => ancAt t k g
      | none => none
    | none => none

/-- The tree after `AddItemToBranch` at the branch `p` (record `n`, children
`l` and `r` with records `ln` and `rn`), before the depths are set and the
boxes refit. -/
def branchResult (w : World) (t : Tree) (p : Nat) (n : Node) (l r : Nat) (ln rn : Node)
    (e : Entity) : Tree :=
  { t with
    nodes := ((t.nodes.set l { ln with Parent := some t.nodes.length }).set r
          { rn with Parent := some t.nodes.length }).set p
          { n with Left := some t.nodes.length, Right := some (t.nodes.length + 1) } ++
      [{ Box := ln.Box.Expand rn.Box, Parent := some p, Left := some l, Right := some r,
         Depth := 0, NodeIndex := (t.nodes.length : Int) + 1, BucketIndex := -1, State := 0 },
       { Box := BoxFromEntity w e, Parent := some p, Left := none, Right := none,
         Depth := 0, NodeIndex := (t.nodes.length : Int) + 1 + 1,
         BucketIndex := (t.Buckets.length : Int) + 1, State := 0 }]
    Buckets := t.Buckets ++ [[e]]
    leafs := fun z => if z = e then some (t.nodes.length + 1) else t.leafs z }

/-- A box has a positive extent on every axis: `Min < Max`. -/
def BoundingBox.Solid (b : BoundingBox) : Prop :=
  b.Min.X < b.Max.X ∧ b.Min.Y < b.Max.Y ∧ b.Min.Z < b.Max.Z

/-- An example world: entity `e` at `(10 e, 0, 0)`, every radius 1. -/
def lineWorld : World :=
  { Position := fun e => ⟨(e : ℚ) * 10, 0, 0⟩, Radius := fun _ => 1 }

/-- The world `lineWorld` after entity 0 has moved to `(29, 0, 0)`. -/
def movedWorld : World :=
  { Position := fun e => if e = 0 then ⟨29, 0, 0⟩ else ⟨(e : ℚ) * 10, 0, 0⟩, Radius := fun _ => 1 }

/-- An example world of points: every entity at the origin with radius 0. -/
def pointWorld : World :=
  { Position := fun _ => ⟨0, 0, 0⟩, Radius := fun _ => 0 }

/-- The tree `NewTree()` returns, with the root in the refit queue. -/
def queuedTree : Tree :=
  { rootNode := some 0, maxDepth := 0, maxLeaves := 1, IsCreated := true,
    leafs := fun _ => none,
    nodes := [{ Node.zero with NodeIndex := 1, BucketIndex := 1 }], refitQueue := [0],
    unusedBucketIndicies := [], unusedNodeIndicies := [], Buckets := [[]] }

/-- An example world of twins: every entity at the origin with radius 1. -/
def twinWorld : World :=
  { Position := fun _ => ⟨0, 0, 0⟩, Radius := fun _ => 1 }

/-- An example world for rotations: entities 0, 1, 2, 3 at `x = 4, 0, 9, 17` on
the x axis, entity 0 with radius 3 and the others with radius 2. -/
def rotWorld : World :=
  { Position := fun e =>
      if e = 0 then ⟨4, 0, 0⟩ else if e = 1 then ⟨0, 0, 0⟩
      else if e = 2 then ⟨9, 0, 0⟩ else ⟨17, 0, 0⟩,
    Radius := fun e => if e = 0 then 3 else 2 }

/-- The cost of the specification: the sum, over the branch nodes of the
subtree of `cur`, of `Left.Box.SurfaceArea() + Right.Box.SurfaceArea()`. -/
def SumBranchSA : Nat → Tree → Option Nat → Res ℚ
  | 0, _, _ => .timeout
  | fuel + 1, t, cur => do
    let p ← deref cur
    let n ← t.node p
    if n.BucketIndex = -1 then do
      let ln ← t.node (← deref n.Left)
      let rn ← t.node (← deref n.Right)
      let a ← SumBranchSA fuel t n.Left
      let b ← SumBranchSA fuel t n.Right
      pure (ln.Box.SurfaceArea + rn.Box.SurfaceArea + a + b)
    else pure 0

/-- Modelled from the spec: the method `Tree.ConcurrentTraverse`, which the
example `spellcollision` calls and which is not among the source files. The
spec describes it as `traverse` with one change: at the root, if the predicate
accepts the root's box, the traversals of the left and right subtrees run in
parallel (two independent tasks) and their results are concatenated, in
either order. The root itself is treated as `TraverseNode` treats a node (the
test `IsValid`, the predicate on its box, its own bucket when it is a leaf),
which the property that both traversals yield the same multiset requires of a
tree whose root is a leaf. The two tasks only read the tree, so each is the
sequential `TraverseNode` of its subtree; `leftFirst` is the order, which the
scheduler decides, in which the two results are joined. -/
def ConcurrentTraverse : Nat → Tree → HitTest → Bool → Res (List Entity)
  | 0, _, _, _ => .timeout
  | fuel + 1, t, test, leftFirst => do
    let p ← deref t.rootNode
    let n ← t.node p
    if !n.IsValid then pure []
    else if test n.Box then do
      let own ← if n.BucketIndex ≠ -1 then t.bucket (n.BucketIndex - 1) else pure []
      let a ← if n.Left.isSome then TraverseNode fuel t n.Left test else pure []
      let b ← if n.Right.isSome then TraverseNode fuel t n.Right test else pure []
      pure (own ++ (if leftFirst then a ++ b else b ++ a))
    else pure []

/-- A point whose coordinates are `float64` values as the comparisons of
`Expand` see them: a number, or NaN (`none`). The numbers are the elements of
a linear order `α`, such as the rationals, or the rationals with the two
infinities; the zeros of either sign count as one number, as `==` has it. -/
structure Vec64 (α : Type) where
  X : Option α
  Y : Option α
  Z : Option α
deriving DecidableEq

/-- The struct `BoundingBox` with such coordinates. -/
structure Box64 (α : Type) where
  Min : Vec64 α
  Max : Vec64 α
deriving DecidableEq

/-- The comparison `a < b` of `float64`: false when either side is NaN. -/
def lt64 {α : Type} [LinearOrder α] : Option α → Option α → Bool
  | some x, some y => decide (x < y)
  | _, _ => false

/-- The method `BoundingBox.Expand` on boxes whose coordinates may be NaN. -/
def Box64.Expand {α : Type} [LinearOrder α] (b b2 : Box64 α) : Box64 α :=
  { Min :=
      { X := if lt64 b2.Min.X b.Min.X then b2.Min.X else b.Min.X
        Y := if lt64 b2.Min.Y b.Min.Y then b2.Min.Y else b.Min.Y
        Z := if lt64 b2.Min.Z b.Min.Z then b2.Min.Z else b.Min.Z }
    Max :=
      { X := if lt64 b.Max.X b2.Max.X then b2.Max.X else b.Max.X
        Y := if lt64 b.Max.Y b2.Max.Y then b2.Max.Y else b.Max.Y
        Z := if lt64 b.Max.Z b2.Max.Z then b2.Max.Z else b.Max.Z } }

/-- No coordinate of the box is NaN. -/
def Box64.NoNaN {α : Type} (b : Box64 α) : Prop :=
  b.Min.X.isSome ∧ b.Min.Y.isSome ∧ b.Min.Z.isSome ∧
  b.Max.X.isSome ∧ b.Max.Y.isSome ∧ b.Max.Z.isSome

/-- A box with rational coordinates, as a box none of whose coordinates is
NaN. -/
def BoundingBox.to64 (b : BoundingBox) : Box64 ℚ :=
  { Min := { X := some b.Min.X, Y := some b.Min.Y, Z := some b.Min.Z }
    Max := { X := some b.Max.X, Y := some b.Max.Y, Z := some b.Max.Z } }

/-- The box all of whose coordinates are NaN. -/
def Box64.nan : Box64 ℚ :=
  { Min := { X := none, Y := none, Z := none }, Max := { X := none, Y := none, Z := none } }

/-- The tree built from the entities 0, 1, 2 of `lineWorld` (the tree
`queuedTree` stands in if `Build` fails, which it does not). -/
def lineTree : Tree :=
  match Build 7 lineWorld [0, 1, 2] with
  | .ok t => t
  | _ => queuedTree

/-- The bucket index of the leaf of the entity `e`, 0 if `e` has no leaf. -/
def Tree.bucketOf (t : Tree) (e : Entity) : Int :=
  match t.leafs e with
  | some p =>
    match t.nodes[p]? with
    | some n => n.BucketIndex
    | none => 0
  | none => 0

/-- The arena `T` after a rotation that exchanges the child `A` of `p` with the
grandchild `G`, a child of the other child `B` of `p`: the records at `p` and
`B` are `pn'` and `bn'`, `A` hangs under `B`, `G` under `p`, and nothing else
has changed. -/
structure RotOne (t T : Tree) (p A B G : Nat) (pn' an bn' gn : Node) : Prop where
  eq : T = { t with nodes := T.nodes }
  len : T.nodes.length = t.nodes.length
  atP : T.nodes[p]? = some pn'
  atA : T.nodes[A]? = some { an with Parent := some B }
  atB : T.nodes[B]? = some bn'
  atG : T.nodes[G]? = some { gn with Parent := some p }
  other : ∀ q, q ≠ p → q ≠ A → q ≠ B → q ≠ G → T.nodes[q]? = t.nodes[q]?

/-- The arena `T` after a rotation that exchanges a child of `l` with a child
of `r`: the records at `l` and `r` are `ln'` and `rn'`, `x` hangs under `l`, `y`
under `r`, and nothing else has changed. -/
structure RotTwo (t T : Tree) (l r x y : Nat) (ln' rn' xn yn : Node) : Prop where
  eq : T = { t with nodes := T.nodes }
  len : T.nodes.length = t.nodes.length
  atL : T.nodes[l]? = some ln'
  atR : T.nodes[r]? = some rn'
  atX : T.nodes[x]? = some { xn with Parent := some l }
  atY : T.nodes[y]? = some { yn with Parent := some r }
  other : ∀ q, q ≠ l → q ≠ r → q ≠ x → q ≠ y → T.nodes[q]? = t.nodes[q]?

/-- The node `p` of `t` is a branch whose children have the boxes of surface
areas adding up to `c`. -/
def RotPost (t : Tree) (p : Nat) (c : ℚ) : Prop :=
  ∃ (n : Node) (l r : Nat) (ln rn : Node), t.nodes[p]? = some n ∧ n.BucketIndex = -1 ∧
    n.Left = some l ∧ n.Right = some r ∧ t.nodes[l]? = some ln ∧ t.nodes[r]? = some rn ∧
    ln.Box.SurfaceArea + rn.Box.SurfaceArea = c

/-- The rotation `rot` at `p`, as `TryRotate` applies it (the pointer surgery
and, for the four rotations that move a child of `p`, `SetDepth`), returns a
tree in which the cost of `p` is `c`. -/
def RotGood (fuel : Nat) (t : Tree) (p : Nat) (rot : Dyntree.Rot) (c : ℚ) : Prop :=
  ∃ T', (TryRotate.apply fuel t p rot >>= fun T =>
      if rot = RIGHTLEFTRIGHT ∨ rot = RIGHTLEFTLEFT ∨ rot = LEFTRIGHTRIGHT ∨
          rot = LEFTRIGHTLEFT then
        T.node p >>= fun m => SetDepth fuel T p m.Depth
      else pure T) = Res.ok T' ∧ RotPost T' p c

/-- A box is well formed: `Min ≤ Max` on every axis. -/
def BoundingBox.WF (b : BoundingBox) : Prop :=
  b.Min.X ≤ b.Max.X ∧ b.Min.Y ≤ b.Max.Y ∧ b.Min.Z ≤ b.Max.Z

/-- The value `sa` of `Tree.TryRotate`, the cost of the node at `p`:
`n.Left.Box.SurfaceArea() + n.Right.Box.SurfaceArea()`. -/
def TryRotate.sa (t : Tree) (p : Nat) : Res ℚ := do
  let n ← t.node p
  let ln ← t.node (← deref n.Left)
  let rn ← t.node (← deref n.Right)
  pure (ln.Box.SurfaceArea + rn.Box.SurfaceArea)

/-- The tree built from the entities 0, 1, 2, 3 of `rotWorld` (the tree
`queuedTree` stands in if `Build` fails, which it does not). -/
def rotTree : Tree :=
  match Build 8 rotWorld [0, 1, 2, 3] with
  | .ok t => t
  | _ => queuedTree

/-- The world `rotWorld` after the entity 3 has moved from x = 17 to x = 18. -/
def rotMovedWorld : World :=
  { Position := fun e => if e = 3 then ⟨18, 0, 0⟩ else rotWorld.Position e,
    Radius := rotWorld.Radius }

/-- The inner loop of `Tree.Optimize` with a log: `Optimize.inner`, recording
in `log` every node passed to `t.TryRotate(n)`, in order. -/
def Optimize.innerLog (gas : Nat) :
    Nat → Tree → Nat → Int → List Nat → Res (Tree × Nat × Int × List Nat)
  | 0, _, _, _, _ => .timeout
  | fuel + 1, t, i, curDepth, log =>
    match t.refitQueue[i]? with
    | none => .ok (t, i, curDepth, log)
    | some p => do
      let n ← t.node p
      let curDepth := if i = 0 then n.Depth else curDepth
      if n.Depth ≠ curDepth then pure (t, i, curDepth, log)
      else if !n.IsValid then Optimize.innerLog gas fuel t (i + 1) curDepth log
      else do
        let t ← t.update p (fun x => { x with State := Int.land x.State OPTIMIZATIONQUEUED })
        let t ← TryRotate gas t p
        let log := log ++ [p]
        let n ← t.node p
        if !n.HasParent then Optimize.innerLog gas fuel t (i + 1) curDepth log
        else do
          let q ← deref n.Parent
          let qn ← t.node q
          if Int.land qn.State OPTIMIZATIONQUEUED ≠ 0 then
            Optimize.innerLog gas fuel t (i + 1) curDepth log
          else do
            let t ← t.update q (fun x => { x with State := Int.lor x.State OPTIMIZATIONQUEUED })
            let t := { t with refitQueue := t.refitQueue ++ [q] }
            Optimize.innerLog gas fuel t (i + 1) curDepth log

/-- The outer loop of `Tree.Optimize` with the log of the calls of `TryRotate`. -/
def Optimize.outerLog (gas : Nat) : Nat → Tree → Nat → Int → List Nat → Res (Tree × List Nat)
  | 0, _, _, _, _ => .timeout
  | fuel + 1, t, i, curDepth, log =>
    if curDepth > 0 then do
      let r ← Optimize.innerLog gas gas t i curDepth log
      Optimize.outerLog gas fuel r.1 r.2.1 (r.2.2.1 - 1) r.2.2.2
    else pure (t, log)

/-- The method `Tree.Optimize` with the log of the calls of `TryRotate`: the
tree `Optimize` returns and the nodes it passed to `TryRotate`, in order. -/
def OptimizeLog (fuel : Nat) (t : Tree) : Res (Tree × List Nat) :=
  if t.maxLeaves ≠ 1 then .ok (t, [])
  else if t.refitQueue.length = 0 then .ok (t, [])
  else do
    let sorted := t.refitQueue.insertionSort (fun a b => t.depthOf a ≤ t.depthOf b)
    let t := { t with refitQueue := sorted }
    let first ← index t.refitQueue 0
    let fn ← t.node first
    let r ← Optimize.outerLog fuel fuel t 0 fn.Depth []
    pure ({ r.1 with refitQueue := [] }, r.2)

/-- The world `rotWorld` after the entity 1 has moved from x = 0 to x = -1 and
the entity 3 from x = 17 to x = 18. -/
def rotMovedTwoWorld : World :=
  { Position := fun e =>
      if e = 1 then ⟨-1, 0, 0⟩ else if e = 3 then ⟨18, 0, 0⟩ else rotWorld.Position e,
    Radius := rotWorld.Radius }

/-- The record at the position `p` of the arena (the zero record if there is
none). -/
def Tree.nodeAt (t : Tree) (p : Nat) : Node := t.nodes.getD p Node.zero

/-- The surface area of the min/max envelope of the boxes of the entities of a
list (0 for the empty list). -/
def envelopeSA (w : World) : List Entity → ℚ
  | [] => 0
  | e :: es => (envelope w e es).SurfaceArea

/-- The score of the specification for a bucket in sorted order:
`sa_left·|left| + sa_right·|right|`, where `left` is the first `n/2` entities,
`right` the remaining ones, and `sa` the surface area of the envelope of the
boxes of a half. -/
def SplitScore (w : World) (items : List Entity) : ℚ :=
  envelopeSA w (items.take (items.length / 2)) * ((items.take (items.length / 2)).length : ℚ) +
    envelopeSA w (items.drop (items.length / 2)) * ((items.drop (items.length / 2)).length : ℚ)

/-- An example world with opposite orders on the x and z axes: entity `e` at
`(e, 0, -e)`, every radius 1. -/
def crossWorld : World :=
  { Position := fun e => ⟨(e : ℚ), 0, -(e : ℚ)⟩, Radius := fun _ => 1 }

/-- The tree of one leaf, the root, whose bucket holds the entities 0 and 1:
the state in which `Add` of the second entity calls `SplitNode`. -/
def pairTree : Tree :=
  { rootNode := some 0, maxDepth := 0, maxLeaves := 1, IsCreated := true,
    leafs := fun e => if e = 0 ∨ e = 1 then some 0 else none,
    nodes := [{ Node.zero with NodeIndex := 1, BucketIndex := 1 }], refitQueue := [],
    unusedBucketIndicies := [], unusedNodeIndicies := [], Buckets := [[0, 1]] }

/-- The six rotations `TryRotate` tries, in the order it tries them. -/
def rotations : List Rot :=
  [LEFTRIGHTLEFT, LEFTRIGHTRIGHT, RIGHTLEFTLEFT, RIGHTLEFTRIGHT, LEFTLEFTRIGHTLEFT,
    LEFTLEFTRIGHTRIGHT]

/-- The cost `m` is the minimum of the costs `GetRotationSurfaceArea` gives
for the six rotations at the node `p`, those disqualified (answered with
`ROTNONE`) left out. -/
def MinCandidate (t : Tree) (p : Nat) (sa m : ℚ) : Prop :=
  (∃ r new, r ∈ rotations ∧ GetRotationSurfaceArea t p r sa = Res.ok new ∧
    new.Rot ≠ ROTNONE ∧ new.SA = m) ∧
  ∀ r new, r ∈ rotations → GetRotationSurfaceArea t p r sa = Res.ok new →
    new.Rot ≠ ROTNONE → m ≤ new.SA

/-- The second half of `TryRotate` for the rotation `rot`: the pointer surgery,
then `SetDepth` for the four single rotations. -/
def TryRotate.finish (fuel : Nat) (t : Tree) (p : Nat) (rot : Dyntree.Rot) : Res Tree :=
  TryRotate.apply fuel t p rot >>= fun T =>
    if rot = RIGHTLEFTRIGHT ∨ rot = RIGHTLEFTLEFT ∨ rot = LEFTRIGHTRIGHT ∨ rot = LEFTRIGHTLEFT then
      T.node p >>= fun m => SetDepth fuel T p m.Depth
    else pure T

/-- The node `c` is a child of the node `x`: `x.Left` or `x.Right` points to it. -/
def IsChild (t : Tree) (x c : Nat) : Prop :=
  ∃ n : Node, t.nodes[x]? = some n ∧ (n.Left = some c ∨ n.Right = some c)

/-- The nodes under the node `p`: those reached from `p` through `Left` and
`Right`, `p` itself included. -/
inductive Under (t : Tree) (p : Nat) : Nat → Prop where
  | self : Under t p p
  | left {x c : Nat} {n : Node} :
      Under t p x → t.nodes[x]? = some n → n.Left = some c → Under t p c
  | right {x c : Nat} {n : Node} :
      Under t p x → t.nodes[x]? = some n → n.Right = some c → Under t p c

/-- The node `q`, if it is a branch, has the box `Left.Box.Expand(Right.Box)`
and both children point back to it with `Parent`. -/
def LocalOK (t : Tree) (q : Nat) : Prop :=
  ∀ m : Node, t.nodes[q]? = some m → m.BucketIndex = -1 →
    ∃ (l r : Nat) (ln rn : Node), m.Left = some l ∧ m.Right = some r ∧
      t.nodes[l]? = some ln ∧ t.nodes[r]? = some rn ∧ m.Box = ln.Box.Expand rn.Box ∧
      ln.Parent = some q ∧ rn.Parent = some q

/-- What a rotation at `p` keeps, from the tree `t` to the tree `T`: the
buckets and the bucket index of every node, the box of `p`, the set of nodes
under `p`, and the box and parent links at `p` and at its two children. -/
structure RotKept (t T : Tree) (p : Nat) : Prop where
  buckets : T.Buckets = t.Buckets
  pt : ∀ (q : Nat) (m : Node), t.nodes[q]? = some m →
    ∃ m' : Node, T.nodes[q]? = some m' ∧ m'.BucketIndex = m.BucketIndex
  box : ∀ m m' : Node, t.nodes[p]? = some m → T.nodes[p]? = some m' → m'.Box = m.Box
  under : ∀ q, Under T p q ↔ Under t p q
  localP : LocalOK T p
  localC : ∀ (m : Node) (c : Nat), T.nodes[p]? = some m →
    (m.Left = some c ∨ m.Right = some c) → LocalOK T c

/-! ## Lemmas and theorems -/

@[simp] theorem Res.ok_bind {α β : Type} (a : α) (f : α → Res β) : (Res.ok a >>= f) = f a := rfl

@[simp] theorem Res.pure_eq {α : Type} (a : α) : (pure a : Res α) = Res.ok a := rfl

@[simp] theorem Res.panic_bind {α β : Type} (f : α → Res β) : (Res.panic >>= f) = Res.panic := rfl

@[simp] theorem Res.timeout_bind {α β : Type} (f : α → Res β) :
    (Res.timeout >>= f) = Res.timeout := rfl

theorem Res.bind_eq_ok {α β : Type} {r : Res α} {f : α → Res β} {b : β} :
    (r >>= f) = Res.ok b ↔ ∃ a, r = Res.ok a ∧ f a = Res.ok b := by
  cases r <;> simp

@[simp] theorem deref_some (p : Nat) : deref (some p) = Res.ok p := rfl

@[simp] theorem deref_none : deref none = Res.panic := rfl

theorem BoundingBox.Expand_eq (b c : BoundingBox) :
    b.Expand c =
      ⟨⟨min b.Min.X c.Min.X, min b.Min.Y c.Min.Y, min b.Min.Z c.Min.Z⟩,
       ⟨max b.Max.X c.Max.X, max b.Max.Y c.Max.Y, max b.Max.Z c.Max.Z⟩⟩ := by
  simp only [BoundingBox.Expand, gt_iff_lt, BoundingBox.mk.injEq, Vec3.mk.injEq]
  refine ⟨⟨?_, ?_, ?_⟩, ⟨?_, ?_, ?_⟩⟩ <;> split_ifs with h <;>
    first
      | exact (min_eq_right (le_of_lt h)).symm
      | exact (min_eq_left (not_lt.mp h)).symm
      | exact (max_eq_right (le_of_lt h)).symm
      | exact (max_eq_left (not_lt.mp h)).symm

theorem BoundingBox.Expand_comm (b c : BoundingBox) : b.Expand c = c.Expand b := by
  simp only [BoundingBox.Expand_eq, min_comm, max_comm]

theorem BoundingBox.Expand_assoc (a b c : BoundingBox) :
    (a.Expand b).Expand c = a.Expand (b.Expand c) := by
  simp only [BoundingBox.Expand_eq, min_assoc, max_assoc]

theorem BoundingBox.Expand_self (b : BoundingBox) : b.Expand b = b := by
  simp only [BoundingBox.Expand_eq, min_self, max_self]

theorem BoundingBox.Equals_eq (b c : BoundingBox) : b.Equals c = decide (b = c) := by
  rcases b with ⟨⟨a1, a2, a3⟩, ⟨a4, a5, a6⟩⟩
  rcases c with ⟨⟨c1, c2, c3⟩, ⟨c4, c5, c6⟩⟩
  simp only [BoundingBox.Equals, BoundingBox.mk.injEq, Vec3.mk.injEq]
  by_cases h1 : a1 = c1 <;> by_cases h2 : a2 = c2 <;> by_cases h3 : a3 = c3 <;>
    by_cases h4 : a4 = c4 <;> by_cases h5 : a5 = c5 <;> by_cases h6 : a6 = c6 <;>
    simp [h1, h2, h3, h4, h5, h6]

theorem expandBy_fst (b c : BoundingBox) : (expandBy b c).1 = b.Expand c := by
  simp only [expandBy, BoundingBox.Expand]

theorem expandBy_snd (b c : BoundingBox) : (expandBy b c).2 = decide (b.Expand c ≠ b) := by
  rcases b with ⟨⟨a1, a2, a3⟩, ⟨a4, a5, a6⟩⟩
  rcases c with ⟨⟨c1, c2, c3⟩, ⟨c4, c5, c6⟩⟩
  simp only [expandBy, BoundingBox.Expand, gt_iff_lt, ne_eq, BoundingBox.mk.injEq, Vec3.mk.injEq]
  by_cases h1 : c1 < a1 <;> by_cases h2 : c2 < a2 <;> by_cases h3 : c3 < a3 <;>
    by_cases h4 : a4 < c4 <;> by_cases h5 : a5 < c5 <;> by_cases h6 : a6 < c6 <;>
    simp [h1, h2, h3, h4, h5, h6, ne_of_lt, ne_of_gt]

theorem BoundingBox.Contains_Expand_left (b c : BoundingBox) : (b.Expand c).Contains b := by
  simp only [BoundingBox.Expand_eq, BoundingBox.Contains]
  exact ⟨min_le_left _ _, min_le_left _ _, min_le_left _ _,
    le_max_left _ _, le_max_left _ _, le_max_left _ _⟩

theorem BoundingBox.Contains_Expand_right (b c : BoundingBox) : (b.Expand c).Contains c := by
  rw [BoundingBox.Expand_comm]; exact BoundingBox.Contains_Expand_left c b

theorem BoundingBox.Contains_trans {a b c : BoundingBox} (h1 : a.Contains b) (h2 : b.Contains c) :
    a.Contains c := by
  obtain ⟨a1, a2, a3, a4, a5, a6⟩ := h1
  obtain ⟨b1, b2, b3, b4, b5, b6⟩ := h2
  exact ⟨a1.trans b1, a2.trans b2, a3.trans b3, b4.trans a4, b5.trans a5, b6.trans a6⟩

theorem BoundingBox.Contains_refl (a : BoundingBox) : a.Contains a :=
  ⟨le_rfl, le_rfl, le_rfl, le_rfl, le_rfl, le_rfl⟩

theorem Tree.node_eq {t : Tree} {p : Nat} {n : Node} (h : t.nodes[p]? = some n) :
    t.node p = Res.ok n := by
  simp [Tree.node, h]

theorem Tree.node_eq_ok {t : Tree} {p : Nat} {n : Node} (h : t.node p = Res.ok n) :
    t.nodes[p]? = some n := by
  unfold Tree.node at h
  split at h
  · rename_i m hm; cases h; exact hm
  · cases h

theorem Tree.update_eq {t : Tree} {p : Nat} {n : Node} (f : Node → Node)
    (h : t.nodes[p]? = some n) : t.update p f = Res.ok (t.setNode p (f n)) := by
  simp [Tree.update, Tree.node_eq h]

theorem lt_of_get {α : Type} {l : List α} {p : Nat} {a : α} (h : l[p]? = some a) :
    p < l.length := by
  by_contra hc
  rw [List.getElem?_eq_none (not_lt.mp hc)] at h
  cases h

theorem Tree.setNode_get (t : Tree) (p q : Nat) (n : Node) :
    (t.setNode p n).nodes[q]? =
      if p = q then (if p < t.nodes.length then some n else none) else t.nodes[q]? := by
  simp only [Tree.setNode, List.getElem?_set]

theorem Tree.setNode_get_self {t : Tree} {p : Nat} {m : Node} (n : Node)
    (h : t.nodes[p]? = some m) : (t.setNode p n).nodes[p]? = some n := by
  simp [Tree.setNode_get, lt_of_get h]

theorem Tree.setNode_get_ne (t : Tree) {p q : Nat} (n : Node) (h : p ≠ q) :
    (t.setNode p n).nodes[q]? = t.nodes[q]? := by
  simp [Tree.setNode_get, h]

theorem list_set_same {α : Type} {l : List α} {p : Nat} {a : α} (h : l[p]? = some a) :
    l.set p a = l := by
  apply List.ext_getElem?
  intro j
  rw [List.getElem?_set]
  split_ifs with h1 h2
  · subst h1; exact h.symm
  · exact absurd (lt_of_get h) h2
  · rfl

theorem Tree.setNode_same {t : Tree} {p : Nat} {n : Node} (h : t.nodes[p]? = some n) :
    t.setNode p n = t := by
  cases t
  simp only [Tree.setNode, Tree.mk.injEq, true_and, and_true] at *
  exact list_set_same h

theorem Tree.bucket_eq {t : Tree} {i : Int} {b : List Entity} (h : t.bucket i = Res.ok b) :
    0 ≤ i ∧ t.Buckets[i.toNat]? = some b := by
  unfold Tree.bucket index at h
  split at h
  · rename_i h0
    split at h
    · rename_i a ha; cases h; exact ⟨h0, ha⟩
    · cases h
  · cases h

theorem Tree.bucket_of {t : Tree} {i : Int} {b : List Entity} (h0 : 0 ≤ i)
    (h : t.Buckets[i.toNat]? = some b) : t.bucket i = Res.ok b := by
  simp [Tree.bucket, index, h0, h]

theorem BoxOnly.refl (t : Tree) : BoxOnly t t :=
  ⟨rfl, rfl, fun _ n h => ⟨n.Box, h⟩, fun _ _ h _ => h⟩

theorem BoxOnly.pt' {t t' : Tree} (h : BoxOnly t t') {p : Nat} {n' : Node}
    (hn : t'.nodes[p]? = some n') : ∃ n, t.nodes[p]? = some n ∧ n' = { n with Box := n'.Box } := by
  have hl : p < t.nodes.length := h.len ▸ lt_of_get hn
  obtain ⟨b, hb⟩ := h.pt p t.nodes[p] (List.getElem?_eq_getElem hl)
  rw [hn] at hb
  cases hb
  exact ⟨t.nodes[p], List.getElem?_eq_getElem hl, rfl⟩

theorem BoxOnly.trans {t t' t'' : Tree} (h1 : BoxOnly t t') (h2 : BoxOnly t' t'') :
    BoxOnly t t'' := by
  refine ⟨?_, h2.len.trans h1.len, ?_, ?_⟩
  · have e1 := h1.eq
    have e2 := h2.eq
    rw [e2, e1]
  · intro p n hn
    obtain ⟨b, hb⟩ := h1.pt p n hn
    obtain ⟨b', hb'⟩ := h2.pt p _ hb
    exact ⟨b', hb'⟩
  · intro p n hn hl
    exact h2.leaf p n (h1.leaf p n hn hl) hl

theorem BoxOnly.setNode_box {t : Tree} {p : Nat} {n : Node} (h : t.nodes[p]? = some n)
    (hb : n.BucketIndex = -1) (b : BoundingBox) : BoxOnly t (t.setNode p { n with Box := b }) := by
  refine ⟨rfl, by simp [Tree.setNode], ?_, ?_⟩
  · intro q m hm
    by_cases hpq : p = q
    · subst hpq
      rw [h] at hm; cases hm
      exact ⟨b, Tree.setNode_get_self _ h⟩
    · exact ⟨m.Box, by rw [Tree.setNode_get_ne _ _ hpq]; exact hm⟩
  · intro q m hm hl
    by_cases hpq : p = q
    · subst hpq
      rw [h] at hm; cases hm
      exact absurd hb hl
    · rw [Tree.setNode_get_ne _ _ hpq]; exact hm

theorem BoxOnly.bucket {t t' : Tree} (h : BoxOnly t t') (i : Int) : t'.bucket i = t.bucket i := by
  rw [h.eq]; rfl

theorem BoxOnly.leafs {t t' : Tree} (h : BoxOnly t t') : t'.leafs = t.leafs := by
  rw [h.eq]

theorem BoxOnly.maxDepth {t t' : Tree} (h : BoxOnly t t') : t'.maxDepth = t.maxDepth := by
  rw [h.eq]

theorem BoxOnly.nodeOK {t t' : Tree} (h : BoxOnly t t') {p : Nat} {n : Node} (b : BoundingBox)
    (hn : NodeOK t p n) : NodeOK t' p { n with Box := b } := by
  refine ⟨hn.depth_nonneg, by rw [h.maxDepth]; exact hn.depth_le, hn.nodeIndex, hn.root,
    hn.root_depth, ?_, ?_, ?_⟩
  · intro q hq
    obtain ⟨pn, h1, h2, h3, h4⟩ := hn.parent q hq
    obtain ⟨b', hb'⟩ := h.pt q pn h1
    exact ⟨_, hb', h2, h3, h4⟩
  · intro hl
    obtain ⟨h1, h2, e, h3, h4⟩ := hn.leaf hl
    exact ⟨h1, h2, e, by rw [h.bucket]; exact h3, by rw [h.leafs]; exact h4⟩
  · intro hb
    obtain ⟨l, r, ln, rn, h1, h2, h3, h4, h5, h6, h7⟩ := hn.branch hb
    obtain ⟨bl, hbl⟩ := h.pt l ln h4
    obtain ⟨br, hbr⟩ := h.pt r rn h5
    exact ⟨l, r, _, _, h1, h2, h3, hbl, hbr, h6, h7⟩

theorem BoxOnly.struct {t t' : Tree} (h : BoxOnly t t') {es : List Entity} (hs : Struct es t) :
    Struct es t' := by
  have e := h.eq
  refine ⟨by rw [e]; exact hs.root, by rw [e]; exact hs.maxLeaves, by rw [e]; exact hs.freeB,
    by rw [e]; exact hs.freeN, ?_, by rw [h.len]; exact hs.size, by rw [e]; exact hs.buckets,
    by rw [h.maxDepth]; exact hs.maxDepth, ?_, ?_⟩
  · intro p n' hn'
    obtain ⟨n, hn, hnn⟩ := h.pt' hn'
    rw [hnn]
    exact h.nodeOK _ (hs.nodes p n hn)
  · intro x p hx
    rw [h.leafs] at hx
    obtain ⟨h1, n, h2, h3, h4⟩ := hs.leafs x p hx
    exact ⟨h1, n, h.leaf p n h2 h3, h3, by rw [h.bucket]; exact h4⟩
  · intro x hx
    rw [h.leafs]; exact hs.keys x hx

theorem BoxOnly.leafBox {t t' : Tree} (h : BoxOnly t t') {w : World} (hs : LeafBoxOK w t) :
    LeafBoxOK w t' := by
  intro p n' e hn' hl hb
  obtain ⟨n, hn, hnn⟩ := h.pt' hn'
  have hl' : n.BucketIndex ≠ -1 := by rw [hnn] at hl; exact hl
  have := h.leaf p n hn hl'
  rw [hn'] at this
  cases this
  rw [h.bucket] at hb
  exact hs p n' e hn hl hb

theorem Struct.links {es : List Entity} {t : Tree} (h : Struct es t) : Links t :=
  fun p n hn => ⟨(h.nodes p n hn).depth_nonneg, (h.nodes p n hn).parent, (h.nodes p n hn).branch⟩

theorem Links.of_nodes {t t' : Tree} (h : Links t) (e : t'.nodes = t.nodes) : Links t' := by
  intro p n hn
  rw [e] at hn
  obtain ⟨h1, h2, h3⟩ := h p n hn
  refine ⟨h1, ?_, ?_⟩
  · intro q hq; rw [e]; exact h2 q hq
  · intro hb; rw [e]; exact h3 hb

theorem BranchBoxOK.of_nodes_eq {t t' : Tree} {ex : Option Nat} (h : BranchBoxOK t ex)
    (e : t'.nodes = t.nodes) : BranchBoxOK t' ex := by
  intro p n l r ln rn hex hn hb hl hr hln hrn
  rw [e] at hn hln hrn
  exact h p n l r ln rn hex hn hb hl hr hln hrn

/-- Writing a record whose links are those of the old one keeps the arena
well linked. -/
theorem Links.setNode {t : Tree} (h : Links t) {p : Nat} {n n' : Node}
    (hn : t.nodes[p]? = some n) (hd : n'.Depth = n.Depth) (hp : n'.Parent = n.Parent)
    (hl : n'.Left = n.Left) (hr : n'.Right = n.Right) (hb : n'.BucketIndex = n.BucketIndex) :
    Links (t.setNode p n') := by
  have key : ∀ (q : Nat) (m : Node), t.nodes[q]? = some m →
      ∃ m' : Node, (t.setNode p n').nodes[q]? = some m' ∧
      m'.Depth = m.Depth ∧ m'.Parent = m.Parent ∧ m'.Left = m.Left ∧ m'.Right = m.Right ∧
      m'.BucketIndex = m.BucketIndex := by
    intro q m hm
    by_cases hpq : p = q
    · subst hpq
      rw [hn] at hm; cases hm
      exact ⟨n', Tree.setNode_get_self _ hn, hd, hp, hl, hr, hb⟩
    · exact ⟨m, by rw [Tree.setNode_get_ne _ _ hpq]; exact hm, rfl, rfl, rfl, rfl, rfl⟩
  intro q m' hm'
  have hm : ∃ m : Node, t.nodes[q]? = some m ∧ m'.Depth = m.Depth ∧ m'.Parent = m.Parent ∧
      m'.Left = m.Left ∧ m'.Right = m.Right ∧ m'.BucketIndex = m.BucketIndex := by
    by_cases hpq : p = q
    · subst hpq
      rw [Tree.setNode_get_self _ hn] at hm'; cases hm'
      exact ⟨n, hn, hd, hp, hl, hr, hb⟩
    · rw [Tree.setNode_get_ne _ _ hpq] at hm'
      exact ⟨m', hm', rfl, rfl, rfl, rfl, rfl⟩
  obtain ⟨m, hm, e1, e2, e3, e4, e5⟩ := hm
  obtain ⟨h1, h2, h3⟩ := h q m hm
  refine ⟨by rw [e1]; exact h1, ?_, ?_⟩
  · intro g hg
    rw [e2] at hg
    obtain ⟨pn, a1, a2, a3, a4⟩ := h2 g hg
    obtain ⟨pn', b1, b2, b3, b4, b5, b6⟩ := key g pn a1
    exact ⟨pn', b1, by rw [b6]; exact a2, by rw [e1, b2]; exact a3, by rw [b4, b5]; exact a4⟩
  · intro hbb
    rw [e5] at hbb
    obtain ⟨l, r, ln, rn, a1, a2, a3, a4, a5, a6, a7⟩ := h3 hbb
    obtain ⟨ln', b1, _, b3, _, _, _⟩ := key l ln a4
    obtain ⟨rn', c1, _, c3, _, _, _⟩ := key r rn a5
    exact ⟨l, r, ln', rn', by rw [e3]; exact a1, by rw [e4]; exact a2, a3, b1, c1,
      by rw [b3]; exact a6, by rw [c3]; exact a7⟩

theorem BoxOnly.links_of {t t' : Tree} (h : BoxOnly t t') (hl : Links t) : Links t' := by
  intro p n' hn'
  obtain ⟨n, hn, hnn⟩ := h.pt' hn'
  obtain ⟨h1, h2, h3⟩ := hl p n hn
  rw [hnn]
  refine ⟨h1, ?_, ?_⟩
  · intro q hq
    obtain ⟨pn, a1, a2, a3, a4⟩ := h2 q hq
    obtain ⟨b, hb⟩ := h.pt q pn a1
    exact ⟨_, hb, a2, a3, a4⟩
  · intro hb
    obtain ⟨l, r, ln, rn, a1, a2, a3, a4, a5, a6, a7⟩ := h3 hb
    obtain ⟨bl, hbl⟩ := h.pt l ln a4
    obtain ⟨br, hbr⟩ := h.pt r rn a5
    exact ⟨l, r, _, _, a1, a2, a3, hbl, hbr, a6, a7⟩

/-- A child is not its own parent. -/
theorem Links.parent_ne {t : Tree} (h : Links t) {p q : Nat} {n : Node}
    (hn : t.nodes[p]? = some n) (hq : n.Parent = some q) : q ≠ p := by
  intro e
  subst e
  obtain ⟨pn, a1, _, a3, _⟩ := (h q n hn).parent q hq
  rw [hn] at a1; cases a1
  omega

/-- The parent of a child of `z` is `z`. -/
theorem Links.child_parent {t : Tree} (h : Links t) {z c : Nat} {nz : Node}
    (hz : t.nodes[z]? = some nz) (hb : nz.BucketIndex = -1)
    (hc : nz.Left = some c ∨ nz.Right = some c) :
    ∃ cn, t.nodes[c]? = some cn ∧ cn.Parent = some z := by
  obtain ⟨l, r, ln, rn, a1, a2, _, a4, a5, a6, a7⟩ := (h z nz hz).branch hb
  rcases hc with hc | hc
  · rw [a1] at hc; cases hc; exact ⟨ln, a4, a6⟩
  · rw [a2] at hc; cases hc; exact ⟨rn, a5, a7⟩

/-- After the box of the branch `cur` is set to the union of its children's
boxes, every branch but the parent of `cur` has the right box. -/
theorem BranchBoxOK.fix {t : Tree} (hl : Links t) {cur : Nat} {n : Node} {l r : Nat}
    {ln rn : Node} (hn : t.nodes[cur]? = some n) (hb : n.BucketIndex = -1)
    (hL : n.Left = some l) (hR : n.Right = some r) (hln : t.nodes[l]? = some ln)
    (hrn : t.nodes[r]? = some rn) (h : BranchBoxOK t (some cur)) :
    BranchBoxOK (t.setNode cur { n with Box := ln.Box.Expand rn.Box }) n.Parent := by
  intro z nz l' r' ln' rn' hex hnz hbz hl' hr' hln' hrn'
  have hne : ∀ c, (nz.Left = some c ∨ nz.Right = some c) → c ≠ cur ∨ z = cur := by
    intro c hc
    by_cases hzc : z = cur
    · exact Or.inr hzc
    · left
      intro e
      subst e
      rw [Tree.setNode_get_ne _ _ (Ne.symm hzc)] at hnz
      obtain ⟨cn, c1, c2⟩ := hl.child_parent hnz hbz hc
      rw [hn] at c1; cases c1
      exact hex c2.symm
  by_cases hzc : z = cur
  · subst hzc
    rw [Tree.setNode_get_self _ hn] at hnz
    cases hnz
    simp only at hl' hr'
    rw [hL] at hl'; rw [hR] at hr'
    cases hl'; cases hr'
    obtain ⟨cl, c1, c2⟩ := hl.child_parent hn hb (Or.inl hL)
    obtain ⟨cr, d1, d2⟩ := hl.child_parent hn hb (Or.inr hR)
    have n1 := hl.parent_ne c1 c2
    have n2 := hl.parent_ne d1 d2
    rw [Tree.setNode_get_ne _ _ n1] at hln'
    rw [Tree.setNode_get_ne _ _ n2] at hrn'
    rw [hln] at hln'; rw [hrn] at hrn'
    cases hln'; cases hrn'
    rfl
  · rw [Tree.setNode_get_ne _ _ (Ne.symm hzc)] at hnz
    have n1 : l' ≠ cur := (hne l' (Or.inl hl')).resolve_right hzc
    have n2 : r' ≠ cur := (hne r' (Or.inr hr')).resolve_right hzc
    rw [Tree.setNode_get_ne _ _ (Ne.symm n1)] at hln'
    rw [Tree.setNode_get_ne _ _ (Ne.symm n2)] at hrn'
    exact h z nz l' r' ln' rn' (by simpa using hzc) hnz hbz hl' hr' hln' hrn'

theorem ChildRefit_spec : ∀ (fuel : Nat) (t : Tree) (cur : Nat) (n : Node),
    Links t → t.nodes[cur]? = some n → n.BucketIndex = -1 → n.Depth < fuel →
    BranchBoxOK t (some cur) →
    ∃ t', ChildRefit fuel t cur true = Res.ok t' ∧ BoxOnly t t' ∧ BranchBoxOK t' none := by
  intro fuel
  induction fuel with
  | zero =>
    intro t cur n hl hn _ hd _
    have := (hl cur n hn).depth_nonneg
    omega
  | succ fuel ih =>
    intro t cur n hl hn hb hd hbox
    obtain ⟨l, r, ln, rn, a1, a2, _, a4, a5, _, _⟩ := (hl cur n hn).branch hb
    have hfix := BranchBoxOK.fix hl hn hb a1 a2 a4 a5 hbox
    have hbo := BoxOnly.setNode_box hn hb (ln.Box.Expand rn.Box)
    have hl1 := hbo.links_of hl
    have hpar := (hl cur n hn).parent
    have hq := fun q => hl.parent_ne (q := q) hn
    rcases n with ⟨box, par, left, right, depth, idx, bi, st⟩
    simp only at a1 a2 hb hd hfix hbo hl1 hpar hq
    subst a1 a2 hb
    simp only [ChildRefit, Tree.node_eq hn, Tree.node_eq a4, Tree.node_eq a5,
      Res.ok_bind, deref_some, Res.pure_eq]
    cases par with
    | none => exact ⟨_, rfl, hbo, hfix⟩
    | some q =>
      simp only [Bool.not_true, Bool.false_eq_true, ↓reduceIte]
      obtain ⟨pn, b1, b2, b3, _⟩ := hpar q rfl
      have hq1 := Tree.setNode_get_ne t
        (⟨ln.Box.Expand rn.Box, some q, some l, some r, depth, idx, -1, st⟩ : Node)
        (Ne.symm (hq q rfl))
      rw [b1] at hq1
      obtain ⟨t', c1, c2, c3⟩ := ih _ q pn hl1 hq1 b2 (by omega) hfix
      exact ⟨t', c1, hbo.trans c2, c3⟩

theorem BoundingBox.Expand_alg1 (a r c : BoundingBox) :
    (a.Expand r).Expand (a.Expand c) = (a.Expand c).Expand r := by
  rw [BoundingBox.Expand_assoc, ← BoundingBox.Expand_assoc r a c, BoundingBox.Expand_comm r a,
    BoundingBox.Expand_assoc a r c, ← BoundingBox.Expand_assoc a a, BoundingBox.Expand_self,
    BoundingBox.Expand_comm r c, BoundingBox.Expand_assoc]

theorem BoundingBox.Expand_alg2 (l a c : BoundingBox) :
    (l.Expand a).Expand (a.Expand c) = l.Expand (a.Expand c) := by
  rw [BoundingBox.Expand_assoc, ← BoundingBox.Expand_assoc a a c, BoundingBox.Expand_self]

theorem ExpandParentVolume_spec : ∀ (fuel : Nat) (t : Tree) (q c : Nat) (qn cn : Node),
    Links t → t.nodes[q]? = some qn → qn.BucketIndex = -1 → t.nodes[c]? = some cn →
    cn.Parent = some q → qn.Depth < fuel → BranchBoxOK t (some q) →
    (∀ (l r : Nat) (ln rn : Node), qn.Left = some l → qn.Right = some r →
      t.nodes[l]? = some ln → t.nodes[r]? = some rn →
      qn.Box.Expand cn.Box = ln.Box.Expand rn.Box) →
    ∃ t', ExpandParentVolume fuel t q c = Res.ok t' ∧ BoxOnly t t' ∧ BranchBoxOK t' none := by
  intro fuel
  induction fuel with
  | zero =>
    intro t q c qn cn hl hq _ _ _ hd _ _
    have := (hl q qn hq).depth_nonneg
    omega
  | succ fuel ih =>
    intro t q c qn cn hl hq hb hc hcp hd hbox halm
    obtain ⟨l, r, ln, rn, a1, a2, a3, a4, a5, a6, a7⟩ := (hl q qn hq).branch hb
    have hE := halm l r ln rn a1 a2 a4 a5
    have hfix := BranchBoxOK.fix hl hq hb a1 a2 a4 a5 hbox
    have hbo := BoxOnly.setNode_box hq hb (ln.Box.Expand rn.Box)
    have hl1 := hbo.links_of hl
    have hpar := (hl q qn hq).parent
    have hne := fun g => hl.parent_ne (q := g) hq
    have hsame := Tree.setNode_same hq
    rcases qn with ⟨box, par, left, right, depth, idx, bi, st⟩
    simp only at a1 a2 hb hd hfix hbo hl1 hpar hne hE hsame
    subst a1 a2 hb
    simp only [ExpandParentVolume, Tree.node_eq hq, Tree.node_eq hc, Res.ok_bind, Res.pure_eq,
      expandBy_fst, expandBy_snd, hE]
    cases par with
    | none =>
      simp only [Option.isSome_none, Bool.and_false, Bool.false_eq_true, ↓reduceIte]
      exact ⟨_, rfl, hbo, hfix⟩
    | some g =>
      simp only [Option.isSome_some, Bool.and_true, decide_eq_true_eq, deref_some, Res.ok_bind]
      obtain ⟨gn, b1, b2, b3, b4⟩ := hpar g rfl
      have hgq : g ≠ q := hne g rfl
      by_cases hch : ln.Box.Expand rn.Box = box
      · -- nothing moved: the walk stops, and the tree is unchanged
        rw [if_neg (by simpa using hch)]
        refine ⟨_, rfl, hbo, ?_⟩
        rw [hch, hsame]
        intro z nz l' r' ln' rn' _ hnz hbz hl' hr' hln' hrn'
        by_cases hzq : z = q
        · subst hzq
          rw [hq] at hnz; cases hnz
          cases hl'; cases hr'
          rw [a4] at hln'; rw [a5] at hrn'
          cases hln'; cases hrn'
          exact hch.symm
        · exact hbox z nz l' r' ln' rn' (by simpa using hzq) hnz hbz hl' hr' hln' hrn'
      · rw [if_pos (by simpa using hch)]
        have hg1 := Tree.setNode_get_ne t
          (⟨ln.Box.Expand rn.Box, some g, some l, some r, depth, idx, -1, st⟩ : Node)
          (Ne.symm hgq)
        rw [b1] at hg1
        have hq1 := Tree.setNode_get_self
          (⟨ln.Box.Expand rn.Box, some g, some l, some r, depth, idx, -1, st⟩ : Node) hq
        obtain ⟨t', c1, c2, c3⟩ := ih _ g q gn _ hl1 hg1 b2 hq1 rfl (by omega) hfix (by
          intro l' r' ln' rn' hl' hr' hln' hrn'
          obtain ⟨l0, r0, ln0, rn0, d1, d2, d3, d4, d5, _, _⟩ := (hl g gn b1).branch b2
          have e1 : l0 = l' := by rw [d1] at hl'; exact Option.some.inj hl'
          have e2 : r0 = r' := by rw [d2] at hr'; exact Option.some.inj hr'
          subst e1 e2
          have hgb := hbox g gn l0 r0 ln0 rn0 (by simpa using hgq) b1 b2 d1 d2 d4 d5
          simp only
          rw [hgb, ← hE]
          rcases b4 with b4 | b4
          · have e3 : l0 = q := by rw [d1] at b4; exact Option.some.inj b4
            subst e3
            rw [hq] at d4
            rw [hq1] at hln'
            rw [Tree.setNode_get_ne _ _ d3, d5] at hrn'
            cases d4; cases hln'; cases hrn'
            simp only
            rw [← hE]
            exact BoundingBox.Expand_alg1 _ _ _
          · have e3 : r0 = q := by rw [d2] at b4; exact Option.some.inj b4
            subst e3
            rw [hq] at d5
            rw [hq1] at hrn'
            rw [Tree.setNode_get_ne _ _ (Ne.symm d3), d4] at hln'
            cases d5; cases hln'; cases hrn'
            simp only
            rw [← hE]
            exact BoundingBox.Expand_alg2 _ _ _)
        exact ⟨t', c1, hbo.trans c2, c3⟩

theorem Tree.setNode_setNode (t : Tree) (p : Nat) (a b : Node) :
    (t.setNode p a).setNode p b = t.setNode p b := by
  simp [Tree.setNode]

theorem ExpandVolume_eq (fuel : Nat) (w : World) (t : Tree) (p : Nat) (e : Entity) {n : Node}
    (hn : t.nodes[p]? = some n) :
    ExpandVolume fuel t p w.round64 (w.Position e) (w.Radius e) =
      if n.Box.Expand (BoxFromEntity w e) ≠ n.Box ∧ n.Parent.isSome then
        (deref n.Parent >>= fun q =>
          ExpandParentVolume fuel
            (t.setNode p { n with Box := n.Box.Expand (BoxFromEntity w e) }) q p)
      else Res.ok (t.setNode p { n with Box := n.Box.Expand (BoxFromEntity w e) }) := by
  have h1 : ExpandVolume fuel t p w.round64 (w.Position e) (w.Radius e) =
      (t.node p >>= fun n =>
        let r := expandBy n.Box (BoxFromEntity w e)
        let t := t.setNode p { n with Box := r.1 }
        if r.2 && n.Parent.isSome then
          deref n.Parent >>= fun q => ExpandParentVolume fuel t q p
        else pure t) := rfl
  rw [h1, Tree.node_eq hn]
  simp only [Res.ok_bind, expandBy_fst, expandBy_snd, Bool.and_eq_true, decide_eq_true_eq,
    Res.pure_eq]

theorem ComputeVolume_single {fuel : Nat} {w : World} {t : Tree} {p : Nat} {n : Node}
    {x : Entity} (hn : t.nodes[p]? = some n)
    (hb : t.bucket (n.BucketIndex - 1) = Res.ok [x]) :
    ComputeVolume fuel w t p = Res.ok (t.setNode p { n with Box := BoxFromEntity w x }) := by
  have h1 : n.AssignVolume w.round64 (w.Position x) (w.Radius x) =
      { n with Box := BoxFromEntity w x } := rfl
  have h2 := Tree.setNode_get_self ({ n with Box := BoxFromEntity w x } : Node) hn
  simp only [ComputeVolume, Tree.node_eq hn, hb, Res.ok_bind, h1, ComputeVolume.loop,
    ExpandVolume_eq fuel w _ p x h2, BoundingBox.Expand_self, ne_eq, not_true_eq_false,
    false_and, ↓reduceIte, Tree.setNode_setNode]

theorem RefitVolume_two (fuel : Nat) (w : World) {t : Tree} {p : Nat} {n : Node}
    {a e : Entity} (hl : Links t) (hn : t.nodes[p]? = some n) (hleaf : n.BucketIndex ≠ -1)
    (hb : t.bucket (n.BucketIndex - 1) = Res.ok [a, e]) (hbox : n.Box = BoxFromEntity w a)
    (hbr : BranchBoxOK t none) (hd : n.Depth < fuel) :
    ∃ t' c, RefitVolume fuel w t p = Res.ok (t', c) ∧
      BoxOnly (t.setNode p
        { n with Box := (BoxFromEntity w a).Expand (BoxFromEntity w e) }) t' ∧
      BranchBoxOK t' none := by
  have hpar := (hl p n hn).parent
  have hne := fun g => hl.parent_ne (q := g) hn
  have hlk : Links (t.setNode p
      { n with Box := (BoxFromEntity w a).Expand (BoxFromEntity w e) }) :=
    hl.setNode hn rfl rfl rfl rfl rfl
  have hn1 := Tree.setNode_get_self
    ({ n with Box := (BoxFromEntity w a).Expand (BoxFromEntity w e) } : Node) hn
  rcases n with ⟨box, par, left, right, depth, idx, bi, st⟩
  simp only at hleaf hb hbox hd hpar hne hlk hn1
  subst hbox
  have h1 : (⟨BoxFromEntity w a, par, left, right, depth, idx, bi, st⟩ : Node).AssignVolume
      w.round64 (w.Position a) (w.Radius a) = ⟨BoxFromEntity w a, par, left, right, depth, idx, bi, st⟩ := rfl
  -- a branch other than the parent of `p` does not see the write at `p`
  have hbr1 : BranchBoxOK (t.setNode p
      ⟨(BoxFromEntity w a).Expand (BoxFromEntity w e), par, left, right, depth, idx, bi, st⟩)
      par := by
    intro z nz l' r' ln' rn' hex hnz hbz hl' hr' hln' hrn'
    have hzp : z ≠ p := by
      intro e1; subst e1
      rw [hn1] at hnz; cases hnz
      exact hleaf hbz
    rw [Tree.setNode_get_ne _ _ (Ne.symm hzp)] at hnz
    have hc : ∀ c, (nz.Left = some c ∨ nz.Right = some c) → c ≠ p := by
      intro c hc e1
      subst e1
      obtain ⟨cn, c1, c2⟩ := hl.child_parent hnz hbz hc
      rw [hn] at c1; cases c1
      exact hex c2.symm
    rw [Tree.setNode_get_ne _ _ (Ne.symm (hc l' (Or.inl hl')))] at hln'
    rw [Tree.setNode_get_ne _ _ (Ne.symm (hc r' (Or.inr hr')))] at hrn'
    exact hbr z nz l' r' ln' rn' (by simp) hnz hbz hl' hr' hln' hrn'
  simp only [RefitVolume, ComputeVolume, Tree.node_eq hn, hb, Res.ok_bind, h1,
    Tree.setNode_same hn, ComputeVolume.loop]
  rw [ExpandVolume_eq fuel w t p a hn]
  simp only [BoundingBox.Expand_self, ne_eq, not_true_eq_false, false_and, ↓reduceIte,
    Res.ok_bind]
  rw [Tree.setNode_same hn, ExpandVolume_eq fuel w t p e hn]
  simp only
  by_cases hch : (BoxFromEntity w a).Expand (BoxFromEntity w e) = BoxFromEntity w a
  · -- the box did not grow
    simp only [hch, ne_eq, not_true_eq_false, false_and, ↓reduceIte, Res.ok_bind, Res.pure_eq]
    rw [Tree.setNode_same hn]
    simp only [Tree.node_eq hn, Res.ok_bind, BoundingBox.Equals_eq, decide_True, Bool.not_true,
      Bool.false_eq_true, ↓reduceIte, Res.pure_eq]
    exact ⟨_, _, rfl, BoxOnly.refl _, hbr⟩
  · cases par with
    | none =>
      simp only [ne_eq, hch, not_false_eq_true, Option.isSome_none, Bool.false_eq_true,
        and_false, ↓reduceIte, Res.ok_bind, Tree.node_eq hn1, BoundingBox.Equals_eq,
        decide_False, Bool.not_false, Res.pure_eq]
      exact ⟨_, _, rfl, BoxOnly.refl _, hbr1⟩
    | some q =>
      obtain ⟨qn, b1, b2, b3, b4⟩ := hpar q rfl
      have hqp : q ≠ p := hne q rfl
      have hq1 := Tree.setNode_get_ne t (⟨(BoxFromEntity w a).Expand (BoxFromEntity w e),
        some q, left, right, depth, idx, bi, st⟩ : Node) (Ne.symm hqp)
      rw [b1] at hq1
      obtain ⟨t2, c1, c2, c3⟩ := ExpandParentVolume_spec fuel _ q p qn _ hlk hq1 b2 hn1 rfl
        (by omega) hbr1 (by
          intro l' r' ln' rn' hl' hr' hln' hrn'
          obtain ⟨l0, r0, ln0, rn0, d1, d2, d3, d4, d5, _, _⟩ := (hl q qn b1).branch b2
          have e1 : l0 = l' := by rw [d1] at hl'; exact Option.some.inj hl'
          have e2 : r0 = r' := by rw [d2] at hr'; exact Option.some.inj hr'
          subst e1 e2
          have hgb := hbr q qn l0 r0 ln0 rn0 (by simp) b1 b2 d1 d2 d4 d5
          rw [hgb]
          rcases b4 with b4 | b4
          · have e3 : l0 = p := by rw [d1] at b4; exact Option.some.inj b4
            subst e3
            rw [hn] at d4
            rw [hn1] at hln'
            rw [Tree.setNode_get_ne _ _ d3, d5] at hrn'
            cases d4; cases hln'; cases hrn'
            exact BoundingBox.Expand_alg1 _ _ _
          · have e3 : r0 = p := by rw [d2] at b4; exact Option.some.inj b4
            subst e3
            rw [hn] at d5
            rw [hn1] at hrn'
            rw [Tree.setNode_get_ne _ _ (Ne.symm d3), d4] at hln'
            cases d5; cases hln'; cases hrn'
            exact BoundingBox.Expand_alg2 _ _ _)
      have hn2 := c2.leaf p _ hn1 hleaf
      obtain ⟨bq, hq2⟩ := c2.pt q qn hq1
      obtain ⟨t3, e1, e2, e3⟩ := ChildRefit_spec fuel t2 q _ (c2.links_of hlk) hq2 b2
        (by simp only; omega) (fun z nz l' r' ln' rn' _ => c3 z nz l' r' ln' rn' (by simp))
      simp only [ne_eq, hch, not_false_eq_true, Option.isSome_some, and_self, ↓reduceIte,
        deref_some, Res.ok_bind, c1, Tree.node_eq hn2, BoundingBox.Equals_eq, decide_False,
        Bool.not_false, e1, Res.pure_eq]
      exact ⟨_, _, rfl, c2.trans e2, e3⟩

theorem SliceStable_two (key : Entity → ℚ) (a e : Entity) :
    SliceStable key [a, e] = if key a ≤ key e then [a, e] else [e, a] := by
  simp [SliceStable, List.insertionSort, List.orderedInsert]

theorem list_get_append_last {α : Type} (l : List α) (a : α) : (l ++ [a])[l.length]? = some a := by
  simp

theorem list_get_append_lt {α : Type} {l : List α} (l2 : List α) {i : Nat} {a : α}
    (h : l[i]? = some a) : (l ++ l2)[i]? = some a := by
  rw [List.getElem?_append_left (lt_of_get h)]; exact h

theorem list_set_append_last {α : Type} (l : List α) (a b : α) :
    (l ++ [a]).set l.length b = l ++ [b] := by
  induction l with
  | nil => rfl
  | cons x xs ih => simp [ih]

theorem list_set_append_lt {α : Type} {l : List α} (l2 : List α) {i : Nat} (b : α)
    (h : i < l.length) : (l ++ l2).set i b = l.set i b ++ l2 := by
  induction l generalizing i with
  | nil => simp at h
  | cons x xs ih =>
    cases i with
    | zero => rfl
    | succ i => simp [ih (Nat.lt_of_succ_lt_succ h)]

theorem TryImproveAxis_two (w : World) (s : SplitAxisOpt) (a : Dyntree.Axis) {u v : Entity}
    (hi : s.Items = [u, v]) (hs : s.SplitIndex = 1) (key : Entity → ℚ)
    (hk : (if a = X then SliceStable (fun e => (w.Position e).X) s.Items
      else if a = Y then SliceStable (fun e => (w.Position e).Y) s.Items
      else if a = Z then SliceStable (fun e => (w.Position e).Z) s.Items
      else s.Items) = SliceStable key s.Items) :
    ∃ s', s.TryImproveAxis w a = Res.ok s' ∧ s'.Items = SliceStable key [u, v] ∧
      s'.SplitIndex = 1 := by
  unfold SplitAxisOpt.TryImproveAxis
  rw [hk, hi, SliceStable_two]
  split_ifs with h1 <;>
    simp [EntitiesSurfaceArea, EntitiesSurfaceArea.loop, index, SplitAxisOpt.LeftStartIndex,
      SplitAxisOpt.LeftItemCount, SplitAxisOpt.LeftEndIndex, SplitAxisOpt.RightStartIndex,
      SplitAxisOpt.RightItemCount, SplitAxisOpt.RightEndIndex, hs] <;>
    split_ifs <;> simp [hs]

theorem sorted3_two (w : World) (a e : Entity) :
    sorted3 w [a, e] = [a, e] ∨ sorted3 w [a, e] = [e, a] := by
  have key : ∀ (k : Entity → ℚ) (l : List Entity), (l = [a, e] ∨ l = [e, a]) →
      (SliceStable k l = [a, e] ∨ SliceStable k l = [e, a]) := by
    intro k l hl
    rcases hl with hl | hl <;> subst hl <;> rw [SliceStable_two] <;> split_ifs <;> simp
  exact key _ _ (key _ _ (key _ _ (Or.inl rfl)))

theorem TryImproveAxis_three (w : World) (a e : Entity) :
    ∃ s, ((({ Axis := 0, Items := [a, e], SplitIndex := 1, SA := 0, HasValue := false } :
        SplitAxisOpt).TryImproveAxis w X >>= fun s => s.TryImproveAxis w Y) >>=
        fun s => s.TryImproveAxis w Z) = Res.ok s ∧ s.Items = sorted3 w [a, e] ∧
      s.SplitIndex = 1 := by
  obtain ⟨s1, h1, i1, j1⟩ := TryImproveAxis_two w
    { Axis := 0, Items := [a, e], SplitIndex := 1, SA := 0, HasValue := false } X
    (u := a) (v := e) rfl rfl (fun e => (w.Position e).X) (by simp [X])
  have hx : ∃ u v, SliceStable (fun e => (w.Position e).X) [a, e] = [u, v] := by
    rw [SliceStable_two]; split_ifs <;> exact ⟨_, _, rfl⟩
  obtain ⟨u, v, hx⟩ := hx
  rw [hx] at i1
  obtain ⟨s2, h2, i2, j2⟩ := TryImproveAxis_two w s1 Y i1 j1 (fun e => (w.Position e).Y)
    (by simp [X, Y])
  have hy : ∃ u' v', SliceStable (fun e => (w.Position e).Y) [u, v] = [u', v'] := by
    rw [SliceStable_two]; split_ifs <;> exact ⟨_, _, rfl⟩
  obtain ⟨u', v', hy⟩ := hy
  rw [hy] at i2
  obtain ⟨s3, h3, i3, j3⟩ := TryImproveAxis_two w s2 Z i2 j2 (fun e => (w.Position e).Z)
    (by simp [X, Y, Z])
  refine ⟨s3, ?_, ?_, j3⟩
  · rw [h1, Res.ok_bind, h2, Res.ok_bind, h3]
  · rw [i3, sorted3, hx, hy]

theorem CreateNode_fresh {t : Tree} (bi : Int) (hb : bi ≠ -1) (hf : t.unusedNodeIndicies = []) :
    CreateNode t bi = Res.ok
      ({ t with nodes := t.nodes ++
          [{ Node.zero with NodeIndex := (t.nodes.length : Int) + 1, BucketIndex := bi }] },
        t.nodes.length) := by
  simp [CreateNode, hf, Tree.node, hb, Tree.setNode, list_set_append_last]

theorem CreateNode_fresh_bucket {t : Tree} (hf : t.unusedNodeIndicies = [])
    (hfb : t.unusedBucketIndicies = []) :
    CreateNode t (-1) = Res.ok
      ({ t with
          nodes := t.nodes ++
            [{ Node.zero with NodeIndex := (t.nodes.length : Int) + 1,
                              BucketIndex := (t.Buckets.length : Int) + 1 }]
          Buckets := t.Buckets ++ [[]] },
        t.nodes.length) := by
  simp [CreateNode, hf, Tree.node, Tree.setNode, list_set_append_last, GetOrCreateFreeBucket, hfb]

theorem TryImproveAxis_chain (w : World) (s0 : SplitAxisOpt) {a e : Entity}
    (hi : s0.Items = [a, e]) (hs : s0.SplitIndex = 1) :
    ∃ s, s.Items = sorted3 w [a, e] ∧ s.SplitIndex = 1 ∧
      ∀ {β : Type} (f : SplitAxisOpt → Res β),
        (s0.TryImproveAxis w X >>= fun s1 => s1.TryImproveAxis w Y >>= fun s2 =>
          s2.TryImproveAxis w Z >>= f) = f s := by
  obtain ⟨s1, h1, i1, j1⟩ := TryImproveAxis_two w s0 X hi hs (fun e => (w.Position e).X)
    (by simp [X])
  have hx : ∃ u v, SliceStable (fun e => (w.Position e).X) [a, e] = [u, v] := by
    rw [SliceStable_two]; split_ifs <;> exact ⟨_, _, rfl⟩
  obtain ⟨u, v, hx⟩ := hx
  rw [hx] at i1
  obtain ⟨s2, h2, i2, j2⟩ := TryImproveAxis_two w s1 Y i1 j1 (fun e => (w.Position e).Y)
    (by simp [X, Y])
  have hy : ∃ u' v', SliceStable (fun e => (w.Position e).Y) [u, v] = [u', v'] := by
    rw [SliceStable_two]; split_ifs <;> exact ⟨_, _, rfl⟩
  obtain ⟨u', v', hy⟩ := hy
  rw [hy] at i2
  obtain ⟨s3, h3, i3, j3⟩ := TryImproveAxis_two w s2 Z i2 j2 (fun e => (w.Position e).Z)
    (by simp [X, Y, Z])
  refine ⟨s3, ?_, j3, ?_⟩
  · rw [i3, sorted3, hx, hy]
  · intro β f
    rw [h1, Res.ok_bind, h2, Res.ok_bind, h3, Res.ok_bind]

theorem Tree.ite_maxDepth (t : Tree) (c : Prop) [Decidable c] (d : Int) :
    (if c then { t with maxDepth := d } else t) =
      { t with maxDepth := if c then d else t.maxDepth } := by
  split_ifs <;> rfl

theorem LEFT_ne_RIGHT : (LEFT = RIGHT) = False := by decide

theorem Tree.bucket_congr {t t' : Tree} (h : t'.Buckets = t.Buckets) (i : Int) :
    t'.bucket i = t.bucket i := by
  simp only [Tree.bucket, h]

theorem Tree.setBucket_eq {t : Tree} {i : Int} {b : List Entity} (c : List Entity)
    (h : t.bucket i = Res.ok b) :
    t.setBucket i c = Res.ok { t with Buckets := t.Buckets.set i.toNat c } := by
  obtain ⟨h0, h1⟩ := Tree.bucket_eq h
  simp [Tree.setBucket, h0, lt_of_get h1]

theorem Tree.bucket_set_self {t : Tree} {i : Int} {b : List Entity} (c : List Entity)
    (h : t.bucket i = Res.ok b) (ns : List Node) (lf : Entity → Option Nat) (md : Int) :
    ({ t with Buckets := t.Buckets.set i.toNat c, nodes := ns, leafs := lf,
              maxDepth := md } : Tree).bucket i = Res.ok c := by
  obtain ⟨h0, h1⟩ := Tree.bucket_eq h
  simp [Tree.bucket, index, h0, lt_of_get h1]

theorem index_set_self {α : Type} {l : List α} {i : Int} (c : α) (h0 : 0 ≤ i)
    (hl : i.toNat < l.length) : index (l.set i.toNat c) i = Res.ok c := by
  simp only [index, h0, ↓reduceIte, List.getElem?_set_self hl]

theorem index_eq_of_get {α : Type} {l : List α} {i : Int} {c : α} (h0 : 0 ≤ i)
    (h : l[i.toNat]? = some c) : index l i = Res.ok c := by
  simp only [index, h0, ↓reduceIte, h]

theorem SplitIfNecessary_one {fuel : Nat} {w : World} {t : Tree} {p : Nat} {n : Node}
    {b : List Entity} (hn : t.nodes[p]? = some n)
    (hb : t.bucket (n.BucketIndex - 1) = Res.ok b) (hm : (b.length : Int) ≤ t.maxLeaves) :
    SplitIfNecessary (fuel + 1) w t p = Res.ok t := by
  have h0 : n.BucketIndex ≥ 0 := by have := (Tree.bucket_eq hb).1; omega
  simp only [SplitIfNecessary, ItemCount, Tree.node, hn, Res.ok_bind, h0, ↓reduceIte, hb,
    Res.pure_eq, gt_iff_lt, not_lt.mpr hm]

theorem CreateNodeFromSplit_left {fuel : Nat} {w : World} {t : Tree} {parent : Nat}
    {split : SplitAxisOpt} {depth bi : Int} {x y : Entity}
    (hfn : t.unusedNodeIndicies = []) (hm : t.maxLeaves = 1) (hi : split.Items = [x, y])
    (hs : split.SplitIndex = 1) (hb : t.bucket (bi - 1) = Res.ok [x, y]) :
    CreateNodeFromSplit (fuel + 2) w t parent split LEFT depth bi = Res.ok
      ({ t with
          nodes := t.nodes ++
            [{ Box := BoxFromEntity w x, Parent := some parent, Left := none, Right := none,
               Depth := depth, NodeIndex := (t.nodes.length : Int) + 1, BucketIndex := bi,
               State := 0 }]
          Buckets := t.Buckets.set (bi - 1).toNat [x]
          leafs := fun z => if z = x then some t.nodes.length else t.leafs z
          maxDepth := if t.maxDepth < depth then depth else t.maxDepth },
        t.nodes.length) := by
  obtain ⟨hb0, hb1⟩ := Tree.bucket_eq hb
  have hbl := lt_of_get hb1
  have hbi : bi ≠ -1 := by omega
  have hsl : slice [x, y] 0 (1 - 1 + 1) = Res.ok [x] := by
    simp [slice]
  have hcnt : ((1 : Int) - 1 - 0 + 1 ≤ (([x, y] : List Entity).length : Int)) = True := by
    simp
  have hlen : ((([x, y] : List Entity).length < 1) : Prop) = False := by simp
  have hr : ((1 : Int) - 1 + 1 - 0).toNat = 1 := by decide
  have hc1 : ((1 : Int) - 1 - 0 + 1 ≤ 1) = True := by simp
  have hb2 : index t.Buckets (bi - 1) = Res.ok [x, y] := hb
  have hx0 : index [x, y] 0 = Res.ok x := rfl
  simp only [CreateNodeFromSplit, CreateNode_fresh bi hbi hfn, Res.ok_bind, Tree.update,
    Tree.node, list_get_append_last, Tree.setNode, list_set_append_last, Node.zero,
    Tree.ite_maxDepth, hi, LEFT_ne_RIGHT, ↓reduceIte,
    SplitAxisOpt.LeftStartIndex, SplitAxisOpt.LeftEndIndex, hs, Res.pure_eq, hlen,
    true_and, hsl, Tree.setBucket, hb0, hbl, and_self,
    hr, MapLeaf.range, MapLeaf, hm, hc1, Tree.bucket, hb2, hcnt, hx0]
  rw [ComputeVolume_single (x := x) (list_get_append_last _ _)
    (by exact index_set_self _ hb0 hbl)]
  simp only [Res.ok_bind, Tree.setNode, list_set_append_last]
  rw [SplitIfNecessary_one (b := [x]) (list_get_append_last _ _)
    (by exact index_set_self _ hb0 hbl) (by simp)]
  simp only [Res.ok_bind]

theorem RIGHT_ne_LEFT : (RIGHT = LEFT) = False := by decide

theorem index_append_last {α : Type} (l : List α) (c : α) :
    index (l ++ [c]) ((l.length : Int) + 1 - 1) = Res.ok c := by
  have h : ((l.length : Int) + 1 - 1).toNat = l.length := by omega
  simp only [index, h, list_get_append_last]
  rw [if_pos (by omega)]

theorem CreateNodeFromSplit_right {fuel : Nat} {w : World} {t : Tree} {parent : Nat}
    {split : SplitAxisOpt} {depth : Int} {x y : Entity}
    (hfn : t.unusedNodeIndicies = []) (hfb : t.unusedBucketIndicies = [])
    (hm : t.maxLeaves = 1) (hi : split.Items = [x, y]) (hs : split.SplitIndex = 1) :
    CreateNodeFromSplit (fuel + 2) w t parent split RIGHT depth (-1) = Res.ok
      ({ t with
          nodes := t.nodes ++
            [{ Box := BoxFromEntity w y, Parent := some parent, Left := none, Right := none,
               Depth := depth, NodeIndex := (t.nodes.length : Int) + 1,
               BucketIndex := (t.Buckets.length : Int) + 1, State := 0 }]
          Buckets := t.Buckets ++ [[y]]
          leafs := fun z => if z = y then some t.nodes.length else t.leafs z
          maxDepth := if t.maxDepth < depth then depth else t.maxDepth },
        t.nodes.length) := by
  have hsl : slice [x, y] 1 ((([x, y] : List Entity).length : Int) - 1 + 1) = Res.ok [y] := by
    simp [slice]
  have hlen : ((([x, y] : List Entity).length < 1) : Prop) = False := by simp
  have hr : (((([x, y] : List Entity).length : Int) - 1 + 1 - 1)).toNat = 1 := by
    simp only [List.length_cons, List.length_nil]; rfl
  have hc1 : (((([x, y] : List Entity).length : Int) - 1 - 1 + 1 ≤ 1)) = True := by simp
  have hx1 : index [x, y] 1 = Res.ok y := rfl
  have hB : ((t.Buckets.length : Int) + 1 - 1).toNat = t.Buckets.length := by omega
  have hB0 : (0 ≤ (t.Buckets.length : Int) + 1 - 1) = True := by simp
  simp only [CreateNodeFromSplit, CreateNode_fresh_bucket hfn hfb, Res.ok_bind, Tree.update,
    Tree.node, list_get_append_last, Tree.setNode, list_set_append_last, Node.zero,
    Tree.ite_maxDepth, hi, RIGHT_ne_LEFT, ↓reduceIte,
    SplitAxisOpt.RightStartIndex, SplitAxisOpt.RightEndIndex, hs, Res.pure_eq, hlen,
    false_and, hsl, Tree.setBucket, and_self, Tree.bucket, index_append_last,
    hr, MapLeaf.range, MapLeaf, hm, hc1, hx1, List.nil_append, hB, hB0, List.length_append,
    List.length_singleton, Nat.lt_succ_self, true_and]
  rw [ComputeVolume_single (x := y) (list_get_append_last _ _)
    (by simp only [Tree.bucket]; exact index_append_last _ _)]
  simp only [Res.ok_bind, Tree.setNode, list_set_append_last]
  rw [SplitIfNecessary_one (b := [y]) (list_get_append_last _ _)
    (by simp only [Tree.bucket]; exact index_append_last _ _) (by simp)]
  simp only [Res.ok_bind]

theorem list_get_set_append_self {α : Type} {l : List α} (l2 : List α) {i : Nat} (b : α)
    (h : i < l.length) : (l.set i b ++ l2)[i]? = some b := by
  rw [List.getElem?_append_left (by simpa using h)]
  exact List.getElem?_set_self h

theorem list_set_set_append {α : Type} {l : List α} (l2 : List α) {i : Nat} (a b : α)
    (h : i < l.length) : (l.set i a ++ l2).set i b = l.set i b ++ l2 := by
  rw [list_set_append_lt _ _ (by simpa using h), List.set_set]

theorem list_get_set_append_len {α : Type} (l l2 : List α) (i : Nat) (a x : α) :
    (l.set i a ++ x :: l2)[l.length]? = some x := by
  rw [List.getElem?_append_right (by simp)]
  simp

theorem list_get_set_append_len1 {α : Type} (l l2 : List α) (i : Nat) (a x y : α) :
    (l.set i a ++ x :: y :: l2)[l.length + 1]? = some y := by
  rw [List.getElem?_append_right (by simp)]
  simp

/-- The split of a leaf holding two entities: the children take the entities in
the order the three sorts leave them. -/
theorem SplitIfNecessary_sorted (fuel : Nat) (w : World) {t : Tree} {p : Nat} (n : Node)
    {a e : Entity} (hn : t.nodes[p]? = some n)
    (hb : t.bucket (n.BucketIndex - 1) = Res.ok [a, e]) (hm : t.maxLeaves = 1)
    (hfn : t.unusedNodeIndicies = []) (hfb : t.unusedBucketIndicies = []) :
    ∃ x y, (x = a ∧ y = e ∨ x = e ∧ y = a) ∧ sorted3 w [a, e] = [x, y] ∧
      SplitIfNecessary (fuel + 4) w t p = Res.ok (splitResult w t p n a e x y) := by
  obtain ⟨s, hi, hs, hchain⟩ := TryImproveAxis_chain w
    { Axis := 0, Items := [a, e], SplitIndex := ((([a, e] : List Entity).length : Nat) : Int) / 2,
      SA := 0, HasValue := false } (a := a) (e := e) rfl (by norm_num)
  have hxy : ∃ x y, (x = a ∧ y = e ∨ x = e ∧ y = a) ∧ s.Items = [x, y] := by
    rcases sorted3_two w a e with h | h
    · exact ⟨a, e, Or.inl ⟨rfl, rfl⟩, by rw [hi, h]⟩
    · exact ⟨e, a, Or.inr ⟨rfl, rfl⟩, by rw [hi, h]⟩
  obtain ⟨x, y, hxy, hi'⟩ := hxy
  refine ⟨x, y, hxy, by rw [← hi, hi'], ?_⟩
  obtain ⟨hb0, hb1⟩ := Tree.bucket_eq hb
  have hbl := lt_of_get hb1
  have hpl := lt_of_get hn
  have hbi : n.BucketIndex ≥ 0 := by omega
  have h2 : (((([a, e] : List Entity).length : Int) > 1)) = True := by simp
  have hb2 : index t.Buckets (n.BucketIndex - 1) = Res.ok [a, e] := hb
  simp only [SplitIfNecessary, ItemCount, Tree.node, hn, Res.ok_bind, hb, Res.pure_eq, hbi,
    ↓reduceIte, hm, h2]
  simp only [SplitNode, Tree.node, hn, Res.ok_bind, hb, List.foldl, UnmapLeaf]
  rw [hchain]
  simp only [Tree.setBucket, hb0, hbl, and_self, ↓reduceIte, Res.ok_bind, Tree.node, hn, hi']
  have hL := @CreateNodeFromSplit_left fuel w
    { UnmapLeaf (UnmapLeaf t a) e with
      Buckets := t.Buckets.set (n.BucketIndex - 1).toNat [x, y] }
    p s (n.Depth + 1) n.BucketIndex x y hfn hm hi' hs
    (by simp only [Tree.bucket]; exact index_set_self _ hb0 hbl)
  simp only [UnmapLeaf] at hL
  rw [hL]
  simp only [Res.ok_bind, Tree.update, Tree.node, list_get_append_lt _ hn, Tree.setNode,
    Res.pure_eq, list_set_append_lt _ _ hpl, list_get_set_append_self _ _ hpl]
  rw [CreateNodeFromSplit_right (x := x) (y := y) ?_ ?_ ?_ hi' hs]
  rotate_left
  · exact hfn
  · exact hfb
  · exact hm
  simp only [Res.ok_bind, Tree.update, Tree.node, Tree.setNode,
    Res.pure_eq, list_set_append_lt _ _ hpl, list_get_set_append_self _ _ hpl,
    List.append_assoc, List.singleton_append, List.length_append, List.length_set,
    List.length_singleton, List.set_set, list_set_set_append _ _ _ hpl,
    list_get_set_append_len, list_get_set_append_len1]
  have hne1 : (n.BucketIndex != -1) = true := by
    simp only [bne_iff_ne, ne_eq]; omega
  have hne2 : (((t.Buckets.length : Int) + 1) != -1) = true := by
    simp only [bne_iff_ne, ne_eq]; omega
  simp only [Node.IsLeaf, hne1, hne2, bne_self_eq_false, Bool.not_false, Option.isNone_none,
    Bool.and_self, Bool.not_true, Bool.false_eq_true, ↓reduceIte, splitResult, Res.ok.injEq,
    Tree.mk.injEq, true_and, and_true]
  refine ⟨?_, ?_⟩
  · split_ifs <;> rfl
  · simp only [Nat.cast_add, Nat.cast_one]

theorem SplitIfNecessary_two (fuel : Nat) (w : World) {t : Tree} {p : Nat} (n : Node)
    {a e : Entity} (hn : t.nodes[p]? = some n)
    (hb : t.bucket (n.BucketIndex - 1) = Res.ok [a, e]) (hm : t.maxLeaves = 1)
    (hfn : t.unusedNodeIndicies = []) (hfb : t.unusedBucketIndicies = []) :
    ∃ x y, (x = a ∧ y = e ∨ x = e ∧ y = a) ∧
      SplitIfNecessary (fuel + 4) w t p = Res.ok (splitResult w t p n a e x y) := by
  obtain ⟨x, y, h1, _, h3⟩ := SplitIfNecessary_sorted fuel w n hn hb hm hfn hfb
  exact ⟨x, y, h1, h3⟩

/-- The records of the arena after a split, by position. -/
theorem splitResult_nodes (w : World) (t : Tree) (p : Nat) (n : Node) (a e x y : Entity)
    (hp : p < t.nodes.length) (q : Nat) :
    (splitResult w t p n a e x y).nodes[q]? =
      if q = p then some { n with Left := some t.nodes.length, Right := some (t.nodes.length + 1),
                                  BucketIndex := -1 }
      else if q < t.nodes.length then t.nodes[q]?
      else if q = t.nodes.length then
        some { Box := BoxFromEntity w x, Parent := some p, Left := none, Right := none,
               Depth := n.Depth + 1, NodeIndex := (t.nodes.length : Int) + 1,
               BucketIndex := n.BucketIndex, State := 0 }
      else if q = t.nodes.length + 1 then
        some { Box := BoxFromEntity w y, Parent := some p, Left := none, Right := none,
               Depth := n.Depth + 1, NodeIndex := (t.nodes.length : Int) + 1 + 1,
               BucketIndex := (t.Buckets.length : Int) + 1, State := 0 }
      else none := by
  simp only [splitResult]
  by_cases h1 : q = p
  · subst h1
    rw [if_pos rfl]
    exact list_get_set_append_self _ _ hp
  · rw [if_neg h1]
    by_cases h2 : q < t.nodes.length
    · rw [if_pos h2, List.getElem?_append_left (by simpa using h2),
        List.getElem?_set_ne (Ne.symm h1)]
    · rw [if_neg h2, List.getElem?_append_right (by simpa using h2)]
      simp only [List.length_set]
      by_cases h3 : q = t.nodes.length
      · subst h3; simp
      · rw [if_neg h3]
        by_cases h4 : q = t.nodes.length + 1
        · subst h4; simp
        · rw [if_neg h4]
          have : 2 ≤ q - t.nodes.length := by omega
          rw [List.getElem?_eq_none (by simpa using this)]

/-- The buckets after a split, by bucket index. -/
theorem splitResult_bucket (w : World) (t : Tree) (p : Nat) (n : Node) (a e x y : Entity)
    {b0 : List Entity} (hb : t.bucket (n.BucketIndex - 1) = Res.ok b0) (i : Int) :
    (splitResult w t p n a e x y).bucket i =
      if i = n.BucketIndex - 1 then Res.ok [x]
      else if i = (t.Buckets.length : Int) then Res.ok [y]
      else if i < (t.Buckets.length : Int) then t.bucket i
      else Res.panic := by
  obtain ⟨hb0, hb1⟩ := Tree.bucket_eq hb
  have hbl := lt_of_get hb1
  simp only [splitResult, Tree.bucket, index]
  by_cases h0 : 0 ≤ i
  · simp only [h0, ↓reduceIte]
    by_cases h1 : i = n.BucketIndex - 1
    · subst h1
      rw [if_pos rfl, List.getElem?_append_left (by simpa using hbl),
        List.getElem?_set_self hbl]
    · rw [if_neg h1]
      have hne : (n.BucketIndex - 1).toNat ≠ i.toNat := by omega
      by_cases h2 : i = (t.Buckets.length : Int)
      · subst h2
        rw [if_pos rfl, List.getElem?_append_right (by simp)]
        simp
      · rw [if_neg h2]
        by_cases h3 : i < (t.Buckets.length : Int)
        · have h3' : i.toNat < t.Buckets.length := by omega
          rw [if_pos h3, List.getElem?_append_left (by simpa using h3'),
            List.getElem?_set_ne hne]
        · rw [if_neg h3]
          have : 1 ≤ i.toNat - t.Buckets.length := by omega
          rw [List.getElem?_append_right (by simp; omega)]
          simp only [List.length_set]
          rw [List.getElem?_eq_none (by simpa using this)]
  · have h1 : i ≠ n.BucketIndex - 1 := by omega
    have h2 : i ≠ (t.Buckets.length : Int) := by omega
    have h3 : i < (t.Buckets.length : Int) := by omega
    simp only [h0, ↓reduceIte, h1, h2, h3]

/-- Two leaves with the same bucket are the same leaf. -/
theorem Struct.bucket_inj {es : List Entity} {t : Tree} (h : Struct es t) {p q : Nat}
    {n m : Node} (hn : t.nodes[p]? = some n) (hm : t.nodes[q]? = some m)
    (hl : n.BucketIndex ≠ -1) (hl' : m.BucketIndex ≠ -1)
    (hb : m.BucketIndex - 1 = n.BucketIndex - 1) : q = p := by
  obtain ⟨_, _, a, h1, h2⟩ := (h.nodes p n hn).leaf hl
  obtain ⟨_, _, b, h3, h4⟩ := (h.nodes q m hm).leaf hl'
  rw [hb, h1] at h3
  cases h3
  rw [h2] at h4
  exact (Option.some.inj h4).symm

set_option maxHeartbeats 1000000 in
theorem split_inv {w : World} {es : List Entity} {t tB : Tree} {p : Nat} {n : Node}
    {a e x y : Entity} (hI : Inv w es t) (hn : t.nodes[p]? = some n)
    (hleaf : n.BucketIndex ≠ -1) (ha : t.bucket (n.BucketIndex - 1) = Res.ok [a])
    (he : e ∉ es) (hxy : x = a ∧ y = e ∨ x = e ∧ y = a)
    (hB : tB = { t with nodes := tB.nodes,
                        Buckets := t.Buckets.set (n.BucketIndex - 1).toNat [a, e],
                        leafs := fun z => if z = e then some p else t.leafs z })
    (R1 : tB.nodes.length = t.nodes.length)
    (R2 : ∀ (q : Nat) (m0 : Node), t.nodes[q]? = some m0 →
      ∃ b, tB.nodes[q]? = some { m0 with Box := b })
    (R3 : ∀ (q : Nat) (m0 : Node), t.nodes[q]? = some m0 → m0.BucketIndex ≠ -1 → q ≠ p →
      tB.nodes[q]? = some m0)
    (R4 : tB.nodes[p]? =
      some { n with Box := (BoxFromEntity w a).Expand (BoxFromEntity w e) })
    (R5 : BranchBoxOK tB none) :
    Inv w (es ++ [e])
      (splitResult w tB p
        { n with Box := (BoxFromEntity w a).Expand (BoxFromEntity w e) } a e x y) := by
  have hs := hI.struct
  have hN := hs.nodes p n hn
  obtain ⟨hnl, hnr, a', ha1, hla⟩ := hN.leaf hleaf
  rw [ha] at ha1
  cases ha1
  have hae : a ∈ es := (hs.leafs a p hla).1
  have hane : a ≠ e := fun h => he (h ▸ hae)
  have hxne : x ≠ y := by
    rcases hxy with ⟨h1, h2⟩ | ⟨h1, h2⟩ <;> subst h1 h2
    · exact hane
    · exact Ne.symm hane
  have hpl : p < t.nodes.length := lt_of_get hn
  have hplB : p < tB.nodes.length := by rw [R1]; exact hpl
  obtain ⟨hb0, hb1⟩ := Tree.bucket_eq ha
  have hbl := lt_of_get hb1
  have hBb : tB.Buckets = t.Buckets.set (n.BucketIndex - 1).toNat [a, e] := by rw [hB]
  have hBl : tB.leafs = fun z => if z = e then some p else t.leafs z := by rw [hB]
  have hBm : tB.maxDepth = t.maxDepth := by rw [hB]
  have hBbl : tB.Buckets.length = t.Buckets.length := by rw [hBb]; simp
  have hBbk : tB.bucket (n.BucketIndex - 1) = Res.ok [a, e] := by
    simp only [Tree.bucket, hBb]; exact index_set_self _ hb0 hbl
  -- lookups in the result
  have K := splitResult_nodes w tB p
    { n with Box := (BoxFromEntity w a).Expand (BoxFromEntity w e) } a e x y hplB
  have KB := splitResult_bucket w tB p
    { n with Box := (BoxFromEntity w a).Expand (BoxFromEntity w e) } a e x y hBbk
  generalize hT : splitResult w tB p
    { n with Box := (BoxFromEntity w a).Expand (BoxFromEntity w e) } a e x y = T at K KB
  have hTroot : T.rootNode = t.rootNode := by rw [← hT, hB]; rfl
  have hTml : T.maxLeaves = t.maxLeaves := by rw [← hT, hB]; rfl
  have hTfb : T.unusedBucketIndicies = t.unusedBucketIndicies := by rw [← hT, hB]; rfl
  have hTfn : T.unusedNodeIndicies = t.unusedNodeIndicies := by rw [← hT, hB]; rfl
  have hTlen : T.nodes.length = t.nodes.length + 2 := by
    rw [← hT]; simp [splitResult, R1]
  have hTbl : T.Buckets.length = t.Buckets.length + 1 := by
    rw [← hT]; simp [splitResult, hBbl]
  have hTmd : T.maxDepth = if t.maxDepth < n.Depth + 1 then n.Depth + 1 else t.maxDepth := by
    rw [← hT]; simp only [splitResult, hBm]
  have hTleafs : ∀ z, T.leafs z = if z = y then some (t.nodes.length + 1)
      else if z = x then some t.nodes.length
      else if z = e then none else if z = a then none else t.leafs z := by
    intro z
    rw [← hT]
    simp only [splitResult, hBl, R1]
    split_ifs <;> rfl
  simp only [R1, hBbl] at K KB
  have K2 := K p
  rw [if_pos rfl] at K2
  have KN := K t.nodes.length
  rw [if_neg (by omega), if_neg (by omega), if_pos rfl] at KN
  have KN1 := K (t.nodes.length + 1)
  rw [if_neg (by omega), if_neg (by omega), if_neg (by omega), if_pos rfl] at KN1
  have K1 : ∀ (q : Nat) (m0 : Node), t.nodes[q]? = some m0 → q ≠ p →
      ∃ b, T.nodes[q]? = some { m0 with Box := b } ∧ tB.nodes[q]? = some { m0 with Box := b } ∧
        (m0.BucketIndex ≠ -1 → b = m0.Box) := by
    intro q m0 hq hqp
    have hql := lt_of_get hq
    rw [K q, if_neg hqp, if_pos hql]
    by_cases hlf : m0.BucketIndex = -1
    · obtain ⟨b, hb⟩ := R2 q m0 hq
      exact ⟨b, hb, hb, fun h => absurd hlf h⟩
    · exact ⟨m0.Box, R3 q m0 hq hlf hqp, R3 q m0 hq hlf hqp, fun _ => rfl⟩
  -- every old record keeps its parent, depth and index; all but `p` keep their links
  have K6 : ∀ (q : Nat) (m0 : Node), t.nodes[q]? = some m0 → ∃ m', T.nodes[q]? = some m' ∧
      m'.Parent = m0.Parent ∧ m'.Depth = m0.Depth ∧ m'.NodeIndex = m0.NodeIndex ∧
      (q = p → m'.BucketIndex = -1 ∧ m'.Left = some t.nodes.length) ∧
      (q ≠ p → m'.Left = m0.Left ∧ m'.Right = m0.Right ∧ m'.BucketIndex = m0.BucketIndex) := by
    intro q m0 hq
    by_cases hqp : q = p
    · subst hqp
      rw [hn] at hq; cases hq
      exact ⟨_, K2, rfl, rfl, rfl, fun _ => ⟨rfl, rfl⟩, fun h => absurd rfl h⟩
    · obtain ⟨b, hb, _, _⟩ := K1 q m0 hq hqp
      exact ⟨_, hb, rfl, rfl, rfl, fun h => absurd h hqp, fun _ => ⟨rfl, rfl, rfl⟩⟩
  have K5 : ∀ (q : Nat) (m' : Node), T.nodes[q]? = some m' →
      q = p ∨ q = t.nodes.length ∨ q = t.nodes.length + 1 ∨
      (q ≠ p ∧ ∃ m0, t.nodes[q]? = some m0 ∧ ∃ b, m' = { m0 with Box := b } ∧
        tB.nodes[q]? = some m' ∧ (m0.BucketIndex ≠ -1 → b = m0.Box)) := by
    intro q m' hq
    by_cases hqp : q = p
    · exact Or.inl hqp
    · by_cases hql : q < t.nodes.length
      · right; right; right
        refine ⟨hqp, t.nodes[q], List.getElem?_eq_getElem hql, ?_⟩
        obtain ⟨b, hb, hb', hb''⟩ := K1 q _ (List.getElem?_eq_getElem hql) hqp
        rw [hq] at hb
        cases hb
        exact ⟨b, rfl, hb', hb''⟩
      · have := lt_of_get hq
        rw [hTlen] at this
        have : q = t.nodes.length ∨ q = t.nodes.length + 1 := by omega
        rcases this with h | h
        · exact Or.inr (Or.inl h)
        · exact Or.inr (Or.inr (Or.inl h))
  -- buckets
  have B2 : T.bucket (n.BucketIndex - 1) = Res.ok [x] := by rw [KB, if_pos rfl]
  have B3 : T.bucket ((t.Buckets.length : Int) + 1 - 1) = Res.ok [y] := by
    have h1 : (t.Buckets.length : Int) + 1 - 1 ≠ n.BucketIndex - 1 := by omega
    rw [KB, if_neg h1, if_pos (by omega)]
  have B1 : ∀ (i : Int) (c : List Entity), t.bucket i = Res.ok c → i ≠ n.BucketIndex - 1 →
      T.bucket i = Res.ok c := by
    intro i c hc hi
    obtain ⟨h0, h1⟩ := Tree.bucket_eq hc
    have hl := lt_of_get h1
    rw [KB, if_neg hi, if_neg (by omega), if_pos (by omega)]
    simp only [Tree.bucket, hBb]
    apply index_eq_of_get h0
    rw [List.getElem?_set_ne (by omega)]
    exact h1
  -- leaf index
  have L1 : ∀ z, z ≠ a → z ≠ e → T.leafs z = t.leafs z := by
    intro z hza hze
    rw [hTleafs]
    rcases hxy with ⟨h1, h2⟩ | ⟨h1, h2⟩ <;> subst h1 h2 <;> simp [hza, hze]
  have L2 : T.leafs x = some t.nodes.length := by
    rw [hTleafs, if_neg hxne, if_pos rfl]
  have L3 : T.leafs y = some (t.nodes.length + 1) := by
    rw [hTleafs, if_pos rfl]
  have hxy' : ∀ z, (z = x ∨ z = y) ↔ (z = a ∨ z = e) := by
    intro z
    rcases hxy with ⟨h1, h2⟩ | ⟨h1, h2⟩ <;> subst h1 h2
    · rfl
    · exact Or.comm
  -- an old leaf other than `p` keeps its bucket and its entry in the leaf index
  have OL : ∀ (q : Nat) (m0 : Node), t.nodes[q]? = some m0 → q ≠ p → m0.BucketIndex ≠ -1 →
      ∃ z, t.bucket (m0.BucketIndex - 1) = Res.ok [z] ∧ T.bucket (m0.BucketIndex - 1) = Res.ok [z] ∧
        T.leafs z = some q ∧ z ∈ es := by
    intro q m0 hq hqp hlf
    obtain ⟨_, _, z, h1, h2⟩ := (hs.nodes q m0 hq).leaf hlf
    have hbne : m0.BucketIndex - 1 ≠ n.BucketIndex - 1 :=
      fun h => hqp (hs.bucket_inj hn hq hleaf hlf h)
    have hz := (hs.leafs z q h2).1
    have hza : z ≠ a := by
      intro h; subst h
      rw [hla] at h2
      exact hqp (Option.some.inj h2).symm
    have hze : z ≠ e := fun h => he (h ▸ hz)
    exact ⟨z, h1, B1 _ _ h1 hbne, by rw [L1 z hza hze]; exact h2, hz⟩
  have hdn := hN.depth_nonneg
  have hdl := hN.depth_le
  refine ⟨⟨?_, ?_, ?_, ?_, ?_, ?_, ?_, ?_, ?_, ?_⟩, ?_, ?_⟩
  · rw [hTroot]; exact hs.root
  · rw [hTml]; exact hs.maxLeaves
  · rw [hTfb]; exact hs.freeB
  · rw [hTfn]; exact hs.freeN
  · -- the records
    intro q m' hq
    rcases K5 q m' hq with h | h | h | ⟨hqp, m0, hm0, b, hmb, _, _⟩
    · subst h
      rw [K2] at hq; cases hq
      refine ⟨hdn, ?_, hN.nodeIndex, hN.root, hN.root_depth, ?_, ?_, ?_⟩
      · rw [hTmd]; simp only; split_ifs <;> omega
      · intro g hg
        obtain ⟨pn, a1, a2, a3, a4⟩ := hN.parent g hg
        have hgq : g ≠ q := hs.links.parent_ne hn hg
        obtain ⟨b, hb, _, _⟩ := K1 g pn a1 hgq
        exact ⟨_, hb, a2, a3, a4⟩
      · intro hlf; exact absurd rfl hlf
      · intro _
        exact ⟨_, _, _, _, rfl, rfl, by omega, KN, KN1, rfl, rfl⟩
    · subst h
      rw [KN] at hq; cases hq
      refine ⟨by simp only; omega, ?_, rfl, ?_, ?_, ?_, ?_, ?_⟩
      · rw [hTmd]; simp only; split_ifs <;> omega
      · intro hc; cases hc
      · intro hc; omega
      · intro g hg
        cases hg
        exact ⟨_, K2, rfl, rfl, Or.inl rfl⟩
      · intro _
        exact ⟨rfl, rfl, x, B2, L2⟩
      · intro hc; exact absurd hc hleaf
    · subst h
      rw [KN1] at hq; cases hq
      refine ⟨by simp only; omega, ?_, by simp, ?_, ?_, ?_, ?_, ?_⟩
      · rw [hTmd]; simp only; split_ifs <;> omega
      · intro hc; cases hc
      · intro hc; omega
      · intro g hg
        cases hg
        exact ⟨_, K2, rfl, rfl, Or.inr rfl⟩
      · intro _
        exact ⟨rfl, rfl, y, B3, L3⟩
      · intro hc; simp only at hc; omega
    · subst hmb
      have hM := hs.nodes q m0 hm0
      refine ⟨hM.depth_nonneg, ?_, hM.nodeIndex, hM.root, hM.root_depth, ?_, ?_, ?_⟩
      · rw [hTmd]; have := hM.depth_le; simp only; split_ifs <;> omega
      · intro g hg
        obtain ⟨pn, a1, a2, a3, a4⟩ := hM.parent g hg
        have hgp : g ≠ p := by
          intro h; subst h
          rw [hn] at a1; cases a1
          exact hleaf a2
        obtain ⟨b', hb', _, _⟩ := K1 g pn a1 hgp
        exact ⟨_, hb', a2, a3, a4⟩
      · intro hlf
        obtain ⟨c1, c2, _⟩ := hM.leaf hlf
        obtain ⟨z, _, h2, h3, _⟩ := OL q m0 hm0 hqp hlf
        exact ⟨c1, c2, z, h2, h3⟩
      · intro hbr
        obtain ⟨l, r, ln, rn, c1, c2, c3, c4, c5, c6, c7⟩ := hM.branch hbr
        obtain ⟨l', d1, d2, _⟩ := K6 l ln c4
        obtain ⟨r', e1, e2, _⟩ := K6 r rn c5
        exact ⟨l, r, l', r', c1, c2, c3, d1, e1, by rw [d2]; exact c6, by rw [e2]; exact c7⟩
  · rw [hTlen]; have := hs.size; simp only [List.length_append, List.length_singleton]; omega
  · rw [hTbl]; have := hs.buckets; simp only [List.length_append, List.length_singleton]; omega
  · rw [hTmd]
    have := hs.maxDepth
    simp only [List.length_append, List.length_singleton, Nat.cast_add, Nat.cast_one]
    split_ifs <;> omega
  · -- the leaf index points at leaves holding the entity
    intro z q hz
    by_cases hzy : z = y
    · subst hzy
      rw [L3] at hz; cases hz
      refine ⟨?_, _, KN1, by simp only [ne_eq]; omega, B3⟩
      rcases hxy with ⟨_, h2⟩ | ⟨_, h2⟩ <;> subst h2 <;> simp [hae]
    · by_cases hzx : z = x
      · subst hzx
        rw [L2] at hz; cases hz
        refine ⟨?_, _, KN, hleaf, B2⟩
        rcases hxy with ⟨h1, _⟩ | ⟨h1, _⟩ <;> subst h1 <;> simp [hae]
      · have hza : z ≠ a := fun h => by
          have := (hxy' z).mpr (Or.inl h); tauto
        have hze : z ≠ e := fun h => by
          have := (hxy' z).mpr (Or.inr h); tauto
        rw [L1 z hza hze] at hz
        obtain ⟨h1, m0, h2, h3, h4⟩ := hs.leafs z q hz
        have hqp : q ≠ p := by
          intro h; subst h
          rw [hn] at h2; cases h2
          rw [ha] at h4; cases h4
          exact hza rfl
        obtain ⟨b, hb, _, _⟩ := K1 q m0 h2 hqp
        obtain ⟨z', g1, g2, _, _⟩ := OL q m0 h2 hqp h3
        rw [h4] at g1; cases g1
        exact ⟨List.mem_append_left _ h1, _, hb, h3, g2⟩
  · intro z hz
    rw [List.mem_append, List.mem_singleton] at hz
    by_cases hzy : z = y
    · subst hzy; rw [L3]; simp
    · by_cases hzx : z = x
      · subst hzx; rw [L2]; simp
      · have hza : z ≠ a := fun h => by
          have := (hxy' z).mpr (Or.inl h); tauto
        have hze : z ≠ e := fun h => by
          have := (hxy' z).mpr (Or.inr h); tauto
        rw [L1 z hza hze]
        exact hs.keys z (hz.resolve_right hze)
  · -- leaf boxes
    intro q m' z hq hlf hbk
    rcases K5 q m' hq with h | h | h | ⟨hqp, m0, hm0, b, hmb, _, hbx⟩
    · subst h
      rw [K2] at hq; cases hq
      exact absurd rfl hlf
    · subst h
      rw [KN] at hq; cases hq
      rw [B2] at hbk; cases hbk
      rfl
    · subst h
      rw [KN1] at hq; cases hq
      rw [B3] at hbk; cases hbk
      rfl
    · subst hmb
      obtain ⟨z', g1, g2, _, _⟩ := OL q m0 hm0 hqp hlf
      simp only at hbk
      rw [g2] at hbk; cases hbk
      simp only
      rw [hbx hlf]
      exact hI.leafBox q m0 z hm0 hlf g1
  · -- branch boxes
    intro q m' l r ln' rn' _ hq hbr hl hr hln hrn
    -- a record of the result has the box it has after the refit
    have hbox : ∀ (c : Nat) (cn' : Node), T.nodes[c]? = some cn' → c < t.nodes.length →
        ∃ cn, tB.nodes[c]? = some cn ∧ cn.Box = cn'.Box := by
      intro c cn' hc hcl
      rcases K5 c cn' hc with h | h | h | ⟨_, m0, _, b, _, hb, _⟩
      · subst h
        rw [K2] at hc; cases hc
        exact ⟨_, R4, rfl⟩
      · omega
      · omega
      · exact ⟨_, hb, rfl⟩
    rcases K5 q m' hq with h | h | h | ⟨hqp, m0, hm0, b, hmb, hqB, _⟩
    · subst h
      rw [K2] at hq; cases hq
      simp only at hl hr
      cases hl; cases hr
      rw [KN] at hln; rw [KN1] at hrn
      cases hln; cases hrn
      simp only
      rcases hxy with ⟨h1, h2⟩ | ⟨h1, h2⟩ <;> subst h1 h2
      · rfl
      · exact BoundingBox.Expand_comm _ _
    · subst h
      rw [KN] at hq; cases hq
      exact absurd hbr hleaf
    · subst h
      rw [KN1] at hq; cases hq
      simp only at hbr; omega
    · subst hmb
      obtain ⟨l0, r0, ln0, rn0, c1, c2, _, c4, c5, _, _⟩ := (hs.nodes q m0 hm0).branch hbr
      simp only at hl hr
      have el : l0 = l := by rw [c1] at hl; exact Option.some.inj hl
      have er : r0 = r := by rw [c2] at hr; exact Option.some.inj hr
      subst el er
      obtain ⟨cl, d1, d2⟩ := hbox l0 ln' hln (lt_of_get c4)
      obtain ⟨cr, e1, e2⟩ := hbox r0 rn' hrn (lt_of_get c5)
      have := R5 q _ l0 r0 cl cr (by simp) hqB hbr c1 c2 d1 e1
      rw [d2, e2] at this
      exact this

theorem AddItemToLeaf_inv {w : World} {es : List Entity} {t : Tree} {p : Nat} {n : Node}
    {e : Entity} {gas : Nat} (hI : Inv w es t) (hn : t.nodes[p]? = some n)
    (hleaf : n.BucketIndex ≠ -1) (he : e ∉ es) (hg : n.Depth < gas) (hg4 : 4 ≤ gas) :
    ∃ t', AddItemToLeaf gas w t p e = Res.ok t' ∧ Inv w (es ++ [e]) t' := by
  have hs := hI.struct
  obtain ⟨_, _, a, ha, hla⟩ := (hs.nodes p n hn).leaf hleaf
  obtain ⟨hb0, hb1⟩ := Tree.bucket_eq ha
  have hbl := lt_of_get hb1
  have hbox := hI.leafBox p n a hn hleaf ha
  -- the tree after the append and the update of the leaf index
  obtain ⟨tA, htA⟩ : ∃ tA : Tree, tA = MapLeaf { t with
      Buckets := t.Buckets.set (n.BucketIndex - 1).toNat ([a] ++ [e]) } e p := ⟨_, rfl⟩
  have hAn : tA.nodes = t.nodes := by rw [htA]; rfl
  have hAnp : tA.nodes[p]? = some n := by rw [hAn]; exact hn
  have hAb : tA.bucket (n.BucketIndex - 1) = Res.ok [a, e] := by
    rw [htA]; simp only [Tree.bucket, MapLeaf]; exact index_set_self _ hb0 hbl
  obtain ⟨tB, c, hR, hBO, hBB⟩ := RefitVolume_two gas w (hs.links.of_nodes hAn)
    hAnp hleaf hAb hbox (hI.branchBox.of_nodes_eq hAn) hg
  have hA1p := Tree.setNode_get_self
    ({ n with Box := (BoxFromEntity w a).Expand (BoxFromEntity w e) } : Node) hAnp
  have hBp := hBO.leaf p _ hA1p hleaf
  have hBb : tB.bucket (n.BucketIndex - 1) = Res.ok [a, e] := by
    rw [hBO.bucket]; exact hAb
  have hBeq := hBO.eq
  obtain ⟨g, rfl⟩ : ∃ g, gas = g + 4 := ⟨gas - 4, by omega⟩
  obtain ⟨x, y, hxy, hS⟩ := SplitIfNecessary_two g w
    { n with Box := (BoxFromEntity w a).Expand (BoxFromEntity w e) } hBp hBb
    (by rw [hBeq, htA]; exact hs.maxLeaves) (by rw [hBeq, htA]; exact hs.freeN)
    (by rw [hBeq, htA]; exact hs.freeB)
  refine ⟨_, ?_, @split_inv w es t tB p n a e x y hI hn hleaf ha he hxy ?_ ?_ ?_ ?_ hBp hBB⟩
  · simp only [AddItemToLeaf, Tree.node_eq hn, Res.ok_bind, ha, Tree.setBucket, hb0, hbl,
      and_self, ↓reduceIte]
    rw [← htA, hR]
    exact hS
  · rw [hBeq, htA]; rfl
  · rw [hBO.len]; simp [Tree.setNode, hAn]
  · intro q m0 hq
    by_cases hqp : p = q
    · subst hqp
      rw [hn] at hq; cases hq
      obtain ⟨b, hb⟩ := hBO.pt p _ hA1p
      exact ⟨b, hb⟩
    · have : (tA.setNode p
          { n with Box := (BoxFromEntity w a).Expand (BoxFromEntity w e) }).nodes[q]? = some m0 := by
        rw [Tree.setNode_get_ne _ _ hqp, hAn]; exact hq
      exact hBO.pt q m0 this
  · intro q m0 hq hlf hqp
    have : (tA.setNode p
        { n with Box := (BoxFromEntity w a).Expand (BoxFromEntity w e) }).nodes[q]? = some m0 := by
      rw [Tree.setNode_get_ne _ _ (Ne.symm hqp), hAn]; exact hq
    exact hBO.leaf q m0 this hlf

theorem Shape.ptr_mem (s : Shape) : s.ptr ∈ s.ptrs := by
  cases s <;> simp [Shape.ptr, Shape.ptrs]

theorem Shape.height_pos (s : Shape) : 1 ≤ s.height := by
  cases s <;> simp [Shape.height]

theorem DepthOnly.refl_depth (t : Tree) : DepthOnly t t :=
  ⟨rfl, rfl, fun _ m h => ⟨m.Depth, h⟩⟩

theorem DepthOnly.trans_depth {t t' t'' : Tree} (h1 : DepthOnly t t') (h2 : DepthOnly t' t'') :
    DepthOnly t t'' := by
  refine ⟨?_, h2.len.trans h1.len, ?_⟩
  · have e1 := h1.eq
    have e2 := h2.eq
    rw [e2, e1]
  · intro q m hm
    obtain ⟨d1, hd1⟩ := h1.pt q m hm
    obtain ⟨d2, hd2⟩ := h2.pt q _ hd1
    exact ⟨d2, hd2⟩

theorem Shaped.depthOnly {t t' : Tree} (h : DepthOnly t t') :
    ∀ s : Shape, Shaped t s → Shaped t' s := by
  intro s
  induction s with
  | leaf p =>
    rintro ⟨n, h1, h2, h3, h4⟩
    obtain ⟨dd, hd⟩ := h.pt p n h1
    exact ⟨_, hd, h2, h3, h4⟩
  | node p l r ihl ihr =>
    rintro ⟨n, h1, h2, h3, h4, h5, h6⟩
    obtain ⟨dd, hd⟩ := h.pt p n h1
    exact ⟨_, hd, h2, h3, h4, ihl h5, ihr h6⟩

theorem Depths.frame_eq {t t' : Tree} : ∀ (s : Shape) (d : Int),
    (∀ q, q ∈ s.ptrs → t'.nodes[q]? = t.nodes[q]?) → Depths t s d → Depths t' s d := by
  intro s
  induction s with
  | leaf p =>
    intro d hf
    rintro ⟨n, h1, h2⟩
    exact ⟨n, by rw [hf p (by simp [Shape.ptrs])]; exact h1, h2⟩
  | node p l r ihl ihr =>
    intro d hf
    rintro ⟨⟨n, h1, h2⟩, h3, h4⟩
    refine ⟨⟨n, by rw [hf p (by simp [Shape.ptrs])]; exact h1, h2⟩, ?_, ?_⟩
    · exact ihl _ (fun q hq => hf q (by simp [Shape.ptrs, hq])) h3
    · exact ihr _ (fun q hq => hf q (by simp [Shape.ptrs, hq])) h4

theorem IsValidBranch_shaped {t : Tree} : ∀ (s : Shape) (fuel : Nat), Shaped t s →
    s.height ≤ fuel → IsValidBranch fuel t s.ptr = Res.ok true := by
  intro s
  induction s with
  | leaf p =>
    intro fuel hs hf
    obtain ⟨n, h1, h2, h3, h4⟩ := hs
    obtain ⟨f, rfl⟩ : ∃ f, fuel = f + 1 := ⟨fuel - 1, by simp [Shape.height] at hf; omega⟩
    have hl : n.IsLeaf = true := by simp [Node.IsLeaf, h2]
    show IsValidBranch (f + 1) t p = _
    simp [IsValidBranch, Tree.node_eq h1, Node.IsValid, Node.IsValidLeafNode, hl, h3, h4]
  | node p l r ihl ihr =>
    intro fuel hs hf
    obtain ⟨n, h1, h2, h3, h4, h5, h6⟩ := hs
    simp only [Shape.height] at hf
    obtain ⟨f, rfl⟩ : ∃ f, fuel = f + 1 := ⟨fuel - 1, by omega⟩
    have hl : n.IsLeaf = false := by simp [Node.IsLeaf, h2]
    show IsValidBranch (f + 1) t p = _
    simp [IsValidBranch, Tree.node_eq h1, Node.IsValid, Node.IsValidLeafNode,
      Node.IsValidBranchNode, hl, h3, h4, ihl f h5 (by omega), ihr f h6 (by omega)]

theorem SetDepth_unfold (fuel : Nat) (t : Tree) (p : Nat) (d : Int) {n : Node}
    (h1 : t.nodes[p]? = some n) :
    SetDepth (fuel + 1) t p d =
      if n.BucketIndex = -1 then
        (IsValidBranch (fuel + 1)
          { t with nodes := t.nodes.set p { n with Depth := d }
                   maxDepth := if d > t.maxDepth then d else t.maxDepth } p >>= fun v =>
          if !v then Res.panic
          else deref n.Left >>= fun l =>
            SetDepth fuel
              { t with nodes := t.nodes.set p { n with Depth := d }
                       maxDepth := if d > t.maxDepth then d else t.maxDepth } l (d + 1) >>=
            fun t3 => t3.node p >>= fun n' => deref n'.Right >>= fun r =>
              SetDepth fuel t3 r (d + 1))
      else Res.ok { t with nodes := t.nodes.set p { n with Depth := d }
                           maxDepth := if d > t.maxDepth then d else t.maxDepth } := by
  have hl := lt_of_get h1
  have h2 : ∀ md : Int, ({ t with nodes := t.nodes.set p { n with Depth := d }
                                  maxDepth := md } : Tree).node p =
      Res.ok { n with Depth := d } := fun md => Tree.node_eq (List.getElem?_set_self hl)
  have h3 : (t.setNode p { n with Depth := d }).node p = Res.ok { n with Depth := d } :=
    Tree.node_eq (List.getElem?_set_self hl)
  simp only [SetDepth, Tree.node_eq h1, Res.ok_bind]
  by_cases hd : d > t.maxDepth
  · simp only [Tree.setNode, hd, ↓reduceIte] at h3 ⊢
    simp only [h2, Res.ok_bind, Node.IsLeaf]
    by_cases hb : n.BucketIndex = -1
    · simp only [hb, bne_self_eq_false, Bool.not_false, ↓reduceIte]
    · simp only [hb, bne_iff_ne, ne_eq, not_false_eq_true, Bool.not_eq_true', bne_eq_false_iff_eq,
        ↓reduceIte, Res.pure_eq]
  · simp only [Tree.setNode, hd, ↓reduceIte] at h3 ⊢
    simp only [h3, Res.ok_bind, Node.IsLeaf]
    by_cases hb : n.BucketIndex = -1
    · simp only [hb, bne_self_eq_false, Bool.not_false, ↓reduceIte]
    · simp only [hb, bne_iff_ne, ne_eq, not_false_eq_true, Bool.not_eq_true', bne_eq_false_iff_eq,
        ↓reduceIte, Res.pure_eq]

theorem SetDepth_spec : ∀ (s : Shape) (fuel : Nat) (t : Tree) (d : Int), Shaped t s →
    s.ptrs.Nodup → s.height ≤ fuel →
    ∃ t', SetDepth fuel t s.ptr d = Res.ok t' ∧ DepthOnly t t' ∧
      (∀ q, q ∉ s.ptrs → t'.nodes[q]? = t.nodes[q]?) ∧ Depths t' s d ∧
      t'.maxDepth = max t.maxDepth (d + (s.height : Int) - 1) := by
  intro s
  induction s with
  | leaf p =>
    intro fuel t d hs _ hf
    obtain ⟨n, h1, h2, h3, h4⟩ := hs
    obtain ⟨f, rfl⟩ : ∃ f, fuel = f + 1 := ⟨fuel - 1, by simp [Shape.height] at hf; omega⟩
    show ∃ t', SetDepth (f + 1) t p d = Res.ok t' ∧ _
    rw [SetDepth_unfold f t p d h1, if_neg h2]
    refine ⟨_, rfl, ⟨rfl, by simp, ?_⟩, ?_, ?_, ?_⟩
    · intro q m hm
      by_cases hpq : p = q
      · subst hpq
        rw [h1] at hm; cases hm
        exact ⟨d, List.getElem?_set_self (lt_of_get h1)⟩
      · exact ⟨m.Depth, by simp only [List.getElem?_set_ne hpq]; exact hm⟩
    · intro q hq
      simp only [Shape.ptrs, List.mem_singleton] at hq
      simp only [List.getElem?_set_ne (Ne.symm hq)]
    · exact ⟨_, List.getElem?_set_self (lt_of_get h1), rfl⟩
    · simp only [Shape.height, gt_iff_lt]
      split_ifs <;> omega
  | node p l r ihl ihr =>
    intro fuel t d hs hnd hf
    obtain ⟨n, h1, h2, h3, h4, h5, h6⟩ := hs
    simp only [Shape.height] at hf
    obtain ⟨f, rfl⟩ : ∃ f, fuel = f + 1 := ⟨fuel - 1, by omega⟩
    simp only [Shape.ptrs, List.nodup_cons, List.mem_append, not_or, List.nodup_append] at hnd
    obtain ⟨⟨hpl, hpr⟩, hndl, hndr, hdisj⟩ := hnd
    -- the tree after the depth of `p` is written
    obtain ⟨t2, ht2⟩ : ∃ t2 : Tree, t2 = { t with
        nodes := t.nodes.set p { n with Depth := d }
        maxDepth := if d > t.maxDepth then d else t.maxDepth } := ⟨_, rfl⟩
    have h2p : t2.nodes[p]? = some { n with Depth := d } := by
      rw [ht2]; exact List.getElem?_set_self (lt_of_get h1)
    have h2ne : ∀ q, q ≠ p → t2.nodes[q]? = t.nodes[q]? := by
      intro q hq; rw [ht2]; exact List.getElem?_set_ne (Ne.symm hq)
    have hD2 : DepthOnly t t2 := by
      refine ⟨by rw [ht2], by rw [ht2]; simp, ?_⟩
      intro q m hm
      by_cases hpq : q = p
      · subst hpq
        rw [h1] at hm; cases hm
        exact ⟨d, h2p⟩
      · exact ⟨m.Depth, by rw [h2ne q hpq]; exact hm⟩
    have hS2 : Shaped t2 (Shape.node p l r) :=
      Shaped.depthOnly hD2 _ ⟨n, h1, h2, h3, h4, h5, h6⟩
    have hv := IsValidBranch_shaped (Shape.node p l r) (f + 1) hS2 (by simp [Shape.height]; omega)
    obtain ⟨t3, e1, e2, e3, e4, e5⟩ := ihl f t2 (d + 1) (Shaped.depthOnly hD2 _ h5) hndl
      (by omega)
    have h3p : t3.nodes[p]? = some { n with Depth := d } := by rw [e3 p hpl]; exact h2p
    obtain ⟨t4, g1, g2, g3, g4, g5⟩ := ihr f t3 (d + 1)
      (Shaped.depthOnly (hD2.trans_depth e2) _ h6) hndr (by omega)
    refine ⟨t4, ?_, (hD2.trans_depth e2).trans_depth g2, ?_, ?_, ?_⟩
    · show SetDepth (f + 1) t p d = _
      rw [SetDepth_unfold f t p d h1, if_pos h2, ← ht2]
      simp only [Shape.ptr] at hv
      simp only [hv, Res.ok_bind, Bool.not_true, Bool.false_eq_true, ↓reduceIte, h3, deref_some,
        e1, Tree.node_eq h3p, h4, g1]
    · intro q hq
      simp only [Shape.ptrs, List.mem_cons, List.mem_append, not_or] at hq
      rw [g3 q hq.2.2, e3 q hq.2.1, h2ne q hq.1]
    · refine ⟨⟨_, by rw [g3 p hpr]; exact h3p, rfl⟩, ?_, g4⟩
      exact Depths.frame_eq l _ (fun q hq => g3 q (fun hq' => hdisj hq hq')) e4
    · rw [g5, e5, ht2]
      simp only [Shape.height, gt_iff_lt]
      split_ifs <;> push_cast <;> omega

theorem ancAt_succ {t : Tree} {z g : Nat} {m : Node} (k : Nat) (hm : t.nodes[z]? = some m)
    (hg : m.Parent = some g) : ancAt t (k + 1) z = ancAt t k g := by
  simp only [ancAt, hm, hg]

/-- The parent of the `k`-th ancestor is the `k + 1`-st ancestor. -/
theorem ancAt_top {t : Tree} : ∀ (k : Nat) (z a g : Nat) (ma : Node), ancAt t k z = some a →
    t.nodes[a]? = some ma → ma.Parent = some g → ancAt t (k + 1) z = some g := by
  intro k
  induction k with
  | zero =>
    intro z a g ma h hma hg
    simp only [ancAt] at h
    cases h
    simp only [ancAt, hma, hg]
  | succ k ih =>
    intro z a g ma h hma hg
    unfold ancAt at h ⊢
    cases hz : t.nodes[z]? with
    | none => rw [hz] at h; cases h
    | some m =>
      rw [hz] at h
      simp only at h ⊢
      cases hp : m.Parent with
      | none => rw [hp] at h; cases h
      | some g' =>
        rw [hp] at h
        simp only at h ⊢
        exact ih g' a g ma h hma hg

theorem ancAt_depth {t : Tree} (hl : Links t) : ∀ (k : Nat) (z a : Nat) (mz ma : Node),
    ancAt t k z = some a → t.nodes[z]? = some mz → t.nodes[a]? = some ma →
    mz.Depth = ma.Depth + k := by
  intro k
  induction k with
  | zero =>
    intro z a mz ma h hz ha
    simp only [ancAt] at h
    cases h
    rw [hz] at ha; cases ha
    simp
  | succ k ih =>
    intro z a mz ma h hz ha
    simp only [ancAt, hz] at h
    cases hp : mz.Parent with
    | none => rw [hp] at h; cases h
    | some g =>
      rw [hp] at h
      simp only at h
      obtain ⟨pn, a1, _, a3, _⟩ := (hl z mz hz).parent g hp
      have := ih g a pn ma h a1 ha
      push_cast
      omega

/-- The children of a node of a shape are in the shape. -/
theorem Shaped.child_mem {t : Tree} : ∀ (s : Shape), Shaped t s → ∀ (g z : Nat) (gn : Node),
    g ∈ s.ptrs → t.nodes[g]? = some gn → (gn.Left = some z ∨ gn.Right = some z) →
    z ∈ s.ptrs := by
  intro s
  induction s with
  | leaf p =>
    rintro ⟨n, h1, _, h3, h4⟩ g z gn hg hgn hc
    simp only [Shape.ptrs, List.mem_singleton] at hg
    subst hg
    rw [h1] at hgn; cases hgn
    rw [h3, h4] at hc
    rcases hc with hc | hc <;> cases hc
  | node p l r ihl ihr =>
    rintro ⟨n, h1, _, h3, h4, h5, h6⟩ g z gn hg hgn hc
    simp only [Shape.ptrs, List.mem_cons, List.mem_append] at hg ⊢
    rcases hg with hg | hg | hg
    · subst hg
      rw [h1] at hgn; cases hgn
      rw [h3, h4] at hc
      rcases hc with hc | hc
      · cases hc; exact Or.inr (Or.inl l.ptr_mem)
      · cases hc; exact Or.inr (Or.inr r.ptr_mem)
    · exact Or.inr (Or.inl (ihl h5 g z gn hg hgn hc))
    · exact Or.inr (Or.inr (ihr h6 g z gn hg hgn hc))

/-- The nodes of a shape are the nodes with the root of the shape among their
ancestors. -/
theorem Shaped.mem_iff {t : Tree} (hl : Links t) : ∀ (s : Shape), Shaped t s → ∀ z,
    z ∈ s.ptrs ↔ ∃ k, ancAt t k z = some s.ptr := by
  intro s hs z
  constructor
  · induction s with
    | leaf p =>
      intro hz
      simp only [Shape.ptrs, List.mem_singleton] at hz
      subst hz
      exact ⟨0, rfl⟩
    | node p l r ihl ihr =>
      obtain ⟨n, h1, h2, h3, h4, h5, h6⟩ := hs
      intro hz
      simp only [Shape.ptrs, List.mem_cons, List.mem_append] at hz
      obtain ⟨cl, c1, c2⟩ := hl.child_parent h1 h2 (Or.inl h3)
      obtain ⟨cr, d1, d2⟩ := hl.child_parent h1 h2 (Or.inr h4)
      rcases hz with hz | hz | hz
      · subst hz; exact ⟨0, rfl⟩
      · obtain ⟨k, hk⟩ := ihl h5 hz
        exact ⟨k + 1, ancAt_top k z l.ptr p cl hk c1 c2⟩
      · obtain ⟨k, hk⟩ := ihr h6 hz
        exact ⟨k + 1, ancAt_top k z r.ptr p cr hk d1 d2⟩
  · rintro ⟨k, hk⟩
    induction k generalizing z with
    | zero =>
      simp only [ancAt] at hk
      cases hk
      exact s.ptr_mem
    | succ k ih =>
      unfold ancAt at hk
      cases hz : t.nodes[z]? with
      | none => rw [hz] at hk; cases hk
      | some m =>
        rw [hz] at hk
        simp only at hk
        cases hp : m.Parent with
        | none => rw [hp] at hk; cases hk
        | some g =>
          rw [hp] at hk
          simp only at hk
          obtain ⟨pn, a1, _, _, a4⟩ := (hl z m hz).parent g hp
          exact Shaped.child_mem s hs g z pn (ih g hk) a1 a4

/-- Every node is the root of a shape: its subtree. -/
theorem shape_exists {es : List Entity} {t : Tree} (hs : Struct es t) : ∀ (k : Nat) (q : Nat)
    (m : Node), t.nodes[q]? = some m → t.maxDepth - m.Depth ≤ k →
    ∃ s : Shape, s.ptr = q ∧ Shaped t s ∧ Depths t s m.Depth ∧ s.ptrs.Nodup ∧
      (s.height : Int) ≤ t.maxDepth - m.Depth + 1 := by
  intro k
  induction k with
  | zero =>
    intro q m hq hk
    have hM := hs.nodes q m hq
    have hd := hM.depth_le
    by_cases hb : m.BucketIndex = -1
    · obtain ⟨l, r, ln, rn, a1, a2, a3, a4, a5, a6, a7⟩ := hM.branch hb
      obtain ⟨pn, b1, _, b3, _⟩ := (hs.nodes l ln a4).parent q a6
      rw [hq] at b1; cases b1
      have := (hs.nodes l ln a4).depth_le
      omega
    · obtain ⟨h1, h2, _⟩ := hM.leaf hb
      refine ⟨Shape.leaf q, rfl, ⟨m, hq, hb, h1, h2⟩, ⟨m, hq, rfl⟩, by simp [Shape.ptrs], ?_⟩
      simp only [Shape.height]; push_cast; omega
  | succ k ih =>
    intro q m hq hk
    have hM := hs.nodes q m hq
    have hd := hM.depth_le
    by_cases hb : m.BucketIndex = -1
    · obtain ⟨l, r, ln, rn, a1, a2, a3, a4, a5, a6, a7⟩ := hM.branch hb
      obtain ⟨pn, b1, _, b3, _⟩ := (hs.nodes l ln a4).parent q a6
      rw [hq] at b1; cases b1
      obtain ⟨pn, c1, _, c3, _⟩ := (hs.nodes r rn a5).parent q a7
      rw [hq] at c1; cases c1
      obtain ⟨sl, e1, e2, e3, e4, e5⟩ := ih l ln a4 (by omega)
      obtain ⟨sr, f1, f2, f3, f4, f5⟩ := ih r rn a5 (by omega)
      subst e1 f1
      have hlk := hs.links
      -- a node below a child is deeper than `q`
      have hdeep : ∀ (c : Shape) (cn : Node), Shaped t c → t.nodes[c.ptr]? = some cn →
          cn.Depth = m.Depth + 1 → ∀ z, z ∈ c.ptrs → z ≠ q := by
        intro c cn hc hcn hcd z hz e
        subst e
        obtain ⟨j, hj⟩ := (Shaped.mem_iff hlk c hc z).mp hz
        have := ancAt_depth hlk j z c.ptr m cn hj hq hcn
        omega
      refine ⟨Shape.node q sl sr, rfl, ⟨m, hq, hb, a1, a2, e2, f2⟩, ⟨⟨m, hq, rfl⟩, ?_, ?_⟩,
        ?_, ?_⟩
      · rw [← b3]; exact e3
      · rw [← c3]; exact f3
      · simp only [Shape.ptrs, List.nodup_cons, List.mem_append, not_or, List.nodup_append]
        refine ⟨⟨fun h => hdeep sl ln e2 a4 b3 q h rfl, fun h => hdeep sr rn f2 a5 c3 q h rfl⟩,
          e4, f4, ?_⟩
        intro z hzl hzr
        obtain ⟨j1, hj1⟩ := (Shaped.mem_iff hlk sl e2 z).mp hzl
        obtain ⟨j2, hj2⟩ := (Shaped.mem_iff hlk sr f2 z).mp hzr
        obtain ⟨mz, hmz⟩ : ∃ mz, t.nodes[z]? = some mz := by
          cases hz : t.nodes[z]? with
          | some mz => exact ⟨mz, rfl⟩
          | none =>
            cases j1 with
            | zero =>
              simp only [ancAt] at hj1
              cases hj1
              rw [a4] at hz; cases hz
            | succ j =>
              simp only [ancAt, hz] at hj1
              cases hj1
        have d1 := ancAt_depth hlk j1 z sl.ptr mz ln hj1 hmz a4
        have d2 := ancAt_depth hlk j2 z sr.ptr mz rn hj2 hmz a5
        have : j1 = j2 := by omega
        subst this
        rw [hj1] at hj2
        exact a3 (Option.some.inj hj2)
      · simp only [Shape.height]; push_cast; omega
    · obtain ⟨h1, h2, _⟩ := hM.leaf hb
      refine ⟨Shape.leaf q, rfl, ⟨m, hq, hb, h1, h2⟩, ⟨m, hq, rfl⟩, by simp [Shape.ptrs], ?_⟩
      simp only [Shape.height]; push_cast; omega

theorem list_get_append_len' {α : Type} {l : List α} {N : Nat} (h : l.length = N) (x : α)
    (l2 : List α) : (l ++ x :: l2)[N]? = some x := by
  subst h
  rw [List.getElem?_append_right (le_refl _)]
  simp

theorem list_get_append_len1' {α : Type} {l : List α} {N : Nat} (h : l.length = N) (x y : α)
    (l2 : List α) : (l ++ x :: y :: l2)[N + 1]? = some y := by
  subst h
  rw [List.getElem?_append_right (by omega)]
  simp

theorem list_set_append_len' {α : Type} {l : List α} {N : Nat} (h : l.length = N) (x y : α)
    (l2 : List α) : (l ++ x :: l2).set N y = l ++ y :: l2 := by
  subst h
  induction l with
  | nil => rfl
  | cons a as ih => simp [ih]

theorem list_set_append_len1' {α : Type} {l : List α} {N : Nat} (h : l.length = N) (x y z : α)
    (l2 : List α) : (l ++ x :: y :: l2).set (N + 1) z = l ++ x :: z :: l2 := by
  subst h
  induction l with
  | nil => rfl
  | cons a as ih => simp [ih]

theorem ChildRefit_false (fuel : Nat) (t : Tree) (cur : Nat) :
    ChildRefit (fuel + 1) t cur false =
      (t.node cur >>= fun n => deref n.Left >>= fun l => t.node l >>= fun ln =>
        deref n.Right >>= fun r => t.node r >>= fun rn =>
          Res.ok (t.setNode cur { n with Box := ln.Box.Expand rn.Box })) := by
  simp only [ChildRefit]
  cases h1 : t.node cur with
  | panic => rfl
  | timeout => rfl
  | ok n =>
    simp only [Res.ok_bind]
    cases h2 : deref n.Left with
    | panic => rfl
    | timeout => rfl
    | ok l =>
      simp only [Res.ok_bind]
      cases h3 : t.node l with
      | panic => rfl
      | timeout => rfl
      | ok ln =>
        simp only [Res.ok_bind]
        cases h4 : deref n.Right with
        | panic => rfl
        | timeout => rfl
        | ok r =>
          simp only [Res.ok_bind]
          cases h5 : t.node r with
          | panic => rfl
          | timeout => rfl
          | ok rn =>
            simp only [Res.ok_bind]
            cases n.Parent <;> rfl

theorem CreateNode_pop {t : Tree} (i : Int) (hf : t.unusedNodeIndicies = [])
    (hfb : t.unusedBucketIndicies = [i]) :
    CreateNode t (-1) = Res.ok
      ({ t with
          nodes := t.nodes ++
            [{ Node.zero with NodeIndex := (t.nodes.length : Int) + 1, BucketIndex := i }]
          unusedBucketIndicies := [] },
        t.nodes.length) := by
  simp [CreateNode, hf, Tree.node, Tree.setNode, list_set_append_last, GetOrCreateFreeBucket, hfb]

theorem AddItemToBranch_eq {fuel : Nat} {w : World} {t : Tree} {p l r : Nat} {n ln rn : Node}
    (e : Entity) (hn : t.nodes[p]? = some n) (hL : n.Left = some l) (hR : n.Right = some r)
    (hln : t.nodes[l]? = some ln) (hrn : t.nodes[r]? = some rn)
    (hlr : l ≠ r) (hlp : l ≠ p) (hrp : r ≠ p)
    (hfn : t.unusedNodeIndicies = []) (hfb : t.unusedBucketIndicies = []) :
    AddItemToBranch (fuel + 1) w t p e =
      (SetDepth (fuel + 1) (branchResult w t p n l r ln rn e) p n.Depth >>= fun t =>
        ChildRefit (fuel + 1) t p true) := by
  have hpl := lt_of_get hn
  have hll := lt_of_get hln
  have hrl := lt_of_get hrn
  simp only [AddItemToBranch, Tree.node_eq hn, Res.ok_bind, CreateNode_fresh_bucket hfn hfb,
    Tree.update, Tree.node, list_get_append_lt _ hn, list_get_append_last, Tree.setNode,
    list_set_append_last, Node.zero, hL, hR, FreeBucket, hfb, List.nil_append, deref_some,
    list_get_append_lt _ hln, list_get_append_lt _ hrn, Res.pure_eq,
    list_set_append_lt _ _ hll, list_set_append_lt _ _ hrl, hn, hln, hrn]
  have hrl' : r < (t.nodes.set l
      { Box := ln.Box, Parent := some t.nodes.length, Left := ln.Left, Right := ln.Right,
        Depth := ln.Depth, NodeIndex := ln.NodeIndex, BucketIndex := ln.BucketIndex,
        State := ln.State }).length := by simpa using hrl
  have hr1 : ∀ (x : Node) (l2 : List Node), (t.nodes.set l x ++ l2)[r]? = some rn := by
    intro x l2
    rw [List.getElem?_append_left (by simpa using hrl), List.getElem?_set_ne hlr]; exact hrn
  simp only [hr1, Res.ok_bind, list_set_append_lt _ _ hrl']
  obtain ⟨base, hbase⟩ : ∃ base : List Node, base =
      (t.nodes.set l { ln with Parent := some t.nodes.length }).set r
        { rn with Parent := some t.nodes.length } := ⟨_, rfl⟩
  have hbl : base.length = t.nodes.length := by rw [hbase]; simp
  have hbL : base[l]? = some { ln with Parent := some t.nodes.length } := by
    rw [hbase, List.getElem?_set_ne (Ne.symm hlr)]; exact List.getElem?_set_self hll
  have hbR : base[r]? = some { rn with Parent := some t.nodes.length } := by
    rw [hbase]; exact List.getElem?_set_self (by simpa using hrl)
  have hbP : base[p]? = some n := by
    rw [hbase, List.getElem?_set_ne hrp, List.getElem?_set_ne hlp]; exact hn
  have hpb : p < base.length := by rw [hbl]; exact hpl
  simp only [branchResult]
  simp only [← hbase]
  simp only [ChildRefit_false, Tree.node, list_get_append_len' hbl, Res.ok_bind, deref_some,
    list_get_append_lt _ hbL, list_get_append_lt _ hbR, Tree.setNode, list_set_append_len' hbl,
    Bool.not_false, ↓reduceIte, Res.pure_eq]
  rw [CreateNode_pop ((t.Buckets.length : Int) + 1) ?_ ?_]
  rotate_left
  · exact hfn
  · rfl
  simp only [Res.ok_bind, List.length_append, List.length_singleton, hbl, Tree.update, Tree.node,
    List.append_assoc, List.singleton_append, list_get_append_len1' hbl, Tree.setNode,
    list_set_append_len1' hbl, Node.zero, Res.pure_eq]
  have hB1 : ((t.Buckets.length : Int) + 1 - 1).toNat = t.Buckets.length := by omega
  have hB0 : (0 ≤ (t.Buckets.length : Int) + 1 - 1) = True := by simp
  simp only [Tree.bucket, index_append_last, Res.ok_bind, Tree.setBucket, hB0, hB1,
    List.length_append, List.length_singleton, Nat.lt_succ_self, and_self, ↓reduceIte,
    List.nil_append, list_set_append_last, MapLeaf]
  rw [ComputeVolume_single (x := e) (list_get_append_len1' hbl _ _ _)
    (by simp only [Tree.bucket]; exact index_append_last _ _)]
  simp only [Res.ok_bind, Tree.setNode, list_set_append_len1' hbl, list_get_append_lt _ hbP,
    list_set_append_lt _ _ hpb, list_get_set_append_self _ _ hpb, list_set_set_append _ _ _ hpb,
    Nat.cast_add, Nat.cast_one, hfb]

/-- The records of the arena after the pointer surgery of `AddItemToBranch`, by
position. -/
theorem branchResult_nodes (w : World) (t : Tree) (p : Nat) (n : Node) (l r : Nat)
    (ln rn : Node) (e : Entity) (hp : p < t.nodes.length) (hl : l < t.nodes.length)
    (hr : r < t.nodes.length) (hlr : l ≠ r) (hlp : l ≠ p) (hrp : r ≠ p) (q : Nat) :
    (branchResult w t p n l r ln rn e).nodes[q]? =
      if q = p then some { n with Left := some t.nodes.length, Right := some (t.nodes.length + 1) }
      else if q = l then some { ln with Parent := some t.nodes.length }
      else if q = r then some { rn with Parent := some t.nodes.length }
      else if q < t.nodes.length then t.nodes[q]?
      else if q = t.nodes.length then
        some { Box := ln.Box.Expand rn.Box, Parent := some p, Left := some l, Right := some r,
               Depth := 0, NodeIndex := (t.nodes.length : Int) + 1, BucketIndex := -1, State := 0 }
      else if q = t.nodes.length + 1 then
        some { Box := BoxFromEntity w e, Parent := some p, Left := none, Right := none,
               Depth := 0, NodeIndex := (t.nodes.length : Int) + 1 + 1,
               BucketIndex := (t.Buckets.length : Int) + 1, State := 0 }
      else none := by
  simp only [branchResult]
  by_cases h1 : q = p
  · subst h1
    rw [if_pos rfl]
    exact list_get_set_append_self _ _ (by simpa using hp)
  · rw [if_neg h1]
    by_cases h0 : q < t.nodes.length
    · rw [List.getElem?_append_left (by simpa using h0), List.getElem?_set_ne (Ne.symm h1)]
      by_cases h2 : q = l
      · subst h2
        rw [if_pos rfl, List.getElem?_set_ne (Ne.symm hlr)]
        exact List.getElem?_set_self hl
      · rw [if_neg h2]
        by_cases h3 : q = r
        · subst h3
          rw [if_pos rfl]
          exact List.getElem?_set_self (by simpa using hr)
        · rw [if_neg h3, if_pos h0, List.getElem?_set_ne (Ne.symm h3),
            List.getElem?_set_ne (Ne.symm h2)]
    · rw [if_neg (by omega), if_neg (by omega), if_neg h0,
        List.getElem?_append_right (by simpa using h0)]
      simp only [List.length_set]
      by_cases h3 : q = t.nodes.length
      · subst h3; simp
      · rw [if_neg h3]
        by_cases h4 : q = t.nodes.length + 1
        · subst h4; simp
        · rw [if_neg h4]
          have : 2 ≤ q - t.nodes.length := by omega
          rw [List.getElem?_eq_none (by simpa using this)]

/-- A shape stays a shape of any tree whose records at its pointers have the
same links. -/
theorem Shaped.frame_links {t t' : Tree} : ∀ (s : Shape),
    (∀ (q : Nat) (m : Node), q ∈ s.ptrs → t.nodes[q]? = some m → ∃ m' : Node,
      t'.nodes[q]? = some m' ∧ m'.Left = m.Left ∧ m'.Right = m.Right ∧
      m'.BucketIndex = m.BucketIndex) → Shaped t s → Shaped t' s := by
  intro s
  induction s with
  | leaf p =>
    intro hf
    rintro ⟨n, h1, h2, h3, h4⟩
    obtain ⟨m', a1, a2, a3, a4⟩ := hf p n (by simp [Shape.ptrs]) h1
    exact ⟨m', a1, by rw [a4]; exact h2, by rw [a2]; exact h3, by rw [a3]; exact h4⟩
  | node p l r ihl ihr =>
    intro hf
    rintro ⟨n, h1, h2, h3, h4, h5, h6⟩
    obtain ⟨m', a1, a2, a3, a4⟩ := hf p n (by simp [Shape.ptrs]) h1
    refine ⟨m', a1, by rw [a4]; exact h2, by rw [a2]; exact h3, by rw [a3]; exact h4, ?_, ?_⟩
    · exact ihl (fun q m hq hm => hf q m (by simp [Shape.ptrs, hq]) hm) h5
    · exact ihr (fun q m hq hm => hf q m (by simp [Shape.ptrs, hq]) hm) h6

/-- Two labellings of a shape with depths differ by a constant. -/
theorem Depths.shift {t t' : Tree} : ∀ (s : Shape) (d d' : Int), Depths t s d → Depths t' s d' →
    ∀ (q : Nat) (m m' : Node), q ∈ s.ptrs → t.nodes[q]? = some m → t'.nodes[q]? = some m' →
    m'.Depth = m.Depth + (d' - d) := by
  intro s
  induction s with
  | leaf p =>
    intro d d'
    rintro ⟨n, h1, h2⟩ ⟨n', h1', h2'⟩ q m m' hq hm hm'
    simp only [Shape.ptrs, List.mem_singleton] at hq
    subst hq
    rw [h1] at hm; rw [h1'] at hm'
    cases hm; cases hm'
    omega
  | node p l r ihl ihr =>
    intro d d'
    rintro ⟨⟨n, h1, h2⟩, h3, h4⟩ ⟨⟨n', h1', h2'⟩, h3', h4'⟩ q m m' hq hm hm'
    simp only [Shape.ptrs, List.mem_cons, List.mem_append] at hq
    rcases hq with hq | hq | hq
    · subst hq
      rw [h1] at hm; rw [h1'] at hm'
      cases hm; cases hm'
      omega
    · have := ihl (d + 1) (d' + 1) h3 h3' q m m' hq hm hm'
      omega
    · have := ihr (d + 1) (d' + 1) h4 h4' q m m' hq hm hm'
      omega

/-- The depths of a labelled shape are at least the depth of its root and
below that depth plus the height. -/
theorem Depths.bounds {t : Tree} : ∀ (s : Shape) (d : Int), Depths t s d →
    ∀ (q : Nat) (m : Node), q ∈ s.ptrs → t.nodes[q]? = some m →
    d ≤ m.Depth ∧ m.Depth ≤ d + (s.height : Int) - 1 ∧ (q ≠ s.ptr → d < m.Depth) := by
  intro s
  induction s with
  | leaf p =>
    intro d
    rintro ⟨n, h1, h2⟩ q m hq hm
    simp only [Shape.ptrs, List.mem_singleton] at hq
    subst hq
    rw [h1] at hm; cases hm
    simp only [Shape.height, Shape.ptr]
    exact ⟨by omega, by push_cast; omega, fun h => absurd rfl h⟩
  | node p l r ihl ihr =>
    intro d
    rintro ⟨⟨n, h1, h2⟩, h3, h4⟩ q m hq hm
    simp only [Shape.ptrs, List.mem_cons, List.mem_append] at hq
    simp only [Shape.height, Shape.ptr]
    rcases hq with hq | hq | hq
    · subst hq
      rw [h1] at hm; cases hm
      exact ⟨by omega, by push_cast; omega, fun h => absurd rfl h⟩
    · have := ihl (d + 1) h3 q m hq hm
      exact ⟨by omega, by push_cast; omega, fun _ => by omega⟩
    · have := ihr (d + 1) h4 q m hq hm
      exact ⟨by omega, by push_cast; omega, fun _ => by omega⟩

/-- The pointers of a shape point into the arena. -/
theorem Shaped.mem_lt {t : Tree} : ∀ (s : Shape), Shaped t s → ∀ q, q ∈ s.ptrs →
    q < t.nodes.length := by
  intro s
  induction s with
  | leaf p =>
    rintro ⟨n, h1, _⟩ q hq
    simp only [Shape.ptrs, List.mem_singleton] at hq
    subst hq
    exact lt_of_get h1
  | node p l r ihl ihr =>
    rintro ⟨n, h1, _, _, _, h5, h6⟩ q hq
    simp only [Shape.ptrs, List.mem_cons, List.mem_append] at hq
    rcases hq with hq | hq | hq
    · subst hq; exact lt_of_get h1
    · exact ihl h5 q hq
    · exact ihr h6 q hq

/-- A node of a shape other than its root has a parent, which is in the shape. -/
theorem Shaped.parent_mem {t : Tree} (hl : Links t) (s : Shape) (hs : Shaped t s) {q : Nat}
    {m : Node} (hq : q ∈ s.ptrs) (hne : q ≠ s.ptr) (hm : t.nodes[q]? = some m) :
    ∃ g, m.Parent = some g ∧ g ∈ s.ptrs := by
  obtain ⟨k, hk⟩ := (Shaped.mem_iff hl s hs q).mp hq
  cases k with
  | zero =>
    simp only [ancAt] at hk
    cases hk
    exact absurd rfl hne
  | succ k =>
    cases hpar : m.Parent with
    | none =>
      simp only [ancAt, hm, hpar] at hk
      cases hk
    | some g =>
      rw [ancAt_succ k hm hpar] at hk
      exact ⟨g, rfl, (Shaped.mem_iff hl s hs g).mpr ⟨k, hk⟩⟩

set_option maxHeartbeats 1000000 in
/-- The invariant after the pointer surgery and the depth pass of
`AddItemToBranch`, from a record-by-record description of the arena: `S` is
the set of nodes that moved one level down. -/
theorem branch_inv_core {w : World} {es : List Entity} {t tD : Tree} {p l r : Nat}
    {n ln rn : Node} {e : Entity} (S : Nat → Prop)
    (hI : Inv w es t) (hn : t.nodes[p]? = some n) (hb : n.BucketIndex = -1)
    (hL : n.Left = some l) (hR : n.Right = some r)
    (hln : t.nodes[l]? = some ln) (hrn : t.nodes[r]? = some rn) (hlr : l ≠ r)
    (hlP : ln.Parent = some p) (hrP : rn.Parent = some p) (he : e ∉ es)
    (T0 : tD = { t with nodes := tD.nodes, maxDepth := tD.maxDepth,
                        Buckets := t.Buckets ++ [[e]],
                        leafs := fun z => if z = e then some (t.nodes.length + 1)
                          else t.leafs z })
    (T1 : tD.nodes.length = t.nodes.length + 2)
    (G : ∀ (q : Nat) (m0 : Node), t.nodes[q]? = some m0 → ∃ m' : Node,
      tD.nodes[q]? = some m' ∧
      m'.Box = m0.Box ∧ m'.BucketIndex = m0.BucketIndex ∧ m'.NodeIndex = m0.NodeIndex ∧
      (S q → m'.Depth = m0.Depth + 1) ∧ (¬ S q → m'.Depth = m0.Depth) ∧
      (q = l ∨ q = r → m'.Parent = some t.nodes.length) ∧
      (q ≠ l → q ≠ r → m'.Parent = m0.Parent) ∧
      (q = p → m'.Left = some t.nodes.length ∧ m'.Right = some (t.nodes.length + 1)) ∧
      (q ≠ p → m'.Left = m0.Left ∧ m'.Right = m0.Right))
    (T5 : tD.nodes[t.nodes.length]? = some
      { Box := ln.Box.Expand rn.Box, Parent := some p, Left := some l, Right := some r,
        Depth := n.Depth + 1, NodeIndex := (t.nodes.length : Int) + 1, BucketIndex := -1,
        State := 0 })
    (T6 : tD.nodes[t.nodes.length + 1]? = some
      { Box := BoxFromEntity w e, Parent := some p, Left := none, Right := none,
        Depth := n.Depth + 1, NodeIndex := (t.nodes.length : Int) + 1 + 1,
        BucketIndex := (t.Buckets.length : Int) + 1, State := 0 })
    (T7 : tD.maxDepth ≤ t.maxDepth + 1)
    (T8 : ∀ (q : Nat) (m' : Node), tD.nodes[q]? = some m' → m'.Depth ≤ tD.maxDepth)
    (S1 : S l) (S1' : S r) (S4 : ¬ S p)
    (S2 : ∀ (q : Nat) (m : Node), t.nodes[q]? = some m → S q → q ≠ l → q ≠ r →
      ∃ g, m.Parent = some g ∧ S g)
    (S3 : ∀ (g : Nat) (gn : Node) (z : Nat), t.nodes[g]? = some gn → S g →
      (gn.Left = some z ∨ gn.Right = some z) → S z) :
    Struct (es ++ [e]) tD ∧ LeafBoxOK w tD ∧ BranchBoxOK tD (some p) := by
  have hs := hI.struct
  have hpl := lt_of_get hn
  have hNp := hs.nodes p n hn
  have e1 : tD.rootNode = t.rootNode := by rw [T0]
  have e2 : tD.maxLeaves = t.maxLeaves := by rw [T0]
  have e3 : tD.unusedBucketIndicies = t.unusedBucketIndicies := by rw [T0]
  have e4 : tD.unusedNodeIndicies = t.unusedNodeIndicies := by rw [T0]
  have e5 : tD.Buckets = t.Buckets ++ [[e]] := by rw [T0]
  have e6 : tD.leafs = fun z => if z = e then some (t.nodes.length + 1) else t.leafs z := by
    rw [T0]
  have hlD : ln.Depth = n.Depth + 1 := by
    obtain ⟨pn, a1, _, a3, _⟩ := (hs.nodes l ln hln).parent p hlP
    rw [hn] at a1; cases a1; exact a3
  have hrD : rn.Depth = n.Depth + 1 := by
    obtain ⟨pn, a1, _, a3, _⟩ := (hs.nodes r rn hrn).parent p hrP
    rw [hn] at a1; cases a1; exact a3
  have B1 : ∀ (i : Int) (c : List Entity), t.bucket i = Res.ok c → tD.bucket i = Res.ok c := by
    intro i c hc
    obtain ⟨h0, h1⟩ := Tree.bucket_eq hc
    apply Tree.bucket_of h0
    rw [e5, List.getElem?_append_left (lt_of_get h1)]
    exact h1
  have B2 : tD.bucket ((t.Buckets.length : Int) + 1 - 1) = Res.ok [e] := by
    apply Tree.bucket_of (by omega)
    rw [e5]
    simp
  -- children of a node other than `p` are not the children of `p`
  have hch : ∀ (q : Nat) (c : Nat) (cn : Node), q ≠ p → t.nodes[c]? = some cn →
      cn.Parent = some q → c ≠ l ∧ c ≠ r := by
    intro q c cn hqp hc hpar
    constructor
    · intro h; subst h
      rw [hln] at hc; cases hc
      rw [hlP] at hpar; cases hpar
      exact hqp rfl
    · intro h; subst h
      rw [hrn] at hc; cases hc
      rw [hrP] at hpar; cases hpar
      exact hqp rfl
  have hNodes : ∀ (q : Nat) (m' : Node), tD.nodes[q]? = some m' → NodeOK tD q m' := by
    intro q m' hq
    have hql := lt_of_get hq
    rw [T1] at hql
    rcases (by omega : q < t.nodes.length ∨ q = t.nodes.length ∨ q = t.nodes.length + 1)
      with h | h | h
    · have hm0 : t.nodes[q]? = some t.nodes[q] := List.getElem?_eq_getElem h
      generalize t.nodes[q] = m0 at hm0
      obtain ⟨m'', hm'', g1, g2, g3, g4, g5, g6, g7, g8, g9⟩ := G q m0 hm0
      rw [hq] at hm''
      cases hm''
      have hM := hs.nodes q m0 hm0
      refine ⟨?_, T8 q m' hq, by rw [g3]; exact hM.nodeIndex, ?_, ?_, ?_, ?_, ?_⟩
      · have := hM.depth_nonneg
        by_cases hS : S q
        · rw [g4 hS]; omega
        · rw [g5 hS]; exact this
      · intro hpar
        by_cases hq1 : q = l ∨ q = r
        · rw [g6 hq1] at hpar; cases hpar
        · push_neg at hq1
          rw [g7 hq1.1 hq1.2] at hpar
          exact hM.root hpar
      · intro h0
        obtain ⟨r1, r2⟩ := hM.root_depth h0
        have hnl : q ≠ l := by
          intro h; subst h
          rw [hm0] at hln; cases hln
          rw [r1] at hlP; cases hlP
        have hnr : q ≠ r := by
          intro h; subst h
          rw [hm0] at hrn; cases hrn
          rw [r1] at hrP; cases hrP
        have hnS : ¬ S q := by
          intro hS
          obtain ⟨g, hg, _⟩ := S2 q m0 hm0 hS hnl hnr
          rw [r1] at hg; cases hg
        exact ⟨by rw [g7 hnl hnr]; exact r1, by rw [g5 hnS]; exact r2⟩
      · intro g hg
        by_cases hq1 : q = l ∨ q = r
        · rw [g6 hq1] at hg
          cases hg
          refine ⟨_, T5, rfl, ?_, ?_⟩
          · rcases hq1 with h1 | h1
            · subst h1
              rw [hln] at hm0; cases hm0
              rw [g4 S1, hlD]
            · subst h1
              rw [hrn] at hm0; cases hm0
              rw [g4 S1', hrD]
          · rcases hq1 with h1 | h1
            · exact Or.inl (by rw [h1])
            · exact Or.inr (by rw [h1])
        · push_neg at hq1
          rw [g7 hq1.1 hq1.2] at hg
          obtain ⟨pn, a1, a2, a3, a4⟩ := hM.parent g hg
          obtain ⟨pn', b1, _, b3, _, b5, b6, _, _, _, b10⟩ := G g pn a1
          have hgp : g ≠ p := by
            intro h; subst h
            rw [hn] at a1; cases a1
            rcases a4 with a4 | a4
            · rw [hL] at a4; cases a4; exact hq1.1 rfl
            · rw [hR] at a4; cases a4; exact hq1.2 rfl
          refine ⟨pn', b1, by rw [b3]; exact a2, ?_,
            by rw [(b10 hgp).1, (b10 hgp).2]; exact a4⟩
          by_cases hS : S q
          · obtain ⟨g', hg', hSg⟩ := S2 q m0 hm0 hS hq1.1 hq1.2
            rw [hg] at hg'; cases hg'
            rw [g4 hS, b5 hSg]; omega
          · have hSg : ¬ S g := fun hSg => hS (S3 g pn q a1 hSg a4)
            rw [g5 hS, b6 hSg]; exact a3
      · intro hbi
        rw [g2] at hbi
        obtain ⟨c1, c2, e0, c3, c4⟩ := hM.leaf hbi
        have hqp : q ≠ p := by
          intro h; subst h
          rw [hn] at hm0; cases hm0
          exact hbi hb
        have he0 : e0 ∈ es := (hs.leafs e0 q c4).1
        refine ⟨by rw [(g9 hqp).1]; exact c1, by rw [(g9 hqp).2]; exact c2, e0,
          by rw [g2]; exact B1 _ _ c3, ?_⟩
        rw [e6]
        simp only
        rw [if_neg (fun h : e0 = e => he (h ▸ he0))]
        exact c4
      · intro hbi
        rw [g2] at hbi
        by_cases hqp : q = p
        · exact ⟨t.nodes.length, t.nodes.length + 1, _, _, (g8 hqp).1, (g8 hqp).2, by omega,
            T5, T6, by rw [hqp], by rw [hqp]⟩
        · obtain ⟨l0, r0, ln0, rn0, d1, d2, d3, d4, d5, d6, d7⟩ := hM.branch hbi
          have hl0 := hch q l0 ln0 hqp d4 d6
          have hr0 := hch q r0 rn0 hqp d5 d7
          obtain ⟨ln', f1, _, _, _, _, _, _, f7, _, _⟩ := G l0 ln0 d4
          obtain ⟨rn', k1, _, _, _, _, _, _, k7, _, _⟩ := G r0 rn0 d5
          exact ⟨l0, r0, ln', rn', by rw [(g9 hqp).1]; exact d1, by rw [(g9 hqp).2]; exact d2,
            d3, f1, k1, by rw [f7 hl0.1 hl0.2]; exact d6, by rw [k7 hr0.1 hr0.2]; exact d7⟩
    · subst h
      have hd := T8 _ _ T5
      rw [T5] at hq
      cases hq
      obtain ⟨n', k1, _, k3, _, _, k6, _, _, k8, _⟩ := G p n hn
      obtain ⟨ln', f1, _, _, _, _, _, f6, _, _, _⟩ := G l ln hln
      obtain ⟨rn', j1, _, _, _, _, _, j6, _, _, _⟩ := G r rn hrn
      refine ⟨?_, hd, rfl, ?_, ?_, ?_, ?_, ?_⟩
      · have := hNp.depth_nonneg
        show 0 ≤ n.Depth + 1
        omega
      · intro h; cases h
      · intro h; omega
      · intro g hg
        cases hg
        exact ⟨n', k1, by rw [k3]; exact hb, by rw [k6 S4], Or.inl (k8 rfl).1⟩
      · intro h; exact absurd rfl h
      · intro _
        exact ⟨l, r, ln', rn', rfl, rfl, hlr, f1, j1, f6 (Or.inl rfl), j6 (Or.inr rfl)⟩
    · subst h
      have hd := T8 _ _ T6
      rw [T6] at hq
      cases hq
      obtain ⟨n', k1, _, k3, _, _, k6, _, _, k8, _⟩ := G p n hn
      refine ⟨?_, hd, ?_, ?_, ?_, ?_, ?_, ?_⟩
      · have := hNp.depth_nonneg
        show 0 ≤ n.Depth + 1
        omega
      · show (t.nodes.length : Int) + 1 + 1 = ((t.nodes.length + 1 : Nat) : Int) + 1
        push_cast; rfl
      · intro h; cases h
      · intro h; omega
      · intro g hg
        cases hg
        exact ⟨n', k1, by rw [k3]; exact hb, by rw [k6 S4], Or.inr (k8 rfl).2⟩
      · intro _
        refine ⟨rfl, rfl, e, B2, ?_⟩
        rw [e6]
        simp
      · intro h
        exfalso
        have h' : (t.Buckets.length : Int) + 1 = -1 := h
        omega
  refine ⟨⟨by rw [e1]; exact hs.root, by rw [e2]; exact hs.maxLeaves,
    by rw [e3]; exact hs.freeB, by rw [e4]; exact hs.freeN, hNodes, ?_, ?_, ?_, ?_, ?_⟩, ?_, ?_⟩
  · have := hs.size
    rw [T1, List.length_append, List.length_singleton]
    omega
  · rw [e5, List.length_append, List.length_append, List.length_singleton,
      List.length_singleton, hs.buckets]
  · have := hs.maxDepth
    rw [List.length_append, List.length_singleton]
    push_cast
    omega
  · intro e' q h
    rw [e6] at h
    simp only at h
    by_cases hee : e' = e
    · subst hee
      rw [if_pos rfl] at h
      cases h
      refine ⟨by simp, _, T6, ?_, B2⟩
      show (t.Buckets.length : Int) + 1 ≠ -1
      omega
    · rw [if_neg hee] at h
      obtain ⟨hin, n0, hn0, hbi, hbk⟩ := hs.leafs e' q h
      obtain ⟨m', hm', _, g2, _⟩ := G q n0 hn0
      exact ⟨by simp [hin], m', hm', by rw [g2]; exact hbi, by rw [g2]; exact B1 _ _ hbk⟩
  · intro e' h
    rw [e6]
    simp only
    by_cases hee : e' = e
    · rw [if_pos hee]; simp
    · rw [if_neg hee]
      apply hs.keys
      simpa [hee] using h
  · intro q m' e' hq hbi hbk
    have hql := lt_of_get hq
    rw [T1] at hql
    rcases (by omega : q < t.nodes.length ∨ q = t.nodes.length ∨ q = t.nodes.length + 1)
      with h | h | h
    · have hm0 : t.nodes[q]? = some t.nodes[q] := List.getElem?_eq_getElem h
      generalize t.nodes[q] = m0 at hm0
      obtain ⟨m'', hm'', g1, g2, _⟩ := G q m0 hm0
      rw [hq] at hm''
      cases hm''
      rw [g2] at hbi hbk
      obtain ⟨_, _, e0, c3, _⟩ := (hs.nodes q m0 hm0).leaf hbi
      have := B1 _ _ c3
      rw [hbk] at this
      cases this
      rw [g1]
      exact hI.leafBox q m0 e' hm0 hbi c3
    · subst h
      rw [T5] at hq
      cases hq
      exact absurd rfl hbi
    · subst h
      rw [T6] at hq
      cases hq
      have hbk' : tD.bucket ((t.Buckets.length : Int) + 1 - 1) = Res.ok [e'] := hbk
      rw [B2] at hbk'
      cases hbk'
      rfl
  · intro q m' l' r' ln' rn' hqp hq hbi hL' hR' hl' hr'
    have hqp' : q ≠ p := fun h => hqp (by rw [h])
    have hql := lt_of_get hq
    rw [T1] at hql
    rcases (by omega : q < t.nodes.length ∨ q = t.nodes.length ∨ q = t.nodes.length + 1)
      with h | h | h
    · have hm0 : t.nodes[q]? = some t.nodes[q] := List.getElem?_eq_getElem h
      generalize t.nodes[q] = m0 at hm0
      obtain ⟨m'', hm'', g1, g2, _, _, _, _, _, _, g9⟩ := G q m0 hm0
      rw [hq] at hm''
      cases hm''
      rw [g2] at hbi
      rw [(g9 hqp').1] at hL'
      rw [(g9 hqp').2] at hR'
      obtain ⟨l0, r0, ln0, rn0, d1, d2, _, d4, d5, _, _⟩ := (hs.nodes q m0 hm0).branch hbi
      rw [hL'] at d1; cases d1
      rw [hR'] at d2; cases d2
      obtain ⟨ln'', f1, f2, _⟩ := G l' ln0 d4
      obtain ⟨rn'', k1, k2, _⟩ := G r' rn0 d5
      rw [hl'] at f1; cases f1
      rw [hr'] at k1; cases k1
      rw [g1, f2, k2]
      exact hI.branchBox q m0 l' r' ln0 rn0 (by simp) hm0 hbi hL' hR' d4 d5
    · subst h
      rw [T5] at hq
      cases hq
      cases hL'
      cases hR'
      obtain ⟨ln'', f1, f2, _⟩ := G l ln hln
      obtain ⟨rn'', k1, k2, _⟩ := G r rn hrn
      rw [hl'] at f1; cases f1
      rw [hr'] at k1; cases k1
      rw [f2, k2]
    · subst h
      rw [T6] at hq
      cases hq
      exfalso
      have h' : (t.Buckets.length : Int) + 1 = -1 := hbi
      omega

set_option maxHeartbeats 1000000 in
/-- Adding an entity at a branch keeps the invariant. -/
theorem AddItemToBranch_inv {w : World} {es : List Entity} {t : Tree} {p : Nat} {n : Node}
    {e : Entity} {gas : Nat} (hI : Inv w es t) (hn : t.nodes[p]? = some n)
    (hb : n.BucketIndex = -1) (he : e ∉ es) (hg : es.length + 2 ≤ gas) :
    ∃ t', AddItemToBranch gas w t p e = Res.ok t' ∧ Inv w (es ++ [e]) t' := by
  have hs := hI.struct
  have hlk := hs.links
  have hNp := hs.nodes p n hn
  obtain ⟨l, r, ln, rn, hL, hR, hlr, hln, hrn, hlP, hrP⟩ := hNp.branch hb
  have hlp : l ≠ p := Ne.symm (hlk.parent_ne hln hlP)
  have hrp : r ≠ p := Ne.symm (hlk.parent_ne hrn hrP)
  have hpl := lt_of_get hn
  have hll := lt_of_get hln
  have hrl := lt_of_get hrn
  obtain ⟨f, rfl⟩ : ∃ f, gas = f + 1 := ⟨gas - 1, by omega⟩
  rw [AddItemToBranch_eq e hn hL hR hln hrn hlr hlp hrp hs.freeN hs.freeB]
  -- the subtree of `p`
  obtain ⟨sp, hsp1, hsp2, hsp3, hsp4, hsp5⟩ :=
    shape_exists hs (t.maxDepth - n.Depth).toNat p n hn (by omega)
  cases sp with
  | leaf p' =>
    obtain ⟨n0, h1, h2, _⟩ := hsp2
    simp only [Shape.ptr] at hsp1
    have hpp : p = p' := hsp1.symm
    subst hpp
    rw [hn] at h1; cases h1
    exact absurd hb h2
  | node p' sl sr =>
    simp only [Shape.ptr] at hsp1
    have hpp : p = p' := hsp1.symm
    subst hpp
    obtain ⟨n0, h1, _, h3, h4, hsl, hsr⟩ := hsp2
    rw [hn] at h1; cases h1
    have hslp : sl.ptr = l := by rw [hL] at h3; exact (Option.some.inj h3).symm
    have hsrp : sr.ptr = r := by rw [hR] at h4; exact (Option.some.inj h4).symm
    obtain ⟨_, hdl, hdr⟩ := hsp3
    simp only [Shape.ptrs, List.nodup_cons, List.mem_append, not_or, List.nodup_append] at hsp4
    obtain ⟨⟨hpsl, hpsr⟩, hnl, hnr, hdisj⟩ := hsp4
    simp only [Shape.height] at hsp5
    have hmd := hs.maxDepth
    have hd0 := hNp.depth_nonneg
    have hltl : ∀ q, q ∈ sl.ptrs → q < t.nodes.length := Shaped.mem_lt sl hsl
    have hltr : ∀ q, q ∈ sr.ptrs → q < t.nodes.length := Shaped.mem_lt sr hsr
    -- the arena after the surgery
    have KM := branchResult_nodes w t p n l r ln rn e hpl hll hrl hlr hlp hrp
    generalize hM : branchResult w t p n l r ln rn e = tM at KM
    have hMmd : tM.maxDepth = t.maxDepth := by rw [← hM]; rfl
    have hMlen : tM.nodes.length = t.nodes.length + 2 := by
      rw [← hM]; simp [branchResult]
    have KMp := KM p
    rw [if_pos rfl] at KMp
    have KMN := KM t.nodes.length
    rw [if_neg (by omega), if_neg (by omega), if_neg (by omega), if_neg (by omega),
      if_pos rfl] at KMN
    have KMN1 := KM (t.nodes.length + 1)
    rw [if_neg (by omega), if_neg (by omega), if_neg (by omega), if_neg (by omega),
      if_neg (by omega), if_pos rfl] at KMN1
    have FM : ∀ (q : Nat) (m : Node), t.nodes[q]? = some m → q ≠ p → ∃ m' : Node,
        tM.nodes[q]? = some m' ∧ m'.Left = m.Left ∧ m'.Right = m.Right ∧
        m'.BucketIndex = m.BucketIndex ∧ m'.Box = m.Box ∧ m'.NodeIndex = m.NodeIndex ∧
        m'.Depth = m.Depth ∧ (q = l ∨ q = r → m'.Parent = some t.nodes.length) ∧
        (q ≠ l → q ≠ r → m'.Parent = m.Parent) := by
      intro q m hq hqp
      rw [KM q, if_neg hqp]
      by_cases h1 : q = l
      · subst h1
        rw [hln] at hq; cases hq
        rw [if_pos rfl]
        exact ⟨_, rfl, rfl, rfl, rfl, rfl, rfl, rfl, fun _ => rfl, fun h => absurd rfl h⟩
      · rw [if_neg h1]
        by_cases h2 : q = r
        · subst h2
          rw [hrn] at hq; cases hq
          rw [if_pos rfl]
          exact ⟨_, rfl, rfl, rfl, rfl, rfl, rfl, rfl, fun _ => rfl, fun _ h => absurd rfl h⟩
        · rw [if_neg h2, if_pos (lt_of_get hq)]
          exact ⟨m, hq, rfl, rfl, rfl, rfl, rfl, rfl,
            fun h => h.elim (fun h => absurd h h1) (fun h => absurd h h2), fun _ _ => rfl⟩
    have hslM : Shaped tM sl := by
      refine Shaped.frame_links sl (fun q m hq hm => ?_) hsl
      obtain ⟨m', a1, a2, a3, a4, _⟩ := FM q m hm (fun h => hpsl (h ▸ hq))
      exact ⟨m', a1, a2, a3, a4⟩
    have hsrM : Shaped tM sr := by
      refine Shaped.frame_links sr (fun q m hq hm => ?_) hsr
      obtain ⟨m', a1, a2, a3, a4, _⟩ := FM q m hm (fun h => hpsr (h ▸ hq))
      exact ⟨m', a1, a2, a3, a4⟩
    obtain ⟨sNew, hsNew⟩ : ∃ s : Shape, s = Shape.node p (Shape.node t.nodes.length sl sr)
      (Shape.leaf (t.nodes.length + 1)) := ⟨_, rfl⟩
    have hNewS : Shaped tM sNew := by
      rw [hsNew]
      refine ⟨_, KMp, hb, rfl, rfl, ⟨_, KMN, rfl, ?_, ?_, hslM, hsrM⟩, ⟨_, KMN1, ?_, rfl, rfl⟩⟩
      · rw [hslp]
      · rw [hsrp]
      · show (t.Buckets.length : Int) + 1 ≠ -1
        omega
    have hNewP : ∀ q, q ∈ sNew.ptrs ↔ (q = p ∨ q = t.nodes.length ∨ q ∈ sl.ptrs ∨ q ∈ sr.ptrs ∨
        q = t.nodes.length + 1) := by
      intro q
      rw [hsNew]
      simp only [Shape.ptrs, List.mem_cons, List.mem_append, List.mem_singleton, List.cons_append,
        List.not_mem_nil, or_false, or_assoc]
    have hNewN : sNew.ptrs.Nodup := by
      rw [hsNew]
      simp only [Shape.ptrs, List.cons_append, List.nodup_cons, List.mem_cons, List.mem_append,
        List.mem_singleton, not_or, List.nodup_append, List.not_mem_nil, or_false,
        List.nodup_nil, and_true, not_false_eq_true, implies_true, true_and]
      refine ⟨⟨by omega, ⟨hpsl, hpsr⟩, by omega⟩,
        ⟨⟨fun h => absurd (hltl _ h) (lt_irrefl _), fun h => absurd (hltr _ h) (lt_irrefl _)⟩,
          by omega⟩, ⟨hnl, hnr, hdisj⟩, ?_⟩
      intro a ha ha'
      rw [List.mem_singleton] at ha'
      rcases List.mem_append.mp ha with ha | ha
      · have := hltl a ha; omega
      · have := hltr a ha; omega
    have hNewH : (sNew.height : Int) = (max sl.height sr.height : Nat) + 2 := by
      rw [hsNew]
      simp only [Shape.height]
      have : max (max sl.height sr.height + 1) 1 = max sl.height sr.height + 1 := by omega
      rw [this]
      push_cast
      ring
    obtain ⟨tD, hSD, hDO, hfr, hDep, hDmd⟩ := SetDepth_spec sNew (f + 1) tM n.Depth hNewS hNewN
      (by
        have : ((sNew.height : Nat) : Int) ≤ ((f + 1 : Nat) : Int) := by
          rw [hNewH]; push_cast at hsp5 ⊢; omega
        exact_mod_cast this)
    have hSD' : SetDepth (f + 1) tM p n.Depth = Res.ok tD := by
      rw [← hSD, hsNew]; rfl
    rw [hSD', Res.ok_bind]
    rw [hsNew] at hDep
    obtain ⟨⟨nD, hnD, hnDd⟩, ⟨⟨mD, hmD, hmDd⟩, hDl, hDr⟩, ⟨wD, hwD, hwDd⟩⟩ := hDep
    have hcore := @branch_inv_core w es t tD p l r n ln rn e
      (fun q => q ∈ sl.ptrs ∨ q ∈ sr.ptrs) hI hn hb hL hR hln hrn hlr
      hlP hrP he ?_ ?_ ?_ ?_ ?_ ?_ ?_ ?_ ?_ ?_ ?_ ?_
    rotate_left
    · have := hDO.eq
      rw [this, ← hM]
      rfl
    · rw [hDO.len, hMlen]
    · intro q m0 hq
      by_cases hqp : q = p
      · subst hqp
        rw [hn] at hq; cases hq
        obtain ⟨dd, hdd⟩ := hDO.pt q _ KMp
        rw [hnD] at hdd
        cases hdd
        refine ⟨_, hnD, rfl, rfl, rfl, fun h => ?_, fun _ => hnDd, fun h => ?_, fun _ _ => rfl,
          fun _ => ⟨rfl, rfl⟩, fun h => absurd rfl h⟩
        · exact absurd h (fun h => h.elim hpsl hpsr)
        · exact absurd h (fun h => h.elim (fun h => hlp h.symm) (fun h => hrp h.symm))
      · obtain ⟨m', a1, a2, a3, a4, a5, a6, a7, a8, a9⟩ := FM q m0 hq hqp
        obtain ⟨dd, hdd⟩ := hDO.pt q m' a1
        refine ⟨_, hdd, a5, a4, a6, fun hS => ?_, fun hS => ?_, a8, a9,
          fun h => absurd h hqp, fun _ => ⟨a2, a3⟩⟩
        · show dd = m0.Depth + 1
          rcases hS with hS | hS
          · have := Depths.shift sl _ _ hdl hDl q m0 _ hS hq hdd
            simp only at this
            omega
          · have := Depths.shift sr _ _ hdr hDr q m0 _ hS hq hdd
            simp only at this
            omega
        · show dd = m0.Depth
          have hql := lt_of_get hq
          have hnot : q ∉ sNew.ptrs := by
            rw [hNewP]
            intro h
            rcases h with h | h | h | h | h
            · exact hqp h
            · omega
            · exact hS (Or.inl h)
            · exact hS (Or.inr h)
            · omega
          have := hfr q hnot
          rw [hdd, a1] at this
          have := congrArg Node.Depth (Option.some.inj this)
          simp only at this
          rw [this, a7]
    · obtain ⟨dd, hdd⟩ := hDO.pt _ _ KMN
      rw [hmD] at hdd
      cases hdd
      rw [hmD]
      simp only at hmDd
      rw [hmDd]
    · obtain ⟨dd, hdd⟩ := hDO.pt _ _ KMN1
      rw [hwD] at hdd
      cases hdd
      rw [hwD]
      simp only at hwDd
      rw [hwDd]
    · rw [hDmd, hMmd, hNewH]
      push_cast at hsp5 ⊢
      omega
    · intro q m' hq
      by_cases hmem : q ∈ sNew.ptrs
      · have hDep' : Depths tD sNew n.Depth := by
          rw [hsNew]
          exact ⟨⟨nD, hnD, hnDd⟩, ⟨⟨mD, hmD, hmDd⟩, hDl, hDr⟩, ⟨wD, hwD, hwDd⟩⟩
        have := (Depths.bounds sNew n.Depth hDep' q m' hmem hq).2.1
        rw [hDmd]
        omega
      · have h1 := hfr q hmem
        rw [hq] at h1
        rw [hNewP] at hmem
        push_neg at hmem
        obtain ⟨c1, c2, c3, c4, c5⟩ := hmem
        have hql : q < t.nodes.length := by
          have := lt_of_get hq
          rw [hDO.len, hMlen] at this
          omega
        have hql' : q ≠ l := fun h => c3 (by rw [h, ← hslp]; exact Shape.ptr_mem sl)
        have hqr' : q ≠ r := fun h => c4 (by rw [h, ← hsrp]; exact Shape.ptr_mem sr)
        rw [KM q, if_neg c1, if_neg hql', if_neg hqr', if_pos hql] at h1
        have := (hs.nodes q m' h1.symm).depth_le
        rw [hDmd, hMmd]
        omega
    · exact Or.inl (by rw [← hslp]; exact Shape.ptr_mem sl)
    · exact Or.inr (by rw [← hsrp]; exact Shape.ptr_mem sr)
    · exact fun h => h.elim hpsl hpsr
    · intro q m hq hS hql hqr
      rcases hS with hS | hS
      · obtain ⟨g, h1, h2⟩ := Shaped.parent_mem hlk sl hsl hS (by rw [hslp]; exact hql) hq
        exact ⟨g, h1, Or.inl h2⟩
      · obtain ⟨g, h1, h2⟩ := Shaped.parent_mem hlk sr hsr hS (by rw [hsrp]; exact hqr) hq
        exact ⟨g, h1, Or.inr h2⟩
    · intro g gn z hg hS hz
      rcases hS with hS | hS
      · exact Or.inl (Shaped.child_mem sl hsl g z gn hS hg hz)
      · exact Or.inr (Shaped.child_mem sr hsr g z gn hS hg hz)
    obtain ⟨hsD, hlD, hbD⟩ := hcore
    obtain ⟨tF, hCR, hBO, hBB⟩ := ChildRefit_spec (f + 1) tD p nD hsD.links hnD
      (by
        obtain ⟨dd, hdd⟩ := hDO.pt p _ KMp
        rw [hnD] at hdd
        cases hdd
        exact hb)
      (by rw [hnDd]; have := hNp.depth_le; push_cast; omega) hbD
    exact ⟨tF, hCR, ⟨hBO.struct hsD, hBO.leafBox hlD, hBB⟩⟩

/-- The descent of `AddObjectToNode` ends in an insertion that keeps the
invariant. -/
theorem AddObjectToNode_inv {w : World} {es : List Entity} {t : Tree} {e : Entity} {gas : Nat}
    (b : BoundingBox) (sa : ℚ) (hI : Inv w es t) (he : e ∉ es) (hg : es.length + 4 ≤ gas) :
    ∀ (fuel : Nat) (p : Nat) (n : Node), t.nodes[p]? = some n → t.maxDepth - n.Depth < fuel →
    ∃ t', AddObjectToNode gas w e b sa fuel t (some p) = Res.ok t' ∧ Inv w (es ++ [e]) t' := by
  have hs := hI.struct
  intro fuel
  induction fuel with
  | zero =>
    intro p n hn hf
    have := (hs.nodes p n hn).depth_le
    simp only [Nat.cast_zero] at hf
    omega
  | succ fuel ih =>
    intro p n hn hf
    have hNp := hs.nodes p n hn
    by_cases hb : n.BucketIndex = -1
    · obtain ⟨l, r, ln, rn, hL, hR, _, hln, hrn, hlP, hrP⟩ := hNp.branch hb
      obtain ⟨pn, a1, _, a3, _⟩ := (hs.nodes l ln hln).parent p hlP
      rw [hn] at a1; cases a1
      obtain ⟨pn, c1, _, c3, _⟩ := (hs.nodes r rn hrn).parent p hrP
      rw [hn] at c1; cases c1
      simp only [AddObjectToNode, deref_some, Res.ok_bind, Tree.node_eq hn, hb, ↓reduceIte, hL, hR,
        Tree.node_eq hln, Tree.node_eq hrn]
      split_ifs
      · exact AddItemToBranch_inv hI hn hb he (by omega)
      · exact ih l ln hln (by push_cast at hf; omega)
      · exact ih r rn hrn (by push_cast at hf; omega)
    · have h1 : AddObjectToNode gas w e b sa (fuel + 1) t (some p) = AddItemToLeaf gas w t p e := by
        simp only [AddObjectToNode, deref_some, Res.ok_bind, Tree.node_eq hn, hb, ↓reduceIte,
          AddItemToLeaf]
      rw [h1]
      have hmd := hs.maxDepth
      have hdl := hNp.depth_le
      exact AddItemToLeaf_inv hI hn hb he (by omega) (by omega)

/-- The method `Add` keeps the invariant: the new entity gets a leaf. -/
theorem Add_inv {w : World} {es : List Entity} {t : Tree} {e : Entity} {fuel : Nat}
    (hI : Inv w es t) (he : e ∉ es) (hf : es.length + 4 ≤ fuel) :
    ∃ t', Add fuel w t e = Res.ok t' ∧ Inv w (es ++ [e]) t' := by
  have hs := hI.struct
  have hsz := hs.size
  have h0 : 0 < t.nodes.length := by omega
  have hn : t.nodes[0]? = some t.nodes[0] := List.getElem?_eq_getElem h0
  have hNp := hs.nodes 0 _ hn
  have hmd := hs.maxDepth
  simp only [Add, hs.root]
  exact AddObjectToNode_inv _ _ hI he hf fuel 0 _ hn
    (by rw [(hNp.root_depth rfl).2]; omega)

theorem NewTree_eq : NewTree = Res.ok
    { rootNode := some 0, maxDepth := 0, maxLeaves := 1, IsCreated := true,
      leafs := fun _ => none,
      nodes := [{ Node.zero with NodeIndex := 1, BucketIndex := 1 }], refitQueue := [],
      unusedBucketIndicies := [], unusedNodeIndicies := [], Buckets := [[]] } := by
  simp only [NewTree]
  rw [CreateNode_fresh_bucket rfl rfl]
  rfl

/-- The first `Add` on a new tree fills the root leaf. -/
theorem Add_first {w : World} {t0 : Tree} (e : Entity) {fuel : Nat} (h0 : NewTree = Res.ok t0)
    (hf : 1 ≤ fuel) : ∃ t', Add fuel w t0 e = Res.ok t' ∧ Inv w [e] t' := by
  rw [NewTree_eq] at h0
  cases h0
  obtain ⟨f, rfl⟩ : ∃ f, fuel = f + 1 := ⟨fuel - 1, by omega⟩
  obtain ⟨t1, ht1⟩ : ∃ t1 : Tree, t1 =
    { rootNode := some 0, maxDepth := 0, maxLeaves := 1, IsCreated := true,
      leafs := fun z => if z = e then some 0 else none,
      nodes := [{ Node.zero with NodeIndex := 1, BucketIndex := 1, Box := BoxFromEntity w e }],
      refitQueue := [], unusedBucketIndicies := [], unusedNodeIndicies := [],
      Buckets := [[e]] } := ⟨_, rfl⟩
  have hn1 : t1.nodes[0]? = some
      { Node.zero with NodeIndex := 1, BucketIndex := 1, Box := BoxFromEntity w e } := by
    rw [ht1]; rfl
  have hb1 : t1.bucket ((1 : Int) - 1) = Res.ok [e] := by rw [ht1]; rfl
  refine ⟨t1, ?_, ?_⟩
  · simp only [Add, AddObjectToNode, deref_some, Res.ok_bind]
    have hA : ∀ (t : Tree) (n : Node), t.nodes[0]? = some n → n.BucketIndex = 1 →
        n.Parent = none → t.bucket ((1 : Int) - 1) = Res.ok [] →
        t.Buckets.length = 1 → t.maxLeaves = 1 →
        (do
          let n ← t.node 0
          if n.BucketIndex = -1 then (Res.panic : Res Tree)
          else do
            let bk ← t.bucket (n.BucketIndex - 1)
            let t ← t.setBucket (n.BucketIndex - 1) (bk ++ [e])
            let t := MapLeaf t e 0
            let (t, _) ← RefitVolume (f + 1) w t 0
            SplitIfNecessary (f + 1) w t 0) =
        Res.ok ((MapLeaf { t with Buckets := t.Buckets.set 0 [e] } e 0).setNode 0
          { n with Box := BoxFromEntity w e }) := by
      intro t n hn hbi hpar hbk hbl hml
      have hbk' : (MapLeaf { t with Buckets := t.Buckets.set 0 [e] } e 0).bucket
          (n.BucketIndex - 1) = Res.ok [e] := by
        rw [hbi]
        apply Tree.bucket_of (by norm_num)
        simp only [MapLeaf]
        have : ((1 : Int) - 1).toNat = 0 := rfl
        rw [this]
        exact List.getElem?_set_self (by omega)
      have hn' : (MapLeaf { t with Buckets := t.Buckets.set 0 [e] } e 0).nodes[0]? = some n := hn
      have hn'' := Tree.setNode_get_self ({ n with Box := BoxFromEntity w e } : Node) hn'
      have hsp := @SplitIfNecessary_one f w
        ((MapLeaf { t with Buckets := t.Buckets.set 0 [e] } e 0).setNode 0
          { n with Box := BoxFromEntity w e }) 0 _ [e] hn'' hbk' (by
            show ((1 : Nat) : Int) ≤ t.maxLeaves
            rw [hml]; rfl)
      simp only [Tree.node_eq hn, Res.ok_bind, hbi, hbk, Tree.setBucket, hbl]
      simp only [show ((1 : Int) = -1) = False from by norm_num, ↓reduceIte,
        show ((1 : Int) - 1).toNat = 0 from rfl, show (0 : Int) ≤ 1 - 1 from by norm_num,
        Nat.lt_one_iff, and_self, Res.ok_bind, List.nil_append, RefitVolume, Tree.node_eq hn']
      rw [← hbi, ComputeVolume_single hn' hbk']
      simp only [Res.ok_bind, Tree.node_eq hn'', Res.pure_eq]
      simp only [hpar] at hsp ⊢
      split_ifs
      · simp only [Res.ok_bind]
        exact hsp
      · simp only [Res.ok_bind]
        exact hsp
    have hA' := hA
      { rootNode := some 0, maxDepth := 0, maxLeaves := 1, IsCreated := true,
        leafs := fun _ => none,
        nodes := [{ Node.zero with NodeIndex := 1, BucketIndex := 1 }], refitQueue := [],
        unusedBucketIndicies := [], unusedNodeIndicies := [], Buckets := [[]] }
      { Node.zero with NodeIndex := 1, BucketIndex := 1 } rfl rfl rfl rfl rfl rfl
    refine Eq.trans ?_ (hA'.trans ?_)
    · simp only [Tree.node, List.getElem?_cons_zero, Res.ok_bind]
      rfl
    · rw [ht1]; rfl
  · have e6 : t1.leafs = fun z => if z = e then some 0 else none := by rw [ht1]
    have hlen : t1.nodes.length = 1 := by rw [ht1]; rfl
    have hN : ∀ (p : Nat) (n : Node), t1.nodes[p]? = some n → p = 0 ∧
        n = { Node.zero with NodeIndex := 1, BucketIndex := 1, Box := BoxFromEntity w e } := by
      intro p n hp
      have := lt_of_get hp
      have hp0 : p = 0 := by omega
      subst hp0
      rw [hn1] at hp
      exact ⟨rfl, (Option.some.inj hp).symm⟩
    refine ⟨⟨by rw [ht1], by rw [ht1], by rw [ht1], by rw [ht1], ?_, by rw [hlen]; rfl,
      by rw [ht1]; rfl, by rw [ht1]; rfl, ?_, ?_⟩, ?_, ?_⟩
    · intro p n hp
      obtain ⟨rfl, rfl⟩ := hN p n hp
      refine ⟨by simp [Node.zero], by rw [ht1]; simp [Node.zero], rfl, fun _ => rfl,
        fun _ => ⟨rfl, rfl⟩, ?_, ?_, ?_⟩
      · intro q hq; cases hq
      · intro _
        exact ⟨rfl, rfl, e, hb1, by rw [e6]; simp⟩
      · intro h; exact absurd h (by norm_num)
    · intro x p hx
      rw [e6] at hx
      simp only at hx
      split_ifs at hx with hxe
      cases hx
      exact ⟨by simp [hxe], _, hn1, by norm_num, by subst hxe; exact hb1⟩
    · intro x hx
      rw [e6]
      simp only [List.mem_singleton] at hx
      simp [hx]
    · intro p n x hp hbi hbk
      obtain ⟨rfl, rfl⟩ := hN p n hp
      have : t1.bucket ((1 : Int) - 1) = Res.ok [x] := hbk
      rw [hb1] at this
      cases this
      rfl
    · intro p n l r ln rn _ hp hbi
      obtain ⟨rfl, rfl⟩ := hN p n hp
      exact absurd hbi (by norm_num)

/-- Adding a list of new, distinct entities keeps the invariant. -/
theorem AddAll_inv {w : World} {fuel : Nat} : ∀ (rest es : List Entity) (t : Tree),
    Inv w es t → (es ++ rest).Nodup → (es ++ rest).length + 4 ≤ fuel →
    ∃ t', AddAll fuel w rest t = Res.ok t' ∧ Inv w (es ++ rest) t' := by
  intro rest
  induction rest with
  | nil =>
    intro es t hI _ _
    exact ⟨t, rfl, by rw [List.append_nil]; exact hI⟩
  | cons e rest ih =>
    intro es t hI hnd hf
    have he : e ∉ es := by
      intro h
      have := List.nodup_append.mp hnd
      exact this.2.2 h (List.mem_cons_self e rest)
    simp only [List.length_append, List.length_cons] at hf
    obtain ⟨t1, h1, hI1⟩ := @Add_inv w es t e fuel hI he (by omega)
    obtain ⟨t2, h2, hI2⟩ := ih (es ++ [e]) t1 hI1 (by simpa using hnd)
      (by simp only [List.length_append, List.length_cons, List.length_nil]; omega)
    refine ⟨t2, ?_, by simpa using hI2⟩
    simp only [AddAll, h1, Res.ok_bind]
    exact h2

/-- The tree built from a non-empty list of distinct entities satisfies the
invariant. -/
theorem Build_inv {w : World} {fuel : Nat} (e : Entity) (es : List Entity)
    (hnd : (e :: es).Nodup) (hf : (e :: es).length + 4 ≤ fuel) :
    ∃ t, Build fuel w (e :: es) = Res.ok t ∧ Inv w (e :: es) t := by
  obtain ⟨t1, h1, hI1⟩ := @Add_first w _ e fuel NewTree_eq (by omega)
  obtain ⟨t2, h2, hI2⟩ := AddAll_inv es [e] t1 hI1 hnd hf
  refine ⟨t2, ?_, hI2⟩
  simp only [Build, NewTree_eq, Res.ok_bind, AddAll, h1]
  exact h2

theorem Shaped.root_get {t : Tree} : ∀ (s : Shape), Shaped t s →
    ∃ n : Node, t.nodes[s.ptr]? = some n := by
  intro s hs
  cases s with
  | leaf p => obtain ⟨n, h1, _⟩ := hs; exact ⟨n, h1⟩
  | node p l r => obtain ⟨n, h1, _⟩ := hs; exact ⟨n, h1⟩

/-- The box of the root of a shape contains the boxes of all its nodes. -/
theorem Shaped.box_contains {t : Tree} (hbb : BranchBoxOK t none) : ∀ (s : Shape), Shaped t s →
    ∀ (q : Nat) (nq n : Node), q ∈ s.ptrs → t.nodes[q]? = some nq → t.nodes[s.ptr]? = some n →
    n.Box.Contains nq.Box := by
  intro s
  induction s with
  | leaf p =>
    intro _ q nq n hq hnq hn
    simp only [Shape.ptrs, List.mem_singleton] at hq
    subst hq
    simp only [Shape.ptr] at hn
    rw [hnq] at hn; cases hn
    exact BoundingBox.Contains_refl _
  | node p l r ihl ihr =>
    rintro ⟨n0, h1, h2, h3, h4, h5, h6⟩ q nq n hq hnq hn
    simp only [Shape.ptr] at hn
    rw [h1] at hn; cases hn
    obtain ⟨ln, hln⟩ := Shaped.root_get l h5
    obtain ⟨rn, hrn⟩ := Shaped.root_get r h6
    have hbox := hbb p n0 l.ptr r.ptr ln rn (by simp) h1 h2 h3 h4 hln hrn
    simp only [Shape.ptrs, List.mem_cons, List.mem_append] at hq
    rcases hq with hq | hq | hq
    · subst hq
      rw [h1] at hnq; cases hnq
      exact BoundingBox.Contains_refl _
    · rw [hbox]
      exact BoundingBox.Contains_trans (BoundingBox.Contains_Expand_left _ _)
        (ihl h5 q nq ln hq hnq hln)
    · rw [hbox]
      exact BoundingBox.Contains_trans (BoundingBox.Contains_Expand_right _ _)
        (ihr h6 q nq rn hq hnq hrn)

theorem TraverseNode_leaf {t : Tree} {p : Nat} {n : Node} {b : List Entity} (fuel : Nat)
    (test : HitTest) (hn : t.nodes[p]? = some n) (hb : n.BucketIndex ≠ -1)
    (hL : n.Left = none) (hR : n.Right = none) (hbk : t.bucket (n.BucketIndex - 1) = Res.ok b) :
    TraverseNode (fuel + 1) t (some p) test = Res.ok (if test n.Box = true then b else []) := by
  have hv : n.IsValid = true := by
    simp [Node.IsValid, Node.IsValidLeafNode, Node.IsLeaf, hb, hL, hR]
  simp only [TraverseNode, deref_some, Res.ok_bind, Tree.node_eq hn, hv, Bool.not_true,
    Bool.false_eq_true, ↓reduceIte, hb, ne_eq, not_false_eq_true, hbk, hL, hR, Option.isSome_none,
    Res.pure_eq, List.append_nil]
  split_ifs <;> rfl

theorem TraverseNode_branch {t : Tree} {p l r : Nat} {n : Node} (fuel : Nat)
    (test : HitTest) (hn : t.nodes[p]? = some n) (hb : n.BucketIndex = -1)
    (hL : n.Left = some l) (hR : n.Right = some r) :
    TraverseNode (fuel + 1) t (some p) test =
      if test n.Box = true then
        (TraverseNode fuel t (some l) test >>= fun h2 =>
          TraverseNode fuel t (some r) test >>= fun h3 => Res.ok (h2 ++ h3))
      else Res.ok [] := by
  have hv : n.IsValid = true := by
    simp [Node.IsValid, Node.IsValidBranchNode, Node.IsLeaf, hb, hL, hR]
  simp only [TraverseNode, deref_some, Res.ok_bind, Tree.node_eq hn, hv, Bool.not_true,
    Bool.false_eq_true, ↓reduceIte, hb, ne_eq, not_true_eq_false, hL, hR, Option.isSome_some,
    Res.pure_eq, List.nil_append]

/-- The traversal of a subtree with a test that is monotone under containment
returns, without repetition, the entities of the leaves of the subtree whose
box passes the test. -/
theorem TraverseNode_shape {w : World} {es : List Entity} {t : Tree} (hI : Inv w es t)
    (test : HitTest)
    (hmono : ∀ a b : BoundingBox, a.Contains b → test b = true → test a = true) :
    ∀ (s : Shape) (fuel : Nat), Shaped t s → s.ptrs.Nodup → s.height ≤ fuel →
    ∃ hits, TraverseNode fuel t (some s.ptr) test = Res.ok hits ∧ hits.Nodup ∧
      ∀ e, e ∈ hits ↔
        ((∃ q, q ∈ s.ptrs ∧ t.leafs e = some q) ∧ test (BoxFromEntity w e) = true) := by
  have hs := hI.struct
  intro s
  induction s with
  | leaf p =>
    intro fuel hsh _ hf
    obtain ⟨n, h1, h2, h3, h4⟩ := hsh
    obtain ⟨f, rfl⟩ : ∃ f, fuel = f + 1 := ⟨fuel - 1, by simp [Shape.height] at hf; omega⟩
    obtain ⟨_, _, e0, hbk, hle⟩ := (hs.nodes p n h1).leaf h2
    have hbox := hI.leafBox p n e0 h1 h2 hbk
    have hkey : ∀ e, t.leafs e = some p → e = e0 := by
      intro e he
      obtain ⟨_, n', a1, _, a3⟩ := hs.leafs e p he
      rw [h1] at a1; cases a1
      rw [hbk] at a3
      cases a3
      rfl
    refine ⟨_, TraverseNode_leaf f test h1 h2 h3 h4 hbk, ?_, ?_⟩
    · split_ifs <;> simp
    · intro e
      simp only [Shape.ptrs, List.mem_singleton, exists_eq_left]
      by_cases hT : test n.Box = true
      · rw [if_pos hT]
        simp only [List.mem_singleton]
        constructor
        · rintro rfl
          exact ⟨hle, by rw [← hbox]; exact hT⟩
        · rintro ⟨h, _⟩
          exact hkey e h
      · rw [if_neg hT]
        simp only [List.not_mem_nil, false_iff, not_and]
        intro h
        have := hkey e h
        subst this
        rw [← hbox]
        exact hT
  | node p l r ihl ihr =>
    intro fuel hsh hnd hf
    have hsh' := hsh
    obtain ⟨n, h1, h2, h3, h4, h5, h6⟩ := hsh
    obtain ⟨f, rfl⟩ : ∃ f, fuel = f + 1 := ⟨fuel - 1, by simp [Shape.height] at hf; omega⟩
    simp only [Shape.height] at hf
    simp only [Shape.ptrs, List.nodup_cons, List.mem_append, not_or, List.nodup_append] at hnd
    obtain ⟨⟨hpl, hpr⟩, hnl, hnr, hdisj⟩ := hnd
    have hnotp : ∀ e, t.leafs e ≠ some p := by
      intro e he
      obtain ⟨_, n', a1, a2, _⟩ := hs.leafs e p he
      rw [h1] at a1; cases a1
      exact a2 h2
    simp only [Shape.ptr]
    rw [TraverseNode_branch f test h1 h2 h3 h4]
    by_cases hT : test n.Box = true
    · rw [if_pos hT]
      obtain ⟨hl, e1, e2, e3⟩ := ihl f h5 hnl (by omega)
      obtain ⟨hr, g1, g2, g3⟩ := ihr f h6 hnr (by omega)
      refine ⟨hl ++ hr, by rw [e1, Res.ok_bind, g1, Res.ok_bind], ?_, ?_⟩
      · refine List.nodup_append.mpr ⟨e2, g2, ?_⟩
        intro e hel her
        obtain ⟨⟨q, hq, hqe⟩, _⟩ := (e3 e).mp hel
        obtain ⟨⟨q', hq', hqe'⟩, _⟩ := (g3 e).mp her
        rw [hqe] at hqe'
        cases hqe'
        exact hdisj hq hq'
      · intro e
        simp only [List.mem_append, e3, g3, Shape.ptrs, List.mem_cons]
        constructor
        · rintro (⟨⟨q, hq, hqe⟩, ht⟩ | ⟨⟨q, hq, hqe⟩, ht⟩)
          · exact ⟨⟨q, Or.inr (Or.inl hq), hqe⟩, ht⟩
          · exact ⟨⟨q, Or.inr (Or.inr hq), hqe⟩, ht⟩
        · rintro ⟨⟨q, hq | hq | hq, hqe⟩, ht⟩
          · subst hq
            exact absurd hqe (hnotp e)
          · exact Or.inl ⟨⟨q, hq, hqe⟩, ht⟩
          · exact Or.inr ⟨⟨q, hq, hqe⟩, ht⟩
    · rw [if_neg hT]
      refine ⟨[], rfl, List.nodup_nil, ?_⟩
      intro e
      simp only [List.not_mem_nil, false_iff, not_and]
      rintro ⟨q, hq, hqe⟩ ht
      obtain ⟨_, nq, a1, a2, a3⟩ := hs.leafs e q hqe
      have hbq := hI.leafBox q nq e a1 a2 a3
      have hc := Shaped.box_contains hI.branchBox (Shape.node p l r) hsh' q nq n hq a1 h1
      rw [hbq] at hc
      exact hT (hmono _ _ hc ht)

/-- Every node has the root among its ancestors. -/
theorem Struct.anc_root {es : List Entity} {t : Tree} (hs : Struct es t) :
    ∀ (d : Nat) (z : Nat) (m : Node), t.nodes[z]? = some m → m.Depth = (d : Int) →
    ∃ k, ancAt t k z = some 0 := by
  intro d
  induction d with
  | zero =>
    intro z m hm hd
    cases hpar : m.Parent with
    | none =>
      have := (hs.nodes z m hm).root hpar
      subst this
      exact ⟨0, rfl⟩
    | some g =>
      obtain ⟨pn, a1, _, a3, _⟩ := (hs.nodes z m hm).parent g hpar
      have := (hs.nodes g pn a1).depth_nonneg
      simp only [Nat.cast_zero] at hd
      omega
  | succ d ih =>
    intro z m hm hd
    cases hpar : m.Parent with
    | none =>
      have := (hs.nodes z m hm).root hpar
      subst this
      exact ⟨0, rfl⟩
    | some g =>
      obtain ⟨pn, a1, _, a3, _⟩ := (hs.nodes z m hm).parent g hpar
      obtain ⟨k, hk⟩ := ih g pn a1 (by push_cast at hd; omega)
      exact ⟨k + 1, by rw [ancAt_succ k hm hpar]; exact hk⟩

/-- A node with a reachable ancestor is reachable. -/
theorem Reachable.of_anc {t : Tree} (hl : Links t) : ∀ (k : Nat) (z a : Nat),
    ancAt t k z = some a → Reachable t a → Reachable t z := by
  intro k
  induction k with
  | zero =>
    intro z a h hr
    simp only [ancAt] at h
    cases h
    exact hr
  | succ k ih =>
    intro z a h hr
    cases hm : t.nodes[z]? with
    | none => simp only [ancAt, hm] at h; cases h
    | some m =>
      cases hpar : m.Parent with
      | none => simp only [ancAt, hm, hpar] at h; cases h
      | some g =>
        rw [ancAt_succ k hm hpar] at h
        have hg := ih g a h hr
        obtain ⟨pn, a1, _, _, a4⟩ := (hl z m hm).parent g hpar
        rcases a4 with a4 | a4
        · exact Reachable.left hg a1 a4
        · exact Reachable.right hg a1 a4

/-- Every node of the arena is reachable from the root. -/
theorem Struct.reachable {es : List Entity} {t : Tree} (hs : Struct es t) {z : Nat} {m : Node}
    (hm : t.nodes[z]? = some m) : Reachable t z := by
  have h0 := (hs.nodes z m hm).depth_nonneg
  obtain ⟨k, hk⟩ := hs.anc_root m.Depth.toNat z m hm (by omega)
  exact Reachable.of_anc hs.links k z 0 hk (Reachable.root hs.root)

/-- The subtree of the root: a shape holding every node of the arena. -/
theorem Struct.root_shape {es : List Entity} {t : Tree} (hs : Struct es t) :
    ∃ s : Shape, s.ptr = 0 ∧ Shaped t s ∧ s.ptrs.Nodup ∧ s.height ≤ es.length ∧
      ∀ (z : Nat) (m : Node), t.nodes[z]? = some m → z ∈ s.ptrs := by
  have hsz := hs.size
  have h0 : 0 < t.nodes.length := by omega
  have hn : t.nodes[0]? = some t.nodes[0] := List.getElem?_eq_getElem h0
  have hd := ((hs.nodes 0 _ hn).root_depth rfl).2
  have hmd := hs.maxDepth
  have hmd0 := (hs.nodes 0 _ hn).depth_le
  obtain ⟨s, h1, h2, _, h4, h5⟩ := shape_exists hs t.maxDepth.toNat 0 _ hn (by omega)
  refine ⟨s, h1, h2, h4, by omega, ?_⟩
  intro z m hm
  have hz0 := (hs.nodes z m hm).depth_nonneg
  obtain ⟨k, hk⟩ := hs.anc_root m.Depth.toNat z m hm (by omega)
  exact (Shaped.mem_iff hs.links s h2 z).mpr ⟨k, by rw [h1]; exact hk⟩

/-- The traversal of a tree with a monotone test is the linear scan, up to
order. -/
theorem Traverse_inv {w : World} {es : List Entity} {t : Tree} (hI : Inv w es t)
    (hnd : es.Nodup) (test : HitTest)
    (hmono : ∀ a b : BoundingBox, a.Contains b → test b = true → test a = true)
    {fuel : Nat} (hf : es.length ≤ fuel) :
    ∃ hits, Traverse fuel t test = Res.ok hits ∧
      hits.Perm (es.filter (fun e => test (BoxFromEntity w e))) := by
  have hs := hI.struct
  obtain ⟨s, h1, h2, h3, h4, h5⟩ := hs.root_shape
  obtain ⟨hits, a1, a2, a3⟩ := TraverseNode_shape hI test hmono s fuel h2 h3 (by omega)
  refine ⟨hits, by simp only [Traverse, hs.root]; rw [← h1]; exact a1, ?_⟩
  refine (List.perm_ext_iff_of_nodup a2 (hnd.filter _)).mpr ?_
  intro e
  rw [a3 e, List.mem_filter]
  constructor
  · rintro ⟨⟨q, _, hq⟩, ht⟩
    exact ⟨(hs.leafs e q hq).1, ht⟩
  · rintro ⟨he, ht⟩
    cases hq : t.leafs e with
    | none => exact absurd hq (hs.keys e he)
    | some q =>
      obtain ⟨_, n, hn, _⟩ := hs.leafs e q hq
      exact ⟨⟨q, h5 q n hn, rfl⟩, ht⟩

/-- Building a tree and traversing it with a monotone test gives the linear
scan, up to order. -/
theorem Build_traverse (w : World) (es : List Entity) (fuel : Nat) (test : HitTest)
    (hnd : es.Nodup) (hf : es.length + 4 ≤ fuel)
    (hmono : ∀ a b : BoundingBox, a.Contains b → test b = true → test a = true) :
    ∃ t hits, Build fuel w es = Res.ok t ∧ Traverse fuel t test = Res.ok hits ∧
      hits.Perm (es.filter (fun e => test (BoxFromEntity w e))) := by
  cases es with
  | nil =>
    obtain ⟨f, rfl⟩ : ∃ f, fuel = f + 1 := ⟨fuel - 1, by simp at hf; omega⟩
    obtain ⟨t0, ht0⟩ : ∃ t0 : Tree, t0 =
        { rootNode := some 0, maxDepth := 0, maxLeaves := 1, IsCreated := true,
          leafs := fun _ => none,
          nodes := [{ Node.zero with NodeIndex := 1, BucketIndex := 1 }], refitQueue := [],
          unusedBucketIndicies := [], unusedNodeIndicies := [], Buckets := [[]] } := ⟨_, rfl⟩
    have hB : Build (f + 1) w [] = Res.ok t0 := by
      simp only [Build, NewTree_eq, Res.ok_bind, AddAll, ht0]
    have hn0 : t0.nodes[0]? = some { Node.zero with NodeIndex := 1, BucketIndex := 1 } := by
      rw [ht0]; rfl
    have hb0 : t0.bucket ((1 : Int) - 1) = Res.ok [] := by rw [ht0]; rfl
    have hr0 : t0.rootNode = some 0 := by rw [ht0]
    refine ⟨t0, [], hB, ?_, by simp⟩
    simp only [Traverse, hr0]
    rw [TraverseNode_leaf f test hn0 (by norm_num) rfl rfl hb0]
    split_ifs <;> rfl
  | cons e es =>
    obtain ⟨t, h1, hI⟩ := @Build_inv w fuel e es hnd hf
    obtain ⟨hits, h2, h3⟩ := Traverse_inv hI hnd test hmono (Nat.le_of_add_right_le hf)
    exact ⟨t, hits, h1, h2, h3⟩

/-- The new tree: one valid, empty root leaf and an empty leaf index. -/
theorem Build_nil (w : World) {fuel : Nat} :
    ∃ t, Build fuel w [] = Res.ok t ∧ t.rootNode = some 0 ∧ (∀ e, t.leafs e = none) ∧
      (∀ (q : Nat) (m : Node), t.nodes[q]? = some m → q = 0 ∧ m.BucketIndex = 1 ∧
        m.Parent = none ∧ m.Depth = 0 ∧ m.Left = none ∧ m.Right = none ∧
        t.bucket (m.BucketIndex - 1) = Res.ok []) ∧
      ∃ m, t.nodes[0]? = some m := by
  obtain ⟨t0, ht0⟩ : ∃ t0 : Tree, t0 =
      { rootNode := some 0, maxDepth := 0, maxLeaves := 1, IsCreated := true,
        leafs := fun _ => none,
        nodes := [{ Node.zero with NodeIndex := 1, BucketIndex := 1 }], refitQueue := [],
        unusedBucketIndicies := [], unusedNodeIndicies := [], Buckets := [[]] } := ⟨_, rfl⟩
  have hn0 : t0.nodes[0]? = some { Node.zero with NodeIndex := 1, BucketIndex := 1 } := by
    rw [ht0]; rfl
  have hb0 : t0.bucket ((1 : Int) - 1) = Res.ok [] := by rw [ht0]; rfl
  refine ⟨t0, by simp only [Build, NewTree_eq, Res.ok_bind, AddAll, ht0], by rw [ht0],
    fun _ => by rw [ht0], ?_, ⟨_, hn0⟩⟩
  intro q m hq
  have hq0 : q = 0 := by
    have := lt_of_get hq
    rw [ht0] at this
    simp only [List.length_singleton] at this
    omega
  subst hq0
  rw [hn0] at hq
  cases hq
  exact ⟨rfl, rfl, rfl, rfl, rfl, rfl, hb0⟩

/-- The box of an entity has `Min < Max` on every axis only if the radius is
positive; with rounding a positive radius is not enough (`farWorld`). -/
theorem BoxFromEntity_Solid (w : World) (e : Entity) (h : (BoxFromEntity w e).Solid) :
    0 < w.Radius e := by
  by_contra hr
  have h1 := w.round64_mono
    (show (w.Position e).X + w.Radius e ≤ (w.Position e).X - w.Radius e by linarith)
  exact absurd h.1 (not_lt.mpr h1)

/-- Claim C1: for every list of pairwise-distinct entities added with `Add` to
a tree from `NewTree()`, `Traverse` with the always-true predicate returns,
given fuel for the calls, a permutation of the added entities: every added
entity exactly once and nothing else. -/
theorem C1_traverse_all (w : World) (es : List Entity) (fuel : Nat) (hnd : es.Nodup)
    (hf : es.length + 4 ≤ fuel) :
    ∃ t hits, Build fuel w es = Res.ok t ∧ Traverse fuel t (fun _ => true) = Res.ok hits ∧
      hits.Perm es := by
  obtain ⟨t, hits, h1, h2, h3⟩ := Build_traverse w es fuel (fun _ => true) hnd hf
    (fun _ _ _ _ => rfl)
  refine ⟨t, hits, h1, h2, ?_⟩
  simpa using h3

theorem C1_traverse_all_witness :
    ([0, 1, 2] : List Entity).Nodup ∧ ([0, 1, 2] : List Entity).length + 4 ≤ 7 ∧
    ∃ t hits, Build 7 lineWorld [0, 1, 2] = Res.ok t ∧
      Traverse 7 t (fun _ => true) = Res.ok hits ∧ hits.Perm [0, 1, 2] :=
  ⟨by decide, by decide, C1_traverse_all lineWorld [0, 1, 2] 7 (by decide) (by decide)⟩

/-- Claim C4: after `Add` of pairwise-distinct entities on a new tree, the
keys of the leaf index `leafs` are exactly the added entities, and for every
added entity `e` the node `leafs[e]` is a valid leaf, reachable from the root,
whose bucket contains `e` exactly once, while the bucket of no other leaf
contains `e`. -/
theorem C4_leaf_index (w : World) (es : List Entity) (fuel : Nat) (hnd : es.Nodup)
    (hf : es.length + 4 ≤ fuel) :
    ∃ t, Build fuel w es = Res.ok t ∧ (∀ e, t.leafs e ≠ none ↔ e ∈ es) ∧
      ∀ e, e ∈ es → ∃ p n b, t.leafs e = some p ∧ t.nodes[p]? = some n ∧
        n.IsValidLeafNode = true ∧ Reachable t p ∧
        t.bucket (n.BucketIndex - 1) = Res.ok b ∧ b.count e = 1 ∧
        ∀ (q : Nat) (m : Node) (c : List Entity), q ≠ p → t.nodes[q]? = some m →
          m.IsLeaf = true → t.bucket (m.BucketIndex - 1) = Res.ok c → e ∉ c := by
  cases es with
  | nil =>
    obtain ⟨t, h1, _, h3, _, _⟩ := @Build_nil w fuel
    refine ⟨t, h1, ?_, ?_⟩
    · intro e
      simp [h3 e]
    · intro e he
      cases he
  | cons e0 es =>
    obtain ⟨t, h1, hI⟩ := @Build_inv w fuel e0 es hnd hf
    have hs := hI.struct
    refine ⟨t, h1, ?_, ?_⟩
    · intro e
      constructor
      · intro h
        cases hq : t.leafs e with
        | none => exact absurd hq h
        | some q => exact (hs.leafs e q hq).1
      · exact hs.keys e
    · intro e he
      cases hq : t.leafs e with
      | none => exact absurd hq (hs.keys e he)
      | some p =>
        obtain ⟨_, n, a1, a2, a3⟩ := hs.leafs e p hq
        obtain ⟨b1, b2, _⟩ := (hs.nodes p n a1).leaf a2
        refine ⟨p, n, [e], rfl, a1, ?_, hs.reachable a1, a3, by simp, ?_⟩
        · simp [Node.IsValidLeafNode, Node.IsLeaf, a2, b1, b2]
        · intro q m c hqp hm hml hc hec
          have hmb : m.BucketIndex ≠ -1 := by
            simpa [Node.IsLeaf] using hml
          obtain ⟨_, _, e1, c1, c2⟩ := (hs.nodes q m hm).leaf hmb
          rw [hc] at c1
          cases c1
          simp only [List.mem_singleton] at hec
          subst hec
          rw [hq] at c2
          exact hqp (Option.some.inj c2).symm

theorem C4_leaf_index_witness :
    ([0, 1, 2] : List Entity).Nodup ∧ ([0, 1, 2] : List Entity).length + 4 ≤ 7 ∧
    ∃ t, Build 7 lineWorld [0, 1, 2] = Res.ok t ∧
      (∀ e, t.leafs e ≠ none ↔ e ∈ ([0, 1, 2] : List Entity)) ∧
      ∀ e, e ∈ ([0, 1, 2] : List Entity) → ∃ p n b, t.leafs e = some p ∧
        t.nodes[p]? = some n ∧ n.IsValidLeafNode = true ∧ Reachable t p ∧
        t.bucket (n.BucketIndex - 1) = Res.ok b ∧ b.count e = 1 ∧
        ∀ (q : Nat) (m : Node) (c : List Entity), q ≠ p → t.nodes[q]? = some m →
          m.IsLeaf = true → t.bucket (m.BucketIndex - 1) = Res.ok c → e ∉ c :=
  ⟨by decide, by decide, C4_leaf_index lineWorld [0, 1, 2] 7 (by decide) (by decide)⟩

/-- Claim C6: the move of an entity does not complete. On the tree built from
the entities 0, 1, 2, 3 of `lineWorld`, after entity 0 has moved to
`(29, 0, 0)`, `QueueForOptimize(0)` followed by `Optimize()` panics:
`TryFindBetterNode` finds a better node and `RemoveItemFromNode` slices the
one-element bucket of the old leaf at the leaf's `NodeIndex`. -/
theorem C6_move_panics :
    (Build 8 lineWorld [0, 1, 2, 3] >>= fun t =>
      QueueForOptimize 8 movedWorld t 0 >>= fun r =>
      Optimize 8 r.1 >>= fun _ => Res.ok ()) = Res.panic := by
  decide!

/-- Claim C7: for every tree and every entity `e` that is not a key of the leaf
index, `QueueForOptimize(e)` returns false and leaves the tree state
unchanged. -/
theorem C7_queue_unknown (fuel : Nat) (w : World) (t : Tree) (e : Entity)
    (h : t.leafs e = none) : QueueForOptimize fuel w t e = Res.ok (t, false) := by
  simp only [QueueForOptimize, GetLeaf, h]

theorem C7_queue_unknown_witness :
    queuedTree.leafs 5 = none ∧
    QueueForOptimize 3 lineWorld queuedTree 5 = Res.ok (queuedTree, false) :=
  ⟨rfl, C7_queue_unknown 3 lineWorld queuedTree 5 rfl⟩

/-- Claim C9: after `Add` of pairwise-distinct entities on a new tree, the root
has `Depth` 0 and no parent, and every node reached from a branch `p` through
`p.Left` or `p.Right` has `Parent` equal to `p` and `Depth` equal to
`p.Depth + 1`. -/
theorem C9_depth_parent (w : World) (es : List Entity) (fuel : Nat) (hnd : es.Nodup)
    (hf : es.length + 4 ≤ fuel) :
    ∃ t, Build fuel w es = Res.ok t ∧
      (∃ r n, t.rootNode = some r ∧ t.nodes[r]? = some n ∧ n.Depth = 0 ∧ n.Parent = none) ∧
      ∀ (p : Nat) (n : Node) (c : Nat), t.nodes[p]? = some n → n.BucketIndex = -1 →
        (n.Left = some c ∨ n.Right = some c) →
        ∃ cn, t.nodes[c]? = some cn ∧ cn.Parent = some p ∧ cn.Depth = n.Depth + 1 := by
  cases es with
  | nil =>
    obtain ⟨t, h1, h2, _, h4, m, hm⟩ := @Build_nil w fuel
    refine ⟨t, h1, ⟨0, m, h2, hm, (h4 0 m hm).2.2.2.1, (h4 0 m hm).2.2.1⟩, ?_⟩
    intro p n c hn hb _
    have := (h4 p n hn).2.1
    rw [hb] at this
    exact absurd this (by norm_num)
  | cons e es =>
    obtain ⟨t, h1, hI⟩ := @Build_inv w fuel e es hnd hf
    have hs := hI.struct
    have hsz := hs.size
    have h0 : 0 < t.nodes.length := by omega
    have hn0 : t.nodes[0]? = some t.nodes[0] := List.getElem?_eq_getElem h0
    have hr := (hs.nodes 0 _ hn0).root_depth rfl
    refine ⟨t, h1, ⟨0, _, hs.root, hn0, hr.2, hr.1⟩, ?_⟩
    intro p n c hn hb hc
    obtain ⟨cn, a1, a2⟩ := hs.links.child_parent hn hb hc
    obtain ⟨pn, b1, _, b3, _⟩ := (hs.nodes c cn a1).parent p a2
    rw [hn] at b1
    cases b1
    exact ⟨cn, a1, a2, b3⟩

theorem C9_depth_parent_witness :
    ([0, 1, 2] : List Entity).Nodup ∧ ([0, 1, 2] : List Entity).length + 4 ≤ 7 ∧
    ∃ t, Build 7 lineWorld [0, 1, 2] = Res.ok t ∧
      (∃ r n, t.rootNode = some r ∧ t.nodes[r]? = some n ∧ n.Depth = 0 ∧ n.Parent = none) ∧
      ∀ (p : Nat) (n : Node) (c : Nat), t.nodes[p]? = some n → n.BucketIndex = -1 →
        (n.Left = some c ∨ n.Right = some c) →
        ∃ cn, t.nodes[c]? = some cn ∧ cn.Parent = some p ∧ cn.Depth = n.Depth + 1 :=
  ⟨by decide, by decide, C9_depth_parent lineWorld [0, 1, 2] 7 (by decide) (by decide)⟩

/-- Claim C10: when `Optimize` returns on the tree state `t` with the state
`t'`, running `Optimize` again on `t'`, with any fuel, returns `t'` itself:
`Optimize(Optimize(t)) = Optimize(t)`. -/
theorem C10_optimize_twice (fuel fuel' : Nat) (t t' : Tree) (h : Optimize fuel t = Res.ok t') :
    Optimize fuel' t' = Res.ok t' := by
  have key : t' = t ∧ (t.maxLeaves ≠ 1 ∨ t.refitQueue.length = 0) ∨ t'.refitQueue = [] := by
    unfold Optimize at h
    split_ifs at h with h1 h2
    · cases h; exact Or.inl ⟨rfl, Or.inl h1⟩
    · cases h; exact Or.inl ⟨rfl, Or.inr h2⟩
    · right
      simp only [Res.bind_eq_ok] at h
      obtain ⟨_, _, _, _, _, _, h3⟩ := h
      cases h3
      rfl
  unfold Optimize
  rcases key with ⟨rfl, h1 | h2⟩ | h3
  · rw [if_pos h1]
  · split_ifs <;> rfl
  · have : t'.refitQueue.length = 0 := by rw [h3]; rfl
    split_ifs <;> rfl

theorem C10_optimize_twice_witness :
    Optimize 1 queuedTree = Res.ok { queuedTree with refitQueue := [] } ∧
    Optimize 0 { queuedTree with refitQueue := [] } =
      Res.ok { queuedTree with refitQueue := [] } :=
  ⟨rfl, C10_optimize_twice 1 0 queuedTree { queuedTree with refitQueue := [] } rfl⟩

theorem lt64_some {α : Type} [LinearOrder α] (x y : α) :
    lt64 (some x) (some y) = decide (x < y) := rfl

/-- On boxes with rational coordinates `Box64.Expand` is `BoundingBox.Expand`. -/
theorem BoundingBox.to64_Expand (a b : BoundingBox) :
    (a.Expand b).to64 = a.to64.Expand b.to64 := by
  simp only [BoundingBox.to64, Box64.Expand, BoundingBox.Expand, lt64_some, gt_iff_lt,
    decide_eq_true_eq, Box64.mk.injEq, Vec64.mk.injEq]
  refine ⟨⟨?_, ?_, ?_⟩, ?_, ?_, ?_⟩ <;> split_ifs <;> rfl

theorem pick_min_comm {α : Type} [LinearOrder α] (x y : α) :
    (if lt64 (some y) (some x) then some y else some x) =
      (if lt64 (some x) (some y) then some x else some y) := by
  simp only [lt64_some, decide_eq_true_eq]
  rcases lt_trichotomy x y with h | h | h
  · rw [if_neg (not_lt.mpr (le_of_lt h)), if_pos h]
  · subst h
    rw [if_neg (lt_irrefl x)]
  · rw [if_pos h, if_neg (not_lt.mpr (le_of_lt h))]

theorem pick_max_comm {α : Type} [LinearOrder α] (x y : α) :
    (if lt64 (some x) (some y) then some y else some x) =
      (if lt64 (some y) (some x) then some x else some y) := by
  simp only [lt64_some, decide_eq_true_eq]
  rcases lt_trichotomy x y with h | h | h
  · rw [if_pos h, if_neg (not_lt.mpr (le_of_lt h))]
  · subst h
    rw [if_neg (lt_irrefl x)]
  · rw [if_neg (not_lt.mpr (le_of_lt h)), if_pos h]

theorem lt64_self {α : Type} [LinearOrder α] (x : Option α) : lt64 x x = false := by
  cases x with
  | none => rfl
  | some v => simp [lt64_some]

/-- Without NaN, `Expand` is commutative. -/
theorem Box64.Expand_comm64 {α : Type} [LinearOrder α] (a b : Box64 α) (ha : a.NoNaN)
    (hb : b.NoNaN) : a.Expand b = b.Expand a := by
  obtain ⟨⟨a1, a2, a3⟩, ⟨a4, a5, a6⟩⟩ := a
  obtain ⟨⟨b1, b2, b3⟩, ⟨b4, b5, b6⟩⟩ := b
  simp only [Box64.NoNaN, Option.isSome_iff_exists] at ha hb
  obtain ⟨⟨x1, rfl⟩, ⟨x2, rfl⟩, ⟨x3, rfl⟩, ⟨x4, rfl⟩, ⟨x5, rfl⟩, ⟨x6, rfl⟩⟩ := ha
  obtain ⟨⟨y1, rfl⟩, ⟨y2, rfl⟩, ⟨y3, rfl⟩, ⟨y4, rfl⟩, ⟨y5, rfl⟩, ⟨y6, rfl⟩⟩ := hb
  simp only [Box64.Expand, Box64.mk.injEq, Vec64.mk.injEq]
  exact ⟨⟨pick_min_comm _ _, pick_min_comm _ _, pick_min_comm _ _⟩,
    pick_max_comm _ _, pick_max_comm _ _, pick_max_comm _ _⟩

/-- The method `Expand` applied to a box and itself returns the box. -/
theorem Box64.Expand_self64 {α : Type} [LinearOrder α] (a : Box64 α) : a.Expand a = a := by
  simp only [Box64.Expand, lt64_self, Bool.false_eq_true, if_false]

/-- Claim C14, as written, fails for a box with NaN coordinates: every
comparison with NaN is false, so `Expand` keeps the coordinates of its
receiver; with `a` the zero box and `n` the box of NaN coordinates,
`a.Expand(n)` is `a` and `n.Expand(a)` is `n`. -/
theorem C14_counterexample :
    BoundingBox.zero.to64.Expand Box64.nan = BoundingBox.zero.to64 ∧
    Box64.nan.Expand BoundingBox.zero.to64 = Box64.nan ∧
    BoundingBox.zero.to64.Expand Box64.nan ≠ Box64.nan.Expand BoundingBox.zero.to64 := by
  have h1 : BoundingBox.zero.to64.Expand Box64.nan = BoundingBox.zero.to64 := rfl
  have h2 : Box64.nan.Expand BoundingBox.zero.to64 = Box64.nan := rfl
  refine ⟨h1, h2, ?_⟩
  rw [h1, h2]
  intro h
  have h3 := congrArg (fun b : Box64 ℚ => b.Min.X) h
  cases h3

/-- Claim C14, amended: for all bounding boxes `a` and `b` none of whose
coordinates is NaN, `a.Expand(b) = b.Expand(a)` and `a.Expand(a) = a`; the
coordinates are the numbers of any linear order, and on boxes with rational
coordinates this is the `Expand` of the tree. -/
theorem C14_expand_comm_idem (α : Type) [LinearOrder α] (a b : Box64 α) (ha : a.NoNaN)
    (hb : b.NoNaN) :
    a.Expand b = b.Expand a ∧ a.Expand a = a ∧
    ∀ c d : BoundingBox, (c.Expand d).to64 = c.to64.Expand d.to64 ∧
      c.Expand d = d.Expand c ∧ c.Expand c = c :=
  ⟨Box64.Expand_comm64 a b ha hb, Box64.Expand_self64 a, fun c d =>
    ⟨BoundingBox.to64_Expand c d, BoundingBox.Expand_comm c d, BoundingBox.Expand_self c⟩⟩

theorem C14_expand_comm_idem_witness :
    (BoxFromEntity lineWorld 0).to64.NoNaN ∧ (BoxFromEntity lineWorld 1).to64.NoNaN ∧
    (BoxFromEntity lineWorld 0).to64.Expand (BoxFromEntity lineWorld 1).to64 =
      (BoxFromEntity lineWorld 1).to64.Expand (BoxFromEntity lineWorld 0).to64 ∧
    (BoxFromEntity lineWorld 0).to64.Expand (BoxFromEntity lineWorld 0).to64 =
      (BoxFromEntity lineWorld 0).to64 ∧
    ∀ c d : BoundingBox, (c.Expand d).to64 = c.to64.Expand d.to64 ∧
      c.Expand d = d.Expand c ∧ c.Expand c = c :=
  ⟨by simp [Box64.NoNaN, BoundingBox.to64], by simp [Box64.NoNaN, BoundingBox.to64],
    C14_expand_comm_idem ℚ (BoxFromEntity lineWorld 0).to64 (BoxFromEntity lineWorld 1).to64
      (by simp [Box64.NoNaN, BoundingBox.to64]) (by simp [Box64.NoNaN, BoundingBox.to64])⟩

/-- Claim C16: `RemoveItemFromNode` does not complete. In the tree built from
the entities 0 and 1 of `lineWorld` the node at position 1 is a leaf with a
parent, `NodeIndex` 2 and the bucket `[0]`; `RemoveItemFromNode` of entity 0 on
it slices the bucket at `NodeIndex` and panics. -/
theorem C16_remove_item_panics :
    (Build 6 lineWorld [0, 1] >>= fun t => t.node 1 >>= fun n =>
      t.bucket (n.BucketIndex - 1) >>= fun b =>
      Res.ok (n.IsLeaf, n.HasParent, n.NodeIndex, b, t.leafs 0)) =
      Res.ok (true, true, 2, [0], some 1) ∧
    (Build 6 lineWorld [0, 1] >>= fun t =>
      RemoveItemFromNode 6 lineWorld t 1 0 >>= fun _ => Res.ok ()) = Res.panic := by
  decide!

/-- Claim C18: `RemoveNode` of a leaf whose parent is the root does not
complete. The parent `p` is freed (its `Left` and `Right` become nil) while
`keep.Parent` still is `p`, and the closing `ChildRefit(keep.Parent, true)`
dereferences `p.Left`. First the sibling is a leaf (tree of the entities 0, 1),
then a branch (tree of the entities 0, 1, 2); before the call the node at
position 1 is a leaf whose parent, at position 0, is the root and has no
parent. -/
theorem C18_remove_node_below_root_panics :
    (Build 6 lineWorld [0, 1] >>= fun t => t.node 1 >>= fun n => t.node 0 >>= fun pn =>
      t.node 2 >>= fun kn =>
      Res.ok ([t.rootNode, n.Parent, pn.Parent, pn.Left, pn.Right], n.IsLeaf, kn.IsLeaf)) =
      Res.ok ([some 0, some 0, none, some 1, some 2], true, true) ∧
    (Build 6 lineWorld [0, 1] >>= fun t => RemoveNode 6 t 1 >>= fun _ => Res.ok ()) =
      Res.panic ∧
    (Build 7 lineWorld [0, 1, 2] >>= fun t => t.node 1 >>= fun n => t.node 0 >>= fun pn =>
      t.node 2 >>= fun kn =>
      Res.ok ([t.rootNode, n.Parent, pn.Parent, pn.Left, pn.Right], n.IsLeaf, kn.IsLeaf)) =
      Res.ok ([some 0, some 0, none, some 1, some 2], true, false) ∧
    (Build 7 lineWorld [0, 1, 2] >>= fun t => RemoveNode 7 t 1 >>= fun _ => Res.ok ()) =
      Res.panic := by
  decide!

/-- Claim C19: `RemoveNode` leaves the promoted sibling at a wrong depth. In the
tree of the entities 0, 1, 2 of `lineWorld` the leaf at position 3 has the
parent at position 2 and the grandparent at position 0 (the root, depth 0), and
the sibling `keep` is the leaf at position 4, of depth 2. After `RemoveNode` the
parent of `keep` is the grandparent, and its depth is 3, not 1. In the tree of
the entities 0, 1, 2, 3 the sibling at position 4 is a branch of depth 2: after
`RemoveNode` its parent is the grandparent and its depth is still 2, not 1. -/
theorem C19_remove_node_depth :
    (Build 7 lineWorld [0, 1, 2] >>= fun t => t.node 3 >>= fun n => t.node 2 >>= fun pn =>
      t.node 0 >>= fun gn => t.node 4 >>= fun kn =>
      Res.ok ([n.Parent, pn.Parent, pn.Left, pn.Right], n.IsLeaf, kn.IsLeaf, [gn.Depth, kn.Depth])) =
      Res.ok ([some 2, some 0, some 3, some 4], true, true, [0, 2]) ∧
    (Build 7 lineWorld [0, 1, 2] >>= fun t => RemoveNode 7 t 3 >>= fun r =>
      r.1.node 4 >>= fun kn => r.1.node 0 >>= fun gn =>
      Res.ok (kn.Parent, [gn.Depth, kn.Depth])) = Res.ok (some 0, [0, 3]) ∧
    (Build 8 lineWorld [0, 1, 2, 3] >>= fun t => t.node 3 >>= fun n => t.node 2 >>= fun pn =>
      t.node 0 >>= fun gn => t.node 4 >>= fun kn =>
      Res.ok ([n.Parent, pn.Parent, pn.Left, pn.Right], n.IsLeaf, kn.IsLeaf, [gn.Depth, kn.Depth])) =
      Res.ok ([some 2, some 0, some 3, some 4], true, false, [0, 2]) ∧
    (Build 8 lineWorld [0, 1, 2, 3] >>= fun t => RemoveNode 8 t 3 >>= fun r =>
      r.1.node 4 >>= fun kn => r.1.node 0 >>= fun gn =>
      Res.ok (kn.Parent, [gn.Depth, kn.Depth])) = Res.ok (some 0, [0, 2]) := by
  decide!

/-- Claim C20: `CreateNode` does not return the freed record. In the tree of the
entities 0, 1, 2 of `lineWorld`, `RemoveNode` of the leaf at position 4 frees
that leaf (`NodeIndex` 5) and its parent at position 2 (`NodeIndex` 3): the
free-list is `[5, 3]`, and every `NodeIndex` is the 1-based position. The
record at position 3 is the live leaf of entity 1 (`NodeIndex` 4, bucket 2).
`CreateNode(7)` pops 3 and takes `t.nodes[3]`: it returns the record at position
3, not the freed one at position 2, and overwrites the `NodeIndex` and the
`BucketIndex` of that live leaf with 3 and 7. -/
theorem C20_create_node_reuse :
    (Build 7 lineWorld [0, 1, 2] >>= fun t => RemoveNode 7 t 4 >>= fun r =>
      r.1.node 3 >>= fun m =>
      Res.ok (r.1.unusedNodeIndicies, r.1.nodes.map (fun x => x.NodeIndex),
        [r.1.leafs 1, m.Parent], [m.NodeIndex, m.BucketIndex])) =
      Res.ok ([5, 3], [1, 2, 3, 4, 5], [some 3, some 0], [4, 2]) ∧
    (Build 7 lineWorld [0, 1, 2] >>= fun t => RemoveNode 7 t 4 >>= fun r =>
      CreateNode r.1 7 >>= fun c => c.1.node 3 >>= fun m =>
      Res.ok (c.2, c.1.unusedNodeIndicies, m.Parent, [m.NodeIndex, m.BucketIndex])) =
      Res.ok (3, [5], some 0, [3, 7]) := by
  decide!

/-- A reachable node of a tree built by `Add` is a record of the arena. -/
theorem Struct.reachable_get {es : List Entity} {t : Tree} (hs : Struct es t) {p : Nat}
    (h : Reachable t p) : ∃ m : Node, t.nodes[p]? = some m := by
  induction h with
  | root hr =>
    rw [hs.root] at hr
    cases hr
    have hsz := hs.size
    have h0 : 0 < t.nodes.length := by omega
    exact ⟨_, List.getElem?_eq_getElem h0⟩
  | @left p c n _ hn hc _ =>
    by_cases hb : n.BucketIndex = -1
    · obtain ⟨l, r, ln, rn, a1, _, _, a4, _⟩ := (hs.nodes p n hn).branch hb
      rw [hc] at a1
      cases a1
      exact ⟨ln, a4⟩
    · have := ((hs.nodes p n hn).leaf hb).1
      rw [hc] at this
      cases this
  | @right p c n _ hn hc _ =>
    by_cases hb : n.BucketIndex = -1
    · obtain ⟨l, r, ln, rn, _, a2, _, _, a5, _⟩ := (hs.nodes p n hn).branch hb
      rw [hc] at a2
      cases a2
      exact ⟨rn, a5⟩
    · have := ((hs.nodes p n hn).leaf hb).2.1
      rw [hc] at this
      cases this

/-- The tree of two entities: the root is a branch, its children are the two
leaves, each with one of the entities. -/
theorem Struct.two {a b : Entity} {t : Tree} (hs : Struct [a, b] t) :
    ∃ (n : Node) (l r : Nat) (ln rn : Node) (x y : Entity), t.nodes[0]? = some n ∧
      n.BucketIndex = -1 ∧ n.Left = some l ∧ n.Right = some r ∧ l ≠ r ∧
      t.nodes[l]? = some ln ∧ t.nodes[r]? = some rn ∧
      ln.BucketIndex ≠ -1 ∧ rn.BucketIndex ≠ -1 ∧
      t.bucket (ln.BucketIndex - 1) = Res.ok [x] ∧ t.bucket (rn.BucketIndex - 1) = Res.ok [y] ∧
      t.leafs x = some l ∧ t.leafs y = some r ∧ (x = a ∧ y = b ∨ x = b ∧ y = a) ∧
      ∀ (q : Nat) (m : Node), t.nodes[q]? = some m → q = 0 ∨ q = l ∨ q = r := by
  have hlen : t.nodes.length = 3 := by
    have := hs.size
    simp only [List.length_cons, List.length_nil] at this
    omega
  have hlk := hs.links
  have hn0 : t.nodes[0]? = some t.nodes[0] := List.getElem?_eq_getElem (by omega)
  generalize t.nodes[0] = n0 at hn0
  have hroot := (hs.nodes 0 n0 hn0).root_depth rfl
  -- every branch is the root
  have hbr : ∀ (g : Nat) (gn : Node), t.nodes[g]? = some gn → gn.BucketIndex = -1 → g = 0 := by
    intro g gn hg hb
    obtain ⟨l, r, ln, rn, _, _, a3, a4, a5, a6, a7⟩ := (hs.nodes g gn hg).branch hb
    have hl3 := lt_of_get a4
    have hr3 := lt_of_get a5
    have hg3 := lt_of_get hg
    have hlg : g ≠ l := hlk.parent_ne a4 a6
    have hrg : g ≠ r := hlk.parent_ne a5 a7
    have hl0 : l ≠ 0 := by
      intro h; subst h
      rw [hn0] at a4; cases a4
      rw [hroot.1] at a6; cases a6
    have hr0 : r ≠ 0 := by
      intro h; subst h
      rw [hn0] at a5; cases a5
      rw [hroot.1] at a7; cases a7
    omega
  have hb0 : n0.BucketIndex = -1 := by
    by_contra hleaf
    have hn1 : t.nodes[1]? = some t.nodes[1] := List.getElem?_eq_getElem (by omega)
    generalize t.nodes[1] = n1 at hn1
    cases hpar : n1.Parent with
    | none =>
      have := (hs.nodes 1 n1 hn1).root hpar
      omega
    | some g =>
      obtain ⟨pn, a1, a2, _, _⟩ := (hs.nodes 1 n1 hn1).parent g hpar
      have := hbr g pn a1 a2
      subst this
      rw [hn0] at a1; cases a1
      exact hleaf a2
  obtain ⟨l, r, ln, rn, a1, a2, a3, a4, a5, a6, a7⟩ := (hs.nodes 0 n0 hn0).branch hb0
  have hl0 : l ≠ 0 := fun h => (hlk.parent_ne a4 a6) h.symm
  have hr0 : r ≠ 0 := fun h => (hlk.parent_ne a5 a7) h.symm
  have hll : ln.BucketIndex ≠ -1 := fun h => hl0 (hbr l ln a4 h)
  have hrl : rn.BucketIndex ≠ -1 := fun h => hr0 (hbr r rn a5 h)
  obtain ⟨_, _, x, b1, b2⟩ := (hs.nodes l ln a4).leaf hll
  obtain ⟨_, _, y, c1, c2⟩ := (hs.nodes r rn a5).leaf hrl
  have hx := (hs.leafs x l b2).1
  have hy := (hs.leafs y r c2).1
  have hxy : x ≠ y := by
    intro h; subst h
    rw [b2] at c2
    exact a3 (Option.some.inj c2)
  simp only [List.mem_cons, List.mem_singleton, List.not_mem_nil, or_false] at hx hy
  refine ⟨n0, l, r, ln, rn, x, y, hn0, hb0, a1, a2, a3, a4, a5, hll, hrl, b1, c1, b2, c2, ?_, ?_⟩
  · rcases hx with hx | hx <;> rcases hy with hy | hy
    · exact absurd (hx.trans hy.symm) hxy
    · exact Or.inl ⟨hx, hy⟩
    · exact Or.inr ⟨hx, hy⟩
    · exact absurd (hx.trans hy.symm) hxy
  · intro q m hq
    have := lt_of_get hq
    have := lt_of_get a4
    have := lt_of_get a5
    omega

/-- Claim C12: for two distinct entities with the same position and the same
radius, `NewTree()` followed by `Add` of both yields a tree whose root is a
branch with exactly two leaf children (the only other nodes of the tree), the
bucket of each leaf holding exactly one of the two entities, and
`root.Box = Left.Box = Right.Box`. -/
theorem C12_twins (w : World) (a b : Entity) (fuel : Nat) (hab : a ≠ b)
    (hp : w.Position a = w.Position b) (hr : w.Radius a = w.Radius b) (hf : 6 ≤ fuel) :
    ∃ (t : Tree) (p : Nat) (n : Node) (l r : Nat) (ln rn : Node) (x y : Entity),
      Build fuel w [a, b] = Res.ok t ∧ t.rootNode = some p ∧ t.nodes[p]? = some n ∧
      n.IsValidBranchNode = true ∧ n.Left = some l ∧ n.Right = some r ∧ l ≠ r ∧
      t.nodes[l]? = some ln ∧ t.nodes[r]? = some rn ∧
      ln.IsValidLeafNode = true ∧ rn.IsValidLeafNode = true ∧
      t.bucket (ln.BucketIndex - 1) = Res.ok [x] ∧ t.bucket (rn.BucketIndex - 1) = Res.ok [y] ∧
      (x = a ∧ y = b ∨ x = b ∧ y = a) ∧
      (∀ (q : Nat) (m : Node), t.nodes[q]? = some m → q = p ∨ q = l ∨ q = r) ∧
      n.Box = ln.Box ∧ n.Box = rn.Box := by
  obtain ⟨t, h1, hI⟩ := @Build_inv w fuel a [b] (by simp [hab]) (by simpa using hf)
  have hs := hI.struct
  obtain ⟨n, l, r, ln, rn, x, y, a1, a2, a3, a4, a5, a6, a7, a8, a9, b1, b2, _, _, b5, b6⟩ :=
    hs.two
  have hbox : BoxFromEntity w a = BoxFromEntity w b := by
    simp only [BoxFromEntity, hp, hr]
  have hl := hI.leafBox l ln x a6 a8 b1
  have hrb := hI.leafBox r rn y a7 a9 b2
  have hlr : ln.Box = rn.Box := by
    rw [hl, hrb]
    rcases b5 with ⟨rfl, rfl⟩ | ⟨rfl, rfl⟩
    · exact hbox
    · exact hbox.symm
  have hnb := hI.branchBox 0 n l r ln rn (by simp) a1 a2 a3 a4 a6 a7
  have hL1 := ((hs.nodes l ln a6).leaf a8)
  have hR1 := ((hs.nodes r rn a7).leaf a9)
  refine ⟨t, 0, n, l, r, ln, rn, x, y, h1, hs.root, a1, ?_, a3, a4, a5, a6, a7, ?_, ?_, b1, b2,
    b5, b6, ?_, ?_⟩
  · simp [Node.IsValidBranchNode, Node.IsLeaf, a2, a3, a4]
  · simp [Node.IsValidLeafNode, Node.IsLeaf, a8, hL1.1, hL1.2.1]
  · simp [Node.IsValidLeafNode, Node.IsLeaf, a9, hR1.1, hR1.2.1]
  · rw [hnb, ← hlr, BoundingBox.Expand_self]
  · rw [hnb, hlr, BoundingBox.Expand_self]

theorem C12_twins_witness :
    (0 : Entity) ≠ 1 ∧ twinWorld.Position 0 = twinWorld.Position 1 ∧
    twinWorld.Radius 0 = twinWorld.Radius 1 ∧ 6 ≤ 6 ∧
    ∃ (t : Tree) (p : Nat) (n : Node) (l r : Nat) (ln rn : Node) (x y : Entity),
      Build 6 twinWorld [0, 1] = Res.ok t ∧ t.rootNode = some p ∧ t.nodes[p]? = some n ∧
      n.IsValidBranchNode = true ∧ n.Left = some l ∧ n.Right = some r ∧ l ≠ r ∧
      t.nodes[l]? = some ln ∧ t.nodes[r]? = some rn ∧
      ln.IsValidLeafNode = true ∧ rn.IsValidLeafNode = true ∧
      t.bucket (ln.BucketIndex - 1) = Res.ok [x] ∧ t.bucket (rn.BucketIndex - 1) = Res.ok [y] ∧
      (x = 0 ∧ y = 1 ∨ x = 1 ∧ y = 0) ∧
      (∀ (q : Nat) (m : Node), t.nodes[q]? = some m → q = p ∨ q = l ∨ q = r) ∧
      n.Box = ln.Box ∧ n.Box = rn.Box :=
  ⟨by decide, rfl, rfl, by decide, C12_twins twinWorld 0 1 6 (by decide) rfl rfl (by decide)⟩

theorem Build_nil_eq (w : World) (fuel : Nat) : Build fuel w [] = Res.ok
    { rootNode := some 0, maxDepth := 0, maxLeaves := 1, IsCreated := true,
      leafs := fun _ => none,
      nodes := [{ Node.zero with NodeIndex := 1, BucketIndex := 1 }], refitQueue := [],
      unusedBucketIndicies := [], unusedNodeIndicies := [], Buckets := [[]] } := by
  simp only [Build, NewTree_eq, Res.ok_bind, AddAll]

/-- Claim C13: after `Add` of pairwise-distinct entities on a new tree, the
number of nodes reachable from the root plus `len(unusedNodeIndicies)` equals
`len(nodes)`, and the number of buckets owned by reachable leaves plus
`len(unusedBucketIndicies)` equals `len(Buckets)`; for `n ≥ 1` added entities
there are `2n − 1` nodes and `n` buckets and both free-lists are empty. The
reachable nodes and the owned buckets are counted by lists without
repetition. -/
theorem C13_arena_accounting (w : World) (es : List Entity) (fuel : Nat) (hnd : es.Nodup)
    (hf : es.length + 4 ≤ fuel) :
    ∃ (t : Tree) (reach : List Nat) (owned : List Int), Build fuel w es = Res.ok t ∧
      reach.Nodup ∧ (∀ p, p ∈ reach ↔ Reachable t p) ∧
      owned.Nodup ∧ (∀ i, i ∈ owned ↔ ∃ (p : Nat) (n : Node), Reachable t p ∧
        t.nodes[p]? = some n ∧ n.IsLeaf = true ∧ n.BucketIndex = i) ∧
      reach.length + t.unusedNodeIndicies.length = t.nodes.length ∧
      owned.length + t.unusedBucketIndicies.length = t.Buckets.length ∧
      (1 ≤ es.length → t.nodes.length = 2 * es.length - 1 ∧ t.Buckets.length = es.length ∧
        t.unusedNodeIndicies = [] ∧ t.unusedBucketIndicies = []) := by
  cases es with
  | nil =>
    refine ⟨_, [0], [1], Build_nil_eq w fuel, by simp, ?_, by simp, ?_, rfl, rfl, ?_⟩
    · intro p
      simp only [List.mem_singleton]
      constructor
      · rintro rfl
        exact Reachable.root rfl
      · intro h
        induction h with
        | root hr => exact (Option.some.inj hr).symm
        | @left p c n _ hn hc ih =>
          subst ih
          simp only [List.getElem?_cons_zero, Option.some.injEq] at hn
          subst hn
          cases hc
        | @right p c n _ hn hc ih =>
          subst ih
          simp only [List.getElem?_cons_zero, Option.some.injEq] at hn
          subst hn
          cases hc
    · intro i
      simp only [List.mem_singleton]
      constructor
      · rintro rfl
        exact ⟨0, _, Reachable.root rfl, rfl, rfl, rfl⟩
      · rintro ⟨p, n, _, hn, _, hi⟩
        have hp : p = 0 := by
          have := lt_of_get hn
          simp only [List.length_singleton] at this
          omega
        subst hp
        simp only [List.getElem?_cons_zero, Option.some.injEq] at hn
        subst hn
        exact hi.symm
    · intro h
      simp at h
  | cons e0 es =>
    obtain ⟨t, h1, hI⟩ := @Build_inv w fuel e0 es hnd hf
    have hs := hI.struct
    have hsz := hs.size
    have hleaf : ∀ e, e ∈ e0 :: es → ∃ (p : Nat) (n : Node), t.leafs e = some p ∧
        t.nodes[p]? = some n ∧ n.BucketIndex ≠ -1 ∧ t.bucket (n.BucketIndex - 1) = Res.ok [e] ∧
        t.bucketOf e = n.BucketIndex := by
      intro e he
      cases hq : t.leafs e with
      | none => exact absurd hq (hs.keys e he)
      | some p =>
        obtain ⟨_, n, a1, a2, a3⟩ := hs.leafs e p hq
        exact ⟨p, n, rfl, a1, a2, a3, by simp only [Tree.bucketOf, hq, a1]⟩
    refine ⟨t, List.range t.nodes.length, (e0 :: es).map t.bucketOf, h1, List.nodup_range _, ?_,
      ?_, ?_, ?_, ?_, ?_⟩
    · intro p
      rw [List.mem_range]
      constructor
      · intro hp
        exact hs.reachable (List.getElem?_eq_getElem hp)
      · intro hp
        obtain ⟨m, hm⟩ := hs.reachable_get hp
        exact lt_of_get hm
    · refine (List.nodup_map_iff_inj_on hnd).mpr ?_
      intro x hx y hy hxy
      obtain ⟨p, n, a1, a2, a3, a4, a5⟩ := hleaf x hx
      obtain ⟨q, m, b1, b2, b3, b4, b5⟩ := hleaf y hy
      rw [a5, b5] at hxy
      rw [hxy, b4] at a4
      cases a4
      rfl
    · intro i
      rw [List.mem_map]
      constructor
      · rintro ⟨e, he, hi⟩
        obtain ⟨p, n, _, a2, a3, _, a5⟩ := hleaf e he
        exact ⟨p, n, hs.reachable a2, a2, by simp [Node.IsLeaf, a3], by rw [← hi, a5]⟩
      · rintro ⟨p, n, _, hn, hl, hi⟩
        have hb : n.BucketIndex ≠ -1 := by simpa [Node.IsLeaf] using hl
        obtain ⟨_, _, e, c1, c2⟩ := (hs.nodes p n hn).leaf hb
        have he := (hs.leafs e p c2).1
        refine ⟨e, he, ?_⟩
        simp only [Tree.bucketOf, c2, hn]
        exact hi
    · rw [hs.freeN, List.length_range]
      rfl
    · rw [hs.freeB, List.length_map, hs.buckets]
      rfl
    · intro _
      exact ⟨by omega, hs.buckets, hs.freeN, hs.freeB⟩

theorem C13_arena_accounting_witness :
    ([0, 1, 2] : List Entity).Nodup ∧ ([0, 1, 2] : List Entity).length + 4 ≤ 7 ∧
    ∃ (t : Tree) (reach : List Nat) (owned : List Int),
      Build 7 lineWorld [0, 1, 2] = Res.ok t ∧
      reach.Nodup ∧ (∀ p, p ∈ reach ↔ Reachable t p) ∧
      owned.Nodup ∧ (∀ i, i ∈ owned ↔ ∃ (p : Nat) (n : Node), Reachable t p ∧
        t.nodes[p]? = some n ∧ n.IsLeaf = true ∧ n.BucketIndex = i) ∧
      reach.length + t.unusedNodeIndicies.length = t.nodes.length ∧
      owned.length + t.unusedBucketIndicies.length = t.Buckets.length ∧
      (1 ≤ ([0, 1, 2] : List Entity).length →
        t.nodes.length = 2 * ([0, 1, 2] : List Entity).length - 1 ∧
        t.Buckets.length = ([0, 1, 2] : List Entity).length ∧
        t.unusedNodeIndicies = [] ∧ t.unusedBucketIndicies = []) :=
  ⟨by decide, by decide, C13_arena_accounting lineWorld [0, 1, 2] 7 (by decide) (by decide)⟩

/-- The traversal of a subtree of a tree built by `Add` returns, whatever the
test. -/
theorem TraverseNode_total {es : List Entity} {t : Tree} (hs : Struct es t) (test : HitTest) :
    ∀ (s : Shape) (fuel : Nat), Shaped t s → s.height ≤ fuel →
    ∃ hits, TraverseNode fuel t (some s.ptr) test = Res.ok hits := by
  intro s
  induction s with
  | leaf p =>
    intro fuel hsh hf
    obtain ⟨n, h1, h2, h3, h4⟩ := hsh
    obtain ⟨_, _, e, he, _⟩ := (hs.nodes p n h1).leaf h2
    obtain ⟨f, rfl⟩ : ∃ f, fuel = f + 1 := ⟨fuel - 1, by simp only [Shape.height] at hf; omega⟩
    exact ⟨_, TraverseNode_leaf f test h1 h2 h3 h4 he⟩
  | node p l r ihl ihr =>
    intro fuel hsh hf
    obtain ⟨n, h1, h2, h3, h4, h5, h6⟩ := hsh
    simp only [Shape.height] at hf
    obtain ⟨f, rfl⟩ : ∃ f, fuel = f + 1 := ⟨fuel - 1, by omega⟩
    obtain ⟨a, ha⟩ := ihl f h5 (by omega)
    obtain ⟨b, hb⟩ := ihr f h6 (by omega)
    simp only [Shape.ptr]
    rw [TraverseNode_branch f test h1 h2 h3 h4, ha, hb]
    split_ifs
    · exact ⟨_, rfl⟩
    · exact ⟨_, rfl⟩

/-- The traversal of a tree built by `Add` returns, whatever the test. -/
theorem Build_traverse_total (w : World) (es : List Entity) (fuel : Nat) (test : HitTest)
    (hnd : es.Nodup) (hf : es.length + 4 ≤ fuel) :
    ∃ t hits, Build fuel w es = Res.ok t ∧ Traverse fuel t test = Res.ok hits := by
  cases es with
  | nil =>
    obtain ⟨f, rfl⟩ : ∃ f, fuel = f + 1 := ⟨fuel - 1, by simp at hf; omega⟩
    obtain ⟨t, h1, h2, _, h4, m, hm⟩ := @Build_nil w (f + 1)
    obtain ⟨_, a2, _, _, a5, a6, a7⟩ := h4 0 m hm
    have h := TraverseNode_leaf f test hm (by rw [a2]; norm_num) a5 a6 a7
    exact ⟨t, _, h1, by simp only [Traverse, h2]; exact h⟩
  | cons e es =>
    obtain ⟨t, h1, hI⟩ := @Build_inv w fuel e es hnd hf
    have hs := hI.struct
    obtain ⟨s, e1, e2, _, e4, _⟩ := hs.root_shape
    obtain ⟨hits, h2⟩ := TraverseNode_total hs test s fuel e2
      (le_trans e4 (Nat.le_of_add_right_le hf))
    refine ⟨t, hits, h1, ?_⟩
    simp only [Traverse, hs.root]
    rw [← e1]
    exact h2

/-- With the left half joined first, `ConcurrentTraverse` is `Traverse`. -/
theorem ConcurrentTraverse_left (fuel : Nat) (t : Tree) (test : HitTest) :
    ConcurrentTraverse fuel t test true = Traverse fuel t test := by
  cases fuel with
  | zero => rfl
  | succ f =>
    simp only [ConcurrentTraverse, Traverse, TraverseNode, ↓reduceIte, Res.pure_eq,
      List.append_assoc]

/-- Three results joined in either order of the last two. -/
theorem Res.join_perm (A B C : Res (List Entity)) (hits : List Entity)
    (h : (A >>= fun o => B >>= fun x => C >>= fun y => (pure (o ++ (x ++ y)) : Res _)) =
      Res.ok hits) :
    ∃ hits', (A >>= fun o => B >>= fun x => C >>= fun y => (pure (o ++ (y ++ x)) : Res _)) =
      Res.ok hits' ∧ hits'.Perm hits := by
  obtain ⟨o, h1, h⟩ := Res.bind_eq_ok.mp h
  obtain ⟨x, h2, h⟩ := Res.bind_eq_ok.mp h
  obtain ⟨y, h3, h⟩ := Res.bind_eq_ok.mp h
  cases h
  rw [h1, Res.ok_bind, h2, Res.ok_bind, h3, Res.ok_bind]
  exact ⟨o ++ (y ++ x), rfl, List.Perm.append_left o List.perm_append_comm⟩

/-- When `Traverse` returns, `ConcurrentTraverse` returns the same entities up
to order, whichever half is joined first. -/
theorem ConcurrentTraverse_perm (fuel : Nat) (t : Tree) (test : HitTest) (leftFirst : Bool)
    (hits : List Entity) (h : Traverse fuel t test = Res.ok hits) :
    ∃ hits', ConcurrentTraverse fuel t test leftFirst = Res.ok hits' ∧ hits'.Perm hits := by
  cases leftFirst with
  | true => exact ⟨hits, by rw [ConcurrentTraverse_left]; exact h, List.Perm.refl _⟩
  | false =>
    rw [← ConcurrentTraverse_left] at h
    cases fuel with
    | zero =>
      simp only [ConcurrentTraverse] at h
      cases h
    | succ f =>
      simp only [ConcurrentTraverse, ↓reduceIte] at h
      simp only [ConcurrentTraverse, Bool.false_eq_true, ↓reduceIte]
      obtain ⟨p, hp, h⟩ := Res.bind_eq_ok.mp h
      obtain ⟨n, hn, h⟩ := Res.bind_eq_ok.mp h
      rw [hp, Res.ok_bind, hn, Res.ok_bind]
      by_cases hv : (!n.IsValid) = true
      · rw [if_pos hv] at h
        rw [if_pos hv]
        cases h
        exact ⟨[], rfl, List.Perm.refl _⟩
      · rw [if_neg hv] at h
        rw [if_neg hv]
        by_cases ht : test n.Box = true
        · rw [if_pos ht] at h
          rw [if_pos ht]
          by_cases c1 : n.BucketIndex = -1 <;> by_cases c2 : n.Left.isSome = true <;>
            by_cases c3 : n.Right.isSome = true <;>
            simp only [ne_eq, c1, c2, c3, ↓reduceIte, not_true_eq_false, not_false_eq_true,
              Bool.false_eq_true] at h ⊢ <;>
            exact Res.join_perm _ _ _ hits h
        · rw [if_neg ht] at h
          rw [if_neg ht]
          cases h
          exact ⟨[], rfl, List.Perm.refl _⟩

/-- Claim C15: for every tree and every predicate `p`, when `Traverse(p)`
returns, `ConcurrentTraverse(p)` returns the same multiset of entities (a
permutation of the list), whichever of the two halves is joined first, and
with the left half first the very same list; and on every tree built by `Add`
both return. -/
theorem C15_concurrent_traverse (w : World) (es : List Entity) (fuel : Nat) (test : HitTest)
    (leftFirst : Bool) (hnd : es.Nodup) (hf : es.length + 4 ≤ fuel) :
    (∀ (f : Nat) (t : Tree) (hits : List Entity), Traverse f t test = Res.ok hits →
      ∃ hits', ConcurrentTraverse f t test leftFirst = Res.ok hits' ∧ hits'.Perm hits) ∧
    (∀ (f : Nat) (t : Tree), ConcurrentTraverse f t test true = Traverse f t test) ∧
    ∃ t hits hits', Build fuel w es = Res.ok t ∧ Traverse fuel t test = Res.ok hits ∧
      ConcurrentTraverse fuel t test leftFirst = Res.ok hits' ∧ hits'.Perm hits := by
  refine ⟨fun f t hits h => ConcurrentTraverse_perm f t test leftFirst hits h,
    fun f t => ConcurrentTraverse_left f t test, ?_⟩
  obtain ⟨t, hits, h1, h2⟩ := Build_traverse_total w es fuel test hnd hf
  obtain ⟨hits', h3, h4⟩ := ConcurrentTraverse_perm fuel t test leftFirst hits h2
  exact ⟨t, hits, hits', h1, h2, h3, h4⟩

theorem C15_concurrent_traverse_witness :
    ([0, 1, 2] : List Entity).Nodup ∧ ([0, 1, 2] : List Entity).length + 4 ≤ 7 ∧
    (∀ (f : Nat) (t : Tree) (hits : List Entity),
      Traverse f t (fun b => b.Intersects (BoxFromEntity lineWorld 2)) = Res.ok hits →
      ∃ hits', ConcurrentTraverse f t (fun b => b.Intersects (BoxFromEntity lineWorld 2))
          false = Res.ok hits' ∧ hits'.Perm hits) ∧
    (∀ (f : Nat) (t : Tree),
      ConcurrentTraverse f t (fun b => b.Intersects (BoxFromEntity lineWorld 2)) true =
        Traverse f t (fun b => b.Intersects (BoxFromEntity lineWorld 2))) ∧
    ∃ t hits hits', Build 7 lineWorld [0, 1, 2] = Res.ok t ∧
      Traverse 7 t (fun b => b.Intersects (BoxFromEntity lineWorld 2)) = Res.ok hits ∧
      ConcurrentTraverse 7 t (fun b => b.Intersects (BoxFromEntity lineWorld 2)) false =
        Res.ok hits' ∧ hits'.Perm hits :=
  ⟨by decide, by decide,
    C15_concurrent_traverse lineWorld [0, 1, 2] 7
      (fun b => b.Intersects (BoxFromEntity lineWorld 2)) false (by decide) (by decide)⟩

/-- One iteration of the descent loop of `TryFindBetterNode` at a branch where
the two costs tie and the merged cost is not below the threshold leaves `bn`
where it is. -/
theorem TryFindBetterNode_loop_tie {t : Tree} {box : BoundingBox} {sa : ℚ} {p l r : Nat}
    {n ln rn : Node} (hn : t.nodes[p]? = some n) (hb : n.BucketIndex = -1)
    (hL : n.Left = some l) (hR : n.Right = some r) (hln : t.nodes[l]? = some ln)
    (hrn : t.nodes[r]? = some rn) (hlv : ln.IsValid = true) (hrv : rn.IsValid = true)
    (htie : rn.Box.SurfaceArea + (ln.Box.Expand box).SurfaceArea =
      ln.Box.SurfaceArea + (rn.Box.Expand box).SurfaceArea)
    (hm : ¬ (ln.Box.Expand rn.Box).SurfaceArea + sa <
      min (rn.Box.SurfaceArea + (ln.Box.Expand box).SurfaceArea)
        (ln.Box.SurfaceArea + (rn.Box.Expand box).SurfaceArea) * (3 / 10)) (fuel : Nat) :
    TryFindBetterNode.loop t box sa (fuel + 1) (some p) =
      TryFindBetterNode.loop t box sa fuel (some p) := by
  have hv : n.IsValid = true := by
    simp [Node.IsValid, Node.IsValidBranchNode, Node.IsLeaf, hb, hL, hR]
  have hm' := hm
  rw [htie] at hm'
  rw [TryFindBetterNode.loop]
  simp only [deref_some, Res.ok_bind, Tree.node_eq hn, hb, ↓reduceIte, hL, hR, Tree.node_eq hln,
    Tree.node_eq hrn, Res.pure_eq, hv, hlv, hrv, Bool.not_true, Bool.or_self,
    Bool.false_eq_true, htie, if_neg hm', lt_irrefl, gt_iff_lt]

/-- The descent loop of `TryFindBetterNode` at a tie runs out of any fuel. -/
theorem TryFindBetterNode_loop_tie_timeout {t : Tree} {box : BoundingBox} {sa : ℚ} {p l r : Nat}
    {n ln rn : Node} (hn : t.nodes[p]? = some n) (hb : n.BucketIndex = -1)
    (hL : n.Left = some l) (hR : n.Right = some r) (hln : t.nodes[l]? = some ln)
    (hrn : t.nodes[r]? = some rn) (hlv : ln.IsValid = true) (hrv : rn.IsValid = true)
    (htie : rn.Box.SurfaceArea + (ln.Box.Expand box).SurfaceArea =
      ln.Box.SurfaceArea + (rn.Box.Expand box).SurfaceArea)
    (hm : ¬ (ln.Box.Expand rn.Box).SurfaceArea + sa <
      min (rn.Box.SurfaceArea + (ln.Box.Expand box).SurfaceArea)
        (ln.Box.SurfaceArea + (rn.Box.Expand box).SurfaceArea) * (3 / 10)) :
    ∀ fuel, TryFindBetterNode.loop t box sa fuel (some p) = Res.timeout := by
  intro fuel
  induction fuel with
  | zero => rfl
  | succ f ih =>
    rw [TryFindBetterNode_loop_tie hn hb hL hR hln hrn hlv hrv htie hm f]
    exact ih

/-- The surface area of the box of an entity is not negative. -/
theorem BoxFromEntity_SurfaceArea_nonneg (w : World) (e : Entity) :
    0 ≤ (BoxFromEntity w e).SurfaceArea := by
  simp only [BoxFromEntity, BoundingBox.SurfaceArea]
  rcases le_total 0 (w.Radius e) with hr | hr
  · have hx := w.round64_mono
      (show (w.Position e).X - w.Radius e ≤ (w.Position e).X + w.Radius e by linarith)
    have hy := w.round64_mono
      (show (w.Position e).Y - w.Radius e ≤ (w.Position e).Y + w.Radius e by linarith)
    have hz := w.round64_mono
      (show (w.Position e).Z - w.Radius e ≤ (w.Position e).Z + w.Radius e by linarith)
    have a := mul_nonneg (sub_nonneg.mpr hx) (sub_nonneg.mpr hy)
    have b := mul_nonneg (sub_nonneg.mpr hx) (sub_nonneg.mpr hz)
    have c := mul_nonneg (sub_nonneg.mpr hy) (sub_nonneg.mpr hz)
    linarith
  · have hx := w.round64_mono
      (show (w.Position e).X + w.Radius e ≤ (w.Position e).X - w.Radius e by linarith)
    have hy := w.round64_mono
      (show (w.Position e).Y + w.Radius e ≤ (w.Position e).Y - w.Radius e by linarith)
    have hz := w.round64_mono
      (show (w.Position e).Z + w.Radius e ≤ (w.Position e).Z - w.Radius e by linarith)
    have a := mul_nonneg_of_nonpos_of_nonpos (sub_nonpos.mpr hx) (sub_nonpos.mpr hy)
    have b := mul_nonneg_of_nonpos_of_nonpos (sub_nonpos.mpr hx) (sub_nonpos.mpr hz)
    have c := mul_nonneg_of_nonpos_of_nonpos (sub_nonpos.mpr hy) (sub_nonpos.mpr hz)
    linarith

/-- Claim C17: in `TryFindBetterNode`, whenever at a branch `bn` the two costs
`leftSa` and `rightSa` are equal and `mergedSa` is not below
`0.3·min(leftSa, rightSa)`, one iteration of the descent loop leaves `bn`
unchanged, so the loop never exits; and for the tree of two distinct entities
with equal position and radius (any radius, in particular a positive one)
added to a new tree, `QueueForOptimize` on an added entity does not terminate:
it runs out of every amount of fuel. -/
theorem C17_tie_never_exits (w : World) (a b : Entity) (fuel : Nat) (hab : a ≠ b)
    (hp : w.Position a = w.Position b) (hr : w.Radius a = w.Radius b) (hf : 6 ≤ fuel) :
    (∀ (t : Tree) (box : BoundingBox) (sa : ℚ) (p l r : Nat) (n ln rn : Node),
      t.nodes[p]? = some n → n.BucketIndex = -1 → n.Left = some l → n.Right = some r →
      t.nodes[l]? = some ln → t.nodes[r]? = some rn → ln.IsValid = true → rn.IsValid = true →
      rn.Box.SurfaceArea + (ln.Box.Expand box).SurfaceArea =
        ln.Box.SurfaceArea + (rn.Box.Expand box).SurfaceArea →
      ¬ (ln.Box.Expand rn.Box).SurfaceArea + sa <
        min (rn.Box.SurfaceArea + (ln.Box.Expand box).SurfaceArea)
          (ln.Box.SurfaceArea + (rn.Box.Expand box).SurfaceArea) * (3 / 10) →
      (∀ f, TryFindBetterNode.loop t box sa (f + 1) (some p) =
        TryFindBetterNode.loop t box sa f (some p)) ∧
      ∀ f, TryFindBetterNode.loop t box sa f (some p) = Res.timeout) ∧
    ∃ t, Build fuel w [a, b] = Res.ok t ∧ t.leafs a ≠ none ∧ t.leafs b ≠ none ∧
      (∀ fuel', QueueForOptimize fuel' w t a = Res.timeout) ∧
      ∀ fuel', QueueForOptimize fuel' w t b = Res.timeout := by
  refine ⟨fun t box sa p l r n ln rn hn hb hL hR hln hrn hlv hrv htie hm =>
    ⟨TryFindBetterNode_loop_tie hn hb hL hR hln hrn hlv hrv htie hm,
      TryFindBetterNode_loop_tie_timeout hn hb hL hR hln hrn hlv hrv htie hm⟩, ?_⟩
  obtain ⟨t, h1, hI⟩ := @Build_inv w fuel a [b] (by simp [hab]) (by simpa using hf)
  have hs := hI.struct
  obtain ⟨n, l, r, ln, rn, x, y, a1, a2, a3, a4, a5, a6, a7, a8, a9, b1, b2, b3, b4, b5, _⟩ :=
    hs.two
  have hbox : BoxFromEntity w b = BoxFromEntity w a := by
    simp only [BoxFromEntity, hp, hr]
  have hl : ln.Box = BoxFromEntity w a := by
    rw [hI.leafBox l ln x a6 a8 b1]
    rcases b5 with ⟨rfl, _⟩ | ⟨rfl, _⟩
    · rfl
    · exact hbox
  have hrb : rn.Box = BoxFromEntity w a := by
    rw [hI.leafBox r rn y a7 a9 b2]
    rcases b5 with ⟨_, rfl⟩ | ⟨_, rfl⟩
    · exact hbox
    · rfl
  have hL1 := (hs.nodes l ln a6).leaf a8
  have hR1 := (hs.nodes r rn a7).leaf a9
  have hlv : ln.IsValid = true := by
    simp [Node.IsValid, Node.IsValidLeafNode, Node.IsLeaf, a8, hL1.1, hL1.2.1]
  have hrv : rn.IsValid = true := by
    simp [Node.IsValid, Node.IsValidLeafNode, Node.IsLeaf, a9, hR1.1, hR1.2.1]
  have hsa := BoxFromEntity_SurfaceArea_nonneg w a
  have hloop : ∀ (e : Entity), BoxFromEntity w e = BoxFromEntity w a → ∀ f,
      TryFindBetterNode.loop t (BoxFromEntity w e) (BoxFromEntity w e).SurfaceArea f (some 0) =
        Res.timeout := by
    intro e he
    apply TryFindBetterNode_loop_tie_timeout a1 a2 a3 a4 a6 a7 hlv hrv
    · rw [hl, hrb]
    · rw [hl, hrb, he, BoundingBox.Expand_self, min_self]
      intro h
      linarith
  have hq : ∀ (e : Entity), e ∈ [a, b] → BoxFromEntity w e = BoxFromEntity w a → ∀ f,
      QueueForOptimize f w t e = Res.timeout := by
    intro e hmem he f
    cases hq : t.leafs e with
    | none => exact absurd hq (hs.keys e hmem)
    | some q =>
      obtain ⟨_, m, hm, _⟩ := hs.leafs e q hq
      simp only [QueueForOptimize, GetLeaf, hq, Tree.node_eq hm, Res.ok_bind, TryFindBetterNode,
        hs.root, hloop e he f, Res.timeout_bind]
  exact ⟨t, h1, hs.keys a (by simp), hs.keys b (by simp), hq a (by simp) rfl,
    hq b (by simp) hbox⟩

theorem C17_tie_never_exits_witness :
    (0 : Entity) ≠ 1 ∧ twinWorld.Position 0 = twinWorld.Position 1 ∧
    twinWorld.Radius 0 = twinWorld.Radius 1 ∧ 0 < twinWorld.Radius 0 ∧ 6 ≤ 6 ∧
    ∃ t, Build 6 twinWorld [0, 1] = Res.ok t ∧ t.leafs 0 ≠ none ∧ t.leafs 1 ≠ none ∧
      (∀ fuel', QueueForOptimize fuel' twinWorld t 0 = Res.timeout) ∧
      ∀ fuel', QueueForOptimize fuel' twinWorld t 1 = Res.timeout :=
  ⟨by decide, rfl, rfl, by simp [twinWorld], by decide,
    (C17_tie_never_exits twinWorld 0 1 6 (by decide) rfl rfl (by decide)).2⟩

theorem Tree.left_eq {t : Tree} {p l : Nat} {n : Node} (hn : t.nodes[p]? = some n)
    (hL : n.Left = some l) : t.left p = Res.ok l := by
  simp only [Tree.left, Tree.node_eq hn, Res.ok_bind, hL, deref_some]

theorem Tree.right_eq {t : Tree} {p r : Nat} {n : Node} (hn : t.nodes[p]? = some n)
    (hR : n.Right = some r) : t.right p = Res.ok r := by
  simp only [Tree.right, Tree.node_eq hn, Res.ok_bind, hR, deref_some]

theorem Tree.setNode_length (t : Tree) (p : Nat) (n : Node) :
    (t.setNode p n).nodes.length = t.nodes.length := by
  simp only [Tree.setNode, List.length_set]

/-- Two records with different depths are at different places. -/
theorem ne_of_depth {t : Tree} {a b : Nat} {x y : Node} (ha : t.nodes[a]? = some x)
    (hb : t.nodes[b]? = some y) (h : x.Depth ≠ y.Depth) : a ≠ b := by
  intro e
  subst e
  rw [ha] at hb
  cases hb
  exact h rfl

/-- Two records with different parents are at different places. -/
theorem ne_of_parent {t : Tree} {a b : Nat} {x y : Node} (ha : t.nodes[a]? = some x)
    (hb : t.nodes[b]? = some y) (h : x.Parent ≠ y.Parent) : a ≠ b := by
  intro e
  subst e
  rw [ha] at hb
  cases hb
  exact h rfl

/-- The pointer surgery of the rotation `LEFTRIGHTLEFT`. -/
theorem apply_LRL {t : Tree} {p l r rl rr : Nat} {n ln rn rln rrn : Node} (fuel : Nat)
    (hn : t.nodes[p]? = some n) (hL : n.Left = some l) (hR : n.Right = some r)
    (hln : t.nodes[l]? = some ln) (hrn : t.nodes[r]? = some rn)
    (hrL : rn.Left = some rl) (hrR : rn.Right = some rr)
    (hrln : t.nodes[rl]? = some rln) (hrrn : t.nodes[rr]? = some rrn)
    (h1 : p ≠ l) (h2 : p ≠ r) (h3 : p ≠ rl) (h4 : l ≠ r) (h5 : l ≠ rl) (h6 : r ≠ rl)
    (h7 : rr ≠ p) (h8 : rr ≠ l) (h9 : rr ≠ r) (h10 : rr ≠ rl) :
    TryRotate.apply (fuel + 1) t p LEFTRIGHTLEFT = Res.ok
      (((((t.setNode p { n with Left := some rl }).setNode rl
        { rln with Parent := some p }).setNode r { rn with Left := some l }).setNode l
        { ln with Parent := some r }).setNode r
        { rn with Left := some l, Box := ln.Box.Expand rrn.Box }) := by
  have hpl := lt_of_get hn
  have hll := lt_of_get hln
  have hrl := lt_of_get hrn
  have hrll := lt_of_get hrln
  have hrrl := lt_of_get hrrn
  simp only [TryRotate.apply, ROTNONE, LEFTRIGHTLEFT, show ((4 : Int) = 3) = False from by decide,
    ↓reduceIte, Tree.left, Tree.right, Tree.update, Tree.node, Tree.setNode_get,
    Tree.setNode_length, ChildRefit_false, hn, hln, hrn, hrln, hrrn, hL, hR, hrL, hrR,
    Res.ok_bind, Res.pure_eq, deref_some, h1, h2, h3, h4, h5, h6, h7, h8, h9, h10,
    Ne.symm h1, Ne.symm h2, Ne.symm h3, Ne.symm h4, Ne.symm h5, Ne.symm h6, Ne.symm h7,
    Ne.symm h8, Ne.symm h9, Ne.symm h10, hpl, hll, hrl, hrll, hrrl, if_true, if_false]

/-- Outside `p` and `B` the links of the records are those before the
rotation. -/
theorem RotOne.links_frame {t T : Tree} {p A B G : Nat} {pn' an bn' gn : Node}
    (hd : RotOne t T p A B G pn' an bn' gn) (hA : t.nodes[A]? = some an)
    (hG : t.nodes[G]? = some gn) (q : Nat) (m : Node) (hqp : q ≠ p) (hqB : q ≠ B)
    (hm : t.nodes[q]? = some m) : ∃ m' : Node, T.nodes[q]? = some m' ∧ m'.Left = m.Left ∧
      m'.Right = m.Right ∧ m'.BucketIndex = m.BucketIndex ∧ m'.Box = m.Box := by
  by_cases h1 : q = A
  · subst h1
    rw [hA] at hm; cases hm
    exact ⟨_, hd.atA, rfl, rfl, rfl, rfl⟩
  · by_cases h2 : q = G
    · subst h2
      rw [hG] at hm; cases hm
      exact ⟨_, hd.atG, rfl, rfl, rfl, rfl⟩
    · exact ⟨m, by rw [hd.other q hqp h1 hqB h2]; exact hm, rfl, rfl, rfl, rfl⟩

theorem perm_rot1 (a b c : List Nat) (p B : Nat) :
    (p :: (b ++ B :: (a ++ c))).Perm (p :: B :: (a ++ (b ++ c))) := by
  rw [List.perm_iff_count]
  intro x
  simp only [List.count_cons, List.count_append]
  omega

theorem perm_rot2 (a b c : List Nat) (p B : Nat) :
    (p :: (b ++ B :: (c ++ a))).Perm (p :: B :: (a ++ (b ++ c))) := by
  rw [List.perm_iff_count]
  intro x
  simp only [List.count_cons, List.count_append]
  omega

theorem perm_rot3 (a b c : List Nat) (p B : Nat) :
    (p :: ((B :: (a ++ c)) ++ b)).Perm (p :: B :: (a ++ (b ++ c))) := by
  rw [List.perm_iff_count]
  intro x
  simp only [List.count_cons, List.count_append]
  omega

theorem perm_rot4 (a b c : List Nat) (p B : Nat) :
    (p :: ((B :: (c ++ a)) ++ b)).Perm (p :: B :: (a ++ (b ++ c))) := by
  rw [List.perm_iff_count]
  intro x
  simp only [List.count_cons, List.count_append]
  omega

/-- After the pointer surgery of a rotation that moves a child of `p`,
`SetDepth` at `p` returns, and changes depths only. -/
theorem RotOne.setDepth {t T : Tree} {p A B G H : Nat} {pn' an bn' gn : Node}
    (hd : RotOne t T p A B G pn' an bn' gn) (hA : t.nodes[A]? = some an)
    (hG : t.nodes[G]? = some gn) (hPb : pn'.BucketIndex = -1)
    (hPc : (pn'.Left = some G ∧ pn'.Right = some B) ∨ (pn'.Left = some B ∧ pn'.Right = some G))
    (hBb : bn'.BucketIndex = -1)
    (hBc : (bn'.Left = some A ∧ bn'.Right = some H) ∨ (bn'.Left = some H ∧ bn'.Right = some A))
    (sA sG sH : Shape) (eA : sA.ptr = A) (eG : sG.ptr = G) (eH : sH.ptr = H)
    (hsA : Shaped t sA) (hsG : Shaped t sG) (hsH : Shaped t sH)
    (hnd : (p :: B :: (sA.ptrs ++ (sG.ptrs ++ sH.ptrs))).Nodup) (fuel : Nat)
    (hhA : sA.height + 2 ≤ fuel) (hhG : sG.height + 2 ≤ fuel) (hhH : sH.height + 2 ≤ fuel)
    (d : Int) :
    ∃ (s : Shape) (T' : Tree), s.ptr = p ∧ s.ptrs.Perm (p :: B :: (sA.ptrs ++ (sG.ptrs ++ sH.ptrs))) ∧
      Shaped T s ∧ SetDepth fuel T p d = Res.ok T' ∧ DepthOnly T T' ∧
      (∀ q, q ∉ s.ptrs → T'.nodes[q]? = T.nodes[q]?) ∧ Depths T' s d ∧
      T'.maxDepth = max T.maxDepth (d + (s.height : Int) - 1) := by
  have hmem : ∀ (s : Shape), (∀ q, q ∈ s.ptrs → q ≠ p ∧ q ≠ B) → Shaped t s → Shaped T s := by
    intro s hq hs
    refine Shaped.frame_links s (fun q m hqs hm => ?_) hs
    obtain ⟨m', a1, a2, a3, a4, _⟩ := hd.links_frame hA hG q m (hq q hqs).1 (hq q hqs).2 hm
    exact ⟨m', a1, a2, a3, a4⟩
  have hnd' := hnd
  simp only [List.nodup_cons, List.mem_cons, List.mem_append, not_or] at hnd'
  obtain ⟨⟨hpB, hpA, hpG, hpH⟩, ⟨hBA, hBG, hBH⟩, _⟩ := hnd'
  have hTA : Shaped T sA := hmem sA (fun q hq => ⟨fun h => hpA (h ▸ hq), fun h => hBA (h ▸ hq)⟩) hsA
  have hTG : Shaped T sG := hmem sG (fun q hq => ⟨fun h => hpG (h ▸ hq), fun h => hBG (h ▸ hq)⟩) hsG
  have hTH : Shaped T sH := hmem sH (fun q hq => ⟨fun h => hpH (h ▸ hq), fun h => hBH (h ▸ hq)⟩) hsH
  have key : ∃ s : Shape, s.ptr = p ∧
      s.ptrs.Perm (p :: B :: (sA.ptrs ++ (sG.ptrs ++ sH.ptrs))) ∧ Shaped T s ∧
      s.height ≤ fuel := by
    rcases hPc with ⟨c1, c2⟩ | ⟨c1, c2⟩ <;> rcases hBc with ⟨c3, c4⟩ | ⟨c3, c4⟩
    · refine ⟨Shape.node p sG (Shape.node B sA sH), rfl, perm_rot1 _ _ _ _ _,
        ⟨pn', hd.atP, hPb, by rw [c1, eG], c2, hTG, ⟨bn', hd.atB, hBb, by rw [c3, eA],
          by rw [c4, eH], hTA, hTH⟩⟩, ?_⟩
      simp only [Shape.height]
      omega
    · refine ⟨Shape.node p sG (Shape.node B sH sA), rfl, perm_rot2 _ _ _ _ _,
        ⟨pn', hd.atP, hPb, by rw [c1, eG], c2, hTG, ⟨bn', hd.atB, hBb, by rw [c3, eH],
          by rw [c4, eA], hTH, hTA⟩⟩, ?_⟩
      simp only [Shape.height]
      omega
    · refine ⟨Shape.node p (Shape.node B sA sH) sG, rfl, perm_rot3 _ _ _ _ _,
        ⟨pn', hd.atP, hPb, c1, by rw [c2, eG], ⟨bn', hd.atB, hBb, by rw [c3, eA],
          by rw [c4, eH], hTA, hTH⟩, hTG⟩, ?_⟩
      simp only [Shape.height]
      omega
    · refine ⟨Shape.node p (Shape.node B sH sA) sG, rfl, perm_rot4 _ _ _ _ _,
        ⟨pn', hd.atP, hPb, c1, by rw [c2, eG], ⟨bn', hd.atB, hBb, by rw [c3, eH],
          by rw [c4, eA], hTH, hTA⟩, hTG⟩, ?_⟩
      simp only [Shape.height]
      omega
  obtain ⟨s, e1, e2, e3, e4⟩ := key
  obtain ⟨T', g1, g2, g3, g4, g5⟩ := SetDepth_spec s fuel T d e3 (e2.nodup_iff.mpr hnd) e4
  rw [e1] at g1
  exact ⟨s, T', e1, e2, e3, g1, g2, g3, g4, g5⟩

theorem perm_local_right (a b c : List Nat) (p r : Nat) :
    (p :: (a ++ r :: (b ++ c))).Perm (p :: r :: (a ++ (b ++ c))) := by
  rw [List.perm_iff_count]
  intro x
  simp only [List.count_cons, List.count_append]
  omega

theorem perm_local_left (a b c : List Nat) (p l : Nat) :
    (p :: ((l :: (b ++ c)) ++ a)).Perm (p :: l :: (a ++ (b ++ c))) := by
  rw [List.perm_iff_count]
  intro x
  simp only [List.count_cons, List.count_append]
  omega

/-- The subtrees below a branch `p` whose right child `r` is a branch: those
of the left child and of the two children of `r`. -/
theorem Struct.shapes_right {es : List Entity} {t : Tree} (hs : Struct es t) {p l r rl rr : Nat}
    {n rn : Node} (hn : t.nodes[p]? = some n) (hL : n.Left = some l) (hR : n.Right = some r)
    (hrn : t.nodes[r]? = some rn) (hrb : rn.BucketIndex = -1) (hrL : rn.Left = some rl)
    (hrR : rn.Right = some rr) :
    ∃ sl srl srr : Shape, sl.ptr = l ∧ srl.ptr = rl ∧ srr.ptr = rr ∧ Shaped t sl ∧
      Shaped t srl ∧ Shaped t srr ∧ (p :: r :: (sl.ptrs ++ (srl.ptrs ++ srr.ptrs))).Nodup ∧
      sl.height + 1 ≤ es.length ∧ srl.height + 1 ≤ es.length ∧ srr.height + 1 ≤ es.length := by
  have hNp := hs.nodes p n hn
  have hmd := hs.maxDepth
  have hd0 := hNp.depth_nonneg
  obtain ⟨sp, e1, e2, _, e4, e5⟩ := shape_exists hs (t.maxDepth - n.Depth).toNat p n hn (by omega)
  cases sp with
  | leaf p' =>
    obtain ⟨n0, h1, _, h3, _⟩ := e2
    simp only [Shape.ptr] at e1
    subst e1
    rw [hn] at h1; cases h1
    rw [hL] at h3; cases h3
  | node p' s1 s2 =>
    simp only [Shape.ptr] at e1
    have hpp : p = p' := e1.symm
    subst hpp
    obtain ⟨n0, h1, _, h3, h4, h5, h6⟩ := e2
    rw [hn] at h1; cases h1
    rw [hL] at h3
    rw [hR] at h4
    have e1' : s1.ptr = l := (Option.some.inj h3).symm
    have e2' : s2.ptr = r := (Option.some.inj h4).symm
    cases s2 with
    | leaf r' =>
      obtain ⟨n1, k1, k2, _⟩ := h6
      simp only [Shape.ptr] at e2'
      subst e2'
      rw [hrn] at k1; cases k1
      exact absurd hrb k2
    | node r' s3 s4 =>
      simp only [Shape.ptr] at e2'
      have hrr : r = r' := e2'.symm
      subst hrr
      obtain ⟨n1, k1, _, k3, k4, k5, k6⟩ := h6
      rw [hrn] at k1; cases k1
      rw [hrL] at k3
      rw [hrR] at k4
      refine ⟨s1, s3, s4, e1', (Option.some.inj k3).symm, (Option.some.inj k4).symm, h5, k5, k6,
        (perm_local_right _ _ _ _ _).nodup_iff.mp e4, ?_, ?_, ?_⟩
      all_goals
        simp only [Shape.height] at e5
        push_cast at e5
        omega

/-- The subtrees below a branch `p` whose left child `l` is a branch: those of
the right child and of the two children of `l`. -/
theorem Struct.shapes_left {es : List Entity} {t : Tree} (hs : Struct es t) {p l r ll lr : Nat}
    {n ln : Node} (hn : t.nodes[p]? = some n) (hL : n.Left = some l) (hR : n.Right = some r)
    (hln : t.nodes[l]? = some ln) (hlb : ln.BucketIndex = -1) (hlL : ln.Left = some ll)
    (hlR : ln.Right = some lr) :
    ∃ sr sll slr : Shape, sr.ptr = r ∧ sll.ptr = ll ∧ slr.ptr = lr ∧ Shaped t sr ∧
      Shaped t sll ∧ Shaped t slr ∧ (p :: l :: (sr.ptrs ++ (sll.ptrs ++ slr.ptrs))).Nodup ∧
      sr.height + 1 ≤ es.length ∧ sll.height + 1 ≤ es.length ∧ slr.height + 1 ≤ es.length := by
  have hNp := hs.nodes p n hn
  have hmd := hs.maxDepth
  have hd0 := hNp.depth_nonneg
  obtain ⟨sp, e1, e2, _, e4, e5⟩ := shape_exists hs (t.maxDepth - n.Depth).toNat p n hn (by omega)
  cases sp with
  | leaf p' =>
    obtain ⟨n0, h1, _, h3, _⟩ := e2
    simp only [Shape.ptr] at e1
    subst e1
    rw [hn] at h1; cases h1
    rw [hL] at h3; cases h3
  | node p' s1 s2 =>
    simp only [Shape.ptr] at e1
    have hpp : p = p' := e1.symm
    subst hpp
    obtain ⟨n0, h1, _, h3, h4, h5, h6⟩ := e2
    rw [hn] at h1; cases h1
    rw [hL] at h3
    rw [hR] at h4
    have e1' : s1.ptr = l := (Option.some.inj h3).symm
    have e2' : s2.ptr = r := (Option.some.inj h4).symm
    cases s1 with
    | leaf l' =>
      obtain ⟨n1, k1, k2, _⟩ := h5
      simp only [Shape.ptr] at e1'
      subst e1'
      rw [hln] at k1; cases k1
      exact absurd hlb k2
    | node l' s3 s4 =>
      simp only [Shape.ptr] at e1'
      have hll : l = l' := e1'.symm
      subst hll
      obtain ⟨n1, k1, _, k3, k4, k5, k6⟩ := h5
      rw [hln] at k1; cases k1
      rw [hlL] at k3
      rw [hlR] at k4
      refine ⟨s2, s3, s4, e2', (Option.some.inj k3).symm, (Option.some.inj k4).symm, h6, k5, k6,
        (perm_local_left _ _ _ _ _).nodup_iff.mp e4, ?_, ?_, ?_⟩
      all_goals
        simp only [Shape.height] at e5
        push_cast at e5
        omega

/-- The surface area of a well-formed box is not negative. -/
theorem BoundingBox.SurfaceArea_nonneg {b : BoundingBox} (h : b.WF) : 0 ≤ b.SurfaceArea := by
  obtain ⟨h1, h2, h3⟩ := h
  simp only [BoundingBox.SurfaceArea]
  have a1 : 0 ≤ b.Max.X - b.Min.X := by linarith
  have a2 : 0 ≤ b.Max.Y - b.Min.Y := by linarith
  have a3 : 0 ≤ b.Max.Z - b.Min.Z := by linarith
  have := mul_nonneg a1 a2
  have := mul_nonneg a1 a3
  have := mul_nonneg a2 a3
  linarith

theorem BoundingBox.WF_Expand {a b : BoundingBox} (ha : a.WF) : (a.Expand b).WF := by
  obtain ⟨h1, h2, h3⟩ := ha
  simp only [BoundingBox.Expand_eq, BoundingBox.WF]
  exact ⟨le_trans (min_le_left _ _) (le_trans h1 (le_max_left _ _)),
    le_trans (min_le_left _ _) (le_trans h2 (le_max_left _ _)),
    le_trans (min_le_left _ _) (le_trans h3 (le_max_left _ _))⟩

theorem BoxFromEntity_WF (w : World) (e : Entity) (h : 0 ≤ w.Radius e) :
    (BoxFromEntity w e).WF := by
  simp only [BoxFromEntity, BoundingBox.WF]
  exact ⟨w.round64_mono (by linarith), w.round64_mono (by linarith),
    w.round64_mono (by linarith)⟩

/-- In a tree of entities of non-negative radius the box of the root of every
shape is well formed. -/
theorem Shaped.box_wf_all {w : World} {es : List Entity} {t : Tree} (hI : Inv w es t)
    (hr : ∀ e, e ∈ es → 0 ≤ w.Radius e) : ∀ (s : Shape), Shaped t s → ∀ n : Node,
    t.nodes[s.ptr]? = some n → n.Box.WF := by
  have hs := hI.struct
  intro s
  induction s with
  | leaf p =>
    rintro ⟨n0, h1, h2, _⟩ n hn
    simp only [Shape.ptr] at hn
    rw [h1] at hn; cases hn
    obtain ⟨_, _, e0, hbk, hle⟩ := (hs.nodes p n0 h1).leaf h2
    rw [hI.leafBox p n0 e0 h1 h2 hbk]
    exact BoxFromEntity_WF w e0 (hr e0 (hs.leafs e0 p hle).1)
  | node p l r ihl _ =>
    rintro ⟨n0, h1, h2, h3, h4, h5, h6⟩ n hn
    simp only [Shape.ptr] at hn
    rw [h1] at hn; cases hn
    obtain ⟨ln, hln⟩ := Shaped.root_get l h5
    obtain ⟨rn, hrn⟩ := Shaped.root_get r h6
    rw [hI.branchBox p n0 l.ptr r.ptr ln rn (by simp) h1 h2 h3 h4 hln hrn]
    exact BoundingBox.WF_Expand (ihl h5 ln hln)

/-- In a tree of entities of non-negative radius every box is well formed. -/
theorem Inv.box_wf {w : World} {es : List Entity} {t : Tree} (hI : Inv w es t)
    (hr : ∀ e, e ∈ es → 0 ≤ w.Radius e) {p : Nat} {n : Node} (hn : t.nodes[p]? = some n) :
    n.Box.WF := by
  have hs := hI.struct
  have hmd := (hs.nodes p n hn).depth_le
  obtain ⟨s, e1, e2, _⟩ := shape_exists hs (t.maxDepth - n.Depth).toNat p n hn (by omega)
  exact Shaped.box_wf_all hI hr s e2 n (by rw [e1]; exact hn)

/-- The pointer surgery of the rotation `LEFTRIGHTRIGHT`. -/
theorem apply_LRR {t : Tree} {p l r rl rr : Nat} {n ln rn rln rrn : Node} (fuel : Nat)
    (hn : t.nodes[p]? = some n) (hL : n.Left = some l) (hR : n.Right = some r)
    (hln : t.nodes[l]? = some ln) (hrn : t.nodes[r]? = some rn)
    (hrL : rn.Left = some rl) (hrR : rn.Right = some rr)
    (hrln : t.nodes[rl]? = some rln) (hrrn : t.nodes[rr]? = some rrn)
    (h1 : p ≠ l) (h2 : p ≠ r) (h3 : p ≠ rl) (h4 : l ≠ r) (h5 : l ≠ rl) (h6 : r ≠ rl)
    (h7 : rr ≠ p) (h8 : rr ≠ l) (h9 : rr ≠ r) (h10 : rr ≠ rl) :
    TryRotate.apply (fuel + 1) t p LEFTRIGHTRIGHT = Res.ok
      (((((t.setNode p { n with Left := some rr }).setNode rr
        { rrn with Parent := some p }).setNode r { rn with Right := some l }).setNode l
        { ln with Parent := some r }).setNode r
        { rn with Right := some l, Box := rln.Box.Expand ln.Box }) := by
  have hpl := lt_of_get hn
  have hll := lt_of_get hln
  have hrl := lt_of_get hrn
  have hrll := lt_of_get hrln
  have hrrl := lt_of_get hrrn
  simp only [TryRotate.apply, ROTNONE, LEFTRIGHTLEFT, LEFTRIGHTRIGHT, Int.reduceEq,
    ↓reduceIte, Tree.left, Tree.right, Tree.update, Tree.node, Tree.setNode_get,
    Tree.setNode_length, ChildRefit_false, hn, hln, hrn, hrln, hrrn, hL, hR, hrL, hrR,
    Res.ok_bind, Res.pure_eq, deref_some, h1, h2, h3, h4, h5, h6, h7, h8, h9, h10,
    Ne.symm h1, Ne.symm h2, Ne.symm h3, Ne.symm h4, Ne.symm h5, Ne.symm h6, Ne.symm h7,
    Ne.symm h8, Ne.symm h9, Ne.symm h10, hpl, hll, hrl, hrll, hrrl, if_true, if_false]

/-- The pointer surgery of the rotation `RIGHTLEFTLEFT`. -/
theorem apply_RLL {t : Tree} {p l r ll lr : Nat} {n ln rn lln lrn : Node} (fuel : Nat)
    (hn : t.nodes[p]? = some n) (hL : n.Left = some l) (hR : n.Right = some r)
    (hln : t.nodes[l]? = some ln) (hrn : t.nodes[r]? = some rn)
    (hlL : ln.Left = some ll) (hlR : ln.Right = some lr)
    (hlln : t.nodes[ll]? = some lln) (hlrn : t.nodes[lr]? = some lrn)
    (h1 : p ≠ l) (h2 : p ≠ r) (h3 : p ≠ ll) (h4 : l ≠ r) (h5 : l ≠ ll) (h6 : r ≠ ll)
    (h7 : lr ≠ p) (h8 : lr ≠ l) (h9 : lr ≠ r) (h10 : lr ≠ ll) :
    TryRotate.apply (fuel + 1) t p RIGHTLEFTLEFT = Res.ok
      (((((t.setNode p { n with Right := some ll }).setNode ll
        { lln with Parent := some p }).setNode l { ln with Left := some r }).setNode r
        { rn with Parent := some l }).setNode l
        { ln with Left := some r, Box := rn.Box.Expand lrn.Box }) := by
  have hpl := lt_of_get hn
  have hll := lt_of_get hln
  have hrl := lt_of_get hrn
  have hlll := lt_of_get hlln
  have hlrl := lt_of_get hlrn
  simp only [TryRotate.apply, ROTNONE, LEFTRIGHTLEFT, LEFTRIGHTRIGHT, RIGHTLEFTLEFT, Int.reduceEq,
    ↓reduceIte, Tree.left, Tree.right, Tree.update, Tree.node, Tree.setNode_get,
    Tree.setNode_length, ChildRefit_false, hn, hln, hrn, hlln, hlrn, hL, hR, hlL, hlR,
    Res.ok_bind, Res.pure_eq, deref_some, h1, h2, h3, h4, h5, h6, h7, h8, h9, h10,
    Ne.symm h1, Ne.symm h2, Ne.symm h3, Ne.symm h4, Ne.symm h5, Ne.symm h6, Ne.symm h7,
    Ne.symm h8, Ne.symm h9, Ne.symm h10, hpl, hll, hrl, hlll, hlrl, if_true, if_false]

/-- The pointer surgery of the rotation `RIGHTLEFTRIGHT`. -/
theorem apply_RLR {t : Tree} {p l r ll lr : Nat} {n ln rn lln lrn : Node} (fuel : Nat)
    (hn : t.nodes[p]? = some n) (hL : n.Left = some l) (hR : n.Right = some r)
    (hln : t.nodes[l]? = some ln) (hrn : t.nodes[r]? = some rn)
    (hlL : ln.Left = some ll) (hlR : ln.Right = some lr)
    (hlln : t.nodes[ll]? = some lln) (hlrn : t.nodes[lr]? = some lrn)
    (h1 : p ≠ l) (h2 : p ≠ r) (h3 : p ≠ ll) (h4 : l ≠ r) (h5 : l ≠ ll) (h6 : r ≠ ll)
    (h7 : lr ≠ p) (h8 : lr ≠ l) (h9 : lr ≠ r) (h10 : lr ≠ ll) :
    TryRotate.apply (fuel + 1) t p RIGHTLEFTRIGHT = Res.ok
      (((((t.setNode p { n with Right := some lr }).setNode lr
        { lrn with Parent := some p }).setNode l { ln with Right := some r }).setNode r
        { rn with Parent := some l }).setNode l
        { ln with Right := some r, Box := lln.Box.Expand rn.Box }) := by
  have hpl := lt_of_get hn
  have hll := lt_of_get hln
  have hrl := lt_of_get hrn
  have hlll := lt_of_get hlln
  have hlrl := lt_of_get hlrn
  simp only [TryRotate.apply, ROTNONE, LEFTRIGHTLEFT, LEFTRIGHTRIGHT, RIGHTLEFTLEFT,
    RIGHTLEFTRIGHT, Int.reduceEq,
    ↓reduceIte, Tree.left, Tree.right, Tree.update, Tree.node, Tree.setNode_get,
    Tree.setNode_length, ChildRefit_false, hn, hln, hrn, hlln, hlrn, hL, hR, hlL, hlR,
    Res.ok_bind, Res.pure_eq, deref_some, h1, h2, h3, h4, h5, h6, h7, h8, h9, h10,
    Ne.symm h1, Ne.symm h2, Ne.symm h3, Ne.symm h4, Ne.symm h5, Ne.symm h6, Ne.symm h7,
    Ne.symm h8, Ne.symm h9, Ne.symm h10, hpl, hll, hrl, hlll, hlrl, if_true, if_false]

/-- The pointer surgery of the rotation `LEFTLEFTRIGHTRIGHT`. -/
theorem apply_LLRR {t : Tree} {p l r ll lr rl rr : Nat} {n ln rn lln lrn rln rrn : Node}
    (fuel : Nat)
    (hn : t.nodes[p]? = some n) (hL : n.Left = some l) (hR : n.Right = some r)
    (hln : t.nodes[l]? = some ln) (hrn : t.nodes[r]? = some rn)
    (hlL : ln.Left = some ll) (hlR : ln.Right = some lr)
    (hrL : rn.Left = some rl) (hrR : rn.Right = some rr)
    (hlln : t.nodes[ll]? = some lln) (hlrn : t.nodes[lr]? = some lrn)
    (hrln : t.nodes[rl]? = some rln) (hrrn : t.nodes[rr]? = some rrn)
    (h1 : p ≠ l) (h2 : p ≠ r) (h3 : p ≠ ll) (h4 : p ≠ rr) (h5 : l ≠ r) (h6 : l ≠ ll)
    (h7 : l ≠ rr) (h8 : r ≠ ll) (h9 : r ≠ rr) (h10 : ll ≠ rr)
    (h11 : lr ≠ l) (h12 : lr ≠ r) (h13 : lr ≠ ll) (h14 : lr ≠ rr)
    (h15 : rl ≠ l) (h16 : rl ≠ r) (h17 : rl ≠ ll) (h18 : rl ≠ rr) :
    TryRotate.apply (fuel + 1) t p LEFTLEFTRIGHTRIGHT = Res.ok
      ((((((t.setNode l { ln with Left := some rr }).setNode r
        { rn with Right := some ll }).setNode rr { rrn with Parent := some l }).setNode ll
        { lln with Parent := some r }).setNode l
        { ln with Left := some rr, Box := rrn.Box.Expand lrn.Box }).setNode r
        { rn with Right := some ll, Box := rln.Box.Expand lln.Box }) := by
  have hpl := lt_of_get hn
  have hll := lt_of_get hln
  have hrl := lt_of_get hrn
  have hlll := lt_of_get hlln
  have hlrl := lt_of_get hlrn
  have hrll := lt_of_get hrln
  have hrrl := lt_of_get hrrn
  simp only [TryRotate.apply, ROTNONE, LEFTRIGHTLEFT, LEFTRIGHTRIGHT, RIGHTLEFTLEFT,
    RIGHTLEFTRIGHT, LEFTLEFTRIGHTRIGHT, Int.reduceEq,
    ↓reduceIte, Tree.left, Tree.right, Tree.update, Tree.node, Tree.setNode_get,
    Tree.setNode_length, ChildRefit_false, hn, hln, hrn, hlln, hlrn, hrln, hrrn, hL, hR, hlL,
    hlR, hrL, hrR,
    Res.ok_bind, Res.pure_eq, deref_some, h1, h2, h3, h4, h5, h6, h7, h8, h9, h10,
    h11, h12, h13, h14, h15, h16, h17, h18,
    Ne.symm h1, Ne.symm h2, Ne.symm h3, Ne.symm h4, Ne.symm h5, Ne.symm h6, Ne.symm h7,
    Ne.symm h8, Ne.symm h9, Ne.symm h10, Ne.symm h11, Ne.symm h12, Ne.symm h13, Ne.symm h14,
    Ne.symm h15, Ne.symm h16, Ne.symm h17, Ne.symm h18,
    hpl, hll, hrl, hlll, hlrl, hrll, hrrl, if_true, if_false]

/-- The pointer surgery of the rotation `LEFTLEFTRIGHTLEFT`. -/
theorem apply_LLRL {t : Tree} {p l r ll lr rl rr : Nat} {n ln rn lln lrn rln rrn : Node}
    (fuel : Nat)
    (hn : t.nodes[p]? = some n) (hL : n.Left = some l) (hR : n.Right = some r)
    (hln : t.nodes[l]? = some ln) (hrn : t.nodes[r]? = some rn)
    (hlL : ln.Left = some ll) (hlR : ln.Right = some lr)
    (hrL : rn.Left = some rl) (hrR : rn.Right = some rr)
    (hlln : t.nodes[ll]? = some lln) (hlrn : t.nodes[lr]? = some lrn)
    (hrln : t.nodes[rl]? = some rln) (hrrn : t.nodes[rr]? = some rrn)
    (h1 : p ≠ l) (h2 : p ≠ r) (h3 : p ≠ ll) (h4 : p ≠ rl) (h5 : l ≠ r) (h6 : l ≠ ll)
    (h7 : l ≠ rl) (h8 : r ≠ ll) (h9 : r ≠ rl) (h10 : ll ≠ rl)
    (h11 : lr ≠ l) (h12 : lr ≠ r) (h13 : lr ≠ ll) (h14 : lr ≠ rl)
    (h15 : rr ≠ l) (h16 : rr ≠ r) (h17 : rr ≠ ll) (h18 : rr ≠ rl) :
    TryRotate.apply (fuel + 1) t p LEFTLEFTRIGHTLEFT = Res.ok
      ((((((t.setNode l { ln with Left := some rl }).setNode r
        { rn with Left := some ll }).setNode rl { rln with Parent := some l }).setNode ll
        { lln with Parent := some r }).setNode l
        { ln with Left := some rl, Box := rln.Box.Expand lrn.Box }).setNode r
        { rn with Left := some ll, Box := lln.Box.Expand rrn.Box }) := by
  have hpl := lt_of_get hn
  have hll := lt_of_get hln
  have hrl := lt_of_get hrn
  have hlll := lt_of_get hlln
  have hlrl := lt_of_get hlrn
  have hrll := lt_of_get hrln
  have hrrl := lt_of_get hrrn
  simp only [TryRotate.apply, ROTNONE, LEFTRIGHTLEFT, LEFTRIGHTRIGHT, RIGHTLEFTLEFT,
    RIGHTLEFTRIGHT, LEFTLEFTRIGHTRIGHT, LEFTLEFTRIGHTLEFT, Int.reduceEq,
    ↓reduceIte, Tree.left, Tree.right, Tree.update, Tree.node, Tree.setNode_get,
    Tree.setNode_length, ChildRefit_false, hn, hln, hrn, hlln, hlrn, hrln, hrrn, hL, hR, hlL,
    hlR, hrL, hrR,
    Res.ok_bind, Res.pure_eq, deref_some, h1, h2, h3, h4, h5, h6, h7, h8, h9, h10,
    h11, h12, h13, h14, h15, h16, h17, h18,
    Ne.symm h1, Ne.symm h2, Ne.symm h3, Ne.symm h4, Ne.symm h5, Ne.symm h6, Ne.symm h7,
    Ne.symm h8, Ne.symm h9, Ne.symm h10, Ne.symm h11, Ne.symm h12, Ne.symm h13, Ne.symm h14,
    Ne.symm h15, Ne.symm h16, Ne.symm h17, Ne.symm h18,
    hpl, hll, hrl, hlll, hlrl, hrll, hrrl, if_true, if_false]

/-- The children of a branch, with their parents and depths. -/
theorem Struct.children {es : List Entity} {t : Tree} (hs : Struct es t) {p : Nat} {n : Node}
    (hn : t.nodes[p]? = some n) (hb : n.BucketIndex = -1) :
    ∃ (l r : Nat) (ln rn : Node), n.Left = some l ∧ n.Right = some r ∧
      t.nodes[l]? = some ln ∧ t.nodes[r]? = some rn ∧ l ≠ r ∧ p ≠ l ∧ p ≠ r ∧
      ln.Depth = n.Depth + 1 ∧ rn.Depth = n.Depth + 1 ∧
      ln.Parent = some p ∧ rn.Parent = some p := by
  obtain ⟨l, r, ln, rn, a1, a2, a3, a4, a5, a6, a7⟩ := (hs.nodes p n hn).branch hb
  obtain ⟨pn, b1, _, b3, _⟩ := (hs.nodes l ln a4).parent p a6
  rw [hn] at b1; cases b1
  obtain ⟨pn, c1, _, c3, _⟩ := (hs.nodes r rn a5).parent p a7
  rw [hn] at c1; cases c1
  exact ⟨l, r, ln, rn, a1, a2, a4, a5, a3, hs.links.parent_ne a4 a6, hs.links.parent_ne a5 a7,
    b3, c3, a6, a7⟩

/-- A change of depths does not change the cost of a node. -/
theorem DepthOnly.rotPost {T T' : Tree} (h : DepthOnly T T') {p : Nat} {c : ℚ}
    (hp : RotPost T p c) : RotPost T' p c := by
  obtain ⟨n, l, r, ln, rn, a1, a2, a3, a4, a5, a6, a7⟩ := hp
  obtain ⟨d1, e1⟩ := h.pt p n a1
  obtain ⟨d2, e2⟩ := h.pt l ln a5
  obtain ⟨d3, e3⟩ := h.pt r rn a6
  exact ⟨_, l, r, _, _, e1, a2, a3, a4, e2, e3, a7⟩

/-- The rotation `LEFTRIGHTLEFT` as a candidate of `TryRotate`: its cost, and
that applying it gives that cost. -/
theorem spec_LRL {es : List Entity} {t : Tree} (hs : Struct es t) {p : Nat} {n : Node}
    (hn : t.nodes[p]? = some n) (hb : n.BucketIndex = -1) (fuel : Nat)
    (hf : es.length + 1 ≤ fuel) (sa : ℚ) :
    ∃ new, GetRotationSurfaceArea t p LEFTRIGHTLEFT sa = Res.ok new ∧
      (new.Rot = ROTNONE ∨
        (new.Rot = LEFTRIGHTLEFT ∧ RotGood fuel t p LEFTRIGHTLEFT new.SA)) := by
  obtain ⟨l, r, ln, rn, hL, hR, hln, hrn, h4, h1, h2, dl, dr, _, _⟩ := hs.children hn hb
  by_cases hrb : rn.BucketIndex = -1
  · obtain ⟨rl, rr, rln, rrn, hrL, hrR, hrln, hrrn, g1, g2, g3, drl, drr, _, _⟩ :=
      hs.children hrn hrb
    have h3 : p ≠ rl := ne_of_depth hn hrln (by omega)
    have h5 : l ≠ rl := ne_of_depth hln hrln (by omega)
    have h7 : rr ≠ p := ne_of_depth hrrn hn (by omega)
    have h8 : rr ≠ l := ne_of_depth hrrn hln (by omega)
    have hpl := lt_of_get hn
    have hll := lt_of_get hln
    have hrl := lt_of_get hrn
    have hrll := lt_of_get hrln
    have hrrl := lt_of_get hrrn
    refine ⟨⟨LEFTRIGHTLEFT, rln.Box.SurfaceArea + (ln.Box.Expand rrn.Box).SurfaceArea⟩, ?_,
      Or.inr ⟨rfl, ?_⟩⟩
    · simp only [GetRotationSurfaceArea, Tree.node_eq hn, Res.ok_bind, ROTNONE, LEFTRIGHTLEFT,
        Int.reduceEq, ↓reduceIte, hR, deref_some, Tree.node_eq hrn, Node.IsLeaf, hrb, bne_self_eq_false,
        Bool.false_eq_true, hrL, Tree.node_eq hrln, hL, Tree.node_eq hln, hrR, Tree.node_eq hrrn,
        Res.pure_eq]
    · obtain ⟨f, rfl⟩ : ∃ f, fuel = f + 1 := ⟨fuel - 1, by omega⟩
      obtain ⟨sl, srl, srr, e1, e2, e3, s1, s2, s3, hnd, k1, k2, k3⟩ :=
        hs.shapes_right hn hL hR hrn hrb hrL hrR
      unfold RotGood
      rw [apply_LRL f hn hL hR hln hrn hrL hrR hrln hrrn h1 h2 h3 h4 h5 g2 h7 h8
        (Ne.symm g3) (Ne.symm g1), Res.ok_bind,
        if_pos (Or.inr (Or.inr (Or.inr rfl)))]
      generalize hT : (((((t.setNode p { n with Left := some rl }).setNode rl
        { rln with Parent := some p }).setNode r { rn with Left := some l }).setNode l
        { ln with Parent := some r }).setNode r
        { rn with Left := some l, Box := ln.Box.Expand rrn.Box }) = T
      have hd : RotOne t T p l r rl { n with Left := some rl } ln
          { rn with Left := some l, Box := ln.Box.Expand rrn.Box } rln := by
        subst hT
        refine ⟨rfl, by simp only [Tree.setNode_length], ?_, ?_, ?_, ?_, ?_⟩
        · simp only [Tree.setNode_get, Tree.setNode_length, h1, h2, h3, Ne.symm h1, Ne.symm h2,
            Ne.symm h3, hpl, if_true, if_false]
        · simp only [Tree.setNode_get, Tree.setNode_length, h4, Ne.symm h4, hll, if_true,
            if_false]
        · simp only [Tree.setNode_get, Tree.setNode_length, hrl, if_true]
        · simp only [Tree.setNode_get, Tree.setNode_length, h5, g2, Ne.symm h5, Ne.symm g2, hrll,
            if_true, if_false]
        · intro q q1 q2 q3 q4
          simp only [Tree.setNode_get, Tree.setNode_length, Ne.symm q1, Ne.symm q2, Ne.symm q3,
            Ne.symm q4, if_false]
      obtain ⟨s, T', _, _, _, c4, c5, _⟩ := hd.setDepth hln hrln hb (Or.inl ⟨rfl, hR⟩) hrb
        (Or.inl ⟨rfl, hrR⟩) sl srl srr e1 e2 e3 s1 s2 s3 hnd (f + 1) (by omega) (by omega)
        (by omega) n.Depth
      refine ⟨T', ?_, c5.rotPost ?_⟩
      · rw [Tree.node_eq hd.atP, Res.ok_bind]
        exact c4
      · exact ⟨_, rl, r, _, _, hd.atP, hb, rfl, hR, hd.atG, hd.atB, rfl⟩
  · refine ⟨⟨ROTNONE, MaxFloat64⟩, ?_, Or.inl rfl⟩
    have hleaf : (rn.BucketIndex != -1) = true := by simpa using hrb
    simp only [GetRotationSurfaceArea, Tree.node_eq hn, Res.ok_bind, ROTNONE, LEFTRIGHTLEFT,
      Int.reduceEq, ↓reduceIte, hR, deref_some, Tree.node_eq hrn, Node.IsLeaf, hleaf, Res.pure_eq]

theorem nodup_swap_tail {a b c : List Nat} {p r : Nat}
    (h : (p :: r :: (a ++ (b ++ c))).Nodup) : (p :: r :: (a ++ (c ++ b))).Nodup := by
  refine (List.Perm.nodup_iff ?_).mp h
  rw [List.perm_iff_count]
  intro x
  simp only [List.count_cons, List.count_append]
  omega

/-- The rotation `LEFTRIGHTRIGHT` as a candidate of `TryRotate`. -/
theorem spec_LRR {es : List Entity} {t : Tree} (hs : Struct es t) {p : Nat} {n : Node}
    (hn : t.nodes[p]? = some n) (hb : n.BucketIndex = -1) (fuel : Nat)
    (hf : es.length + 1 ≤ fuel) (sa : ℚ) :
    ∃ new, GetRotationSurfaceArea t p LEFTRIGHTRIGHT sa = Res.ok new ∧
      (new.Rot = ROTNONE ∨
        (new.Rot = LEFTRIGHTRIGHT ∧ RotGood fuel t p LEFTRIGHTRIGHT new.SA)) := by
  obtain ⟨l, r, ln, rn, hL, hR, hln, hrn, h4, h1, h2, dl, dr, _, _⟩ := hs.children hn hb
  by_cases hrb : rn.BucketIndex = -1
  · obtain ⟨rl, rr, rln, rrn, hrL, hrR, hrln, hrrn, g1, g2, g3, drl, drr, _, _⟩ :=
      hs.children hrn hrb
    have h3 : p ≠ rl := ne_of_depth hn hrln (by omega)
    have h5 : l ≠ rl := ne_of_depth hln hrln (by omega)
    have h7 : rr ≠ p := ne_of_depth hrrn hn (by omega)
    have h8 : rr ≠ l := ne_of_depth hrrn hln (by omega)
    have hpl := lt_of_get hn
    have hll := lt_of_get hln
    have hrl := lt_of_get hrn
    have hrll := lt_of_get hrln
    have hrrl := lt_of_get hrrn
    refine ⟨⟨LEFTRIGHTRIGHT, rrn.Box.SurfaceArea + (ln.Box.Expand rln.Box).SurfaceArea⟩, ?_,
      Or.inr ⟨rfl, ?_⟩⟩
    · simp only [GetRotationSurfaceArea, Tree.node_eq hn, Res.ok_bind, ROTNONE, LEFTRIGHTLEFT,
        LEFTRIGHTRIGHT,
        Int.reduceEq, ↓reduceIte, hR, deref_some, Tree.node_eq hrn, Node.IsLeaf, hrb, bne_self_eq_false,
        Bool.false_eq_true, hrL, Tree.node_eq hrln, hL, Tree.node_eq hln, hrR, Tree.node_eq hrrn,
        Res.pure_eq]
    · obtain ⟨f, rfl⟩ : ∃ f, fuel = f + 1 := ⟨fuel - 1, by omega⟩
      obtain ⟨sl, srl, srr, e1, e2, e3, s1, s2, s3, hnd, k1, k2, k3⟩ :=
        hs.shapes_right hn hL hR hrn hrb hrL hrR
      unfold RotGood
      rw [apply_LRR f hn hL hR hln hrn hrL hrR hrln hrrn h1 h2 h3 h4 h5 g2 h7 h8
        (Ne.symm g3) (Ne.symm g1), Res.ok_bind,
        if_pos (Or.inr (Or.inr (Or.inl rfl)))]
      generalize hT : (((((t.setNode p { n with Left := some rr }).setNode rr
        { rrn with Parent := some p }).setNode r { rn with Right := some l }).setNode l
        { ln with Parent := some r }).setNode r
        { rn with Right := some l, Box := rln.Box.Expand ln.Box }) = T
      have hd : RotOne t T p l r rr { n with Left := some rr } ln
          { rn with Right := some l, Box := rln.Box.Expand ln.Box } rrn := by
        subst hT
        refine ⟨rfl, by simp only [Tree.setNode_length], ?_, ?_, ?_, ?_, ?_⟩
        · simp only [Tree.setNode_get, Tree.setNode_length, h1, h2, h7, Ne.symm h1, Ne.symm h2,
            Ne.symm h7, hpl, if_true, if_false]
        · simp only [Tree.setNode_get, Tree.setNode_length, h4, Ne.symm h4, hll, if_true,
            if_false]
        · simp only [Tree.setNode_get, Tree.setNode_length, hrl, if_true]
        · simp only [Tree.setNode_get, Tree.setNode_length, h8, g3, Ne.symm h8, Ne.symm g3, hrrl,
            if_true, if_false]
        · intro q q1 q2 q3 q4
          simp only [Tree.setNode_get, Tree.setNode_length, Ne.symm q1, Ne.symm q2, Ne.symm q3,
            Ne.symm q4, if_false]
      obtain ⟨s, T', _, _, _, c4, c5, _⟩ := hd.setDepth hln hrrn hb (Or.inl ⟨rfl, hR⟩) hrb
        (Or.inr ⟨hrL, rfl⟩) sl srr srl e1 e3 e2 s1 s3 s2 (nodup_swap_tail hnd) (f + 1)
        (by omega) (by omega) (by omega) n.Depth
      refine ⟨T', ?_, c5.rotPost ?_⟩
      · rw [Tree.node_eq hd.atP, Res.ok_bind]
        exact c4
      · exact ⟨_, rr, r, _, _, hd.atP, hb, rfl, hR, hd.atG, hd.atB, by
          show rrn.Box.SurfaceArea + (rln.Box.Expand ln.Box).SurfaceArea = _
          rw [BoundingBox.Expand_comm]⟩
  · refine ⟨⟨ROTNONE, MaxFloat64⟩, ?_, Or.inl rfl⟩
    have hleaf : (rn.BucketIndex != -1) = true := by simpa using hrb
    simp only [GetRotationSurfaceArea, Tree.node_eq hn, Res.ok_bind, ROTNONE, LEFTRIGHTLEFT,
      LEFTRIGHTRIGHT,
      Int.reduceEq, ↓reduceIte, hR, deref_some, Tree.node_eq hrn, Node.IsLeaf, hleaf, Res.pure_eq]

/-- The rotation `RIGHTLEFTLEFT` as a candidate of `TryRotate`. -/
theorem spec_RLL {es : List Entity} {t : Tree} (hs : Struct es t) {p : Nat} {n : Node}
    (hn : t.nodes[p]? = some n) (hb : n.BucketIndex = -1) (fuel : Nat)
    (hf : es.length + 1 ≤ fuel) (sa : ℚ) :
    ∃ new, GetRotationSurfaceArea t p RIGHTLEFTLEFT sa = Res.ok new ∧
      (new.Rot = ROTNONE ∨
        (new.Rot = RIGHTLEFTLEFT ∧ RotGood fuel t p RIGHTLEFTLEFT new.SA)) := by
  obtain ⟨l, r, ln, rn, hL, hR, hln, hrn, h4, h1, h2, dl, dr, _, _⟩ := hs.children hn hb
  by_cases hlb : ln.BucketIndex = -1
  · obtain ⟨ll, lr, lln, lrn, hlL, hlR, hlln, hlrn, g1, g2, g3, dll, dlr, _, _⟩ :=
      hs.children hln hlb
    have h3 : p ≠ ll := ne_of_depth hn hlln (by omega)
    have h6 : r ≠ ll := ne_of_depth hrn hlln (by omega)
    have h7 : lr ≠ p := ne_of_depth hlrn hn (by omega)
    have h9 : lr ≠ r := ne_of_depth hlrn hrn (by omega)
    have hpl := lt_of_get hn
    have hll := lt_of_get hln
    have hrl := lt_of_get hrn
    have hlll := lt_of_get hlln
    have hlrl := lt_of_get hlrn
    refine ⟨⟨RIGHTLEFTLEFT, lln.Box.SurfaceArea + (rn.Box.Expand lrn.Box).SurfaceArea⟩, ?_,
      Or.inr ⟨rfl, ?_⟩⟩
    · simp only [GetRotationSurfaceArea, Tree.node_eq hn, Res.ok_bind, ROTNONE, LEFTRIGHTLEFT,
        LEFTRIGHTRIGHT, RIGHTLEFTLEFT,
        Int.reduceEq, ↓reduceIte, hR, deref_some, Tree.node_eq hrn, Node.IsLeaf, hlb, bne_self_eq_false,
        Bool.false_eq_true, hlL, Tree.node_eq hlln, hL, Tree.node_eq hln, hlR, Tree.node_eq hlrn,
        Res.pure_eq]
    · obtain ⟨f, rfl⟩ : ∃ f, fuel = f + 1 := ⟨fuel - 1, by omega⟩
      obtain ⟨sr, sll, slr, e1, e2, e3, s1, s2, s3, hnd, k1, k2, k3⟩ :=
        hs.shapes_left hn hL hR hln hlb hlL hlR
      unfold RotGood
      rw [apply_RLL f hn hL hR hln hrn hlL hlR hlln hlrn h1 h2 h3 h4 g2 h6 h7
        (Ne.symm g3) h9 (Ne.symm g1), Res.ok_bind,
        if_pos (Or.inr (Or.inl rfl))]
      generalize hT : (((((t.setNode p { n with Right := some ll }).setNode ll
        { lln with Parent := some p }).setNode l { ln with Left := some r }).setNode r
        { rn with Parent := some l }).setNode l
        { ln with Left := some r, Box := rn.Box.Expand lrn.Box }) = T
      have hd : RotOne t T p r l ll { n with Right := some ll } rn
          { ln with Left := some r, Box := rn.Box.Expand lrn.Box } lln := by
        subst hT
        refine ⟨rfl, by simp only [Tree.setNode_length], ?_, ?_, ?_, ?_, ?_⟩
        · simp only [Tree.setNode_get, Tree.setNode_length, h1, h2, h3, Ne.symm h1, Ne.symm h2,
            Ne.symm h3, hpl, if_true, if_false]
        · simp only [Tree.setNode_get, Tree.setNode_length, h4, Ne.symm h4, hrl, if_true,
            if_false]
        · simp only [Tree.setNode_get, Tree.setNode_length, hll, if_true]
        · simp only [Tree.setNode_get, Tree.setNode_length, h6, g2, Ne.symm h6, Ne.symm g2, hlll,
            if_true, if_false]
        · intro q q1 q2 q3 q4
          simp only [Tree.setNode_get, Tree.setNode_length, Ne.symm q1, Ne.symm q2, Ne.symm q3,
            Ne.symm q4, if_false]
      obtain ⟨s, T', _, _, _, c4, c5, _⟩ := hd.setDepth hrn hlln hb (Or.inr ⟨hL, rfl⟩) hlb
        (Or.inl ⟨rfl, hlR⟩) sr sll slr e1 e2 e3 s1 s2 s3 hnd (f + 1)
        (by omega) (by omega) (by omega) n.Depth
      refine ⟨T', ?_, c5.rotPost ?_⟩
      · rw [Tree.node_eq hd.atP, Res.ok_bind]
        exact c4
      · exact ⟨_, l, ll, _, _, hd.atP, hb, hL, rfl, hd.atB, hd.atG, by
          show (rn.Box.Expand lrn.Box).SurfaceArea + lln.Box.SurfaceArea = _
          rw [add_comm]⟩
  · refine ⟨⟨ROTNONE, MaxFloat64⟩, ?_, Or.inl rfl⟩
    have hleaf : (ln.BucketIndex != -1) = true := by simpa using hlb
    simp only [GetRotationSurfaceArea, Tree.node_eq hn, Res.ok_bind, ROTNONE, LEFTRIGHTLEFT,
      LEFTRIGHTRIGHT, RIGHTLEFTLEFT,
      Int.reduceEq, ↓reduceIte, hL, deref_some, Tree.node_eq hln, Node.IsLeaf, hleaf, Res.pure_eq]

/-- The rotation `RIGHTLEFTRIGHT` as a candidate of `TryRotate`. -/
theorem spec_RLR {es : List Entity} {t : Tree} (hs : Struct es t) {p : Nat} {n : Node}
    (hn : t.nodes[p]? = some n) (hb : n.BucketIndex = -1) (fuel : Nat)
    (hf : es.length + 1 ≤ fuel) (sa : ℚ) :
    ∃ new, GetRotationSurfaceArea t p RIGHTLEFTRIGHT sa = Res.ok new ∧
      (new.Rot = ROTNONE ∨
        (new.Rot = RIGHTLEFTRIGHT ∧ RotGood fuel t p RIGHTLEFTRIGHT new.SA)) := by
  obtain ⟨l, r, ln, rn, hL, hR, hln, hrn, h4, h1, h2, dl, dr, _, _⟩ := hs.children hn hb
  by_cases hlb : ln.BucketIndex = -1
  · obtain ⟨ll, lr, lln, lrn, hlL, hlR, hlln, hlrn, g1, g2, g3, dll, dlr, _, _⟩ :=
      hs.children hln hlb
    have h3 : p ≠ ll := ne_of_depth hn hlln (by omega)
    have h6 : r ≠ ll := ne_of_depth hrn hlln (by omega)
    have h7 : lr ≠ p := ne_of_depth hlrn hn (by omega)
    have h9 : lr ≠ r := ne_of_depth hlrn hrn (by omega)
    have hpl := lt_of_get hn
    have hll := lt_of_get hln
    have hrl := lt_of_get hrn
    have hlll := lt_of_get hlln
    have hlrl := lt_of_get hlrn
    refine ⟨⟨RIGHTLEFTRIGHT, lrn.Box.SurfaceArea + (rn.Box.Expand lln.Box).SurfaceArea⟩, ?_,
      Or.inr ⟨rfl, ?_⟩⟩
    · simp only [GetRotationSurfaceArea, Tree.node_eq hn, Res.ok_bind, ROTNONE, LEFTRIGHTLEFT,
        LEFTRIGHTRIGHT, RIGHTLEFTLEFT, RIGHTLEFTRIGHT,
        Int.reduceEq, ↓reduceIte, hR, deref_some, Tree.node_eq hrn, Node.IsLeaf, hlb, bne_self_eq_false,
        Bool.false_eq_true, hlL, Tree.node_eq hlln, hL, Tree.node_eq hln, hlR, Tree.node_eq hlrn,
        Res.pure_eq]
    · obtain ⟨f, rfl⟩ : ∃ f, fuel = f + 1 := ⟨fuel - 1, by omega⟩
      obtain ⟨sr, sll, slr, e1, e2, e3, s1, s2, s3, hnd, k1, k2, k3⟩ :=
        hs.shapes_left hn hL hR hln hlb hlL hlR
      unfold RotGood
      rw [apply_RLR f hn hL hR hln hrn hlL hlR hlln hlrn h1 h2 h3 h4 g2 h6 h7
        (Ne.symm g3) h9 (Ne.symm g1), Res.ok_bind,
        if_pos (Or.inl rfl)]
      generalize hT : (((((t.setNode p { n with Right := some lr }).setNode lr
        { lrn with Parent := some p }).setNode l { ln with Right := some r }).setNode r
        { rn with Parent := some l }).setNode l
        { ln with Right := some r, Box := lln.Box.Expand rn.Box }) = T
      have hd : RotOne t T p r l lr { n with Right := some lr } rn
          { ln with Right := some r, Box := lln.Box.Expand rn.Box } lrn := by
        subst hT
        refine ⟨rfl, by simp only [Tree.setNode_length], ?_, ?_, ?_, ?_, ?_⟩
        · simp only [Tree.setNode_get, Tree.setNode_length, h1, h2, h7, Ne.symm h1, Ne.symm h2,
            Ne.symm h7, hpl, if_true, if_false]
        · simp only [Tree.setNode_get, Tree.setNode_length, h4, Ne.symm h4, hrl, if_true,
            if_false]
        · simp only [Tree.setNode_get, Tree.setNode_length, hll, if_true]
        · simp only [Tree.setNode_get, Tree.setNode_length, h9, g3, Ne.symm h9, Ne.symm g3, hlrl,
            if_true, if_false]
        · intro q q1 q2 q3 q4
          simp only [Tree.setNode_get, Tree.setNode_length, Ne.symm q1, Ne.symm q2, Ne.symm q3,
            Ne.symm q4, if_false]
      obtain ⟨s, T', _, _, _, c4, c5, _⟩ := hd.setDepth hrn hlrn hb (Or.inr ⟨hL, rfl⟩) hlb
        (Or.inr ⟨hlL, rfl⟩) sr slr sll e1 e3 e2 s1 s3 s2 (nodup_swap_tail hnd) (f + 1)
        (by omega) (by omega) (by omega) n.Depth
      refine ⟨T', ?_, c5.rotPost ?_⟩
      · rw [Tree.node_eq hd.atP, Res.ok_bind]
        exact c4
      · exact ⟨_, l, lr, _, _, hd.atP, hb, hL, rfl, hd.atB, hd.atG, by
          show (lln.Box.Expand rn.Box).SurfaceArea + lrn.Box.SurfaceArea = _
          rw [add_comm, BoundingBox.Expand_comm]⟩
  · refine ⟨⟨ROTNONE, MaxFloat64⟩, ?_, Or.inl rfl⟩
    have hleaf : (ln.BucketIndex != -1) = true := by simpa using hlb
    simp only [GetRotationSurfaceArea, Tree.node_eq hn, Res.ok_bind, ROTNONE, LEFTRIGHTLEFT,
      LEFTRIGHTRIGHT, RIGHTLEFTLEFT, RIGHTLEFTRIGHT,
      Int.reduceEq, ↓reduceIte, hL, deref_some, Tree.node_eq hln, Node.IsLeaf, hleaf, Res.pure_eq]

/-- The rotation `LEFTLEFTRIGHTRIGHT` as a candidate of `TryRotate`. -/
theorem spec_LLRR {es : List Entity} {t : Tree} (hs : Struct es t) {p : Nat} {n : Node}
    (hn : t.nodes[p]? = some n) (hb : n.BucketIndex = -1) (fuel : Nat)
    (hf : es.length + 1 ≤ fuel) (sa : ℚ) :
    ∃ new, GetRotationSurfaceArea t p LEFTLEFTRIGHTRIGHT sa = Res.ok new ∧
      (new.Rot = ROTNONE ∨
        (new.Rot = LEFTLEFTRIGHTRIGHT ∧ RotGood fuel t p LEFTLEFTRIGHTRIGHT new.SA)) := by
  obtain ⟨l, r, ln, rn, hL, hR, hln, hrn, h5, h1, h2, dl, dr, _, _⟩ := hs.children hn hb
  by_cases hlb : ln.BucketIndex = -1
  · by_cases hrb : rn.BucketIndex = -1
    · obtain ⟨ll, lr, lln, lrn, hlL, hlR, hlln, hlrn, g1, g2, g3, dll, dlr, pll, plr⟩ :=
        hs.children hln hlb
      obtain ⟨rl, rr, rln, rrn, hrL, hrR, hrln, hrrn, k1, k2, k3, drl, drr, prl, prr⟩ :=
        hs.children hrn hrb
      have h3 : p ≠ ll := ne_of_depth hn hlln (by omega)
      have h4 : p ≠ rr := ne_of_depth hn hrrn (by omega)
      have h7 : l ≠ rr := ne_of_depth hln hrrn (by omega)
      have h8 : r ≠ ll := ne_of_depth hrn hlln (by omega)
      have h10 : ll ≠ rr := ne_of_parent hlln hrrn (by
        rw [pll, prr]; exact fun h => h5 (Option.some.inj h))
      have h12 : lr ≠ r := ne_of_depth hlrn hrn (by omega)
      have h14 : lr ≠ rr := ne_of_parent hlrn hrrn (by
        rw [plr, prr]; exact fun h => h5 (Option.some.inj h))
      have h15 : rl ≠ l := ne_of_depth hrln hln (by omega)
      have h17 : rl ≠ ll := ne_of_parent hrln hlln (by
        rw [prl, pll]; exact fun h => h5 (Option.some.inj h).symm)
      have hpl := lt_of_get hn
      have hll := lt_of_get hln
      have hrl := lt_of_get hrn
      refine ⟨⟨LEFTLEFTRIGHTRIGHT, (rrn.Box.Expand lrn.Box).SurfaceArea +
        (rln.Box.Expand lln.Box).SurfaceArea⟩, ?_, Or.inr ⟨rfl, ?_⟩⟩
      · simp only [GetRotationSurfaceArea, Tree.node_eq hn, Res.ok_bind, ROTNONE, LEFTRIGHTLEFT,
          LEFTRIGHTRIGHT, RIGHTLEFTLEFT, RIGHTLEFTRIGHT, LEFTLEFTRIGHTRIGHT,
          Int.reduceEq, ↓reduceIte, hR, deref_some, Tree.node_eq hrn, Node.IsLeaf, hlb, hrb,
          bne_self_eq_false, Bool.false_eq_true, hlL, Tree.node_eq hlln, hL, Tree.node_eq hln, hlR,
          Tree.node_eq hlrn, hrL, hrR, Tree.node_eq hrln, Tree.node_eq hrrn, Res.pure_eq]
      · obtain ⟨f, rfl⟩ : ∃ f, fuel = f + 1 := ⟨fuel - 1, by omega⟩
        unfold RotGood
        rw [apply_LLRR f hn hL hR hln hrn hlL hlR hrL hrR hlln hlrn hrln hrrn h1 h2 h3 h4 h5 g2
          h7 h8 k3 h10 (Ne.symm g3) h12 (Ne.symm g1) h14 h15 (Ne.symm k2) h17 k1, Res.ok_bind,
          if_neg (by simp only [LEFTLEFTRIGHTRIGHT, RIGHTLEFTRIGHT, RIGHTLEFTLEFT, LEFTRIGHTRIGHT,
            LEFTRIGHTLEFT, Int.reduceEq, or_self, not_false_eq_true])]
        generalize hT : ((((((t.setNode l { ln with Left := some rr }).setNode r
          { rn with Right := some ll }).setNode rr { rrn with Parent := some l }).setNode ll
          { lln with Parent := some r }).setNode l
          { ln with Left := some rr, Box := rrn.Box.Expand lrn.Box }).setNode r
          { rn with Right := some ll, Box := rln.Box.Expand lln.Box }) = T
        have aP : T.nodes[p]? = some n := by
          subst hT
          simp only [Tree.setNode_get, Tree.setNode_length, h1, h2, h3, h4, Ne.symm h1, Ne.symm h2,
            Ne.symm h3, Ne.symm h4, hpl, if_true, if_false, hn]
        have aL : T.nodes[l]? = some { ln with Left := some rr, Box := rrn.Box.Expand lrn.Box } := by
          subst hT
          simp only [Tree.setNode_get, Tree.setNode_length, h5, Ne.symm h5, hll, if_true,
            if_false]
        have aR : T.nodes[r]? = some { rn with Right := some ll, Box := rln.Box.Expand lln.Box } := by
          subst hT
          simp only [Tree.setNode_get, Tree.setNode_length, hrl, if_true]
        exact ⟨T, rfl, n, l, r, _, _, aP, hb, hL, hR, aL, aR, rfl⟩
    · refine ⟨⟨ROTNONE, MaxFloat64⟩, ?_, Or.inl rfl⟩
      have hleaf : (rn.BucketIndex != -1) = true := by simpa using hrb
      simp only [GetRotationSurfaceArea, Tree.node_eq hn, Res.ok_bind, ROTNONE, LEFTRIGHTLEFT,
        LEFTRIGHTRIGHT, RIGHTLEFTLEFT, RIGHTLEFTRIGHT, LEFTLEFTRIGHTRIGHT,
        Int.reduceEq, ↓reduceIte, hL, hR, deref_some, Tree.node_eq hln, Tree.node_eq hrn,
        Node.IsLeaf, hlb, bne_self_eq_false, Bool.false_eq_true, hleaf, Res.pure_eq]
  · refine ⟨⟨ROTNONE, MaxFloat64⟩, ?_, Or.inl rfl⟩
    have hleaf : (ln.BucketIndex != -1) = true := by simpa using hlb
    simp only [GetRotationSurfaceArea, Tree.node_eq hn, Res.ok_bind, ROTNONE, LEFTRIGHTLEFT,
      LEFTRIGHTRIGHT, RIGHTLEFTLEFT, RIGHTLEFTRIGHT, LEFTLEFTRIGHTRIGHT,
      Int.reduceEq, ↓reduceIte, hL, deref_some, Tree.node_eq hln, Node.IsLeaf, hleaf, Res.pure_eq]

/-- The rotation `LEFTLEFTRIGHTLEFT` as a candidate of `TryRotate`. -/
theorem spec_LLRL {es : List Entity} {t : Tree} (hs : Struct es t) {p : Nat} {n : Node}
    (hn : t.nodes[p]? = some n) (hb : n.BucketIndex = -1) (fuel : Nat)
    (hf : es.length + 1 ≤ fuel) (sa : ℚ) :
    ∃ new, GetRotationSurfaceArea t p LEFTLEFTRIGHTLEFT sa = Res.ok new ∧
      (new.Rot = ROTNONE ∨
        (new.Rot = LEFTLEFTRIGHTLEFT ∧ RotGood fuel t p LEFTLEFTRIGHTLEFT new.SA)) := by
  obtain ⟨l, r, ln, rn, hL, hR, hln, hrn, h5, h1, h2, dl, dr, _, _⟩ := hs.children hn hb
  by_cases hlb : ln.BucketIndex = -1
  · by_cases hrb : rn.BucketIndex = -1
    · obtain ⟨ll, lr, lln, lrn, hlL, hlR, hlln, hlrn, g1, g2, g3, dll, dlr, pll, plr⟩ :=
        hs.children hln hlb
      obtain ⟨rl, rr, rln, rrn, hrL, hrR, hrln, hrrn, k1, k2, k3, drl, drr, prl, prr⟩ :=
        hs.children hrn hrb
      have h3 : p ≠ ll := ne_of_depth hn hlln (by omega)
      have h4 : p ≠ rl := ne_of_depth hn hrln (by omega)
      have h7 : l ≠ rl := ne_of_depth hln hrln (by omega)
      have h8 : r ≠ ll := ne_of_depth hrn hlln (by omega)
      have h10 : ll ≠ rl := ne_of_parent hlln hrln (by
        rw [pll, prl]; exact fun h => h5 (Option.some.inj h))
      have h12 : lr ≠ r := ne_of_depth hlrn hrn (by omega)
      have h14 : lr ≠ rl := ne_of_parent hlrn hrln (by
        rw [plr, prl]; exact fun h => h5 (Option.some.inj h))
      have h15 : rr ≠ l := ne_of_depth hrrn hln (by omega)
      have h17 : rr ≠ ll := ne_of_parent hrrn hlln (by
        rw [prr, pll]; exact fun h => h5 (Option.some.inj h).symm)
      have hpl := lt_of_get hn
      have hll := lt_of_get hln
      have hrl := lt_of_get hrn
      refine ⟨⟨LEFTLEFTRIGHTLEFT, (rln.Box.Expand lrn.Box).SurfaceArea +
        (rrn.Box.Expand lln.Box).SurfaceArea⟩, ?_, Or.inr ⟨rfl, ?_⟩⟩
      · simp only [GetRotationSurfaceArea, Tree.node_eq hn, Res.ok_bind, ROTNONE, LEFTRIGHTLEFT,
          LEFTRIGHTRIGHT, RIGHTLEFTLEFT, RIGHTLEFTRIGHT, LEFTLEFTRIGHTRIGHT, LEFTLEFTRIGHTLEFT,
          Int.reduceEq, ↓reduceIte, hR, deref_some, Tree.node_eq hrn, Node.IsLeaf, hlb, hrb,
          bne_self_eq_false, Bool.false_eq_true, hlL, Tree.node_eq hlln, hL, Tree.node_eq hln, hlR,
          Tree.node_eq hlrn, hrL, hrR, Tree.node_eq hrln, Tree.node_eq hrrn, Res.pure_eq]
      · obtain ⟨f, rfl⟩ : ∃ f, fuel = f + 1 := ⟨fuel - 1, by omega⟩
        unfold RotGood
        rw [apply_LLRL f hn hL hR hln hrn hlL hlR hrL hrR hlln hlrn hrln hrrn h1 h2 h3 h4 h5 g2
          h7 h8 k2 h10 (Ne.symm g3) h12 (Ne.symm g1) h14 h15 (Ne.symm k3) h17 (Ne.symm k1),
          Res.ok_bind,
          if_neg (by simp only [LEFTLEFTRIGHTLEFT, RIGHTLEFTRIGHT, RIGHTLEFTLEFT, LEFTRIGHTRIGHT,
            LEFTRIGHTLEFT, Int.reduceEq, or_self, not_false_eq_true])]
        generalize hT : ((((((t.setNode l { ln with Left := some rl }).setNode r
          { rn with Left := some ll }).setNode rl { rln with Parent := some l }).setNode ll
          { lln with Parent := some r }).setNode l
          { ln with Left := some rl, Box := rln.Box.Expand lrn.Box }).setNode r
          { rn with Left := some ll, Box := lln.Box.Expand rrn.Box }) = T
        have aP : T.nodes[p]? = some n := by
          subst hT
          simp only [Tree.setNode_get, Tree.setNode_length, h1, h2, h3, h4, Ne.symm h1, Ne.symm h2,
            Ne.symm h3, Ne.symm h4, hpl, if_true, if_false, hn]
        have aL : T.nodes[l]? = some { ln with Left := some rl, Box := rln.Box.Expand lrn.Box } := by
          subst hT
          simp only [Tree.setNode_get, Tree.setNode_length, h5, Ne.symm h5, hll, if_true,
            if_false]
        have aR : T.nodes[r]? = some { rn with Left := some ll, Box := lln.Box.Expand rrn.Box } := by
          subst hT
          simp only [Tree.setNode_get, Tree.setNode_length, hrl, if_true]
        refine ⟨T, rfl, n, l, r, _, _, aP, hb, hL, hR, aL, aR, ?_⟩
        show (rln.Box.Expand lrn.Box).SurfaceArea + (lln.Box.Expand rrn.Box).SurfaceArea =
          (rln.Box.Expand lrn.Box).SurfaceArea + (rrn.Box.Expand lln.Box).SurfaceArea
        rw [BoundingBox.Expand_comm lln.Box]
    · refine ⟨⟨ROTNONE, MaxFloat64⟩, ?_, Or.inl rfl⟩
      have hleaf : (rn.BucketIndex != -1) = true := by simpa using hrb
      simp only [GetRotationSurfaceArea, Tree.node_eq hn, Res.ok_bind, ROTNONE, LEFTRIGHTLEFT,
        LEFTRIGHTRIGHT, RIGHTLEFTLEFT, RIGHTLEFTRIGHT, LEFTLEFTRIGHTRIGHT, LEFTLEFTRIGHTLEFT,
        Int.reduceEq, ↓reduceIte, hL, hR, deref_some, Tree.node_eq hln, Tree.node_eq hrn,
        Node.IsLeaf, hlb, bne_self_eq_false, Bool.false_eq_true, hleaf, Res.pure_eq]
  · refine ⟨⟨ROTNONE, MaxFloat64⟩, ?_, Or.inl rfl⟩
    have hleaf : (ln.BucketIndex != -1) = true := by simpa using hlb
    simp only [GetRotationSurfaceArea, Tree.node_eq hn, Res.ok_bind, ROTNONE, LEFTRIGHTLEFT,
      LEFTRIGHTRIGHT, RIGHTLEFTLEFT, RIGHTLEFTRIGHT, LEFTLEFTRIGHTRIGHT, LEFTLEFTRIGHTLEFT,
      Int.reduceEq, ↓reduceIte, hL, deref_some, Tree.node_eq hln, Node.IsLeaf, hleaf, Res.pure_eq]

theorem RotPost.sa_eq {t : Tree} {p : Nat} {c : ℚ} (h : RotPost t p c) :
    TryRotate.sa t p = Res.ok c := by
  obtain ⟨n, l, r, ln, rn, a1, _, a3, a4, a5, a6, a7⟩ := h
  simp only [TryRotate.sa, Tree.node_eq a1, Res.ok_bind, a3, a4, deref_some, Tree.node_eq a5,
    Tree.node_eq a6, Res.pure_eq, a7]

theorem rotTree_inv : Inv rotWorld [0, 1, 2, 3] rotTree := by
  obtain ⟨t, h, hI⟩ := @Build_inv rotWorld 8 0 [1, 2, 3] (by decide) (by decide)
  have e : rotTree = t := by
    unfold rotTree
    rw [h]
  rw [e]
  exact hI

/-- Claim C11, counterexample: the tree built from the entities 0, 1, 2, 3 of
`rotWorld` satisfies the invariants; with the leaf 5 in the refit queue,
`Optimize` rotates the branch 2 and the sum over the branches of
`Left.Box.SurfaceArea() + Right.Box.SurfaceArea()` grows from 1232 to 1320.
The same happens in a run of the program: after the entity 3 has moved from
x = 17 to x = 18, `QueueForOptimize(3)` queues its leaf 6 and `Optimize` takes
the sum from 1272 to 1344. -/
theorem C11_counterexample :
    Inv rotWorld [0, 1, 2, 3] rotTree ∧
    (SumBranchSA 8 rotTree rotTree.rootNode >>= fun s0 =>
      Optimize 8 { rotTree with refitQueue := [5] } >>= fun t' =>
      SumBranchSA 8 t' t'.rootNode >>= fun s1 =>
      Res.ok (s0, s1, decide (s1 ≤ s0))) = Res.ok (1232, 1320, false) ∧
    (Build 8 rotWorld [0, 1, 2, 3] >>= fun t =>
      QueueForOptimize 8 rotMovedWorld t 3 >>= fun r =>
      SumBranchSA 8 r.1 r.1.rootNode >>= fun s0 =>
      Optimize 8 r.1 >>= fun t' =>
      SumBranchSA 8 t' t'.rootNode >>= fun s1 =>
      Res.ok (r.1.refitQueue, s0, s1, decide (s1 ≤ s0))) = Res.ok ([6], 1272, 1344, false) :=
  ⟨rotTree_inv, by decide!, by decide!⟩

theorem Res.bind_bind {α β γ : Type} (r : Res α) (f : α → Res β) (g : β → Res γ) :
    ((r >>= f) >>= g) = (r >>= fun a => f a >>= g) := by
  cases r <;> rfl

theorem Res.ite_bind {α β : Type} (c : Prop) [Decidable c] (a b : Res α) (g : α → Res β) :
    ((if c then a else b) >>= g) = if c then a >>= g else b >>= g := by
  split_ifs <;> rfl

/-- Forgetting the log of `Optimize.innerLog` gives `Optimize.inner`. -/
theorem innerLog_erase (gas : Nat) : ∀ (fuel : Nat) (t : Tree) (i : Nat) (d : Int) (log : List Nat),
    (Optimize.innerLog gas fuel t i d log >>= fun r => Res.ok (r.1, r.2.1, r.2.2.1)) =
      Optimize.inner gas fuel t i d := by
  intro fuel
  induction fuel with
  | zero => intro t i d log; rfl
  | succ k ih =>
    intro t i d log
    simp only [Optimize.innerLog, Optimize.inner]
    cases hq : t.refitQueue[i]? with
    | none => rfl
    | some p =>
      simp only [Res.bind_bind, Res.ite_bind, ih, Res.pure_eq, Res.ok_bind]

/-- Forgetting the log of `Optimize.outerLog` gives `Optimize.outer`. -/
theorem outerLog_erase (gas : Nat) : ∀ (fuel : Nat) (t : Tree) (i : Nat) (d : Int) (log : List Nat),
    (Optimize.outerLog gas fuel t i d log >>= fun r => Res.ok r.1) =
      Optimize.outer gas fuel t i d := by
  intro fuel
  induction fuel with
  | zero => intro t i d log; rfl
  | succ k ih =>
    intro t i d log
    simp only [Optimize.outerLog, Optimize.outer]
    by_cases hd : d > 0
    · rw [if_pos hd, if_pos hd, ← innerLog_erase gas gas t i d log]
      cases h : Optimize.innerLog gas gas t i d log with
      | ok r =>
        obtain ⟨a, b, c, l⟩ := r
        simp only [Res.ok_bind]
        exact ih a b (c - 1) l
      | panic => rfl
      | timeout => rfl
    · rw [if_neg hd, if_neg hd]
      rfl

theorem Res.bind_congr {α β : Type} (r : Res α) {f g : α → Res β} (h : ∀ a, f a = g a) :
    (r >>= f) = (r >>= g) := by
  cases r with
  | ok a => exact h a
  | panic => rfl
  | timeout => rfl

/-- Forgetting the log of `OptimizeLog` gives `Optimize`. -/
theorem OptimizeLog_erase (fuel : Nat) (t : Tree) :
    (OptimizeLog fuel t >>= fun r => Res.ok r.1) = Optimize fuel t := by
  simp only [OptimizeLog, Optimize]
  by_cases h1 : t.maxLeaves ≠ 1
  · rw [if_pos h1, if_pos h1]
    rfl
  · rw [if_neg h1, if_neg h1]
    by_cases h2 : t.refitQueue.length = 0
    · rw [if_pos h2, if_pos h2]
      rfl
    · rw [if_neg h2, if_neg h2]
      simp only [Res.bind_bind, Res.pure_eq, Res.ok_bind]
      refine Res.bind_congr _ (fun first => ?_)
      refine Res.bind_congr _ (fun fn => ?_)
      rw [← outerLog_erase fuel fuel _ 0 fn.Depth []]
      simp only [Res.bind_bind, Res.ok_bind]

/-- Claim C21, at a failing input: the tree is built from the entities 0, 1,
2, 3 of `rotWorld`, the entity 3 moves from x = 17 to x = 18 and
`QueueForOptimize(3)` queues its leaf 6. `Optimize` then calls `TryRotate` on
the nodes 6, 4 and 2, all valid and of depth at least 1. The branches 4 and 2,
whose state was 0 before the call and which were flagged when appended as
parents, still have `State & OPTIMIZATIONQUEUED = 10` when `Optimize` returns:
`n.State &= OPTIMIZATIONQUEUED` keeps the flag instead of clearing it. -/
theorem C21_flag_not_cleared :
    (Build 8 rotWorld [0, 1, 2, 3] >>= fun t =>
      QueueForOptimize 8 rotMovedWorld t 3 >>= fun r =>
      OptimizeLog 8 r.1 >>= fun o =>
      Res.ok (r.1.refitQueue, o.2, o.2.map (fun p => (r.1.nodeAt p).State))) =
      Res.ok ([6], [6, 4, 2], [0, 0, 0]) ∧
    (Build 8 rotWorld [0, 1, 2, 3] >>= fun t =>
      QueueForOptimize 8 rotMovedWorld t 3 >>= fun r =>
      OptimizeLog 8 r.1 >>= fun o =>
      Res.ok (o.2.map (fun p => (o.1.nodeAt p).IsValid),
        o.2.map (fun p => (o.1.nodeAt p).Depth),
        o.2.map (fun p => Int.land (o.1.nodeAt p).State OPTIMIZATIONQUEUED))) =
      Res.ok ([true, true, true], [2, 2, 1], [0, 10, 10]) ∧
    (Build 8 rotWorld [0, 1, 2, 3] >>= fun t =>
      QueueForOptimize 8 rotMovedWorld t 3 >>= fun r =>
      Optimize 8 r.1 >>= fun t' =>
      Res.ok ([4, 2].map (fun p => Int.land (t'.nodeAt p).State OPTIMIZATIONQUEUED))) =
      Res.ok [10, 10] := by
  decide!

/-- Claim C22, at a failing input: the tree is built from the entities 0, 1,
2, 3 of `rotWorld`, the entities 3 and 1 move and `QueueForOptimize` queues
their leaves 6 (depth 3) and 1 (depth 1), both valid. `Optimize` sorts the
queue by ascending depth, starts at depth 1 and calls `TryRotate` on the node 1
only: the leaf 6 and its ancestors 4 and 2 are never passed to `TryRotate`, and
the queue is emptied. With the leaf 6 alone in the queue, `TryRotate` is
called on 6, 4 and 2. -/
theorem C22_deeper_entries_skipped :
    (Build 8 rotWorld [0, 1, 2, 3] >>= fun t =>
      QueueForOptimize 8 rotMovedTwoWorld t 3 >>= fun r1 =>
      QueueForOptimize 8 rotMovedTwoWorld r1.1 1 >>= fun r2 =>
      OptimizeLog 8 r2.1 >>= fun o =>
      Res.ok (r2.1.refitQueue,
        r2.1.refitQueue.map (fun p => ((r2.1.nodeAt p).IsValid, (r2.1.nodeAt p).Depth)),
        o.2, o.1.refitQueue)) =
      Res.ok ([6, 1], [(true, 3), (true, 1)], [1], []) ∧
    (Build 8 rotWorld [0, 1, 2, 3] >>= fun t =>
      QueueForOptimize 8 rotMovedTwoWorld t 3 >>= fun r1 =>
      OptimizeLog 8 r1.1 >>= fun o => Res.ok (r1.1.refitQueue, o.2)) =
      Res.ok ([6], [6, 4, 2]) := by
  decide!

/-- Claim C25, at a failing input: for the bucket of the entities 0 and 1 of
`lineWorld` (the bucket `SplitNode` receives when the second entity is added),
`TryImproveAxis` records the score 0 on each of the three axes, where the
score of the specification is 24·1 + 24·1 = 48; for a bucket of four entities
it records 24·1 + 24·1 = 48 (the box of the first entity, twice) where the
specification gives 104·2 + 104·2 = 416. -/
theorem C25_split_score :
    ([X, Y, Z].map fun a =>
      match SplitAxisOpt.TryImproveAxis lineWorld
        { Axis := 0, Items := [0, 1], SplitIndex := 1, SA := 0, HasValue := false } a with
      | .ok s => some (s.Items, s.SA)
      | _ => none) = [some ([0, 1], 0), some ([0, 1], 0), some ([0, 1], 0)] ∧
    SplitScore lineWorld [0, 1] = 48 ∧
    ([X, Y, Z].map fun a =>
      match SplitAxisOpt.TryImproveAxis lineWorld
        { Axis := 0, Items := [0, 1, 2, 3], SplitIndex := 2, SA := 0, HasValue := false } a with
      | .ok s => some (s.Items, s.SA)
      | _ => none) =
      [some ([0, 1, 2, 3], 48), some ([0, 1, 2, 3], 48), some ([0, 1, 2, 3], 48)] ∧
    SplitScore lineWorld [0, 1, 2, 3] = 416 := by
  refine ⟨by decide!, by decide!, by decide!, ?_⟩
  simp [SplitScore, envelopeSA, envelope, BoxFromEntity, lineWorld, BoundingBox.SurfaceArea]
  norm_num

theorem SliceStable_sorted (key : Entity → ℚ) (l : List Entity) :
    (SliceStable key l).Pairwise (fun a b => key a ≤ key b) := by
  haveI : IsTotal Entity (fun a b => key a ≤ key b) := ⟨fun a b => le_total (key a) (key b)⟩
  haveI : IsTrans Entity (fun a b => key a ≤ key b) :=
    ⟨fun a b c hab hbc => le_trans hab hbc⟩
  exact List.sorted_insertionSort (fun a b => key a ≤ key b) l

/-- The order the three sorts of `SplitNode` leave is ascending in z. -/
theorem sorted3_pairwise (w : World) (l : List Entity) :
    (sorted3 w l).Pairwise (fun a b => (w.Position a).Z ≤ (w.Position b).Z) :=
  SliceStable_sorted _ _

/-- The items and the split index after one call of `TryImproveAxis`, whatever
axis it records. -/
theorem TryImproveAxis_items {w : World} {s s' : SplitAxisOpt} {a : Dyntree.Axis}
    (h : s.TryImproveAxis w a = Res.ok s') :
    s'.Items = (if a = X then SliceStable (fun e => (w.Position e).X) s.Items
      else if a = Y then SliceStable (fun e => (w.Position e).Y) s.Items
      else if a = Z then SliceStable (fun e => (w.Position e).Z) s.Items
      else s.Items) ∧ s'.SplitIndex = s.SplitIndex := by
  have key : ∀ (c : Prop) [Decidable c] (A B : SplitAxisOpt),
      (if c then (pure A : Res SplitAxisOpt) else pure B) = Res.ok s' → s' = A ∨ s' = B := by
    intro c _ A B hc
    by_cases h1 : c
    · rw [if_pos h1] at hc
      cases hc
      exact Or.inl rfl
    · rw [if_neg h1] at hc
      cases hc
      exact Or.inr rfl
  unfold SplitAxisOpt.TryImproveAxis at h
  obtain ⟨left, _, h⟩ := Res.bind_eq_ok.mp h
  obtain ⟨right, _, h⟩ := Res.bind_eq_ok.mp h
  rcases key _ _ _ h with h | h <;> rw [h] <;> exact ⟨rfl, rfl⟩

/-- The three calls of `TryImproveAxis` in `SplitNode` leave the items in the
order of the three sorts and keep the split index. -/
theorem TryImproveAxis_sorted3 {w : World} {s0 s : SplitAxisOpt}
    (h : (s0.TryImproveAxis w X >>= fun s1 => s1.TryImproveAxis w Y >>= fun s2 =>
      s2.TryImproveAxis w Z) = Res.ok s) :
    s.Items = sorted3 w s0.Items ∧ s.SplitIndex = s0.SplitIndex := by
  obtain ⟨s1, h1, h⟩ := Res.bind_eq_ok.mp h
  obtain ⟨s2, h2, h3⟩ := Res.bind_eq_ok.mp h
  obtain ⟨i1, j1⟩ := TryImproveAxis_items h1
  obtain ⟨i2, j2⟩ := TryImproveAxis_items h2
  obtain ⟨i3, j3⟩ := TryImproveAxis_items h3
  simp only [X, Y, Z, Int.reduceEq, ↓reduceIte] at i1 i2 i3
  refine ⟨?_, by rw [j3, j2, j1]⟩
  rw [i3, i2, i1]
  rfl

theorem pairwise_take_drop {α : Type} {r : α → α → Prop} {l : List α} (h : l.Pairwise r)
    (k : Nat) {x y : α} (hx : x ∈ l.take k) (hy : y ∈ l.drop k) : r x y := by
  have h' : (l.take k ++ l.drop k).Pairwise r := by
    rw [List.take_append_drop]
    exact h
  exact (List.pairwise_append.mp h').2.2 x hx y hy

/-- With two entities in the bucket of the leaf, `SplitIfNecessary` runs
`SplitNode`. -/
theorem SplitNode_eq (fuel : Nat) (w : World) {t : Tree} {p : Nat} {n : Node} {a e : Entity}
    (hn : t.nodes[p]? = some n) (hb : t.bucket (n.BucketIndex - 1) = Res.ok [a, e])
    (hm : t.maxLeaves = 1) :
    SplitIfNecessary (fuel + 1) w t p = SplitNode fuel w t p := by
  obtain ⟨hb0, _⟩ := Tree.bucket_eq hb
  have hbi : n.BucketIndex ≥ 0 := by omega
  have h2 : (((([a, e] : List Entity).length : Int) > 1)) = True := by simp
  simp only [SplitIfNecessary, ItemCount, Tree.node, hn, Res.ok_bind, hb, Res.pure_eq, hbi,
    ↓reduceIte, hm, h2]

/-- Claim C26: the three calls of `TryImproveAxis` in `SplitNode` leave the
items in the order of the last of the three stable sorts (X, then Y, then Z)
and keep the split index, whatever axis they record as best, so that every
entity before a cut of the items has a z coordinate less than or equal to that
of every entity after it; and for every leaf holding two entities (with
`maxLeaves = 1`, the bucket of every leaf that is split) `SplitNode` returns
with the left child holding the first and the right child the second entity
of that order, the z coordinate of the left one less than or equal to that of
the right one. -/
theorem C26_split_by_last_sort (w : World) (t : Tree) (p : Nat) (n : Node) (a e : Entity)
    (fuel : Nat) (hn : t.nodes[p]? = some n)
    (hb : t.bucket (n.BucketIndex - 1) = Res.ok [a, e]) (hm : t.maxLeaves = 1)
    (hfn : t.unusedNodeIndicies = []) (hfb : t.unusedBucketIndicies = []) :
    (∀ (s0 s : SplitAxisOpt),
      (s0.TryImproveAxis w X >>= fun s1 => s1.TryImproveAxis w Y >>= fun s2 =>
        s2.TryImproveAxis w Z) = Res.ok s →
      s.Items = sorted3 w s0.Items ∧ s.SplitIndex = s0.SplitIndex ∧
      ∀ (k : Nat) (x y : Entity), x ∈ s.Items.take k → y ∈ s.Items.drop k →
        (w.Position x).Z ≤ (w.Position y).Z) ∧
    ∃ (x y : Entity) (t' : Tree) (n' : Node) (l r : Nat) (ln rn : Node),
      sorted3 w [a, e] = [x, y] ∧ SplitNode (fuel + 3) w t p = Res.ok t' ∧
      t'.nodes[p]? = some n' ∧ n'.Left = some l ∧ n'.Right = some r ∧
      t'.nodes[l]? = some ln ∧ t'.nodes[r]? = some rn ∧
      t'.bucket (ln.BucketIndex - 1) = Res.ok [x] ∧
      t'.bucket (rn.BucketIndex - 1) = Res.ok [y] ∧
      (w.Position x).Z ≤ (w.Position y).Z := by
  constructor
  · intro s0 s h
    obtain ⟨h1, h2⟩ := TryImproveAxis_sorted3 h
    refine ⟨h1, h2, ?_⟩
    intro k x y hx hy
    rw [h1] at hx hy
    exact pairwise_take_drop (sorted3_pairwise w s0.Items) k hx hy
  · obtain ⟨x, y, _, hxy, hS⟩ := SplitIfNecessary_sorted fuel w n hn hb hm hfn hfb
    rw [SplitNode_eq (fuel + 3) w hn hb hm] at hS
    have hpl := lt_of_get hn
    obtain ⟨hb0, hb1⟩ := Tree.bucket_eq hb
    have hbl := lt_of_get hb1
    have hz : (w.Position x).Z ≤ (w.Position y).Z := by
      have h := sorted3_pairwise w [a, e]
      rw [hxy] at h
      exact List.rel_of_pairwise_cons h (List.mem_singleton.mpr rfl)
    have hP := splitResult_nodes w t p n a e x y hpl p
    rw [if_pos rfl] at hP
    have hl := splitResult_nodes w t p n a e x y hpl t.nodes.length
    rw [if_neg (by omega), if_neg (by omega), if_pos rfl] at hl
    have hr := splitResult_nodes w t p n a e x y hpl (t.nodes.length + 1)
    rw [if_neg (by omega), if_neg (by omega), if_neg (by omega), if_pos rfl] at hr
    have hbx := splitResult_bucket w t p n a e x y hb (n.BucketIndex - 1)
    rw [if_pos rfl] at hbx
    have hby := splitResult_bucket w t p n a e x y hb ((t.Buckets.length : Int) + 1 - 1)
    rw [if_neg (by omega), if_pos (by omega)] at hby
    exact ⟨x, y, _, _, t.nodes.length, t.nodes.length + 1, _, _, hxy, hS, hP, rfl, rfl, hl, hr,
      hbx, hby, hz⟩

theorem C26_split_by_last_sort_witness :
    pairTree.nodes[0]? = some { Node.zero with NodeIndex := 1, BucketIndex := 1 } ∧
    pairTree.bucket (1 - 1) = Res.ok [0, 1] ∧
    (∀ (s0 s : SplitAxisOpt),
      (s0.TryImproveAxis crossWorld X >>= fun s1 => s1.TryImproveAxis crossWorld Y >>= fun s2 =>
        s2.TryImproveAxis crossWorld Z) = Res.ok s →
      s.Items = sorted3 crossWorld s0.Items ∧ s.SplitIndex = s0.SplitIndex ∧
      ∀ (k : Nat) (x y : Entity), x ∈ s.Items.take k → y ∈ s.Items.drop k →
        (crossWorld.Position x).Z ≤ (crossWorld.Position y).Z) ∧
    ∃ (x y : Entity) (t' : Tree) (n' : Node) (l r : Nat) (ln rn : Node),
      sorted3 crossWorld [0, 1] = [x, y] ∧ SplitNode (1 + 3) crossWorld pairTree 0 = Res.ok t' ∧
      t'.nodes[0]? = some n' ∧ n'.Left = some l ∧ n'.Right = some r ∧
      t'.nodes[l]? = some ln ∧ t'.nodes[r]? = some rn ∧
      t'.bucket (ln.BucketIndex - 1) = Res.ok [x] ∧
      t'.bucket (rn.BucketIndex - 1) = Res.ok [y] ∧
      (crossWorld.Position x).Z ≤ (crossWorld.Position y).Z :=
  ⟨rfl, rfl, C26_split_by_last_sort crossWorld pairTree 0
    { Node.zero with NodeIndex := 1, BucketIndex := 1 } 0 1 1 rfl rfl rfl rfl rfl⟩

theorem RotGood.finish_eq {fuel : Nat} {t : Tree} {p : Nat} {rot : Dyntree.Rot} {c : ℚ}
    (h : RotGood fuel t p rot c) :
    ∃ T', TryRotate.finish fuel t p rot = Res.ok T' ∧ RotPost T' p c := h

/-- One step of the search of `TryRotate` keeps the best candidate minimal
among the rotations tried so far, and applicable. -/
theorem FindBestRotation_min {fuel : Nat} {t : Tree} {p : Nat} {rot : Dyntree.Rot} {sa : ℚ}
    {tried : List Rot} {best : RotOpt}
    (h1 : best.Rot = ROTNONE ∨ (best.Rot ∈ tried ∧
      GetRotationSurfaceArea t p best.Rot sa = Res.ok best ∧ RotGood fuel t p best.Rot best.SA))
    (h2 : ∀ r new, r ∈ tried → GetRotationSurfaceArea t p r sa = Res.ok new →
      new.Rot ≠ ROTNONE → best.SA ≤ new.SA)
    (hspec : ∃ new, GetRotationSurfaceArea t p rot sa = Res.ok new ∧
      (new.Rot = ROTNONE ∨ (new.Rot = rot ∧ RotGood fuel t p rot new.SA))) :
    ∃ best', best.FindBestRotation t p rot sa = Res.ok best' ∧
      (best'.Rot = ROTNONE ∨ (best'.Rot ∈ rot :: tried ∧
        GetRotationSurfaceArea t p best'.Rot sa = Res.ok best' ∧
        RotGood fuel t p best'.Rot best'.SA)) ∧
      ∀ r new, r ∈ rot :: tried → GetRotationSurfaceArea t p r sa = Res.ok new →
        new.Rot ≠ ROTNONE → best'.SA ≤ new.SA := by
  obtain ⟨new, h, hg⟩ := hspec
  simp only [RotOpt.FindBestRotation, h, Res.ok_bind]
  by_cases hlt : new.SA < best.SA
  · rw [if_pos hlt]
    refine ⟨new, rfl, ?_, ?_⟩
    · rcases hg with hg | ⟨e, hg⟩
      · exact Or.inl hg
      · refine Or.inr ⟨?_, ?_, ?_⟩
        · rw [e]
          exact List.mem_cons_self _ _
        · rw [e]
          exact h
        · rw [e]
          exact hg
    · intro r new' hr hnew hne
      rcases List.mem_cons.mp hr with hr | hr
      · subst hr
        rw [h] at hnew
        cases hnew
        exact le_refl _
      · exact le_trans (le_of_lt hlt) (h2 r new' hr hnew hne)
  · rw [if_neg hlt]
    refine ⟨best, rfl, ?_, ?_⟩
    · rcases h1 with h1 | ⟨a1, a2, a3⟩
      · exact Or.inl h1
      · exact Or.inr ⟨List.mem_cons_of_mem _ a1, a2, a3⟩
    · intro r new' hr hnew hne
      rcases List.mem_cons.mp hr with hr | hr
      · subst hr
        rw [h] at hnew
        cases hnew
        exact not_lt.mp hlt
      · exact h2 r new' hr hnew hne

/-- The call `TryRotate(n)` at a branch of a tree built by `Add`: it returns,
and either the tree is unchanged or the rotation applied is a candidate of
minimum cost, its improvement `(sa - cost) / sa` is positive, and the cost of
the node after the call is the cost of the candidate. -/
theorem TryRotate_result {es : List Entity} {t : Tree} (hs : Struct es t) {p : Nat} {n : Node}
    (hn : t.nodes[p]? = some n) (hb : n.BucketIndex = -1) (fuel : Nat)
    (hf : es.length + 1 ≤ fuel) {l r : Nat} {ln rn : Node} (hL : n.Left = some l)
    (hR : n.Right = some r) (hln : t.nodes[l]? = some ln) (hrn : t.nodes[r]? = some rn) :
    ∃ t', TryRotate fuel t p = Res.ok t' ∧ (t' = t ∨ ∃ best : RotOpt,
      best.Rot ∈ rotations ∧ best.Rot ≠ ROTNONE ∧
      GetRotationSurfaceArea t p best.Rot (ln.Box.SurfaceArea + rn.Box.SurfaceArea) =
        Res.ok best ∧
      (∀ r new, r ∈ rotations →
        GetRotationSurfaceArea t p r (ln.Box.SurfaceArea + rn.Box.SurfaceArea) = Res.ok new →
        new.Rot ≠ ROTNONE → best.SA ≤ new.SA) ∧
      TryRotate.diffLE (ln.Box.SurfaceArea + rn.Box.SurfaceArea) best.SA = false ∧
      TryRotate.finish fuel t p best.Rot = Res.ok t' ∧ RotPost t' p best.SA) := by
  generalize hc : ln.Box.SurfaceArea + rn.Box.SurfaceArea = c
  obtain ⟨b1, e1, j1, k1⟩ := @FindBestRotation_min fuel t p LEFTRIGHTLEFT c []
    ⟨ROTNONE, MaxFloat64⟩ (Or.inl rfl) (fun r new hr => absurd hr (List.not_mem_nil r))
    (spec_LRL hs hn hb fuel hf c)
  obtain ⟨b2, e2, j2, k2⟩ := FindBestRotation_min j1 k1 (spec_LRR hs hn hb fuel hf c)
  obtain ⟨b3, e3, j3, k3⟩ := FindBestRotation_min j2 k2 (spec_RLL hs hn hb fuel hf c)
  obtain ⟨b4, e4, j4, k4⟩ := FindBestRotation_min j3 k3 (spec_RLR hs hn hb fuel hf c)
  obtain ⟨b5, e5, j5, k5⟩ := FindBestRotation_min j4 k4 (spec_LLRL hs hn hb fuel hf c)
  obtain ⟨b6, e6, j6, k6⟩ := FindBestRotation_min j5 k5 (spec_LLRR hs hn hb fuel hf c)
  have hleaf : (n.IsLeaf && n.Parent.isSome) = false := by
    simp only [Node.IsLeaf, hb, bne_self_eq_false, Bool.false_and]
  have hmem : ∀ r : Dyntree.Rot, r ∈ [LEFTLEFTRIGHTRIGHT, LEFTLEFTRIGHTLEFT, RIGHTLEFTRIGHT,
      RIGHTLEFTLEFT, LEFTRIGHTRIGHT, LEFTRIGHTLEFT] ↔ r ∈ rotations := by
    intro r
    have e : [LEFTLEFTRIGHTRIGHT, LEFTLEFTRIGHTLEFT, RIGHTLEFTRIGHT, RIGHTLEFTLEFT,
        LEFTRIGHTRIGHT, LEFTRIGHTLEFT] = rotations.reverse := rfl
    rw [e]
    exact List.mem_reverse
  simp only [TryRotate, Tree.node_eq hn, Res.ok_bind, hleaf, Bool.false_eq_true, if_false, hL, hR,
    deref_some, Tree.node_eq hln, Tree.node_eq hrn, hc, e1, e2, e3, e4, e5, e6]
  by_cases hrot : b6.Rot = ROTNONE
  · rw [if_neg (not_not.mpr hrot)]
    exact ⟨t, rfl, Or.inl rfl⟩
  · rw [if_pos hrot]
    by_cases hdiff : TryRotate.diffLE c b6.SA = true
    · rw [if_pos hdiff]
      exact ⟨t, rfl, Or.inl rfl⟩
    · rw [if_neg hdiff]
      rw [Bool.not_eq_true] at hdiff
      rcases j6 with j6 | ⟨a1, a2, a3⟩
      · exact absurd j6 hrot
      · obtain ⟨T', hT, hp'⟩ := a3
        exact ⟨T', hT, Or.inr ⟨b6, (hmem _).mp a1, hrot, a2,
          fun r new hr => k6 r new ((hmem r).mpr hr), hdiff, hT, hp'⟩⟩

/-- When the guard `diff <= 0` of `TryRotate` fails on a baseline that is not
negative, the candidate is not above the baseline, and it is below a positive
one. -/
theorem TryRotate.diffLE_false {sa b : ℚ} (h : TryRotate.diffLE sa b = false) (hsa : 0 ≤ sa) :
    b ≤ sa ∧ (0 < sa → b < sa) := by
  unfold TryRotate.diffLE at h
  split at h
  · rename_i h0
    have hb : ¬ 0 < b := of_decide_eq_false h
    rw [h0]
    exact ⟨not_lt.mp hb, fun hp => absurd hp (lt_irrefl _)⟩
  · rename_i h0
    have hd : ¬ (sa - b) / sa ≤ 0 := of_decide_eq_false h
    have hp : 0 < sa := lt_of_le_of_ne hsa (Ne.symm h0)
    have := (div_pos_iff_of_pos_right hp).mp (not_le.mp hd)
    exact ⟨by linarith, fun _ => by linarith⟩

/-- Claim C23: for every branch `n` of a tree built by `Add` whose baseline
`sa = n.Left.Box.SurfaceArea() + n.Right.Box.SurfaceArea()` is positive,
`TryRotate(n)` returns, and it leaves the tree unchanged unless the minimum
cost `m` over the six rotation candidates (those disqualified by a leaf left
out) is strictly less than `sa`; whenever it changes the tree, the new value
of `n.Left.Box.SurfaceArea() + n.Right.Box.SurfaceArea()` is that minimum. -/
theorem C23_rotation_minimum (es : List Entity) (t : Tree) (p : Nat) (n : Node) (l r : Nat)
    (ln rn : Node) (fuel : Nat) (hs : Struct es t) (hn : t.nodes[p]? = some n)
    (hb : n.BucketIndex = -1) (hL : n.Left = some l) (hR : n.Right = some r)
    (hln : t.nodes[l]? = some ln) (hrn : t.nodes[r]? = some rn)
    (hsa : 0 < ln.Box.SurfaceArea + rn.Box.SurfaceArea) (hf : es.length + 1 ≤ fuel) :
    ∃ t', TryRotate fuel t p = Res.ok t' ∧
      (t' = t ∨ ∃ m, MinCandidate t p (ln.Box.SurfaceArea + rn.Box.SurfaceArea) m ∧
        m < ln.Box.SurfaceArea + rn.Box.SurfaceArea ∧ TryRotate.sa t' p = Res.ok m) := by
  obtain ⟨t', h1, h2⟩ := TryRotate_result hs hn hb fuel hf hL hR hln hrn
  refine ⟨t', h1, ?_⟩
  rcases h2 with h2 | ⟨best, a1, a2, a3, a4, a5, _, a7⟩
  · exact Or.inl h2
  · refine Or.inr ⟨best.SA, ⟨⟨best.Rot, best, a1, a3, a2, rfl⟩, a4⟩, ?_, a7.sa_eq⟩
    exact (TryRotate.diffLE_false a5 hsa.le).2 hsa

theorem C23_rotation_minimum_witness :
    Struct [0, 1, 2, 3] rotTree ∧
    rotTree.nodes[2]? = some (rotTree.nodeAt 2) ∧ (rotTree.nodeAt 2).BucketIndex = -1 ∧
    (rotTree.nodeAt 2).Left = some 3 ∧ (rotTree.nodeAt 2).Right = some 4 ∧
    rotTree.nodes[3]? = some (rotTree.nodeAt 3) ∧ rotTree.nodes[4]? = some (rotTree.nodeAt 4) ∧
    0 < (rotTree.nodeAt 3).Box.SurfaceArea + (rotTree.nodeAt 4).Box.SurfaceArea ∧
    ∃ t', TryRotate 5 rotTree 2 = Res.ok t' ∧
      (t' = rotTree ∨ ∃ m,
        MinCandidate rotTree 2
          ((rotTree.nodeAt 3).Box.SurfaceArea + (rotTree.nodeAt 4).Box.SurfaceArea) m ∧
        m < (rotTree.nodeAt 3).Box.SurfaceArea + (rotTree.nodeAt 4).Box.SurfaceArea ∧
        TryRotate.sa t' 2 = Res.ok m) :=
  ⟨rotTree_inv.struct, by decide!, by decide!, by decide!, by decide!, by decide!, by decide!,
    by decide!,
    C23_rotation_minimum [0, 1, 2, 3] rotTree 2 (rotTree.nodeAt 2) 3 4 (rotTree.nodeAt 3)
      (rotTree.nodeAt 4) 5 rotTree_inv.struct (by decide!) (by decide!) (by decide!) (by decide!)
      (by decide!) (by decide!) (by decide!) (by decide)⟩

/-- At a baseline of 0 the quotient of `TryRotate` is `0 / 0`, the guard
`diff <= 0` is false and a rotation is applied: on the tree of three entities
of radius 0 at one point, `TryRotate` at the root changes the tree and the
cost of the root stays 0. -/
theorem TryRotate_zero_baseline :
    (Build 8 pointWorld [0, 1, 2] >>= fun t =>
      TryRotate 8 t 0 >>= fun t' =>
      TryRotate.sa t 0 >>= fun c =>
      TryRotate.sa t' 0 >>= fun c' =>
      Res.ok (c, c', decide (t'.nodes = t.nodes))) = Res.ok (0, 0, false) := by
  decide!

/-- Claim C11, amended: for every tree that satisfies the box, parent-link and
depth invariants of a tree built by `Add` from entities of non-negative radius
and every branch node `n` of it, one call `TryRotate(n)`, the step `Optimize`
applies to a queued node, returns, and the cost of `n` itself,
`n.Left.Box.SurfaceArea() + n.Right.Box.SurfaceArea()`, which is not negative,
is after the call less than or equal to its value before; when the value
before is positive, it is strictly less or the tree is unchanged. -/
theorem C11_rotation_cost (w : World) (es : List Entity) (t : Tree) (p : Nat) (n : Node)
    (fuel : Nat) (hI : Inv w es t) (hr : ∀ e, e ∈ es → 0 ≤ w.Radius e)
    (hn : t.nodes[p]? = some n) (hb : n.BucketIndex = -1) (hf : es.length + 1 ≤ fuel) :
    ∃ (c : ℚ) (t' : Tree) (c' : ℚ), TryRotate.sa t p = Res.ok c ∧
      TryRotate fuel t p = Res.ok t' ∧ TryRotate.sa t' p = Res.ok c' ∧ 0 ≤ c ∧ c' ≤ c ∧
      (0 < c → c' < c ∨ t' = t) := by
  have hs := hI.struct
  obtain ⟨l, r, ln, rn, hL, hR, hln, hrn, _, _, _, _, _, _, _⟩ := hs.children hn hb
  have hpost : RotPost t p (ln.Box.SurfaceArea + rn.Box.SurfaceArea) :=
    ⟨n, l, r, ln, rn, hn, hb, hL, hR, hln, hrn, rfl⟩
  have hsa : 0 ≤ ln.Box.SurfaceArea + rn.Box.SurfaceArea :=
    add_nonneg (BoundingBox.SurfaceArea_nonneg (hI.box_wf hr hln))
      (BoundingBox.SurfaceArea_nonneg (hI.box_wf hr hrn))
  obtain ⟨t', h1, h2⟩ := TryRotate_result hs hn hb fuel hf hL hR hln hrn
  rcases h2 with h2 | ⟨best, _, _, _, _, a5, _, a7⟩
  · rw [h2] at h1
    exact ⟨_, t, _, hpost.sa_eq, h1, hpost.sa_eq, hsa, le_refl _, fun _ => Or.inr rfl⟩
  · obtain ⟨b1, b2⟩ := TryRotate.diffLE_false a5 hsa
    exact ⟨_, t', best.SA, hpost.sa_eq, h1, a7.sa_eq, hsa, b1, fun h => Or.inl (b2 h)⟩

theorem C11_rotation_cost_witness :
    Inv rotWorld [0, 1, 2, 3] rotTree ∧
    (∀ e, e ∈ [0, 1, 2, 3] → 0 ≤ rotWorld.Radius e) ∧
    rotTree.nodes[2]? = some (rotTree.nodes.getD 2 Node.zero) ∧
    (rotTree.nodes.getD 2 Node.zero).BucketIndex = -1 ∧
    ∃ (c : ℚ) (t' : Tree) (c' : ℚ), TryRotate.sa rotTree 2 = Res.ok c ∧
      TryRotate 5 rotTree 2 = Res.ok t' ∧ TryRotate.sa t' 2 = Res.ok c' ∧ 0 ≤ c ∧ c' ≤ c ∧
      (0 < c → c' < c ∨ t' = rotTree) :=
  ⟨rotTree_inv, by decide!, by decide!, by decide!,
    C11_rotation_cost rotWorld [0, 1, 2, 3] rotTree 2 (rotTree.nodes.getD 2 Node.zero) 5
      rotTree_inv (by decide!) (by decide!) (by decide!) (by decide)⟩

theorem Under.child {t : Tree} {p x c : Nat} (h : Under t p x) (hc : IsChild t x c) :
    Under t p c := by
  obtain ⟨n, hn, hc | hc⟩ := hc
  · exact Under.left h hn hc
  · exact Under.right h hn hc

theorem Under.mono {t T : Tree} {p : Nat}
    (h : ∀ x c, Under T p x → IsChild t x c → Under T p c) :
    ∀ q, Under t p q → Under T p q := by
  intro q hq
  induction hq with
  | self => exact Under.self
  | left _ hn hc ih => exact h _ _ ih ⟨_, hn, Or.inl hc⟩
  | right _ hn hc ih => exact h _ _ ih ⟨_, hn, Or.inr hc⟩

/-- A single rotation keeps the nodes under `p`: `A` moves from under `p` to
under `B`, and `G` from under `B` to under `p`. -/
theorem under_rot1 {t T : Tree} {p A B G H : Nat}
    (tp : ∀ c, IsChild t p c → c = A ∨ c = B) (tB : ∀ c, IsChild t B c → c = G ∨ c = H)
    (h1 : IsChild T p G) (h2 : IsChild T p B) (h3 : IsChild T B A) (h4 : IsChild T B H)
    (other : ∀ x c, x ≠ p → x ≠ B → IsChild t x c → IsChild T x c) :
    ∀ q, Under t p q → Under T p q := by
  refine Under.mono (fun x c hx hc => ?_)
  by_cases hxp : x = p
  · subst hxp
    rcases tp c hc with e | e
    · subst e
      exact (Under.self.child h2).child h3
    · subst e
      exact Under.self.child h2
  · by_cases hxB : x = B
    · subst hxB
      rcases tB c hc with e | e
      · subst e
        exact Under.self.child h1
      · subst e
        exact hx.child h4
    · exact hx.child (other x c hxp hxB hc)

/-- A double rotation keeps the nodes under `p`: `y` moves from under `l` to
under `r`, and `x` from under `r` to under `l`. -/
theorem under_rot2 {t T : Tree} {p l r x y u v : Nat}
    (tl : ∀ c, IsChild t l c → c = y ∨ c = u) (tr : ∀ c, IsChild t r c → c = x ∨ c = v)
    (h1 : IsChild T p l) (h2 : IsChild T p r) (h3 : IsChild T l x) (h4 : IsChild T l u)
    (h5 : IsChild T r y) (h6 : IsChild T r v)
    (other : ∀ z c, z ≠ l → z ≠ r → IsChild t z c → IsChild T z c) :
    ∀ q, Under t p q → Under T p q := by
  refine Under.mono (fun z c hz hc => ?_)
  by_cases hzl : z = l
  · subst hzl
    rcases tl c hc with e | e
    · subst e
      exact (Under.self.child h2).child h5
    · subst e
      exact hz.child h4
  · by_cases hzr : z = r
    · subst hzr
      rcases tr c hc with e | e
      · subst e
        exact (Under.self.child h1).child h3
      · subst e
        exact hz.child h6
    · exact hz.child (other z c hzl hzr hc)

theorem DepthOnly.pt_inv {T T' : Tree} (h : DepthOnly T T') {q : Nat} {m' : Node}
    (hm : T'.nodes[q]? = some m') : ∃ m : Node, T.nodes[q]? = some m ∧
      m'.Left = m.Left ∧ m'.Right = m.Right ∧ m'.Parent = m.Parent ∧ m'.Box = m.Box ∧
      m'.BucketIndex = m.BucketIndex := by
  have hq : q < T.nodes.length := by
    rw [← h.len]
    exact lt_of_get hm
  obtain ⟨m, hm0⟩ : ∃ m, T.nodes[q]? = some m := ⟨T.nodes[q], List.getElem?_eq_getElem hq⟩
  obtain ⟨dd, hd⟩ := h.pt q m hm0
  rw [hm] at hd
  cases hd
  exact ⟨m, hm0, rfl, rfl, rfl, rfl, rfl⟩

theorem DepthOnly.isChild {T T' : Tree} (h : DepthOnly T T') (x c : Nat) :
    IsChild T' x c ↔ IsChild T x c := by
  constructor
  · rintro ⟨m', hm, hc⟩
    obtain ⟨m, hm0, e1, e2, _⟩ := h.pt_inv hm
    rw [e1, e2] at hc
    exact ⟨m, hm0, hc⟩
  · rintro ⟨m, hm, hc⟩
    obtain ⟨dd, hd⟩ := h.pt x m hm
    exact ⟨_, hd, hc⟩

theorem DepthOnly.under {T T' : Tree} (h : DepthOnly T T') (p q : Nat) :
    Under T' p q ↔ Under T p q :=
  ⟨Under.mono (fun x c hx hc => hx.child ((h.isChild x c).mp hc)) q,
    Under.mono (fun x c hx hc => hx.child ((h.isChild x c).mpr hc)) q⟩

theorem DepthOnly.localOK {T T' : Tree} (h : DepthOnly T T') {q : Nat} (hq : LocalOK T q) :
    LocalOK T' q := by
  intro m' hm' hb
  obtain ⟨m, hm, e1, e2, _, e4, e5⟩ := h.pt_inv hm'
  obtain ⟨l, r, ln, rn, a1, a2, a3, a4, a5, a6, a7⟩ := hq m hm (by rw [← e5]; exact hb)
  obtain ⟨d1, b1⟩ := h.pt l ln a3
  obtain ⟨d2, b2⟩ := h.pt r rn a4
  exact ⟨l, r, _, _, by rw [e1]; exact a1, by rw [e2]; exact a2, b1, b2, by rw [e4]; exact a5,
    a6, a7⟩

/-- A change of depths does not undo what a rotation keeps. -/
theorem RotKept.of_depthOnly {t T T' : Tree} {p : Nat} (hk : RotKept t T p) (h : DepthOnly T T') :
    RotKept t T' p := by
  refine ⟨?_, ?_, ?_, ?_, h.localOK hk.localP, ?_⟩
  · have e := h.eq
    rw [e]
    exact hk.buckets
  · intro q m hm
    obtain ⟨m1, h1, e1⟩ := hk.pt q m hm
    obtain ⟨dd, hd⟩ := h.pt q m1 h1
    exact ⟨_, hd, e1⟩
  · intro m m' hm hm'
    obtain ⟨m1, h1, _, _, _, e4, _⟩ := h.pt_inv hm'
    rw [e4]
    exact hk.box m m1 hm h1
  · intro q
    exact (h.under p q).trans (hk.under q)
  · intro m' c hm' hc
    obtain ⟨m1, h1, e1, e2, _⟩ := h.pt_inv hm'
    rw [e1, e2] at hc
    exact h.localOK (hk.localC m1 c h1 hc)

/-- An unchanged tree built by `Add` keeps everything. -/
theorem RotKept.same {w : World} {es : List Entity} {t : Tree} (hI : Inv w es t) (p : Nat) :
    RotKept t t p := by
  have hs := hI.struct
  have hloc : ∀ q, LocalOK t q := by
    intro q m hm hb
    obtain ⟨l, r, ln, rn, a1, a2, a3, a4, _, _, _, _, _, a6, a7⟩ := hs.children hm hb
    exact ⟨l, r, ln, rn, a1, a2, a3, a4,
      hI.branchBox q m l r ln rn (by simp) hm hb a1 a2 a3 a4, a6, a7⟩
  refine ⟨rfl, fun q m hm => ⟨m, hm, rfl⟩, ?_, fun q => Iff.rfl, hloc p, fun m c _ _ => hloc c⟩
  intro m m' hm hm'
  rw [hm] at hm'
  cases hm'
  rfl

theorem IsChild.of_get {t : Tree} {x c : Nat} {n : Node} (hn : t.nodes[x]? = some n)
    (h : IsChild t x c) : n.Left = some c ∨ n.Right = some c := by
  obtain ⟨m, hm, hc⟩ := h
  rw [hn] at hm
  cases hm
  exact hc

/-- A single rotation, described by `RotOne`, keeps what `RotKept` lists. -/
theorem RotOne.kept_one {es : List Entity} {t T : Tree} {p A B G H : Nat}
    {n an bn gn hn pn' bn' : Node} (hd : RotOne t T p A B G pn' an bn' gn)
    (hs : Struct es t) (hbb : BranchBoxOK t none)
    (hp : t.nodes[p]? = some n) (hb : n.BucketIndex = -1) (hA : t.nodes[A]? = some an)
    (hB : t.nodes[B]? = some bn) (hBb : bn.BucketIndex = -1) (hG : t.nodes[G]? = some gn)
    (hH : t.nodes[H]? = some hn)
    (hnc : (n.Left = some A ∧ n.Right = some B) ∨ (n.Left = some B ∧ n.Right = some A))
    (hbc : (bn.Left = some G ∧ bn.Right = some H) ∨ (bn.Left = some H ∧ bn.Right = some G))
    (dA : an.Depth = n.Depth + 1) (dB : bn.Depth = n.Depth + 1) (dG : gn.Depth = n.Depth + 2)
    (dH : hn.Depth = n.Depth + 2) (pH : hn.Parent = some B) (hAB : A ≠ B) (hGH : G ≠ H)
    (hP1 : pn'.BucketIndex = -1) (hP2 : pn'.Box = n.Box)
    (hPc : (pn'.Left = some G ∧ pn'.Right = some B) ∨ (pn'.Left = some B ∧ pn'.Right = some G))
    (hB1 : bn'.BucketIndex = -1) (hB2 : bn'.Parent = some p)
    (hBc : (bn'.Left = some A ∧ bn'.Right = some H ∧ bn'.Box = an.Box.Expand hn.Box) ∨
      (bn'.Left = some H ∧ bn'.Right = some A ∧ bn'.Box = hn.Box.Expand an.Box)) :
    RotKept t T p := by
  have hpA : p ≠ A := ne_of_depth hp hA (by omega)
  have hpB : p ≠ B := ne_of_depth hp hB (by omega)
  have hpG : p ≠ G := ne_of_depth hp hG (by omega)
  have hpH : p ≠ H := ne_of_depth hp hH (by omega)
  have hAG : A ≠ G := ne_of_depth hA hG (by omega)
  have hAH : A ≠ H := ne_of_depth hA hH (by omega)
  have hBG : B ≠ G := ne_of_depth hB hG (by omega)
  have hBH : B ≠ H := ne_of_depth hB hH (by omega)
  have hTH : T.nodes[H]? = some hn := by
    rw [hd.other H (Ne.symm hpH) (Ne.symm hAH) (Ne.symm hBH) (Ne.symm hGH)]
    exact hH
  -- the boxes before the rotation
  have bxP : n.Box = (an.Box.Expand gn.Box).Expand hn.Box := by
    haveI : Std.Commutative BoundingBox.Expand := ⟨BoundingBox.Expand_comm⟩
    haveI : Std.Associative BoundingBox.Expand := ⟨BoundingBox.Expand_assoc⟩
    have e2 : bn.Box = gn.Box.Expand hn.Box := by
      rcases hbc with ⟨c1, c2⟩ | ⟨c1, c2⟩
      · exact hbb B bn G H gn hn (by simp) hB hBb c1 c2 hG hH
      · rw [hbb B bn H G hn gn (by simp) hB hBb c1 c2 hH hG]
        exact BoundingBox.Expand_comm _ _
    rcases hnc with ⟨c1, c2⟩ | ⟨c1, c2⟩
    · rw [hbb p n A B an bn (by simp) hp hb c1 c2 hA hB, e2]
      ac_rfl
    · rw [hbb p n B A bn an (by simp) hp hb c1 c2 hB hA, e2]
      ac_rfl
  have bxB : bn'.Box = an.Box.Expand hn.Box := by
    rcases hBc with ⟨_, _, c3⟩ | ⟨_, _, c3⟩
    · exact c3
    · rw [c3]
      exact BoundingBox.Expand_comm _ _
  -- the children after the rotation
  have cTp : ∀ c, IsChild T p c ↔ c = G ∨ c = B := by
    intro c
    constructor
    · intro h
      rcases hPc with ⟨c1, c2⟩ | ⟨c1, c2⟩ <;> rcases h.of_get hd.atP with h | h
      · rw [c1] at h; exact Or.inl (Option.some.inj h).symm
      · rw [c2] at h; exact Or.inr (Option.some.inj h).symm
      · rw [c1] at h; exact Or.inr (Option.some.inj h).symm
      · rw [c2] at h; exact Or.inl (Option.some.inj h).symm
    · rintro (e | e) <;> subst e
      · rcases hPc with ⟨c1, c2⟩ | ⟨c1, c2⟩
        · exact ⟨_, hd.atP, Or.inl c1⟩
        · exact ⟨_, hd.atP, Or.inr c2⟩
      · rcases hPc with ⟨c1, c2⟩ | ⟨c1, c2⟩
        · exact ⟨_, hd.atP, Or.inr c2⟩
        · exact ⟨_, hd.atP, Or.inl c1⟩
  have cTB : ∀ c, IsChild T B c ↔ c = A ∨ c = H := by
    intro c
    constructor
    · intro h
      rcases hBc with ⟨c1, c2, _⟩ | ⟨c1, c2, _⟩ <;> rcases h.of_get hd.atB with h | h
      · rw [c1] at h; exact Or.inl (Option.some.inj h).symm
      · rw [c2] at h; exact Or.inr (Option.some.inj h).symm
      · rw [c1] at h; exact Or.inr (Option.some.inj h).symm
      · rw [c2] at h; exact Or.inl (Option.some.inj h).symm
    · rintro (e | e) <;> subst e
      · rcases hBc with ⟨c1, c2, _⟩ | ⟨c1, c2, _⟩
        · exact ⟨_, hd.atB, Or.inl c1⟩
        · exact ⟨_, hd.atB, Or.inr c2⟩
      · rcases hBc with ⟨c1, c2, _⟩ | ⟨c1, c2, _⟩
        · exact ⟨_, hd.atB, Or.inr c2⟩
        · exact ⟨_, hd.atB, Or.inl c1⟩
  have ctp : ∀ c, IsChild t p c ↔ c = A ∨ c = B := by
    intro c
    constructor
    · intro h
      rcases hnc with ⟨c1, c2⟩ | ⟨c1, c2⟩ <;> rcases h.of_get hp with h | h
      · rw [c1] at h; exact Or.inl (Option.some.inj h).symm
      · rw [c2] at h; exact Or.inr (Option.some.inj h).symm
      · rw [c1] at h; exact Or.inr (Option.some.inj h).symm
      · rw [c2] at h; exact Or.inl (Option.some.inj h).symm
    · rintro (e | e) <;> subst e
      · rcases hnc with ⟨c1, c2⟩ | ⟨c1, c2⟩
        · exact ⟨_, hp, Or.inl c1⟩
        · exact ⟨_, hp, Or.inr c2⟩
      · rcases hnc with ⟨c1, c2⟩ | ⟨c1, c2⟩
        · exact ⟨_, hp, Or.inr c2⟩
        · exact ⟨_, hp, Or.inl c1⟩
  have ctB : ∀ c, IsChild t B c ↔ c = G ∨ c = H := by
    intro c
    constructor
    · intro h
      rcases hbc with ⟨c1, c2⟩ | ⟨c1, c2⟩ <;> rcases h.of_get hB with h | h
      · rw [c1] at h; exact Or.inl (Option.some.inj h).symm
      · rw [c2] at h; exact Or.inr (Option.some.inj h).symm
      · rw [c1] at h; exact Or.inr (Option.some.inj h).symm
      · rw [c2] at h; exact Or.inl (Option.some.inj h).symm
    · rintro (e | e) <;> subst e
      · rcases hbc with ⟨c1, c2⟩ | ⟨c1, c2⟩
        · exact ⟨_, hB, Or.inl c1⟩
        · exact ⟨_, hB, Or.inr c2⟩
      · rcases hbc with ⟨c1, c2⟩ | ⟨c1, c2⟩
        · exact ⟨_, hB, Or.inr c2⟩
        · exact ⟨_, hB, Or.inl c1⟩
  have oth : ∀ x c, x ≠ p → x ≠ B → (IsChild t x c ↔ IsChild T x c) := by
    intro x c h1 h2
    constructor
    · rintro ⟨m, hm, hc⟩
      obtain ⟨m', a1, a2, a3, _⟩ := hd.links_frame hA hG x m h1 h2 hm
      exact ⟨m', a1, by rw [a2, a3]; exact hc⟩
    · rintro ⟨m', hm', hc⟩
      have hx : x < t.nodes.length := by
        rw [← hd.len]
        exact lt_of_get hm'
      obtain ⟨m, hm⟩ : ∃ m, t.nodes[x]? = some m := ⟨t.nodes[x], List.getElem?_eq_getElem hx⟩
      obtain ⟨m1, a1, a2, a3, _⟩ := hd.links_frame hA hG x m h1 h2 hm
      rw [hm'] at a1
      cases a1
      exact ⟨m, hm, by rw [← a2, ← a3]; exact hc⟩
  refine ⟨?_, ?_, ?_, ?_, ?_, ?_⟩
  · have e := hd.eq
    rw [e]
  · intro q m hm
    by_cases h1 : q = p
    · subst h1
      rw [hp] at hm; cases hm
      exact ⟨_, hd.atP, by rw [hP1, hb]⟩
    · by_cases h2 : q = B
      · subst h2
        rw [hB] at hm; cases hm
        exact ⟨_, hd.atB, by rw [hB1, hBb]⟩
      · obtain ⟨m', a1, _, _, a4, _⟩ := hd.links_frame hA hG q m h1 h2 hm
        exact ⟨m', a1, a4⟩
  · intro m m' hm hm'
    rw [hp] at hm; cases hm
    rw [hd.atP] at hm'; cases hm'
    exact hP2
  · intro q
    constructor
    · exact under_rot1 (fun c h => (cTp c).mp h) (fun c h => (cTB c).mp h)
        ((ctp A).mpr (Or.inl rfl)) ((ctp B).mpr (Or.inr rfl)) ((ctB G).mpr (Or.inl rfl))
        ((ctB H).mpr (Or.inr rfl)) (fun x c h1 h2 h => (oth x c h1 h2).mpr h) q
    · exact under_rot1 (fun c h => (ctp c).mp h) (fun c h => (ctB c).mp h)
        ((cTp G).mpr (Or.inl rfl)) ((cTp B).mpr (Or.inr rfl)) ((cTB A).mpr (Or.inl rfl))
        ((cTB H).mpr (Or.inr rfl)) (fun x c h1 h2 h => (oth x c h1 h2).mp h) q
  · intro m hm _
    rw [hd.atP] at hm; cases hm
    haveI : Std.Commutative BoundingBox.Expand := ⟨BoundingBox.Expand_comm⟩
    haveI : Std.Associative BoundingBox.Expand := ⟨BoundingBox.Expand_assoc⟩
    rcases hPc with ⟨c1, c2⟩ | ⟨c1, c2⟩
    · refine ⟨G, B, _, _, c1, c2, hd.atG, hd.atB, ?_, rfl, hB2⟩
      show pn'.Box = gn.Box.Expand bn'.Box
      rw [hP2, bxP, bxB]
      ac_rfl
    · refine ⟨B, G, _, _, c1, c2, hd.atB, hd.atG, ?_, hB2, rfl⟩
      show pn'.Box = bn'.Box.Expand gn.Box
      rw [hP2, bxP, bxB]
      ac_rfl
  · intro m c hm hc
    have hc' := (cTp c).mp ⟨m, hm, hc⟩
    rcases hc' with e | e
    · subst e
      intro g hg hgb
      rw [hd.atG] at hg; cases hg
      obtain ⟨l, r, ln, rn, a1, a2, a3, a4, _, _, _, d1, d2, a6, a7⟩ := hs.children hG hgb
      have hl : T.nodes[l]? = some ln := by
        rw [hd.other l (Ne.symm (ne_of_depth hp a3 (by omega)))
          (Ne.symm (ne_of_depth hA a3 (by omega))) (Ne.symm (ne_of_depth hB a3 (by omega)))
          (Ne.symm (ne_of_depth hG a3 (by omega)))]
        exact a3
      have hr : T.nodes[r]? = some rn := by
        rw [hd.other r (Ne.symm (ne_of_depth hp a4 (by omega)))
          (Ne.symm (ne_of_depth hA a4 (by omega))) (Ne.symm (ne_of_depth hB a4 (by omega)))
          (Ne.symm (ne_of_depth hG a4 (by omega)))]
        exact a4
      exact ⟨l, r, ln, rn, a1, a2, hl, hr,
        hbb _ gn l r ln rn (by simp) hG hgb a1 a2 a3 a4, a6, a7⟩
    · subst e
      intro g hg _
      rw [hd.atB] at hg; cases hg
      rcases hBc with ⟨c1, c2, c3⟩ | ⟨c1, c2, c3⟩
      · exact ⟨A, H, _, _, c1, c2, hd.atA, hTH, c3, rfl, pH⟩
      · exact ⟨H, A, _, _, c1, c2, hTH, hd.atA, c3, pH, rfl⟩

/-- The rotation `LEFTRIGHTLEFT`, when it is a candidate, keeps what `RotKept`
lists. -/
theorem kept_LRL {w : World} {es : List Entity} {t : Tree} (hI : Inv w es t) {p : Nat}
    {n : Node} (hn : t.nodes[p]? = some n) (hb : n.BucketIndex = -1) (fuel : Nat)
    (hf : es.length + 1 ≤ fuel) {sa : ℚ} {new : RotOpt}
    (hg : GetRotationSurfaceArea t p LEFTRIGHTLEFT sa = Res.ok new) (hne : new.Rot ≠ ROTNONE)
    {T' : Tree} (hT : TryRotate.finish fuel t p LEFTRIGHTLEFT = Res.ok T') : RotKept t T' p := by
  have hs := hI.struct
  obtain ⟨l, r, ln, rn, hL, hR, hln, hrn, h4, h1, h2, dl, dr, pl, pr⟩ := hs.children hn hb
  by_cases hrb : rn.BucketIndex = -1
  · obtain ⟨rl, rr, rln, rrn, hrL, hrR, hrln, hrrn, g1, g2, g3, d1, d2, prl, prr⟩ :=
      hs.children hrn hrb
    have h3 : p ≠ rl := ne_of_depth hn hrln (by omega)
    have h5 : l ≠ rl := ne_of_depth hln hrln (by omega)
    have h7 : rr ≠ p := ne_of_depth hrrn hn (by omega)
    have h8 : rr ≠ l := ne_of_depth hrrn hln (by omega)
    have hpl := lt_of_get hn
    have hll := lt_of_get hln
    have hrl := lt_of_get hrn
    have hrll := lt_of_get hrln
    have hrrl := lt_of_get hrrn
    obtain ⟨f, rfl⟩ : ∃ f, fuel = f + 1 := ⟨fuel - 1, by omega⟩
    obtain ⟨sA, sc1, sc2, e1, e2, e3, s1, s2, s3, hnd, k1, k2, k3⟩ :=
      hs.shapes_right hn hL hR hrn hrb hrL hrR
    unfold TryRotate.finish at hT
    rw [apply_LRL f hn hL hR hln hrn hrL hrR hrln hrrn h1 h2 h3 h4 h5 g2 h7 h8
        (Ne.symm g3) (Ne.symm g1), Res.ok_bind,
      if_pos (Or.inr (Or.inr (Or.inr rfl)))] at hT
    generalize hT0 : (((((t.setNode p { n with Left := some rl }).setNode rl
      { rln with Parent := some p }).setNode r { rn with Left := some l }).setNode l
      { ln with Parent := some r }).setNode r
      { rn with Left := some l, Box := ln.Box.Expand rrn.Box }) = T at hT
    have hd : RotOne t T p l r rl { n with Left := some rl } ln
        { rn with Left := some l, Box := ln.Box.Expand rrn.Box } rln := by
      subst hT0
      refine ⟨rfl, by simp only [Tree.setNode_length], ?_, ?_, ?_, ?_, ?_⟩
      · simp only [Tree.setNode_get, Tree.setNode_length, h1, h2, h3, Ne.symm h1, Ne.symm h2, Ne.symm h3, hpl, if_true, if_false]
      · simp only [Tree.setNode_get, Tree.setNode_length, h4, Ne.symm h4, hll, if_true,
          if_false]
      · simp only [Tree.setNode_get, Tree.setNode_length, hrl, if_true]
      · simp only [Tree.setNode_get, Tree.setNode_length, h5, g2, Ne.symm h5, Ne.symm g2, hrll,
          if_true, if_false]
      · intro q q1 q2 q3 q4
        simp only [Tree.setNode_get, Tree.setNode_length, Ne.symm q1, Ne.symm q2, Ne.symm q3,
          Ne.symm q4, if_false]
    obtain ⟨s, T'', _, _, _, c4, c5, _⟩ := hd.setDepth hln hrln hb (Or.inl ⟨rfl, hR⟩) hrb
      (Or.inl ⟨rfl, hrR⟩) sA sc1 sc2 e1 e2 e3 s1 s2 s3 hnd (f + 1)
      (by omega) (by omega) (by omega) n.Depth
    rw [Tree.node_eq hd.atP, Res.ok_bind] at hT
    have e : T'' = T' := by
      have hT2 : SetDepth (f + 1) T p n.Depth = Res.ok T' := hT
      rw [c4] at hT2
      exact Res.ok.inj hT2
    rw [← e]
    exact (hd.kept_one hs hI.branchBox hn hb hln hrn hrb hrln hrrn (Or.inl ⟨hL, hR⟩) (Or.inl ⟨hrL, hrR⟩)
      (by omega) (by omega) (by omega) (by omega) prr h4 g1 hb rfl (Or.inl ⟨rfl, hR⟩) hrb
      pr (Or.inl ⟨rfl, hrR, rfl⟩)).of_depthOnly c5
  · have hleaf : (rn.BucketIndex != -1) = true := by simpa using hrb
    simp only [GetRotationSurfaceArea, Tree.node_eq hn, Res.ok_bind, ROTNONE, LEFTRIGHTLEFT,
      Int.reduceEq, ↓reduceIte, hR, deref_some, Tree.node_eq hrn, Node.IsLeaf, hleaf, Res.pure_eq] at hg
    cases hg
    exact absurd rfl hne

/-- The rotation `LEFTRIGHTRIGHT`, when it is a candidate, keeps what `RotKept`
lists. -/
theorem kept_LRR {w : World} {es : List Entity} {t : Tree} (hI : Inv w es t) {p : Nat}
    {n : Node} (hn : t.nodes[p]? = some n) (hb : n.BucketIndex = -1) (fuel : Nat)
    (hf : es.length + 1 ≤ fuel) {sa : ℚ} {new : RotOpt}
    (hg : GetRotationSurfaceArea t p LEFTRIGHTRIGHT sa = Res.ok new) (hne : new.Rot ≠ ROTNONE)
    {T' : Tree} (hT : TryRotate.finish fuel t p LEFTRIGHTRIGHT = Res.ok T') : RotKept t T' p := by
  have hs := hI.struct
  obtain ⟨l, r, ln, rn, hL, hR, hln, hrn, h4, h1, h2, dl, dr, pl, pr⟩ := hs.children hn hb
  by_cases hrb : rn.BucketIndex = -1
  · obtain ⟨rl, rr, rln, rrn, hrL, hrR, hrln, hrrn, g1, g2, g3, d1, d2, prl, prr⟩ :=
      hs.children hrn hrb
    have h3 : p ≠ rl := ne_of_depth hn hrln (by omega)
    have h5 : l ≠ rl := ne_of_depth hln hrln (by omega)
    have h7 : rr ≠ p := ne_of_depth hrrn hn (by omega)
    have h8 : rr ≠ l := ne_of_depth hrrn hln (by omega)
    have hpl := lt_of_get hn
    have hll := lt_of_get hln
    have hrl := lt_of_get hrn
    have hrll := lt_of_get hrln
    have hrrl := lt_of_get hrrn
    obtain ⟨f, rfl⟩ : ∃ f, fuel = f + 1 := ⟨fuel - 1, by omega⟩
    obtain ⟨sA, sc1, sc2, e1, e2, e3, s1, s2, s3, hnd, k1, k2, k3⟩ :=
      hs.shapes_right hn hL hR hrn hrb hrL hrR
    unfold TryRotate.finish at hT
    rw [apply_LRR f hn hL hR hln hrn hrL hrR hrln hrrn h1 h2 h3 h4 h5 g2 h7 h8
        (Ne.symm g3) (Ne.symm g1), Res.ok_bind,
      if_pos (Or.inr (Or.inr (Or.inl rfl)))] at hT
    generalize hT0 : (((((t.setNode p { n with Left := some rr }).setNode rr
      { rrn with Parent := some p }).setNode r { rn with Right := some l }).setNode l
      { ln with Parent := some r }).setNode r
      { rn with Right := some l, Box := rln.Box.Expand ln.Box }) = T at hT
    have hd : RotOne t T p l r rr { n with Left := some rr } ln
        { rn with Right := some l, Box := rln.Box.Expand ln.Box } rrn := by
      subst hT0
      refine ⟨rfl, by simp only [Tree.setNode_length], ?_, ?_, ?_, ?_, ?_⟩
      · simp only [Tree.setNode_get, Tree.setNode_length, h1, h2, h7, Ne.symm h1, Ne.symm h2, Ne.symm h7, hpl, if_true, if_false]
      · simp only [Tree.setNode_get, Tree.setNode_length, h4, Ne.symm h4, hll, if_true,
          if_false]
      · simp only [Tree.setNode_get, Tree.setNode_length, hrl, if_true]
      · simp only [Tree.setNode_get, Tree.setNode_length, h8, g3, Ne.symm h8, Ne.symm g3, hrrl,
          if_true, if_false]
      · intro q q1 q2 q3 q4
        simp only [Tree.setNode_get, Tree.setNode_length, Ne.symm q1, Ne.symm q2, Ne.symm q3,
          Ne.symm q4, if_false]
    obtain ⟨s, T'', _, _, _, c4, c5, _⟩ := hd.setDepth hln hrrn hb (Or.inl ⟨rfl, hR⟩) hrb
      (Or.inr ⟨hrL, rfl⟩) sA sc2 sc1 e1 e3 e2 s1 s3 s2 (nodup_swap_tail hnd) (f + 1)
      (by omega) (by omega) (by omega) n.Depth
    rw [Tree.node_eq hd.atP, Res.ok_bind] at hT
    have e : T'' = T' := by
      have hT2 : SetDepth (f + 1) T p n.Depth = Res.ok T' := hT
      rw [c4] at hT2
      exact Res.ok.inj hT2
    rw [← e]
    exact (hd.kept_one hs hI.branchBox hn hb hln hrn hrb hrrn hrln (Or.inl ⟨hL, hR⟩) (Or.inr ⟨hrL, hrR⟩)
      (by omega) (by omega) (by omega) (by omega) prl h4 (Ne.symm g1) hb rfl (Or.inl ⟨rfl, hR⟩) hrb
      pr (Or.inr ⟨hrL, rfl, rfl⟩)).of_depthOnly c5
  · have hleaf : (rn.BucketIndex != -1) = true := by simpa using hrb
    simp only [GetRotationSurfaceArea, Tree.node_eq hn, Res.ok_bind, ROTNONE, LEFTRIGHTLEFT, LEFTRIGHTRIGHT,
      Int.reduceEq, ↓reduceIte, hR, deref_some, Tree.node_eq hrn, Node.IsLeaf, hleaf, Res.pure_eq] at hg
    cases hg
    exact absurd rfl hne

/-- The rotation `RIGHTLEFTLEFT`, when it is a candidate, keeps what `RotKept`
lists. -/
theorem kept_RLL {w : World} {es : List Entity} {t : Tree} (hI : Inv w es t) {p : Nat}
    {n : Node} (hn : t.nodes[p]? = some n) (hb : n.BucketIndex = -1) (fuel : Nat)
    (hf : es.length + 1 ≤ fuel) {sa : ℚ} {new : RotOpt}
    (hg : GetRotationSurfaceArea t p RIGHTLEFTLEFT sa = Res.ok new) (hne : new.Rot ≠ ROTNONE)
    {T' : Tree} (hT : TryRotate.finish fuel t p RIGHTLEFTLEFT = Res.ok T') : RotKept t T' p := by
  have hs := hI.struct
  obtain ⟨l, r, ln, rn, hL, hR, hln, hrn, h4, h1, h2, dl, dr, pl, pr⟩ := hs.children hn hb
  by_cases hlb : ln.BucketIndex = -1
  · obtain ⟨ll, lr, lln, lrn, hlL, hlR, hlln, hlrn, g1, g2, g3, d1, d2, pll, plr⟩ :=
      hs.children hln hlb
    have h3 : p ≠ ll := ne_of_depth hn hlln (by omega)
    have h6 : r ≠ ll := ne_of_depth hrn hlln (by omega)
    have h7 : lr ≠ p := ne_of_depth hlrn hn (by omega)
    have h9 : lr ≠ r := ne_of_depth hlrn hrn (by omega)
    have hpl := lt_of_get hn
    have hll := lt_of_get hln
    have hrl := lt_of_get hrn
    have hlll := lt_of_get hlln
    have hlrl := lt_of_get hlrn
    obtain ⟨f, rfl⟩ : ∃ f, fuel = f + 1 := ⟨fuel - 1, by omega⟩
    obtain ⟨sA, sc1, sc2, e1, e2, e3, s1, s2, s3, hnd, k1, k2, k3⟩ :=
      hs.shapes_left hn hL hR hln hlb hlL hlR
    unfold TryRotate.finish at hT
    rw [apply_RLL f hn hL hR hln hrn hlL hlR hlln hlrn h1 h2 h3 h4 g2 h6 h7
        (Ne.symm g3) h9 (Ne.symm g1), Res.ok_bind,
      if_pos (Or.inr (Or.inl rfl))] at hT
    generalize hT0 : (((((t.setNode p { n with Right := some ll }).setNode ll
      { lln with Parent := some p }).setNode l { ln with Left := some r }).setNode r
      { rn with Parent := some l }).setNode l
      { ln with Left := some r, Box := rn.Box.Expand lrn.Box }) = T at hT
    have hd : RotOne t T p r l ll { n with Right := some ll } rn
        { ln with Left := some r, Box := rn.Box.Expand lrn.Box } lln := by
      subst hT0
      refine ⟨rfl, by simp only [Tree.setNode_length], ?_, ?_, ?_, ?_, ?_⟩
      · simp only [Tree.setNode_get, Tree.setNode_length, h1, h2, h3, Ne.symm h1, Ne.symm h2, Ne.symm h3, hpl, if_true, if_false]
      · simp only [Tree.setNode_get, Tree.setNode_length, h4, Ne.symm h4, hrl, if_true,
          if_false]
      · simp only [Tree.setNode_get, Tree.setNode_length, hll, if_true]
      · simp only [Tree.setNode_get, Tree.setNode_length, h6, g2, Ne.symm h6, Ne.symm g2, hlll,
          if_true, if_false]
      · intro q q1 q2 q3 q4
        simp only [Tree.setNode_get, Tree.setNode_length, Ne.symm q1, Ne.symm q2, Ne.symm q3,
          Ne.symm q4, if_false]
    obtain ⟨s, T'', _, _, _, c4, c5, _⟩ := hd.setDepth hrn hlln hb (Or.inr ⟨hL, rfl⟩) hlb
      (Or.inl ⟨rfl, hlR⟩) sA sc1 sc2 e1 e2 e3 s1 s2 s3 hnd (f + 1)
      (by omega) (by omega) (by omega) n.Depth
    rw [Tree.node_eq hd.atP, Res.ok_bind] at hT
    have e : T'' = T' := by
      have hT2 : SetDepth (f + 1) T p n.Depth = Res.ok T' := hT
      rw [c4] at hT2
      exact Res.ok.inj hT2
    rw [← e]
    exact (hd.kept_one hs hI.branchBox hn hb hrn hln hlb hlln hlrn (Or.inr ⟨hL, hR⟩) (Or.inl ⟨hlL, hlR⟩)
      (by omega) (by omega) (by omega) (by omega) plr (Ne.symm h4) g1 hb rfl (Or.inr ⟨hL, rfl⟩) hlb
      pl (Or.inl ⟨rfl, hlR, rfl⟩)).of_depthOnly c5
  · have hleaf : (ln.BucketIndex != -1) = true := by simpa using hlb
    simp only [GetRotationSurfaceArea, Tree.node_eq hn, Res.ok_bind, ROTNONE, LEFTRIGHTLEFT, LEFTRIGHTRIGHT, RIGHTLEFTLEFT,
      Int.reduceEq, ↓reduceIte, hL, deref_some, Tree.node_eq hln, Node.IsLeaf, hleaf, Res.pure_eq] at hg
    cases hg
    exact absurd rfl hne

/-- The rotation `RIGHTLEFTRIGHT`, when it is a candidate, keeps what `RotKept`
lists. -/
theorem kept_RLR {w : World} {es : List Entity} {t : Tree} (hI : Inv w es t) {p : Nat}
    {n : Node} (hn : t.nodes[p]? = some n) (hb : n.BucketIndex = -1) (fuel : Nat)
    (hf : es.length + 1 ≤ fuel) {sa : ℚ} {new : RotOpt}
    (hg : GetRotationSurfaceArea t p RIGHTLEFTRIGHT sa = Res.ok new) (hne : new.Rot ≠ ROTNONE)
    {T' : Tree} (hT : TryRotate.finish fuel t p RIGHTLEFTRIGHT = Res.ok T') : RotKept t T' p := by
  have hs := hI.struct
  obtain ⟨l, r, ln, rn, hL, hR, hln, hrn, h4, h1, h2, dl, dr, pl, pr⟩ := hs.children hn hb
  by_cases hlb : ln.BucketIndex = -1
  · obtain ⟨ll, lr, lln, lrn, hlL, hlR, hlln, hlrn, g1, g2, g3, d1, d2, pll, plr⟩ :=
      hs.children hln hlb
    have h3 : p ≠ ll := ne_of_depth hn hlln (by omega)
    have h6 : r ≠ ll := ne_of_depth hrn hlln (by omega)
    have h7 : lr ≠ p := ne_of_depth hlrn hn (by omega)
    have h9 : lr ≠ r := ne_of_depth hlrn hrn (by omega)
    have hpl := lt_of_get hn
    have hll := lt_of_get hln
    have hrl := lt_of_get hrn
    have hlll := lt_of_get hlln
    have hlrl := lt_of_get hlrn
    obtain ⟨f, rfl⟩ : ∃ f, fuel = f + 1 := ⟨fuel - 1, by omega⟩
    obtain ⟨sA, sc1, sc2, e1, e2, e3, s1, s2, s3, hnd, k1, k2, k3⟩ :=
      hs.shapes_left hn hL hR hln hlb hlL hlR
    unfold TryRotate.finish at hT
    rw [apply_RLR f hn hL hR hln hrn hlL hlR hlln hlrn h1 h2 h3 h4 g2 h6 h7
        (Ne.symm g3) h9 (Ne.symm g1), Res.ok_bind,
      if_pos (Or.inl rfl)] at hT
    generalize hT0 : (((((t.setNode p { n with Right := some lr }).setNode lr
      { lrn with Parent := some p }).setNode l { ln with Right := some r }).setNode r
      { rn with Parent := some l }).setNode l
      { ln with Right := some r, Box := lln.Box.Expand rn.Box }) = T at hT
    have hd : RotOne t T p r l lr { n with Right := some lr } rn
        { ln with Right := some r, Box := lln.Box.Expand rn.Box } lrn := by
      subst hT0
      refine ⟨rfl, by simp only [Tree.setNode_length], ?_, ?_, ?_, ?_, ?_⟩
      · simp only [Tree.setNode_get, Tree.setNode_length, h1, h2, h7, Ne.symm h1, Ne.symm h2, Ne.symm h7, hpl, if_true, if_false]
      · simp only [Tree.setNode_get, Tree.setNode_length, h4, Ne.symm h4, hrl, if_true,
          if_false]
      · simp only [Tree.setNode_get, Tree.setNode_length, hll, if_true]
      · simp only [Tree.setNode_get, Tree.setNode_length, h9, g3, Ne.symm h9, Ne.symm g3, hlrl,
          if_true, if_false]
      · intro q q1 q2 q3 q4
        simp only [Tree.setNode_get, Tree.setNode_length, Ne.symm q1, Ne.symm q2, Ne.symm q3,
          Ne.symm q4, if_false]
    obtain ⟨s, T'', _, _, _, c4, c5, _⟩ := hd.setDepth hrn hlrn hb (Or.inr ⟨hL, rfl⟩) hlb
      (Or.inr ⟨hlL, rfl⟩) sA sc2 sc1 e1 e3 e2 s1 s3 s2 (nodup_swap_tail hnd) (f + 1)
      (by omega) (by omega) (by omega) n.Depth
    rw [Tree.node_eq hd.atP, Res.ok_bind] at hT
    have e : T'' = T' := by
      have hT2 : SetDepth (f + 1) T p n.Depth = Res.ok T' := hT
      rw [c4] at hT2
      exact Res.ok.inj hT2
    rw [← e]
    exact (hd.kept_one hs hI.branchBox hn hb hrn hln hlb hlrn hlln (Or.inr ⟨hL, hR⟩) (Or.inr ⟨hlL, hlR⟩)
      (by omega) (by omega) (by omega) (by omega) pll (Ne.symm h4) (Ne.symm g1) hb rfl (Or.inr ⟨hL, rfl⟩) hlb
      pl (Or.inr ⟨hlL, rfl, rfl⟩)).of_depthOnly c5
  · have hleaf : (ln.BucketIndex != -1) = true := by simpa using hlb
    simp only [GetRotationSurfaceArea, Tree.node_eq hn, Res.ok_bind, ROTNONE, LEFTRIGHTLEFT, LEFTRIGHTRIGHT, RIGHTLEFTLEFT, RIGHTLEFTRIGHT,
      Int.reduceEq, ↓reduceIte, hL, deref_some, Tree.node_eq hln, Node.IsLeaf, hleaf, Res.pure_eq] at hg
    cases hg
    exact absurd rfl hne

/-- A double rotation, described by `RotTwo`, keeps what `RotKept` lists. -/
theorem RotTwo.kept_two {es : List Entity} {t T : Tree} {p l r x y u v : Nat}
    {n ln rn xn yn un vn ln' rn' : Node} (hd : RotTwo t T l r x y ln' rn' xn yn)
    (hs : Struct es t) (hbb : BranchBoxOK t none)
    (hp : t.nodes[p]? = some n) (hb : n.BucketIndex = -1) (hL : n.Left = some l)
    (hR : n.Right = some r) (hl : t.nodes[l]? = some ln) (hlb : ln.BucketIndex = -1)
    (hr : t.nodes[r]? = some rn) (hrb : rn.BucketIndex = -1) (hx : t.nodes[x]? = some xn)
    (hy : t.nodes[y]? = some yn) (hu : t.nodes[u]? = some un) (hv : t.nodes[v]? = some vn)
    (hlc : ln.Left = some y ∧ ln.Right = some u)
    (hrc : (rn.Left = some v ∧ rn.Right = some x) ∨ (rn.Left = some x ∧ rn.Right = some v))
    (dl : ln.Depth = n.Depth + 1) (dr : rn.Depth = n.Depth + 1) (dx : xn.Depth = n.Depth + 2)
    (dy : yn.Depth = n.Depth + 2) (du : un.Depth = n.Depth + 2) (dv : vn.Depth = n.Depth + 2)
    (px : xn.Parent = some r)
    (py : yn.Parent = some l) (pu : un.Parent = some l) (pv : vn.Parent = some r)
    (hlr : l ≠ r)
    (hl1 : ln'.BucketIndex = -1) (hl2 : ln'.Parent = some p) (hl3 : ln'.Left = some x)
    (hl4 : ln'.Right = some u) (hl5 : ln'.Box = xn.Box.Expand un.Box)
    (hr1 : rn'.BucketIndex = -1) (hr2 : rn'.Parent = some p)
    (hr3 : (rn'.Left = some v ∧ rn'.Right = some y ∧ rn'.Box = vn.Box.Expand yn.Box) ∨
      (rn'.Left = some y ∧ rn'.Right = some v ∧ rn'.Box = yn.Box.Expand vn.Box)) :
    RotKept t T p := by
  have hpl : p ≠ l := ne_of_depth hp hl (by omega)
  have hpr : p ≠ r := ne_of_depth hp hr (by omega)
  have hpx : p ≠ x := ne_of_depth hp hx (by omega)
  have hpy : p ≠ y := ne_of_depth hp hy (by omega)
  have hul : u ≠ l := ne_of_depth hu hl (by omega)
  have hur : u ≠ r := ne_of_depth hu hr (by omega)
  have hvl : v ≠ l := ne_of_depth hv hl (by omega)
  have hvr : v ≠ r := ne_of_depth hv hr (by omega)
  have hne : (some l : Option Nat) ≠ some r := fun h => hlr (Option.some.inj h)
  have hux : u ≠ x := ne_of_parent hu hx (by rw [pu, px]; exact hne)
  have hvy : v ≠ y := ne_of_parent hv hy (by rw [pv, py]; exact hne.symm)
  have huy : u ≠ y := by
    intro e
    subst e
    have := (hs.children hl hlb)
    obtain ⟨l0, r0, _, _, a1, a2, _, _, a5, _⟩ := this
    rw [hlc.1] at a1
    rw [hlc.2] at a2
    exact a5 ((Option.some.inj a1).symm.trans (Option.some.inj a2))
  have hvx : v ≠ x := by
    intro e
    subst e
    obtain ⟨l0, r0, _, _, a1, a2, _, _, a5, _⟩ := hs.children hr hrb
    rcases hrc with ⟨c1, c2⟩ | ⟨c1, c2⟩
    · rw [c1] at a1
      rw [c2] at a2
      exact a5 ((Option.some.inj a1).symm.trans (Option.some.inj a2))
    · rw [c1] at a1
      rw [c2] at a2
      exact a5 ((Option.some.inj a1).symm.trans (Option.some.inj a2))
  have hTp : T.nodes[p]? = some n := by
    rw [hd.other p hpl hpr hpx hpy]
    exact hp
  have hTu : T.nodes[u]? = some un := by
    rw [hd.other u hul hur hux huy]
    exact hu
  have hTv : T.nodes[v]? = some vn := by
    rw [hd.other v hvl hvr hvx hvy]
    exact hv
  have frame : ∀ (q : Nat) (m : Node), q ≠ l → q ≠ r → t.nodes[q]? = some m →
      ∃ m' : Node, T.nodes[q]? = some m' ∧ m'.Left = m.Left ∧ m'.Right = m.Right ∧
        m'.BucketIndex = m.BucketIndex := by
    intro q m h1 h2 hm
    by_cases h3 : q = x
    · subst h3
      rw [hx] at hm; cases hm
      exact ⟨_, hd.atX, rfl, rfl, rfl⟩
    · by_cases h4 : q = y
      · subst h4
        rw [hy] at hm; cases hm
        exact ⟨_, hd.atY, rfl, rfl, rfl⟩
      · exact ⟨m, by rw [hd.other q h1 h2 h3 h4]; exact hm, rfl, rfl, rfl⟩
  have oth : ∀ z c, z ≠ l → z ≠ r → (IsChild t z c ↔ IsChild T z c) := by
    intro z c h1 h2
    constructor
    · rintro ⟨m, hm, hc⟩
      obtain ⟨m', a1, a2, a3, _⟩ := frame z m h1 h2 hm
      exact ⟨m', a1, by rw [a2, a3]; exact hc⟩
    · rintro ⟨m', hm', hc⟩
      have hz : z < t.nodes.length := by
        rw [← hd.len]
        exact lt_of_get hm'
      obtain ⟨m, hm⟩ : ∃ m, t.nodes[z]? = some m := ⟨t.nodes[z], List.getElem?_eq_getElem hz⟩
      obtain ⟨m1, a1, a2, a3, _⟩ := frame z m h1 h2 hm
      rw [hm'] at a1
      cases a1
      exact ⟨m, hm, by rw [← a2, ← a3]; exact hc⟩
  have ctl : ∀ c, IsChild t l c → c = y ∨ c = u := by
    intro c h
    rcases h.of_get hl with h | h
    · rw [hlc.1] at h; exact Or.inl (Option.some.inj h).symm
    · rw [hlc.2] at h; exact Or.inr (Option.some.inj h).symm
  have ctr : ∀ c, IsChild t r c → c = x ∨ c = v := by
    intro c h
    rcases hrc with ⟨c1, c2⟩ | ⟨c1, c2⟩ <;> rcases h.of_get hr with h | h
    · rw [c1] at h; exact Or.inr (Option.some.inj h).symm
    · rw [c2] at h; exact Or.inl (Option.some.inj h).symm
    · rw [c1] at h; exact Or.inl (Option.some.inj h).symm
    · rw [c2] at h; exact Or.inr (Option.some.inj h).symm
  have cTl : ∀ c, IsChild T l c → c = x ∨ c = u := by
    intro c h
    rcases h.of_get hd.atL with h | h
    · rw [hl3] at h; exact Or.inl (Option.some.inj h).symm
    · rw [hl4] at h; exact Or.inr (Option.some.inj h).symm
  have cTr : ∀ c, IsChild T r c → c = y ∨ c = v := by
    intro c h
    rcases hr3 with ⟨c1, c2, _⟩ | ⟨c1, c2, _⟩ <;> rcases h.of_get hd.atR with h | h
    · rw [c1] at h; exact Or.inr (Option.some.inj h).symm
    · rw [c2] at h; exact Or.inl (Option.some.inj h).symm
    · rw [c1] at h; exact Or.inl (Option.some.inj h).symm
    · rw [c2] at h; exact Or.inr (Option.some.inj h).symm
  have iTry : IsChild T r y := by
    rcases hr3 with ⟨c1, c2, _⟩ | ⟨c1, c2, _⟩
    · exact ⟨_, hd.atR, Or.inr c2⟩
    · exact ⟨_, hd.atR, Or.inl c1⟩
  have iTrv : IsChild T r v := by
    rcases hr3 with ⟨c1, c2, _⟩ | ⟨c1, c2, _⟩
    · exact ⟨_, hd.atR, Or.inl c1⟩
    · exact ⟨_, hd.atR, Or.inr c2⟩
  have itrx : IsChild t r x := by
    rcases hrc with ⟨c1, c2⟩ | ⟨c1, c2⟩
    · exact ⟨_, hr, Or.inr c2⟩
    · exact ⟨_, hr, Or.inl c1⟩
  have itrv : IsChild t r v := by
    rcases hrc with ⟨c1, c2⟩ | ⟨c1, c2⟩
    · exact ⟨_, hr, Or.inl c1⟩
    · exact ⟨_, hr, Or.inr c2⟩
  have bxL : ln.Box = yn.Box.Expand un.Box :=
    hbb l ln y u yn un (by simp) hl hlb hlc.1 hlc.2 hy hu
  have bxR : rn.Box = xn.Box.Expand vn.Box := by
    rcases hrc with ⟨c1, c2⟩ | ⟨c1, c2⟩
    · rw [hbb r rn v x vn xn (by simp) hr hrb c1 c2 hv hx]
      exact BoundingBox.Expand_comm _ _
    · exact hbb r rn x v xn vn (by simp) hr hrb c1 c2 hx hv
  have bxR' : rn'.Box = yn.Box.Expand vn.Box := by
    rcases hr3 with ⟨_, _, c3⟩ | ⟨_, _, c3⟩
    · rw [c3]
      exact BoundingBox.Expand_comm _ _
    · exact c3
  have locL : LocalOK T l := by
    intro g hg _
    rw [hd.atL] at hg; cases hg
    exact ⟨x, u, _, _, hl3, hl4, hd.atX, hTu, hl5, rfl, pu⟩
  have locR : LocalOK T r := by
    intro g hg _
    rw [hd.atR] at hg; cases hg
    rcases hr3 with ⟨c1, c2, c3⟩ | ⟨c1, c2, c3⟩
    · exact ⟨v, y, _, _, c1, c2, hTv, hd.atY, c3, pv, rfl⟩
    · exact ⟨y, v, _, _, c1, c2, hd.atY, hTv, c3, rfl, pv⟩
  refine ⟨?_, ?_, ?_, ?_, ?_, ?_⟩
  · have e := hd.eq
    rw [e]
  · intro q m hm
    by_cases h1 : q = l
    · subst h1
      rw [hl] at hm; cases hm
      exact ⟨_, hd.atL, by rw [hl1, hlb]⟩
    · by_cases h2 : q = r
      · subst h2
        rw [hr] at hm; cases hm
        exact ⟨_, hd.atR, by rw [hr1, hrb]⟩
      · obtain ⟨m', a1, _, _, a4⟩ := frame q m h1 h2 hm
        exact ⟨m', a1, a4⟩
  · intro m m' hm hm'
    rw [hp] at hm; cases hm
    rw [hTp] at hm'; cases hm'
    rfl
  · intro q
    constructor
    · exact under_rot2 cTl cTr ⟨_, hp, Or.inl hL⟩ ⟨_, hp, Or.inr hR⟩ ⟨_, hl, Or.inl hlc.1⟩
        ⟨_, hl, Or.inr hlc.2⟩ itrx itrv (fun z c h1 h2 h => (oth z c h1 h2).mpr h) q
    · exact under_rot2 ctl ctr ⟨_, hTp, Or.inl hL⟩ ⟨_, hTp, Or.inr hR⟩ ⟨_, hd.atL, Or.inl hl3⟩
        ⟨_, hd.atL, Or.inr hl4⟩ iTry iTrv (fun z c h1 h2 h => (oth z c h1 h2).mp h) q
  · intro m hm _
    rw [hTp] at hm; cases hm
    haveI : Std.Commutative BoundingBox.Expand := ⟨BoundingBox.Expand_comm⟩
    haveI : Std.Associative BoundingBox.Expand := ⟨BoundingBox.Expand_assoc⟩
    refine ⟨l, r, _, _, hL, hR, hd.atL, hd.atR, ?_, hl2, hr2⟩
    rw [hbb p n l r ln rn (by simp) hp hb hL hR hl hr, bxL, bxR, hl5, bxR']
    ac_rfl
  · intro m c hm hc
    rw [hTp] at hm; cases hm
    rcases hc with hc | hc
    · rw [hL] at hc
      cases hc
      exact locL
    · rw [hR] at hc
      cases hc
      exact locR

/-- The rotation `LEFTLEFTRIGHTRIGHT`, when it is a candidate, keeps what
`RotKept` lists. -/
theorem kept_LLRR {w : World} {es : List Entity} {t : Tree} (hI : Inv w es t) {p : Nat}
    {n : Node} (hn : t.nodes[p]? = some n) (hb : n.BucketIndex = -1) (fuel : Nat)
    (hf : es.length + 1 ≤ fuel) {sa : ℚ} {new : RotOpt}
    (hg : GetRotationSurfaceArea t p LEFTLEFTRIGHTRIGHT sa = Res.ok new)
    (hne : new.Rot ≠ ROTNONE) {T' : Tree}
    (hT : TryRotate.finish fuel t p LEFTLEFTRIGHTRIGHT = Res.ok T') : RotKept t T' p := by
  have hs := hI.struct
  obtain ⟨l, r, ln, rn, hL, hR, hln, hrn, h5, h1, h2, dl, dr, pl, pr⟩ := hs.children hn hb
  by_cases hlb : ln.BucketIndex = -1
  · by_cases hrb : rn.BucketIndex = -1
    · obtain ⟨ll, lr, lln, lrn, hlL, hlR, hlln, hlrn, g1, g2, g3, dll, dlr, pll, plr⟩ :=
        hs.children hln hlb
      obtain ⟨rl, rr, rln, rrn, hrL, hrR, hrln, hrrn, k1, k2, k3, drl, drr, prl, prr⟩ :=
        hs.children hrn hrb
      have hne' : (some l : Option Nat) ≠ some r := fun h => h5 (Option.some.inj h)
      have h3 : p ≠ ll := ne_of_depth hn hlln (by omega)
      have h4 : p ≠ rr := ne_of_depth hn hrrn (by omega)
      have h7 : l ≠ rr := ne_of_depth hln hrrn (by omega)
      have h8 : r ≠ ll := ne_of_depth hrn hlln (by omega)
      have h10 : ll ≠ rr := ne_of_parent hlln hrrn (by rw [pll, prr]; exact hne')
      have h12 : lr ≠ r := ne_of_depth hlrn hrn (by omega)
      have h14 : lr ≠ rr := ne_of_parent hlrn hrrn (by rw [plr, prr]; exact hne')
      have h15 : rl ≠ l := ne_of_depth hrln hln (by omega)
      have h17 : rl ≠ ll := ne_of_parent hrln hlln (by rw [prl, pll]; exact hne'.symm)
      have hll := lt_of_get hln
      have hrl := lt_of_get hrn
      have hxl := lt_of_get hrrn
      have hyl := lt_of_get hlln
      obtain ⟨f, rfl⟩ : ∃ f, fuel = f + 1 := ⟨fuel - 1, by omega⟩
      unfold TryRotate.finish at hT
      rw [apply_LLRR f hn hL hR hln hrn hlL hlR hrL hrR hlln hlrn hrln hrrn h1 h2 h3 h4 h5 g2
        h7 h8 k3 h10 (Ne.symm g3) h12 (Ne.symm g1) h14 h15 (Ne.symm k2) h17 k1, Res.ok_bind,
        if_neg (by simp only [LEFTLEFTRIGHTRIGHT, RIGHTLEFTRIGHT, RIGHTLEFTLEFT, LEFTRIGHTRIGHT,
          LEFTRIGHTLEFT, Int.reduceEq, or_self, not_false_eq_true])] at hT
      generalize hT0 : ((((((t.setNode l { ln with Left := some rr }).setNode r
        { rn with Right := some ll }).setNode rr { rrn with Parent := some l }).setNode ll
        { lln with Parent := some r }).setNode l
        { ln with Left := some rr, Box := rrn.Box.Expand lrn.Box }).setNode r
        { rn with Right := some ll, Box := rln.Box.Expand lln.Box }) = T at hT
      have e : T = T' := Res.ok.inj hT
      rw [← e]
      have hd : RotTwo t T l r rr ll { ln with Left := some rr, Box := rrn.Box.Expand lrn.Box }
          { rn with Right := some ll, Box := rln.Box.Expand lln.Box } rrn lln := by
        subst hT0
        refine ⟨rfl, by simp only [Tree.setNode_length], ?_, ?_, ?_, ?_, ?_⟩
        · simp only [Tree.setNode_get, Tree.setNode_length, h5, Ne.symm h5, hll, if_true,
            if_false]
        · simp only [Tree.setNode_get, Tree.setNode_length, hrl, if_true]
        · simp only [Tree.setNode_get, Tree.setNode_length, h7, k3, h10, Ne.symm h7,
            Ne.symm k3, Ne.symm h10, hxl, if_true, if_false]
        · simp only [Tree.setNode_get, Tree.setNode_length, g2, h8, Ne.symm g2, Ne.symm h8, hyl,
            if_true, if_false]
        · intro q q1 q2 q3 q4
          simp only [Tree.setNode_get, Tree.setNode_length, Ne.symm q1, Ne.symm q2, Ne.symm q3,
            Ne.symm q4, if_false]
      exact hd.kept_two hs hI.branchBox hn hb hL hR hln hlb hrn hrb hrrn hlln hlrn hrln
        ⟨hlL, hlR⟩ (Or.inl ⟨hrL, hrR⟩) dl dr (by omega) (by omega) (by omega) (by omega) prr pll plr
        prl h5 hlb pl rfl hlR rfl hrb pr (Or.inl ⟨hrL, rfl, rfl⟩)
    · have hleaf : (rn.BucketIndex != -1) = true := by simpa using hrb
      simp only [GetRotationSurfaceArea, Tree.node_eq hn, Res.ok_bind, ROTNONE, LEFTRIGHTLEFT,
      LEFTRIGHTRIGHT, RIGHTLEFTLEFT, RIGHTLEFTRIGHT, LEFTLEFTRIGHTRIGHT,
        Int.reduceEq, ↓reduceIte, hL, hR, deref_some, Tree.node_eq hln, Tree.node_eq hrn,
        Node.IsLeaf, hlb, bne_self_eq_false, Bool.false_eq_true, hleaf, Res.pure_eq] at hg
      cases hg
      exact absurd rfl hne
  · have hleaf : (ln.BucketIndex != -1) = true := by simpa using hlb
    simp only [GetRotationSurfaceArea, Tree.node_eq hn, Res.ok_bind, ROTNONE, LEFTRIGHTLEFT,
      LEFTRIGHTRIGHT, RIGHTLEFTLEFT, RIGHTLEFTRIGHT, LEFTLEFTRIGHTRIGHT,
      Int.reduceEq, ↓reduceIte, hL, deref_some, Tree.node_eq hln, Node.IsLeaf, hleaf,
      Res.pure_eq] at hg
    cases hg
    exact absurd rfl hne

/-- The rotation `LEFTLEFTRIGHTLEFT`, when it is a candidate, keeps what
`RotKept` lists. -/
theorem kept_LLRL {w : World} {es : List Entity} {t : Tree} (hI : Inv w es t) {p : Nat}
    {n : Node} (hn : t.nodes[p]? = some n) (hb : n.BucketIndex = -1) (fuel : Nat)
    (hf : es.length + 1 ≤ fuel) {sa : ℚ} {new : RotOpt}
    (hg : GetRotationSurfaceArea t p LEFTLEFTRIGHTLEFT sa = Res.ok new)
    (hne : new.Rot ≠ ROTNONE) {T' : Tree}
    (hT : TryRotate.finish fuel t p LEFTLEFTRIGHTLEFT = Res.ok T') : RotKept t T' p := by
  have hs := hI.struct
  obtain ⟨l, r, ln, rn, hL, hR, hln, hrn, h5, h1, h2, dl, dr, pl, pr⟩ := hs.children hn hb
  by_cases hlb : ln.BucketIndex = -1
  · by_cases hrb : rn.BucketIndex = -1
    · obtain ⟨ll, lr, lln, lrn, hlL, hlR, hlln, hlrn, g1, g2, g3, dll, dlr, pll, plr⟩ :=
        hs.children hln hlb
      obtain ⟨rl, rr, rln, rrn, hrL, hrR, hrln, hrrn, k1, k2, k3, drl, drr, prl, prr⟩ :=
        hs.children hrn hrb
      have hne' : (some l : Option Nat) ≠ some r := fun h => h5 (Option.some.inj h)
      have h3 : p ≠ ll := ne_of_depth hn hlln (by omega)
      have h4 : p ≠ rl := ne_of_depth hn hrln (by omega)
      have h7 : l ≠ rl := ne_of_depth hln hrln (by omega)
      have h8 : r ≠ ll := ne_of_depth hrn hlln (by omega)
      have h10 : ll ≠ rl := ne_of_parent hlln hrln (by rw [pll, prl]; exact hne')
      have h12 : lr ≠ r := ne_of_depth hlrn hrn (by omega)
      have h14 : lr ≠ rl := ne_of_parent hlrn hrln (by rw [plr, prl]; exact hne')
      have h15 : rr ≠ l := ne_of_depth hrrn hln (by omega)
      have h17 : rr ≠ ll := ne_of_parent hrrn hlln (by rw [prr, pll]; exact hne'.symm)
      have hll := lt_of_get hln
      have hrl := lt_of_get hrn
      have hxl := lt_of_get hrln
      have hyl := lt_of_get hlln
      obtain ⟨f, rfl⟩ : ∃ f, fuel = f + 1 := ⟨fuel - 1, by omega⟩
      unfold TryRotate.finish at hT
      rw [apply_LLRL f hn hL hR hln hrn hlL hlR hrL hrR hlln hlrn hrln hrrn h1 h2 h3 h4 h5 g2
        h7 h8 k2 h10 (Ne.symm g3) h12 (Ne.symm g1) h14 h15 (Ne.symm k3) h17 (Ne.symm k1), Res.ok_bind,
        if_neg (by simp only [LEFTLEFTRIGHTLEFT, RIGHTLEFTRIGHT, RIGHTLEFTLEFT, LEFTRIGHTRIGHT,
          LEFTRIGHTLEFT, Int.reduceEq, or_self, not_false_eq_true])] at hT
      generalize hT0 : ((((((t.setNode l { ln with Left := some rl }).setNode r
        { rn with Left := some ll }).setNode rl { rln with Parent := some l }).setNode ll
        { lln with Parent := some r }).setNode l
        { ln with Left := some rl, Box := rln.Box.Expand lrn.Box }).setNode r
        { rn with Left := some ll, Box := lln.Box.Expand rrn.Box }) = T at hT
      have e : T = T' := Res.ok.inj hT
      rw [← e]
      have hd : RotTwo t T l r rl ll { ln with Left := some rl, Box := rln.Box.Expand lrn.Box }
          { rn with Left := some ll, Box := lln.Box.Expand rrn.Box } rln lln := by
        subst hT0
        refine ⟨rfl, by simp only [Tree.setNode_length], ?_, ?_, ?_, ?_, ?_⟩
        · simp only [Tree.setNode_get, Tree.setNode_length, h5, Ne.symm h5, hll, if_true,
            if_false]
        · simp only [Tree.setNode_get, Tree.setNode_length, hrl, if_true]
        · simp only [Tree.setNode_get, Tree.setNode_length, h7, k2, h10, Ne.symm h7,
            Ne.symm k2, Ne.symm h10, hxl, if_true, if_false]
        · simp only [Tree.setNode_get, Tree.setNode_length, g2, h8, Ne.symm g2, Ne.symm h8, hyl,
            if_true, if_false]
        · intro q q1 q2 q3 q4
          simp only [Tree.setNode_get, Tree.setNode_length, Ne.symm q1, Ne.symm q2, Ne.symm q3,
            Ne.symm q4, if_false]
      exact hd.kept_two hs hI.branchBox hn hb hL hR hln hlb hrn hrb hrln hlln hlrn hrrn
        ⟨hlL, hlR⟩ (Or.inr ⟨hrL, hrR⟩) dl dr (by omega) (by omega) (by omega) (by omega) prl pll plr
        prr h5 hlb pl rfl hlR rfl hrb pr (Or.inr ⟨rfl, hrR, rfl⟩)
    · have hleaf : (rn.BucketIndex != -1) = true := by simpa using hrb
      simp only [GetRotationSurfaceArea, Tree.node_eq hn, Res.ok_bind, ROTNONE, LEFTRIGHTLEFT,
      LEFTRIGHTRIGHT, RIGHTLEFTLEFT, RIGHTLEFTRIGHT, LEFTLEFTRIGHTRIGHT, LEFTLEFTRIGHTLEFT,
        Int.reduceEq, ↓reduceIte, hL, hR, deref_some, Tree.node_eq hln, Tree.node_eq hrn,
        Node.IsLeaf, hlb, bne_self_eq_false, Bool.false_eq_true, hleaf, Res.pure_eq] at hg
      cases hg
      exact absurd rfl hne
  · have hleaf : (ln.BucketIndex != -1) = true := by simpa using hlb
    simp only [GetRotationSurfaceArea, Tree.node_eq hn, Res.ok_bind, ROTNONE, LEFTRIGHTLEFT,
      LEFTRIGHTRIGHT, RIGHTLEFTLEFT, RIGHTLEFTRIGHT, LEFTLEFTRIGHTRIGHT, LEFTLEFTRIGHTLEFT,
      Int.reduceEq, ↓reduceIte, hL, deref_some, Tree.node_eq hln, Node.IsLeaf, hleaf,
      Res.pure_eq] at hg
    cases hg
    exact absurd rfl hne

/-- On a tree built by `Add`, `TryRotate` at a branch returns a tree that keeps
what `RotKept` lists. -/
theorem TryRotate_kept {w : World} {es : List Entity} {t : Tree} (hI : Inv w es t) {p : Nat}
    {n : Node} (hn : t.nodes[p]? = some n) (hb : n.BucketIndex = -1) (fuel : Nat)
    (hf : es.length + 1 ≤ fuel) : ∃ t', TryRotate fuel t p = Res.ok t' ∧ RotKept t t' p := by
  have hs := hI.struct
  obtain ⟨l, r, ln, rn, hL, hR, hln, hrn, _⟩ := hs.children hn hb
  obtain ⟨t', h1, h2⟩ := TryRotate_result hs hn hb fuel hf hL hR hln hrn
  refine ⟨t', h1, ?_⟩
  rcases h2 with h2 | ⟨best, a1, a2, a3, _, _, a6, _⟩
  · rw [h2]
    exact RotKept.same hI p
  · simp only [rotations, List.mem_cons, List.mem_singleton, List.not_mem_nil, or_false] at a1
    rcases a1 with e | e | e | e | e | e <;> rw [e] at a3 a6
    · exact kept_LRL hI hn hb fuel hf a3 a2 a6
    · exact kept_LRR hI hn hb fuel hf a3 a2 a6
    · exact kept_RLL hI hn hb fuel hf a3 a2 a6
    · exact kept_RLR hI hn hb fuel hf a3 a2 a6
    · exact kept_LLRL hI hn hb fuel hf a3 a2 a6
    · exact kept_LLRR hI hn hb fuel hf a3 a2 a6

/-- In a tree built by `Add`, every node under a node of the arena is a node
of the arena. -/
theorem Under.get {es : List Entity} {t : Tree} (hs : Struct es t) {p q : Nat} {n : Node}
    (hn : t.nodes[p]? = some n) (h : Under t p q) : ∃ m, t.nodes[q]? = some m := by
  induction h with
  | self => exact ⟨n, hn⟩
  | @left x c m _ hm hc _ =>
    by_cases hb : m.BucketIndex = -1
    · obtain ⟨l, r, ln, rn, a1, _, a3, _⟩ := hs.children hm hb
      rw [a1] at hc
      cases hc
      exact ⟨ln, a3⟩
    · obtain ⟨a1, _⟩ := (hs.nodes x m hm).leaf hb
      rw [a1] at hc
      cases hc
  | @right x c m _ hm hc _ =>
    by_cases hb : m.BucketIndex = -1
    · obtain ⟨l, r, ln, rn, _, a2, _, a4, _⟩ := hs.children hm hb
      rw [a2] at hc
      cases hc
      exact ⟨rn, a4⟩
    · obtain ⟨_, a2, _⟩ := (hs.nodes x m hm).leaf hb
      rw [a2] at hc
      cases hc

/-- Claim C24: for every branch `n` of a tree built by `Add` (which satisfies
the box invariant and parent-link consistency), `TryRotate(n)` returns, and
after it the set of leaves under `n` is the same as before, every node owns
the same bucket with the same entities (hence the same multiset of entities
under `n`), `n.Box` is unchanged, and `n` and both of its children satisfy
`Box = Left.Box.Expand(Right.Box)` with both children pointing back to them by
`Parent`. -/
theorem C24_rotation_keeps (w : World) (es : List Entity) (t : Tree) (p : Nat) (n : Node)
    (fuel : Nat) (hI : Inv w es t) (hn : t.nodes[p]? = some n) (hb : n.BucketIndex = -1)
    (hf : es.length + 1 ≤ fuel) :
    ∃ (t' : Tree) (n' : Node), TryRotate fuel t p = Res.ok t' ∧ t'.nodes[p]? = some n' ∧
      (∀ q, (Under t' p q ∧ ∃ m' : Node, t'.nodes[q]? = some m' ∧ m'.IsLeaf = true) ↔
        (Under t p q ∧ ∃ m : Node, t.nodes[q]? = some m ∧ m.IsLeaf = true)) ∧
      (∀ (q : Nat) (m : Node), t.nodes[q]? = some m → ∃ m' : Node, t'.nodes[q]? = some m' ∧
        m'.BucketIndex = m.BucketIndex ∧
        t'.bucket (m'.BucketIndex - 1) = t.bucket (m.BucketIndex - 1)) ∧
      n'.Box = n.Box ∧ LocalOK t' p ∧
      ∀ c, n'.Left = some c ∨ n'.Right = some c → LocalOK t' c := by
  obtain ⟨t', h1, hk⟩ := TryRotate_kept hI hn hb fuel hf
  obtain ⟨n', hn', _⟩ := hk.pt p n hn
  refine ⟨t', n', h1, hn', ?_, ?_, hk.box n n' hn hn', hk.localP, fun c hc =>
    hk.localC n' c hn' hc⟩
  · intro q
    constructor
    · rintro ⟨hu, m', hm', hl⟩
      have hu' := (hk.under q).mp hu
      obtain ⟨m, hm⟩ := hu'.get hI.struct hn
      obtain ⟨m1, a1, a2⟩ := hk.pt q m hm
      rw [hm'] at a1
      cases a1
      refine ⟨hu', m, hm, ?_⟩
      simp only [Node.IsLeaf] at hl ⊢
      rw [← a2]
      exact hl
    · rintro ⟨hu, m, hm, hl⟩
      obtain ⟨m1, a1, a2⟩ := hk.pt q m hm
      refine ⟨(hk.under q).mpr hu, m1, a1, ?_⟩
      simp only [Node.IsLeaf] at hl ⊢
      rw [a2]
      exact hl
  · intro q m hm
    obtain ⟨m1, a1, a2⟩ := hk.pt q m hm
    refine ⟨m1, a1, a2, ?_⟩
    simp only [Tree.bucket, hk.buckets, a2]

theorem C24_rotation_keeps_witness :
    Inv rotWorld [0, 1, 2, 3] rotTree ∧
    rotTree.nodes[2]? = some (rotTree.nodeAt 2) ∧ (rotTree.nodeAt 2).BucketIndex = -1 ∧
    ∃ (t' : Tree) (n' : Node), TryRotate 5 rotTree 2 = Res.ok t' ∧ t'.nodes[2]? = some n' ∧
      (∀ q, (Under t' 2 q ∧ ∃ m' : Node, t'.nodes[q]? = some m' ∧ m'.IsLeaf = true) ↔
        (Under rotTree 2 q ∧ ∃ m : Node, rotTree.nodes[q]? = some m ∧ m.IsLeaf = true)) ∧
      (∀ (q : Nat) (m : Node), rotTree.nodes[q]? = some m → ∃ m' : Node, t'.nodes[q]? = some m' ∧
        m'.BucketIndex = m.BucketIndex ∧
        t'.bucket (m'.BucketIndex - 1) = rotTree.bucket (m.BucketIndex - 1)) ∧
      n'.Box = (rotTree.nodeAt 2).Box ∧ LocalOK t' 2 ∧
      ∀ c, n'.Left = some c ∨ n'.Right = some c → LocalOK t' c :=
  ⟨rotTree_inv, by decide!, by decide!,
    C24_rotation_keeps rotWorld [0, 1, 2, 3] rotTree 2 (rotTree.nodeAt 2) 5 rotTree_inv
      (by decide!) (by decide!) (by decide)⟩

end Dyntree
